import Mathlib

/-!
RTP-MIDI backend (`backends/rtpmidi.c`): shallow embedding and verified properties

The embedding follows the C source function by function.

* Byte buffers are lists of naturals below 256.  A store through `poke` beyond the
  current end of a buffer grows the list, so an out-of-bounds store of the C code is
  visible as growth of the buffer beyond its declared size.
* `uint8_t`, `uint16_t`, `uint32_t` and `size_t` values are naturals reduced modulo
  `2^8`, `2^16`, `2^32`, `2^64` at the places where the C code truncates.
* The host's `double` channel values are exact rationals; rounding of the floating
  point product `v * 127.0` / `v * 16383.0` is not modelled.
* `mm_channel` / `mm_channel_event` are modelled by appending the looked-up identifier
  and the value to a list of dispatched events.
-/

namespace RtpMidi

/-! ## Constants of `rtpmidi.h` -/

/-- Modelled from the spec: `rtpmidi.h` (absent) declares the channel type enum; the
values are the MIDI status codes the spec names for the wire format (note-off `0x80`). -/
def note_off : Nat := 0x80

/-- Modelled from the spec: enum constant of the absent `rtpmidi.h`, status `0x90`. -/
def note : Nat := 0x90

/-- Modelled from the spec: enum constant of the absent `rtpmidi.h`, status `0xA0`. -/
def pressure : Nat := 0xA0

/-- Modelled from the spec: enum constant of the absent `rtpmidi.h`, status `0xB0`. -/
def cc : Nat := 0xB0

/-- Modelled from the spec: enum constant of the absent `rtpmidi.h`, status `0xC0`. -/
def program : Nat := 0xC0

/-- Modelled from the spec: enum constant of the absent `rtpmidi.h`, status `0xD0`. -/
def aftertouch : Nat := 0xD0

/-- Modelled from the spec: enum constant of the absent `rtpmidi.h`, status `0xE0`. -/
def pitchbend : Nat := 0xE0

/-- Modelled from the spec: enum constant of the absent `rtpmidi.h`; an internal tag
that is never a wire status (`0xF1`). -/
def rpn : Nat := 0xF1

/-- Modelled from the spec: enum constant of the absent `rtpmidi.h`; an internal tag
that is never a wire status (`0xF2`). -/
def nrpn : Nat := 0xF2

/-- Modelled from the spec: `RTPMIDI_HEADER_MAGIC` of the absent `rtpmidi.h`
(`vpxcc = 0x80`). -/
def RTPMIDI_HEADER_MAGIC : Nat := 0x80

/-- Modelled from the spec: `RTPMIDI_HEADER_TYPE` of the absent `rtpmidi.h`
(payload type `0x61`). -/
def RTPMIDI_HEADER_TYPE : Nat := 0x61

/-- Modelled from the spec: `sizeof(rtpmidi_header)`, the 12-byte RTP header
`vpxcc, mpt, sequence(16), timestamp(32), ssrc(32)`. -/
def sizeof_rtpmidi_header : Nat := 12

/-- Modelled from the spec: `sizeof(rtpmidi_command_header)`, the two bytes
`flags, length` that `rtpmidi_set` writes. -/
def sizeof_rtpmidi_command_header : Nat := 2

/-! ## Memory and machine integers -/

/-- Store `b` at index `i`; a store past the end grows the buffer with zero bytes. -/
def poke : List Nat → Nat → Nat → List Nat
  | [], 0, b => [b]
  | [], i + 1, b => 0 :: poke [] i b
  | _ :: xs, 0, b => b :: xs
  | x :: xs, i + 1, b => x :: poke xs i b

/-- Load the byte at index `i` (zero outside the buffer). -/
def peek (m : List Nat) (i : Nat) : Nat := m.getD i 0

/-- Subtraction on `size_t` (64 bit, wrapping). -/
def size_sub (a b : Nat) : Nat := if b ≤ a then a - b else a + 2 ^ 64 - b

/-- Conversion of a `double` to `uint16_t`: truncation of the fractional part. -/
def double_to_u16 (x : ℚ) : Nat := (Int.toNat ⌊x⌋) % 65536

/-- Bytes of `htobe16 x` in memory order. -/
def htobe16 (x : Nat) : List Nat := [(x / 256) % 256, x % 256]

/-- Bytes of `htobe32 x` in memory order. -/
def htobe32 (x : Nat) : List Nat :=
  [(x / 16777216) % 256, (x / 65536) % 256, (x / 256) % 256, x % 256]

/-! ## Data model -/

/-- The fields of `rtpmidi_channel_ident` (`type:8, channel:8, control:16`). -/
structure rtpmidi_channel_ident where
  type : Nat := 0
  channel : Nat := 0
  control : Nat := 0
  deriving DecidableEq, Repr

/-- Instance mode. -/
inductive rtpmidi_mode where
  | unconfigured
  | direct
  | apple
  deriving DecidableEq, Repr

/-- One entry of the peer registry. -/
structure rtpmidi_peer where
  active : Bool := false
  learned : Bool := false
  connected : Bool := false
  invite : Int := -1
  dest : List Nat := []
  dest_len : Nat := 0
  deriving DecidableEq, Repr

/-- Modelled from the spec: the status flags of one channel of the EPN machine.  The
`EPN_*` masks are declared in the absent `rtpmidi.h`; each is a distinct bit of
`epn_status[chan]`, kept here as one boolean per flag. -/
structure epn_flags where
  nrpn : Bool := false
  parameter_hi : Bool := false
  parameter_lo : Bool := false
  value_hi : Bool := false
  deriving DecidableEq, Repr

/-- The fields of `rtpmidi_instance_data` used by the codec, the registry, the mDNS
announcement and the service tick. -/
structure rtpmidi_instance_data where
  mode : rtpmidi_mode := .unconfigured
  ssrc : Nat := 0
  sequence : Nat := 0
  epn_tx_short : Bool := false
  note_off : Bool := false
  learn_peers : Bool := false
  accept : Option (List Nat) := none
  peer : List rtpmidi_peer := []
  epn_status : List epn_flags := List.replicate 16 {}
  epn_control : List Nat := List.replicate 16 0
  epn_value : List Nat := List.replicate 16 0
  control_port : Nat := 0
  last_announce : Nat := 0
  deriving DecidableEq, Repr

/-- A channel update handed to `rtpmidi_set`: identifier and normalised value. -/
structure channel_update where
  ident : rtpmidi_channel_ident
  normalised : ℚ
  deriving DecidableEq, Repr

/-- An event pushed to the host with `mm_channel_event`. -/
structure channel_event where
  ident : rtpmidi_channel_ident
  normalised : ℚ
  deriving DecidableEq, Repr

/-! ## Encoder -/

/-- The function `rtpmidi_push_midi`: writes one event at `payload` and returns the buffer and the
number of bytes used (0 when fewer than 4 bytes are left). -/
def rtpmidi_push_midi (frame : List Nat) (payload bytes_left type channel control value : Nat) :
    List Nat × Nat :=
  let type := type % 256
  let channel := channel % 256
  let control := control % 256
  let value := value % 65536
  if bytes_left < 4 then (frame, 0)
  else
    let f := poke frame payload 0
    let f := poke f (payload + 1) ((type ||| channel) % 256)
    let f := poke f (payload + 2) control
    let f := poke f (payload + 3) (value &&& 0x7F)
    if type = pitchbend then
      let f := poke f (payload + 2) (value &&& 0x7F)
      let f := poke f (payload + 3) ((value >>> 7) &&& 0x7F)
      (f, 4)
    else if type = aftertouch ∨ type = program then
      (poke f (payload + 2) (peek f (payload + 3)), 3)
    else (f, 4)

/-- The body of the `switch` in the event loop of `rtpmidi_set` for event `u`: the
buffer after the stores and `command_length`.  `B` is `sizeof(frame)`, that is
`RTPMIDI_PACKET_BUFFER`, a constant of the absent `rtpmidi.h`. -/
def rtpmidi_set_event (B : Nat) (epn_tx_short : Bool) (frame : List Nat) (offset : Nat)
    (ident : rtpmidi_channel_ident) (v : ℚ) : List Nat × Nat :=
  let type := ident.type % 256
  let channel := ident.channel % 256
  let control := ident.control % 65536
  if type = rpn ∨ type = nrpn then
    let r1 := rtpmidi_push_midi frame offset (size_sub B offset) cc channel
      (if type = rpn then 101 else 99) ((control >>> 7) &&& 0x7F)
    let command_length := r1.2
    let r2 := rtpmidi_push_midi r1.1 (offset + command_length) (size_sub B offset) cc channel
      (if type = rpn then 100 else 98) (control &&& 0x7F)
    let command_length := command_length + r2.2
    let r3 := rtpmidi_push_midi r2.1 (offset + command_length) (size_sub B offset) cc channel
      6 ((double_to_u16 (v * 16383) >>> 7) &&& 0x7F)
    let command_length := command_length + r3.2
    let r4 := rtpmidi_push_midi r3.1 (offset + command_length) (size_sub B offset) cc channel
      38 (double_to_u16 (v * 16383) &&& 0x7F)
    let command_length := command_length + r4.2
    if ¬ epn_tx_short then
      let r5 := rtpmidi_push_midi r4.1 (offset + command_length) (size_sub B offset) cc channel
        101 127
      let command_length := command_length + r5.2
      let r6 := rtpmidi_push_midi r5.1 (offset + command_length) (size_sub B offset) cc channel
        100 127
      (r6.1, command_length + r6.2)
    else (r4.1, command_length)
  else if type = pitchbend then
    rtpmidi_push_midi frame offset (size_sub B offset) type channel control
      (double_to_u16 (v * 16383))
  else
    rtpmidi_push_midi frame offset (size_sub B offset) type channel control
      (double_to_u16 (v * 127))

/-- The `for(u = 0; u < num; u++)` loop of `rtpmidi_set`: returns the buffer, the final
`offset` and the number of events that were serialised before the loop ended. -/
def rtpmidi_set_loop (B : Nat) (epn_tx_short : Bool) :
    List channel_update → List Nat → Nat → List Nat × Nat × Nat
  | [], frame, offset => (frame, offset, 0)
  | e :: rest, frame, offset =>
    let r := rtpmidi_set_event B epn_tx_short frame offset e.ident e.normalised
    if r.2 = 0 then (r.1, offset, 0)
    else
      let t := rtpmidi_set_loop B epn_tx_short rest r.1 (offset + r.2)
      (t.1, t.2.1, t.2.2 + 1)

/-- A datagram handed to `sendto`. -/
structure datagram where
  control : Bool := false
  dest : List Nat := []
  dest_len : Nat := 0
  payload : List Nat := []
  deriving DecidableEq, Repr

/-- What one call of `rtpmidi_set` leaves behind. -/
structure set_result where
  data : rtpmidi_instance_data
  frame : List Nat
  offset : Nat
  serialised : Nat
  sent : List datagram
  deriving DecidableEq, Repr

/-- The bytes `frame[0 .. offset)` that `rtpmidi_set` hands to `sendto`. -/
def set_result.datagram (r : set_result) : List Nat := r.frame.take r.offset

/-- The stores of `rtpmidi_set` into the RTP header and the command header flags,
applied to the zero-initialised `frame[RTPMIDI_PACKET_BUFFER]`.  `now` is the value
returned by `mm_timestamp()`. -/
def rtpmidi_set_header (B : Nat) (data : rtpmidi_instance_data) (now : Nat) : List Nat :=
  let frame := List.replicate B 0
  let frame := poke frame 0 RTPMIDI_HEADER_MAGIC
  let frame := poke frame 1
    ((if data.mode = rtpmidi_mode.apple then 0 else 0x80) ||| RTPMIDI_HEADER_TYPE)
  let s := htobe16 (data.sequence % 65536)
  let frame := poke (poke frame 2 (s.getD 0 0)) 3 (s.getD 1 0)
  let t := htobe32 ((now * 10) % 4294967296)
  let frame := poke (poke (poke (poke frame 4 (t.getD 0 0)) 5 (t.getD 1 0)) 6 (t.getD 2 0)) 7
    (t.getD 3 0)
  let r := htobe32 (data.ssrc % 4294967296)
  let frame := poke (poke (poke (poke frame 8 (r.getD 0 0)) 9 (r.getD 1 0)) 10 (r.getD 2 0)) 11
    (r.getD 3 0)
  poke frame sizeof_rtpmidi_header 0xA0

/-- The function `rtpmidi_set`: builds one datagram from the batch `ev` and sends it to every
active, connected peer. -/
def rtpmidi_set (B : Nat) (data : rtpmidi_instance_data) (now : Nat)
    (ev : List channel_update) : set_result :=
  let hdr := sizeof_rtpmidi_header + sizeof_rtpmidi_command_header
  let frame := rtpmidi_set_header B data now
  let l := rtpmidi_set_loop B data.epn_tx_short ev frame hdr
  let frame := l.1
  let offset := l.2.1
  let frame := poke frame sizeof_rtpmidi_header
    (peek frame sizeof_rtpmidi_header ||| ((size_sub offset hdr &&& 0x0F00) >>> 8) % 256)
  let frame := poke frame (sizeof_rtpmidi_header + 1) (size_sub offset hdr &&& 0xFF)
  { data := { data with sequence := (data.sequence + 1) % 65536 }
    frame := frame
    offset := offset
    serialised := l.2.2
    sent := (data.peer.filter (fun p => p.active && p.connected)).map
      (fun p => { control := false, dest := p.dest, dest_len := p.dest_len,
                  payload := frame.take offset }) }

/-! ## Decoder -/

/-- The function `rtpmidi_handle_epn`: the RPN/NRPN reassembly machine for one incoming CC; returns
the updated instance and the events pushed to the host. -/
def rtpmidi_handle_epn (data : rtpmidi_instance_data) (chan control value : Nat) :
    rtpmidi_instance_data × List channel_event :=
  let chan := chan % 256
  let control := control % 65536
  let value := value % 65536
  let s := data.epn_status.getD chan {}
  let c := data.epn_control.getD chan 0
  let w := data.epn_value.getD chan 0
  -- switching between nrpn and rpn clears all valid bits
  let s := if (s.nrpn ∧ (control = 101 ∨ control = 100))
      ∨ (¬ s.nrpn ∧ (control = 99 ∨ control = 98))
    then { s with nrpn := false, parameter_lo := false, parameter_hi := false } else s
  -- setting an address always invalidates the value valid bits
  let s := if 98 ≤ control ∧ control ≤ 101 then { s with value_hi := false } else s
  -- parameter hi
  let c := if control = 101 ∨ control = 99 then ((c &&& 0x7F) ||| (value <<< 7)) % 65536 else c
  let s := if control = 101 ∨ control = 99 then
      { s with parameter_hi := true, nrpn := s.nrpn || decide (control = 99) } else s
  let s := if (control = 101 ∨ control = 99) ∧ control = 101 ∧ value = 127 then
      { s with parameter_hi := false } else s
  -- parameter lo
  let c := if control = 100 ∨ control = 98 then (c &&& 0xFF80) ||| (value &&& 0x7F) else c
  let s := if control = 100 ∨ control = 98 then
      { s with parameter_lo := true, nrpn := s.nrpn || decide (control = 98) } else s
  let s := if (control = 100 ∨ control = 98) ∧ control = 100 ∧ value = 127 then
      { s with parameter_lo := false } else s
  -- value hi
  let hi := decide (control = 6) && (s.parameter_hi && s.parameter_lo)
  let w := if hi then (value <<< 7) % 65536 else w
  let s := if hi then { s with value_hi := true } else s
  -- value lo, flush the value
  let lo := decide (control = 38) && s.value_hi
  let w := if lo then (w &&& 0xFF80) ||| (value &&& 0x7F) else w
  let s := if lo then { s with value_hi := false } else s
  let data := { data with
    epn_status := data.epn_status.set chan s
    epn_control := data.epn_control.set chan c
    epn_value := data.epn_value.set chan w }
  (data,
    if lo then
      [{ ident := { type := if s.nrpn then nrpn else rpn, channel := chan, control := c }
         normalised := (w : ℚ) / 16383 }]
    else [])

/-- The delta-time loop `for(; offset < command_bytes && frame[offset] & 0x80; offset++)`
of `rtpmidi_parse`; the first argument bounds the number of iterations and is
`command_bytes - offset` at the call.  `none` is a load outside `frame`. -/
def rtpmidi_parse_dtime (frame : List Nat) (command_bytes : Nat) : Nat → Nat → Option Nat
  | 0, offset => some offset
  | n + 1, offset =>
    if offset < command_bytes then
      match frame[offset]? with
      | none => none
      | some b => if b &&& 0x80 ≠ 0 then rtpmidi_parse_dtime frame command_bytes n (offset + 1)
                  else some offset
    else some offset

/-- The local variables of `rtpmidi_parse` that live across iterations of its loop,
together with the instance and the events pushed so far. -/
structure parse_state where
  offset : Nat
  decode_time : Bool
  midi_status : Nat
  data : rtpmidi_instance_data
  events : List channel_event
  deriving DecidableEq, Repr

/-- One pass through the body of the `do ... while` loop of `rtpmidi_parse`.  The
boolean is `false` when the body left the loop with `break`; `none` is a load outside
`frame`. -/
def rtpmidi_parse_event (frame : List Nat) (command_bytes : Nat) (st : parse_state) :
    Option (Bool × parse_state) :=
  -- decode (and ignore) delta-time
  let o1 : Option Nat :=
    if st.decode_time then
      (rtpmidi_parse_dtime frame command_bytes (command_bytes - st.offset) st.offset).map (· + 1)
    else some st.offset
  match o1 with
  | none => none
  | some offset =>
    if offset ≥ command_bytes then some (false, { st with offset := offset })
    else
      match frame[offset]? with
      | none => none
      | some b =>
        -- check for a status byte
        let midi_status := if b &&& 0x80 ≠ 0 then b else st.midi_status
        let offset := if b &&& 0x80 ≠ 0 then offset + 1 else offset
        if offset ≥ command_bytes then
          some (false, { st with offset := offset, midi_status := midi_status })
        else
          let type := midi_status &&& 0xF0
          let channel := midi_status &&& 0x0F
          if type = aftertouch ∨ type = program then
            -- single byte command
            match frame[offset]? with
            | none => none
            | some d =>
              let ident : rtpmidi_channel_ident := { type := type, channel := channel, control := 0 }
              let ev : channel_event := { ident := ident, normalised := (d : ℚ) / 127 }
              some (true, { offset := offset + 1, decode_time := true, midi_status := midi_status,
                            data := st.data, events := st.events ++ [ev] })
          else
            -- two-byte command
            let offset := offset + 1
            if offset ≥ command_bytes then
              some (false, { st with offset := offset, midi_status := midi_status })
            else
              match frame[offset - 1]?, frame[offset]? with
              | some d1, some d2 =>
                let control := if type = pitchbend then 0 else d1
                let raw := if type = pitchbend then (d2 <<< 7) ||| d1 else d2
                let normalised : ℚ :=
                  if type = pitchbend then (raw : ℚ) / 16383 else (raw : ℚ) / 127
                -- fix-up note off events
                let fix := (!st.data.note_off) && decide (type = note_off)
                let type := if fix then note else type
                let normalised := if fix then 0 else normalised
                let raw := if fix then 0 else raw
                -- forward EPN CCs to the EPN state machine
                let epn := decide (type = cc) &&
                  ((decide (control ≤ 101) && decide (control ≥ 98))
                    || decide (control = 6) || decide (control = 38))
                let r := if epn then rtpmidi_handle_epn st.data channel control raw
                         else (st.data, [])
                let ident : rtpmidi_channel_ident :=
                  { type := type, channel := channel, control := control }
                let ev : channel_event := { ident := ident, normalised := normalised }
                some (true, { offset := offset + 1, decode_time := true,
                              midi_status := midi_status, data := r.1,
                              events := st.events ++ r.2 ++ [ev] })
              | _, _ => none

/-- The `do ... while(offset < command_bytes)` loop of `rtpmidi_parse`.  The first
argument bounds the number of iterations; `none` is a load outside `frame` or an
exhausted bound. -/
def rtpmidi_parse_loop (frame : List Nat) (command_bytes : Nat) :
    Nat → parse_state → Option parse_state
  | 0, _ => none
  | fuel + 1, st =>
    match rtpmidi_parse_event frame command_bytes st with
    | none => none
    | some (false, st') => some st'
    | some (true, st') =>
      if st'.offset < command_bytes then rtpmidi_parse_loop frame command_bytes fuel st'
      else some st'

/-- What `rtpmidi_parse` returns and leaves behind: the return code, the instance and
the events pushed to the host in order. -/
structure parse_result where
  rc : Nat
  data : rtpmidi_instance_data
  events : List channel_event
  deriving DecidableEq, Repr

/-- The function `rtpmidi_parse` on the command section `frame` of `bytes` bytes.  `none` is a load
outside `frame`. -/
def rtpmidi_parse (data : rtpmidi_instance_data) (frame : List Nat) (bytes : Nat) :
    Option parse_result :=
  if bytes = 0 then some { rc := 1, data := data, events := [] }
  else
    match frame[0]? with
    | none => none
    | some f0 =>
      -- calculate midi command section length
      let length := f0 &&& 0x0F
      let ext := f0 &&& 0x80 ≠ 0
      if ext ∧ bytes < 2 then some { rc := 1, data := data, events := [] }
      else
        match (if ext then frame[1]? else some 0) with
        | none => none
        | some f1 =>
          let length := if ext then ((length <<< 8) ||| f1) % 65536 else length
          let offset := if ext then 2 else 1
          let command_bytes := offset + length
          if command_bytes > bytes then some { rc := 1, data := data, events := [] }
          else
            let decode_time := decide (f0 &&& 0x20 ≠ 0)
            match rtpmidi_parse_loop frame command_bytes (command_bytes + 1)
                { offset := offset, decode_time := decode_time, midi_status := 0,
                  data := data, events := [] } with
            | none => none
            | some st => some { rc := 0, data := st.data, events := st.events }

/-! ## Descriptions used in the statements: the bytes an event leaves in the frame -/

/-- The bytes that one call of `rtpmidi_push_midi` leaves in `payload[0 .. return value)`
when at least four bytes are left (read off the stores of `rtpmidi_push_midi`). -/
def midi_bytes (type channel control value : Nat) : List Nat :=
  if type % 256 = pitchbend then
    [0, (type % 256 ||| channel % 256) % 256, (value % 65536) &&& 0x7F,
      ((value % 65536) >>> 7) &&& 0x7F]
  else if type % 256 = aftertouch ∨ type % 256 = program then
    [0, (type % 256 ||| channel % 256) % 256, (value % 65536) &&& 0x7F]
  else [0, (type % 256 ||| channel % 256) % 256, control % 256, (value % 65536) &&& 0x7F]

/-- The bytes that the `switch` of `rtpmidi_set` leaves in the frame for one channel
update when at least four bytes are left (read off `rtpmidi_set_event`). -/
def event_bytes (epn_tx_short : Bool) (e : channel_update) : List Nat :=
  let type := e.ident.type % 256
  let channel := e.ident.channel % 256
  let control := e.ident.control % 65536
  if type = rpn ∨ type = nrpn then
    midi_bytes cc channel (if type = rpn then 101 else 99) ((control >>> 7) &&& 0x7F)
    ++ midi_bytes cc channel (if type = rpn then 100 else 98) (control &&& 0x7F)
    ++ midi_bytes cc channel 6 ((double_to_u16 (e.normalised * 16383) >>> 7) &&& 0x7F)
    ++ midi_bytes cc channel 38 (double_to_u16 (e.normalised * 16383) &&& 0x7F)
    ++ (if epn_tx_short then [] else midi_bytes cc channel 101 127 ++ midi_bytes cc channel 100 127)
  else if type = pitchbend then
    midi_bytes type channel control (double_to_u16 (e.normalised * 16383))
  else midi_bytes type channel control (double_to_u16 (e.normalised * 127))

/-- What `rtpmidi_push_midi` leaves behind the bytes it reports: the rest of the buffer,
preceded by the fourth byte it stored for a three-byte event. -/
def push_rest (type value : Nat) (rest : List Nat) : List Nat :=
  (if type % 256 ≠ pitchbend ∧ (type % 256 = aftertouch ∨ type % 256 = program) then
    [(value % 65536) &&& 0x7F] else []) ++ rest.tail.tail.tail.tail

/-- The command-section bytes of the first `n` events of a batch. -/
def batch_bytes (epn_tx_short : Bool) (ev : List channel_update) (n : Nat) : List Nat :=
  (ev.take n).flatMap (event_bytes epn_tx_short)

/-- The twelve bytes of the RTP header that `rtpmidi_set` stores (read off
`rtpmidi_set_header`). -/
def rtp_header_bytes (data : rtpmidi_instance_data) (now : Nat) : List Nat :=
  [0x80, (if data.mode = rtpmidi_mode.apple then 0 else 0x80) ||| 0x61]
    ++ htobe16 (data.sequence % 65536) ++ htobe32 ((now * 10) % 4294967296)
    ++ htobe32 (data.ssrc % 4294967296)

/-- A batch that ends in an rpn event placed so that between four and seven bytes of a
`B`-byte frame are left when the event is reached: `(B - 18) / 4` cc events, then one
rpn event. -/
def overrun_batch (B : Nat) : List channel_update :=
  List.replicate ((B - 18) / 4) ⟨⟨cc, 0, 0⟩, 0⟩ ++ [⟨⟨rpn, 0, 0⟩, 0⟩]

/-- The size of the command-section header as the specification words it: one byte when
bit 7 (`B`) of the first byte is clear, two bytes when it is set. -/
def spec_header_size (frame : List Nat) : Nat :=
  if frame.getD 0 0 &&& 0x80 = 0 then 1 else 2

/-- The command-section length as the specification words it: the low four bits of the
first byte when `B` is clear, `(low four bits << 8) | second byte` when `B` is set. -/
def spec_section_length (frame : List Nat) : Nat :=
  if frame.getD 0 0 &&& 0x80 = 0 then frame.getD 0 0 &&& 0x0F
  else ((frame.getD 0 0 &&& 0x0F) <<< 8) ||| frame.getD 1 0

/-! ## Descriptions used in the statements: the round trip -/

/-- Successive calls of `rtpmidi_handle_epn` for the CCs `(control, value)` of one
channel, in order; the events of all calls are collected in order. -/
def rtpmidi_handle_epn_list (data : rtpmidi_instance_data) (chan : Nat) :
    List (Nat × Nat) → rtpmidi_instance_data × List channel_event
  | [] => (data, [])
  | cv :: rest =>
    ((rtpmidi_handle_epn_list (rtpmidi_handle_epn data chan cv.1 cv.2).1 chan rest).1,
      (rtpmidi_handle_epn data chan cv.1 cv.2).2
        ++ (rtpmidi_handle_epn_list (rtpmidi_handle_epn data chan cv.1 cv.2).1 chan rest).2)

/-- The entries `epn_status[chan]`, `epn_control[chan]`, `epn_value[chan]` of an
instance. -/
def epn_view (data : rtpmidi_instance_data) (chan : Nat) : epn_flags × Nat × Nat :=
  (data.epn_status.getD chan {}, data.epn_control.getD chan 0, data.epn_value.getD chan 0)

/-- The effect of `rtpmidi_handle_epn` on the three entries of its channel and the events
it pushes (read off `rtpmidi_handle_epn`; the arguments are already reduced to their
C types). -/
def epn_step (st : epn_flags × Nat × Nat) (chan control value : Nat) :
    (epn_flags × Nat × Nat) × List channel_event :=
  let s := st.1
  let c := st.2.1
  let w := st.2.2
  let s := if (s.nrpn ∧ (control = 101 ∨ control = 100))
      ∨ (¬ s.nrpn ∧ (control = 99 ∨ control = 98))
    then { s with nrpn := false, parameter_lo := false, parameter_hi := false } else s
  let s := if 98 ≤ control ∧ control ≤ 101 then { s with value_hi := false } else s
  let c := if control = 101 ∨ control = 99 then ((c &&& 0x7F) ||| (value <<< 7)) % 65536 else c
  let s := if control = 101 ∨ control = 99 then
      { s with parameter_hi := true, nrpn := s.nrpn || decide (control = 99) } else s
  let s := if (control = 101 ∨ control = 99) ∧ control = 101 ∧ value = 127 then
      { s with parameter_hi := false } else s
  let c := if control = 100 ∨ control = 98 then (c &&& 0xFF80) ||| (value &&& 0x7F) else c
  let s := if control = 100 ∨ control = 98 then
      { s with parameter_lo := true, nrpn := s.nrpn || decide (control = 98) } else s
  let s := if (control = 100 ∨ control = 98) ∧ control = 100 ∧ value = 127 then
      { s with parameter_lo := false } else s
  let hi := decide (control = 6) && (s.parameter_hi && s.parameter_lo)
  let w := if hi then (value <<< 7) % 65536 else w
  let s := if hi then { s with value_hi := true } else s
  let lo := decide (control = 38) && s.value_hi
  let w := if lo then (w &&& 0xFF80) ||| (value &&& 0x7F) else w
  let s := if lo then { s with value_hi := false } else s
  ((s, c, w),
    if lo then
      [{ ident := { type := if s.nrpn then nrpn else rpn, channel := chan, control := c }
         normalised := (w : ℚ) / 16383 }]
    else [])

/-- The effect of a list of CCs on the three entries of one channel. -/
def epn_run (st : epn_flags × Nat × Nat) (chan : Nat) :
    List (Nat × Nat) → (epn_flags × Nat × Nat) × List channel_event
  | [] => (st, [])
  | cv :: rest =>
    ((epn_run (epn_step st chan cv.1 cv.2).1 chan rest).1,
      (epn_step st chan cv.1 cv.2).2 ++ (epn_run (epn_step st chan cv.1 cv.2).1 chan rest).2)

/-- The arrays `epn_status`, `epn_control` and `epn_value` of an instance have their 16
entries. -/
def epn_arrays (data : rtpmidi_instance_data) : Prop :=
  data.epn_status.length = 16 ∧ data.epn_control.length = 16 ∧ data.epn_value.length = 16

/-! ## Peer registry -/

/-- The function `memcpy(dst, src, n)` on byte buffers: the first `n` bytes of `dst` are
replaced by those of `src`. -/
def memcpy (dst src : List Nat) (n : Nat) : List Nat := src.take n ++ dst.drop n

/-- The test of `rtpmidi_push_peer` whether entry `x` already holds the address:
`x.active && sock_len == x.dest_len && !memcmp(&x.dest, sock_addr, sock_len)`. -/
def rtpmidi_push_peer_match (sock_addr : List Nat) (sock_len : Nat) (x : rtpmidi_peer) : Bool :=
  x.active && decide (sock_len = x.dest_len)
    && decide (x.dest.take sock_len = sock_addr.take sock_len)

/-- The scan loop of `rtpmidi_push_peer` over `data->peer[u ..]`: `Sum.inl u` when entry `u`
is active and holds the address (the function then updates it and returns), otherwise
`Sum.inr p` with the slot `p` the loop leaves behind (the last inactive entry, or the
initial `p`). -/
def rtpmidi_push_peer_scan (sock_addr : List Nat) (sock_len : Nat) :
    List rtpmidi_peer → Nat → Nat → Sum Nat Nat
  | [], _, p => Sum.inr p
  | x :: rest, u, p =>
    if rtpmidi_push_peer_match sock_addr sock_len x then Sum.inl u
    else rtpmidi_push_peer_scan sock_addr sock_len rest (u + 1) (if x.active then p else u)

/-- The function `rtpmidi_push_peer`: return code and instance afterwards.  `data->peers`
is the length of `data.peer`; `alloc_ok` tells whether `realloc` succeeds when the
registry has to grow (the new entry is zero-filled here, its `dest` bytes are
indeterminate in C until `memcpy` fills the first `sock_len` of them). -/
def rtpmidi_push_peer (alloc_ok : Bool) (data : rtpmidi_instance_data)
    (sock_addr : List Nat) (sock_len : Nat) (learned connected : Bool)
    (invite_reference : Int) : Nat × rtpmidi_instance_data :=
  match rtpmidi_push_peer_scan sock_addr sock_len data.peer 0 data.peer.length with
  | Sum.inl u =>
    (0, { data with
          peer := data.peer.set u { data.peer.getD u {} with connected := connected } })
  | Sum.inr p =>
    if p = data.peer.length ∧ alloc_ok = false then (1, { data with peer := [] })
    else
      let peers := if p = data.peer.length then data.peer ++ [{}] else data.peer
      (0, { data with
            peer := peers.set p
              { active := true, learned := learned, connected := connected,
                invite := invite_reference,
                dest := memcpy (peers.getD p {}).dest sock_addr sock_len,
                dest_len := sock_len } })

/-! ## AppleMIDI session commands -/

/-- Modelled from the spec: the command code `IN` (invite) of `applemidi_command`, declared
in the absent `rtpmidi.h`. -/
def apple_invite : Nat := 0x494E

/-- Modelled from the spec: the command code `OK` (accept). -/
def apple_accept : Nat := 0x4F4B

/-- Modelled from the spec: the command code `NO` (reject). -/
def apple_reject : Nat := 0x4E4F

/-- Modelled from the spec: the command code `BY` (leave). -/
def apple_leave : Nat := 0x4259

/-- Modelled from the spec: the command code `CK` (clock sync). -/
def apple_sync : Nat := 0x434B

/-- Modelled from the spec: the command code `RS` (receiver feedback). -/
def apple_feedback : Nat := 0x5253

/-- Modelled from the spec: the packed struct `apple_command` is
`res1 (16), command (16), version (32), token (32), ssrc (32)`, 16 bytes. -/
def sizeof_apple_command : Nat := 16

/-- Modelled from the spec: the packed struct `apple_sync_frame` is
`res1 (16), command (16), ssrc (32), count (8), res2 (3 bytes), timestamp[3] (64 each)`,
36 bytes. -/
def sizeof_apple_sync_frame : Nat := 36

/-- Bytes of `htobe64 x` in memory order. -/
def htobe64 (x : Nat) : List Nat :=
  [(x / 72057594037927936) % 256, (x / 281474976710656) % 256, (x / 1099511627776) % 256,
    (x / 4294967296) % 256, (x / 16777216) % 256, (x / 65536) % 256, (x / 256) % 256, x % 256]

/-- The value `be16toh` reads from the two bytes at `i`. -/
def be16toh_at (m : List Nat) (i : Nat) : Nat := peek m i * 256 + peek m (i + 1)

/-- The value `be32toh` reads from the four bytes at `i`. -/
def be32toh_at (m : List Nat) (i : Nat) : Nat :=
  peek m i * 16777216 + peek m (i + 1) * 65536 + peek m (i + 2) * 256 + peek m (i + 3)

/-- Store the bytes `bs` from index `i` on. -/
def poke_bytes : List Nat → Nat → List Nat → List Nat
  | m, _, [] => m
  | m, i, b :: bs => poke_bytes (poke m i b) (i + 1) bs

/-- The function `isprint` of the C locale on a byte. -/
def isprint (c : Nat) : Bool := decide (0x20 ≤ c) && decide (c ≤ 0x7E)

/-- The C string that starts at index `i` of a buffer: the bytes before the first NUL. -/
def c_string (m : List Nat) (i : Nat) : List Nat := (m.drop i).takeWhile (fun b => b != 0)

/-- The statement
`((struct sockaddr_in*) peer)->sin_port = htobe16(be16toh(...->sin_port) + 1)` on the bytes
of a socket address: `sin_port` is the 16-bit field at bytes 2..3, in network byte order. -/
def sockaddr_next_port (peer : List Nat) : List Nat :=
  poke_bytes peer 2 (htobe16 ((be16toh_at peer 2 + 1) % 65536))

/-- The function `rtpmidi_applecommand`: the datagram handed to `sendto`.  `name` holds the
bytes of `inst->name` before its NUL, `token` the four bytes of the `token` argument in
memory order, `fresh` the four bytes of `((uint32_t) rand()) << 16 | rand()`; `control`
selects `data->control_fd` over `data->fd`.  The name is assumed to fit the frame
(`sizeof(apple_command) + strlen(name) + 1` at most `RTPMIDI_PACKET_BUFFER`). -/
def rtpmidi_applecommand (data : rtpmidi_instance_data) (name : List Nat) (dest : List Nat)
    (dest_len : Nat) (control : Bool) (command : Nat) (token fresh : List Nat) : datagram :=
  { control := control, dest := dest, dest_len := dest_len,
    payload := [0xFF, 0xFF] ++ htobe16 command ++ htobe32 2
      ++ (if token.all (fun b => b == 0) then fresh else token)
      ++ htobe32 data.ssrc ++ name ++ [0] }

/-- The session name loop of `rtpmidi_handle_applemidi`:
`for(n = ...; n < bytes; n++)` with its two `break`s.  The result is the final `n` and
whether `session_name` is still non-NULL. -/
def rtpmidi_session_name_scan (frame : List Nat) (bytes : Nat) : Nat → Nat → Nat × Bool
  | 0, n => (n, true)
  | fuel + 1, n =>
    if n < bytes then
      if peek frame n = 0 then (n, true)
      else if ¬ isprint (peek frame n) then (n, false)
      else rtpmidi_session_name_scan frame bytes fuel (n + 1)
    else (n, true)

/-- What one call of `rtpmidi_handle_applemidi` leaves behind: return code, instance and
the datagrams handed to `sendto`, in order. -/
structure applemidi_result where
  rc : Nat
  data : rtpmidi_instance_data
  sent : List datagram
  deriving DecidableEq, Repr

/-- The invite branch of `rtpmidi_handle_applemidi` up to its decision: the session name
loop, the `n == bytes` check and the condition
`data->accept && (!strcmp(data->accept, STAR) || (session_name && !strcmp(session_name, data->accept)))`,
where `STAR` is the one-character string of an asterisk (byte `0x2A`).  The pattern
`data.accept` holds the bytes of the C string, `none` is `NULL`. -/
def rtpmidi_invite_accepted (data : rtpmidi_instance_data) (frame : List Nat) (bytes : Nat) :
    Bool :=
  let scan := rtpmidi_session_name_scan frame bytes (bytes + 1) sizeof_apple_command
  let named := scan.2 && !decide (scan.1 = bytes)
  data.accept.isSome && (decide (data.accept = some [0x2A])
    || (named && decide (some (c_string frame sizeof_apple_command) = data.accept)))

/-- The function `rtpmidi_handle_applemidi`.  `on_control` tells whether `fd` is
`data->control_fd` (otherwise it is `data->fd`), `B` is `RTPMIDI_PACKET_BUFFER`, `name` holds
the bytes of `inst->name`, `now` is the value of `mm_timestamp()`, `fresh` and `alloc_ok`
are passed on to `rtpmidi_applecommand` and `rtpmidi_push_peer`.  The in-place store
`command->command = be16toh(command->command)` only changes bytes 2..3 of `frame`, which
are read again nowhere but in the `memcpy` of the sync branch, where the copy is
overwritten by `sync->command = htobe16(apple_sync)`; it is left out. -/
def rtpmidi_handle_applemidi (B : Nat) (data : rtpmidi_instance_data) (name : List Nat)
    (on_control : Bool) (frame : List Nat) (bytes : Nat) (peer : List Nat) (peer_len : Nat)
    (now : Nat) (fresh : List Nat) (alloc_ok : Bool) : applemidi_result :=
  let command := be16toh_at frame 2
  let token := [peek frame 8, peek frame 9, peek frame 10, peek frame 11]
  if command ≠ apple_sync ∧ command ≠ apple_feedback ∧ be32toh_at frame 4 ≠ 2 then
    { rc := 0, data := data, sent := [] }
  else if command = apple_invite then
    if rtpmidi_invite_accepted data frame bytes then
      let reply := rtpmidi_applecommand data name peer peer_len on_control apple_accept
        token fresh
      if on_control = false then
        let r := rtpmidi_push_peer alloc_ok data peer peer_len true true (-1)
        { rc := r.1, data := r.2, sent := [reply] }
      else { rc := 0, data := data, sent := [reply] }
    else
      { rc := 0, data := data,
        sent := [rtpmidi_applecommand data name peer peer_len on_control apple_reject
          token fresh] }
  else if command = apple_accept then
    if on_control = false then
      let r := rtpmidi_push_peer alloc_ok data peer peer_len true true (-1)
      { rc := r.1, data := r.2, sent := [] }
    else
      { rc := 0, data := data,
        sent := [rtpmidi_applecommand data name (sockaddr_next_port peer) peer_len false
          apple_invite [0, 0, 0, 0] fresh] }
  else if command = apple_reject then
    { rc := 0, data := data, sent := [] }
  else if command = apple_leave then
    let peer := sockaddr_next_port peer
    { rc := 0,
      data := { data with
        peer := data.peer.map (fun x =>
          if x.dest_len = peer_len ∧ x.dest.take peer_len = peer.take peer_len then
            (if x.learned then { x with active := false } else { x with connected := false })
          else x) },
      sent := [] }
  else if command = apple_sync then
    let response := memcpy (List.replicate B 0) frame bytes
    let response := poke_bytes response 2 (htobe16 apple_sync)
    let response := poke_bytes response 4 (htobe32 data.ssrc)
    let count := peek response 8
    if count = 0 then
      let response := poke response 8 ((count + 1) % 256)
      let response := poke_bytes response 20 (htobe64 ((now * 10) % 2 ^ 64))
      { rc := 0, data := data,
        sent := [{ control := on_control, dest := peer, dest_len := peer_len,
                   payload := response.take sizeof_apple_sync_frame }] }
    else if count = 1 then
      let response := poke response 8 ((count + 1) % 256)
      let response := poke_bytes response 28 (htobe64 ((now * 10) % 2 ^ 64))
      { rc := 0, data := data,
        sent := [{ control := on_control, dest := peer, dest_len := peer_len,
                   payload := response.take sizeof_apple_sync_frame }] }
    else { rc := 0, data := data, sent := [] }
  else
    { rc := 0, data := data, sent := [] }

/-- Spec-side predicate of the invite decision: the frame carries, within its `bytes`
bytes, a printable session name equal to `pat` that starts after the 16 byte command
header and is terminated by a NUL. -/
def carries_session_name (frame : List Nat) (bytes : Nat) (pat : List Nat) : Bool :=
  decide (16 + pat.length < bytes) && decide ((frame.drop 16).take pat.length = pat)
    && decide (peek frame (16 + pat.length) = 0) && pat.all isprint

/-- Spec-side invite decision: accept exactly when the accept pattern is set and is either
`*` or the session name the frame carries. -/
def spec_invite_accepted (accept : Option (List Nat)) (frame : List Nat) (bytes : Nat) : Bool :=
  match accept with
  | none => false
  | some pat => decide (pat = [0x2A]) || carries_session_name frame bytes pat

/-- The response buffer of the sync branch after `memcpy` and the stores of `command` and
`ssrc`. -/
def sync_response (B : Nat) (data : rtpmidi_instance_data) (frame : List Nat) (bytes : Nat) :
    List Nat :=
  poke_bytes (poke_bytes (memcpy (List.replicate B 0) frame bytes) 2 (htobe16 apple_sync)) 4
    (htobe32 data.ssrc)

/-! ## DNS names -/

/-- Modelled from the spec: the macro `DNS_POINTER` of the absent `rtpmidi.h`; a byte whose
top two bits are `11` begins a compression pointer. -/
def DNS_POINTER (a : Nat) : Bool := decide (a &&& 0xC0 = 0xC0)

/-- Modelled from the spec: the macro `DNS_LABEL_LENGTH` of the absent `rtpmidi.h`; the low
six bits of a label byte (the high bits of the 14-bit pointer target). -/
def DNS_LABEL_LENGTH (a : Nat) : Nat := a &&& 0x3F

/-- The fields `name` and `length` of `dns_name`.  `name` holds the bytes the functions
have stored from index 0 on; the allocation bookkeeping (`alloc`, `realloc`, `calloc`) is
not modelled, allocation is taken to succeed. -/
structure dns_name where
  name : List Nat := []
  length : Nat := 0
  deriving DecidableEq, Repr

/-- One call of `strtok_r` with the dot as the only delimiter on the rest of a string:
`none` when only dots are left, otherwise the token and the rest behind the dot that ends
it. -/
def strtok_r (s : List Nat) : Option (List Nat × List Nat) :=
  match s.dropWhile (fun c => c == 0x2E) with
  | [] => none
  | c :: r =>
    some ((c :: r).takeWhile (fun c => c != 0x2E),
      ((c :: r).dropWhile (fun c => c != 0x2E)).drop 1)

/-- The token loop of `dns_encode_name`: for each token the byte `strlen(token)` (stored
into one byte) and the token are appended and `out->length` grows by `strlen(token) + 1`. -/
def dns_encode_loop : Nat → List Nat → dns_name → dns_name
  | 0, _, out => out
  | fuel + 1, s, out =>
    match strtok_r s with
    | none => out
    | some (token, save) =>
      dns_encode_loop fuel save
        { name := out.name ++ (token.length % 256 :: token),
          length := out.length + token.length + 1 }

/-- The function `dns_encode_name` on the bytes of the C string `name`; the result holds
the bytes `out->name[0 .. out->length)`.  The loop runs at most once per byte of `name`. -/
def dns_encode_name (name : List Nat) : dns_name :=
  let out := dns_encode_loop (name.length + 1) name { name := [], length := 0 }
  { name := out.name ++ [0], length := out.length + 1 }

/-- The local state of the loop of `dns_decode_name`, with the list of the buffer indices
read so far.  `out.name` holds `out->name[0 .. output_offset)`, so `output_offset` is its
length; the NUL stored behind it is implicit. -/
structure dns_decode_state where
  start : Nat
  offset : Nat := 0
  ptr_target : Nat := 0
  out : dns_name := {}
  reads : List Nat := []
  deriving DecidableEq, Repr

/-- The loop of `dns_decode_name`; each unit of fuel is one iteration, `none` means that
the loop is still running when the fuel is used up.  The result is the return code and
the final state. -/
def dns_decode_loop (buffer : List Nat) (len : Nat) :
    Nat → dns_decode_state → Option (Nat × dns_decode_state)
  | 0, _ => none
  | fuel + 1, st =>
    if st.start + st.offset < len then
      let current_label := peek buffer (st.start + st.offset) % 256
      let st := { st with reads := st.reads ++ [st.start + st.offset] }
      if DNS_POINTER current_label then
        if st.start + st.offset + 1 ≥ len then some (1, st)
        else
          let out := if st.ptr_target = 0 then { st.out with length := st.out.length + 2 }
            else st.out
          let ptr_target := ((DNS_LABEL_LENGTH current_label <<< 8)
            ||| (peek buffer (st.start + st.offset + 1) % 256)) % 65536
          let st := { st with out := out, ptr_target := ptr_target,
                              reads := st.reads ++ [st.start + st.offset + 1] }
          if ptr_target ≥ len then some (1, st)
          else dns_decode_loop buffer len fuel { st with start := ptr_target, offset := 0 }
      else if DNS_LABEL_LENGTH current_label = 0 then
        some (0, if st.ptr_target = 0
          then { st with out := { st.out with length := st.out.length + 1 } } else st)
      else if st.start + st.offset + DNS_LABEL_LENGTH current_label > len then some (1, st)
      else
        let src := List.range' (st.start + st.offset + 1) (DNS_LABEL_LENGTH current_label)
        let offset := st.offset + DNS_LABEL_LENGTH current_label + 1
        dns_decode_loop buffer len fuel
          { st with
            offset := offset
            out := { name := st.out.name ++ src.map (peek buffer) ++ [0x2E],
                     length := if st.ptr_target = 0 then offset else st.out.length }
            reads := st.reads ++ src }
    else some (0, st)

/-- The function `dns_decode_name` with `fuel` loop iterations: it resets `out->length`
and the name and runs the loop from `start`. -/
def dns_decode_name (fuel : Nat) (buffer : List Nat) (len start : Nat) :
    Option (Nat × dns_decode_state) :=
  dns_decode_loop buffer len fuel { start := start }

/-- Spec-side: the labels of a name given as text, the non-empty pieces between dots. -/
def dns_labels (s : List Nat) : List (List Nat) := (s.splitOn 0x2E).filter (fun t => t ≠ [])

/-- Spec-side: the wire form of a list of labels, each label behind its length byte. -/
def dns_wire (labels : List (List Nat)) : List Nat :=
  labels.flatMap (fun t => t.length % 256 :: t)

/-- Spec-side: the text form of a list of labels, each label followed by a dot. -/
def dns_text (labels : List (List Nat)) : List Nat := labels.flatMap (fun t => t ++ [0x2E])

/-- The 14-bit target of the compression pointer stored at index `i` of the buffer, as
`dns_decode_name` computes it. -/
def dns_pointer_target (buffer : List Nat) (i : Nat) : Nat :=
  ((DNS_LABEL_LENGTH (peek buffer i % 256) <<< 8) ||| (peek buffer (i + 1) % 256)) % 65536

/-! ## mDNS peer discovery -/

/-- One element of `cfg.invite`: the inviting instance (an index into the table of
instances) and its list of invited session names; `invites` is the length of `name`. -/
structure rtpmidi_invite where
  inst : Nat := 0
  name : List (List Nat) := []
  deriving DecidableEq, Repr

/-- The fields `name` and `impl` of a core `instance`. -/
structure mm_instance where
  name : List Nat := []
  impl : rtpmidi_instance_data := {}
  deriving DecidableEq, Repr

/-- The function `rtpmidi_push_invite`: return code and `cfg.invite` afterwards.  Names
are the bytes of C strings, `alloc_ok` tells whether the allocations succeed. -/
def rtpmidi_push_invite (alloc_ok : Bool) (cfg : List rtpmidi_invite) (inst : Nat)
    (peer : List Nat) : Nat × List rtpmidi_invite :=
  let u := cfg.findIdx (fun e => e.inst == inst)
  if u = cfg.length ∧ alloc_ok = false then (1, [])
  else
    let cfg := if u = cfg.length then cfg ++ [{ inst := inst, name := [] }] else cfg
    let e := cfg.getD u {}
    if peer ∈ e.name then (0, cfg)
    else if alloc_ok = false then (1, cfg.set u { e with name := [] })
    else (0, cfg.set u { e with name := e.name ++ [peer] })

/-- The statement `sin_port = htobe16(be16toh(sin_port) - 1)` of
`rtpmidi_peer_applecommand` on the bytes of a socket address. -/
def sockaddr_prev_port (a : List Nat) : List Nat :=
  poke_bytes a 2 (htobe16 ((be16toh_at a 2 + 65535) % 65536))

/-- The function `rtpmidi_peer_applecommand`: the datagram for registry entry `peer`.  The
local `dest_addr` (a `sockaddr_storage` of 128 bytes, indeterminate behind the copied
bytes) starts zero-filled here; an index outside the registry reads a zero-filled entry. -/
def rtpmidi_peer_applecommand (data : rtpmidi_instance_data) (name : List Nat) (peer : Nat)
    (control : Bool) (command : Nat) (token fresh : List Nat) : datagram :=
  let e := data.peer.getD peer {}
  let dest_addr := memcpy (List.replicate 128 0) e.dest (min 128 e.dest_len)
  let dest_addr := if control then sockaddr_prev_port dest_addr else dest_addr
  rtpmidi_applecommand data name dest_addr e.dest_len control command token fresh

/-- What the loops of `rtpmidi_apple_peermatch` carry along: the instances, the datagrams
sent so far, the flag `done`, and whether a registry index outside the registry was used. -/
structure peermatch_state where
  insts : List mm_instance := []
  sent : List datagram := []
  done : Bool := false
  fault : Bool := false
  deriving DecidableEq, Repr

/-- How the body of the inner loop of `rtpmidi_apple_peermatch` is left. -/
inductive peermatch_exit where
  | next
  | brk
  | ret
  deriving DecidableEq, Repr

/-- The test `active && learned && invite == n` of the registry scans of
`rtpmidi_apple_peermatch`. -/
def peermatch_learned (n : Nat) (x : rtpmidi_peer) : Bool :=
  x.active && x.learned && decide (x.invite = (n : Int))

/-- The body of the inner loop of the first pass of `rtpmidi_apple_peermatch` for a name
that matched: instance `inst`, pattern index `n`.  `peer` is the announced address with
the data port already stored, `fresh k` the token generated for the `k`-th datagram.  The
address family is taken as the first two bytes of a socket address. -/
def peermatch_connect (alloc_ok : Bool) (fresh : Nat → List Nat) (peer : List Nat)
    (peer_len : Nat) (inst n : Nat) (st : peermatch_state) : peermatch_state × peermatch_exit :=
  let i := st.insts.getD inst {}
  let data := i.impl
  let p := data.peer.findIdx (peermatch_learned n)
  if p = data.peer.length then
    let r := rtpmidi_push_peer alloc_ok data peer peer_len true false (n : Int)
    if r.1 ≠ 0 then
      ({ st with insts := st.insts.set inst { i with impl := r.2 }, done := true },
        peermatch_exit.ret)
    else
      let p := r.2.peer.findIdx (peermatch_learned n)
      ({ insts := st.insts.set inst { i with impl := r.2 }
         sent := st.sent ++ [rtpmidi_peer_applecommand r.2 i.name p true apple_invite
           [0, 0, 0, 0] (fresh st.sent.length)]
         done := true
         fault := st.fault || decide (r.2.peer.length ≤ p) }, peermatch_exit.next)
  else
    let e := data.peer.getD p {}
    if e.connected = true ∨ e.dest.take 2 ≠ peer.take 2 then
      ({ st with done := true }, peermatch_exit.brk)
    else
      let data := { data with
        peer := data.peer.set p { e with dest := memcpy e.dest peer e.dest_len } }
      ({ insts := st.insts.set inst { i with impl := data }
         sent := st.sent ++ [rtpmidi_peer_applecommand data i.name p true apple_invite
           [0, 0, 0, 0] (fresh st.sent.length)]
         done := true
         fault := st.fault }, peermatch_exit.next)

/-- The inner loop `for(n = ...)` of the first pass over the names of one element of
`cfg.invite`, from index `n` on; the flag tells whether the function returned 1. -/
def peermatch_names (alloc_ok : Bool) (fresh : Nat → List Nat) (peer : List Nat)
    (peer_len : Nat) (raw0 : Nat) (session_name : List Nat) (inst : Nat) :
    List (List Nat) → Nat → peermatch_state → peermatch_state × Bool
  | [], _, st => (st, false)
  | nm :: rest, n, st =>
    if nm.length = raw0 ∧ nm = session_name then
      match peermatch_connect alloc_ok fresh peer peer_len inst n st with
      | (st, peermatch_exit.ret) => (st, true)
      | (st, peermatch_exit.brk) => (st, false)
      | (st, peermatch_exit.next) =>
        peermatch_names alloc_ok fresh peer peer_len raw0 session_name inst rest (n + 1) st
    else peermatch_names alloc_ok fresh peer peer_len raw0 session_name inst rest (n + 1) st

/-- The outer loop `for(u = ...)` of the first pass over the elements of `cfg.invite`. -/
def peermatch_invites (alloc_ok : Bool) (fresh : Nat → List Nat) (peer : List Nat)
    (peer_len : Nat) (raw0 : Nat) (session_name : List Nat) :
    List rtpmidi_invite → peermatch_state → peermatch_state × Bool
  | [], st => (st, false)
  | e :: rest, st =>
    match peermatch_names alloc_ok fresh peer peer_len raw0 session_name e.inst e.name 0 st with
    | (st, true) => (st, true)
    | (st, false) =>
      peermatch_invites alloc_ok fresh peer peer_len raw0 session_name rest st

/-- The inner loop of the second pass of `rtpmidi_apple_peermatch` over the names of
element `u` of `cfg.invite`, from index `n` on: every name equal to `*` has the session
name pushed to the invite list of the instance.  The bound `cfg.invite[u].invites` is read
again in every iteration; each unit of fuel is one iteration.  The result is the return
code (1 when the function returned 1), `cfg.invite` and `done`. -/
def peermatch_wild_names (alloc_ok : Bool) (session_name : List Nat) (u : Nat) :
    Nat → Nat → List rtpmidi_invite → Bool → Nat × List rtpmidi_invite × Bool
  | 0, _, cfg, done => (0, cfg, done)
  | fuel + 1, n, cfg, done =>
    if n < (cfg.getD u {}).name.length then
      if (cfg.getD u {}).name.getD n [] = [0x2A] then
        let r := rtpmidi_push_invite alloc_ok cfg (cfg.getD u {}).inst session_name
        if r.1 ≠ 0 then (1, r.2, true)
        else peermatch_wild_names alloc_ok session_name u fuel (n + 1) r.2 true
      else peermatch_wild_names alloc_ok session_name u fuel (n + 1) cfg done
    else (0, cfg, done)

/-- The outer loop of the second pass, from element `u` on.  The inner loop gets two more
units of fuel than the list has names: a push appends at most one name, once. -/
def peermatch_wild (alloc_ok : Bool) (session_name : List Nat) :
    Nat → Nat → List rtpmidi_invite → Bool → Nat × List rtpmidi_invite × Bool
  | 0, _, cfg, done => (0, cfg, done)
  | fuel + 1, u, cfg, done =>
    if u < cfg.length then
      let r := peermatch_wild_names alloc_ok session_name u
        ((cfg.getD u {}).name.length + 2) 0 cfg done
      if r.1 ≠ 0 then r
      else peermatch_wild alloc_ok session_name fuel (u + 1) r.2.1 r.2.2
    else (0, cfg, done)

/-- The statement `((struct sockaddr_in*) peer)->sin_port = htobe16(port)` on the bytes of
a socket address; `htobe16` takes its argument as `uint16_t`. -/
def sockaddr_set_port (peer : List Nat) (port : Nat) : List Nat :=
  poke_bytes peer 2 (htobe16 (port % 65536))

/-- The string the `snprintf` call of `rtpmidi_apple_peermatch` stores in `session_name`
(format `%.*s` with precision `session_raw[0]` on `session_raw + 1`): the bytes behind the
length byte up to the first NUL, at most `session_raw[0]` of them (the buffer of 1024 bytes
is never filled by at most 255 bytes). -/
def mdns_session_name (session_raw : List Nat) : List Nat :=
  ((session_raw.drop 1).take (peek session_raw 0 % 256)).takeWhile (fun b => b != 0)

/-- What one call of `rtpmidi_apple_peermatch` leaves behind. -/
structure peermatch_result where
  rc : Nat
  cfg : List rtpmidi_invite
  insts : List mm_instance
  sent : List datagram
  fault : Bool
  deriving DecidableEq, Repr

/-- The function `rtpmidi_apple_peermatch`; each unit of fuel is one level of the
recursion, `none` means that the recursion is still running when the fuel is used up.
`session_raw` is the length-prefixed session name, `session_name` the string `snprintf`
makes of it (the bytes up to the first NUL, at most `session_raw[0]` of them). -/
def rtpmidi_apple_peermatch (alloc_ok : Bool) (fresh : Nat → List Nat) :
    Nat → List rtpmidi_invite → List mm_instance → List Nat → List Nat → Nat → Nat →
      Option peermatch_result
  | 0, _, _, _, _, _, _ => none
  | fuel + 1, cfg, insts, session_raw, peer, peer_len, control_port =>
    let peer := sockaddr_set_port peer (control_port % 65536 + 1)
    let raw0 := peek session_raw 0 % 256
    let session_name := mdns_session_name session_raw
    let r := peermatch_invites alloc_ok fresh peer peer_len raw0 session_name cfg
      { insts := insts }
    if r.2 = true then
      some { rc := 1, cfg := cfg, insts := r.1.insts, sent := r.1.sent, fault := r.1.fault }
    else if r.1.done = true then
      some { rc := 0, cfg := cfg, insts := r.1.insts, sent := r.1.sent, fault := r.1.fault }
    else
      let w := peermatch_wild alloc_ok session_name (cfg.length + 1) 0 cfg false
      if w.1 ≠ 0 then
        some { rc := 1, cfg := w.2.1, insts := r.1.insts, sent := r.1.sent,
               fault := r.1.fault }
      else if w.2.2 = true then
        match rtpmidi_apple_peermatch alloc_ok fresh fuel w.2.1 r.1.insts session_raw peer
            peer_len control_port with
        | none => none
        | some t =>
          some { rc := 0, cfg := t.cfg, insts := t.insts, sent := r.1.sent ++ t.sent,
                 fault := r.1.fault || t.fault }
      else
        some { rc := 0, cfg := w.2.1, insts := r.1.insts, sent := r.1.sent,
               fault := r.1.fault }

/-- Between two states of the loops of `rtpmidi_apple_peermatch`: instance `i` is
untouched, the datagrams sent so far are kept, and `done` is not reset. -/
def peermatch_frame (i : Nat) (st st' : peermatch_state) : Prop :=
  st'.insts[i]? = st.insts[i]? ∧ (∃ ex, st'.sent = st.sent ++ ex)
    ∧ (st.done = true → st'.done = true)

/-- The effect the specification gives for the wildcard pass on one element of
`cfg.invite`: an element with the pattern `*` gets the session name as one more name,
unless it holds that name already; every other element stays as it is. -/
def mdns_wildcard_clone (session_name : List Nat) (e : rtpmidi_invite) : rtpmidi_invite :=
  if [0x2A] ∈ e.name ∧ session_name ∉ e.name then { e with name := e.name ++ [session_name] }
  else e

/-- Successive calls of `rtpmidi_handle_epn` for the triples `(chan, control, value)`, in
order; the events of all calls are collected in order. -/
def rtpmidi_handle_epn_calls (data : rtpmidi_instance_data) :
    List (Nat × Nat × Nat) → rtpmidi_instance_data × List channel_event
  | [] => (data, [])
  | x :: rest =>
    ((rtpmidi_handle_epn_calls (rtpmidi_handle_epn data x.1 x.2.1 x.2.2).1 rest).1,
      (rtpmidi_handle_epn data x.1 x.2.1 x.2.2).2
        ++ (rtpmidi_handle_epn_calls (rtpmidi_handle_epn data x.1 x.2.1 x.2.2).1 rest).2)

/-- The CCs `(control, value)` a sequence of calls has given to channel `chan`, the most
recent one first. -/
def epn_history (calls : List (Nat × Nat × Nat)) (chan : Nat) : List (Nat × Nat) :=
  ((calls.filter (fun x => x.1 == chan)).map (fun x => x.2)).reverse

/-- The family selected by a history of CCs (most recent first): NRPN (`true`) when the
most recent parameter CC is 99 or 98, RPN when it is 101 or 100 or when there is none. -/
def epn_family_since : List (Nat × Nat) → Bool
  | [] => false
  | (k, _) :: older =>
    if k = 99 ∨ k = 98 then true
    else if k = 101 ∨ k = 100 then false
    else epn_family_since older

/-- Whether the high half of the parameter number was written since the last family switch
and the last null of that half, in a history of CCs (most recent first): the most recent
CC 101 or 99 is not the null `101 = 127`, and every CC 100 or 98 after it belongs to the
family selected before it. -/
def epn_hi_since : List (Nat × Nat) → Bool
  | [] => false
  | (k, v) :: older =>
    if k = 101 then decide (v ≠ 127)
    else if k = 99 then true
    else if k = 100 then !(epn_family_since older) && epn_hi_since older
    else if k = 98 then epn_family_since older && epn_hi_since older
    else epn_hi_since older

/-- Whether the low half of the parameter number was written since the last family switch
and the last null of that half, in a history of CCs (most recent first). -/
def epn_lo_since : List (Nat × Nat) → Bool
  | [] => false
  | (k, v) :: older =>
    if k = 100 then decide (v ≠ 127)
    else if k = 98 then true
    else if k = 101 then !(epn_family_since older) && epn_lo_since older
    else if k = 99 then epn_family_since older && epn_lo_since older
    else epn_lo_since older

/-- The status of a channel agrees with a history of CCs: the flags `EPN_NRPN`,
`EPN_PARAMETER_HI` and `EPN_PARAMETER_LO` are what the history says, and `EPN_VALUE_HI` is
set only together with both parameter flags. -/
def epn_agrees (s : epn_flags) (h : List (Nat × Nat)) : Prop :=
  s.nrpn = epn_family_since h ∧ s.parameter_hi = epn_hi_since h
  ∧ s.parameter_lo = epn_lo_since h
  ∧ (s.value_hi = true → s.parameter_hi = true ∧ s.parameter_lo = true)

/-- The value of the most recent CC 101 or 99 in a history (most recent first), 0 when
there is none. -/
def epn_last_hi : List (Nat × Nat) → Nat
  | [] => 0
  | (k, v) :: older => if k = 101 ∨ k = 99 then v else epn_last_hi older

/-- The value of the most recent CC 100 or 98 in a history (most recent first), 0 when
there is none. -/
def epn_last_lo : List (Nat × Nat) → Nat
  | [] => 0
  | (k, v) :: older => if k = 100 ∨ k = 98 then v else epn_last_lo older

/-- The register `epn_control[chan]` agrees with a history of CCs: its low 7 bits are those
of the value last written by a CC 100 or 98, the bits above them are the value last
written by a CC 101 or 99 (as far as it fits the 16-bit register). -/
def epn_control_agrees (c : Nat) (h : List (Nat × Nat)) : Prop :=
  c < 65536 ∧ c % 128 = epn_last_lo h % 128 ∧ c / 128 = epn_last_hi h % 512

/-- A MIDI command of a command section as the specification words it: a status byte
(bit 7 set) and one data byte (aftertouch, program) or two data bytes (every other type). -/
structure midi_command where
  status : Nat
  d1 : Nat
  d2 : Nat := 0
  deriving DecidableEq, Repr

/-- Whether the command has one data byte. -/
def midi_command.single (c : midi_command) : Bool :=
  decide (c.status &&& 0xF0 = aftertouch ∨ c.status &&& 0xF0 = program)

/-- The bytes of a command in a section. -/
def midi_command.bytes (c : midi_command) : List Nat :=
  if c.single then [c.status, c.d1] else [c.status, c.d1, c.d2]

/-- A variable-length delta-time as the specification words it: bytes with bit 7 set, then
one terminating byte (bit 7 clear). -/
structure delta_time where
  more : List Nat := []
  last : Nat := 0
  deriving DecidableEq, Repr

/-- The bytes of a delta-time in a section. -/
def delta_time.bytes (d : delta_time) : List Nat := d.more ++ [d.last]

/-- A call that changes the peer registry: a call of `rtpmidi_push_peer` with its
arguments (and the outcome of `realloc`), or a leave frame handled by
`rtpmidi_handle_applemidi` with its arguments. -/
inductive registry_call where
  | push (alloc_ok : Bool) (sock_addr : List Nat) (sock_len : Nat) (learned connected : Bool)
      (invite_reference : Int)
  | leave (B : Nat) (name : List Nat) (on_control : Bool) (frame : List Nat) (bytes : Nat)
      (peer : List Nat) (peer_len now : Nat) (fresh : List Nat) (alloc_ok : Bool)

/-- The instance after a call that changes the registry. -/
def registry_step (data : rtpmidi_instance_data) : registry_call → rtpmidi_instance_data
  | .push a sock len l c i => (rtpmidi_push_peer a data sock len l c i).2
  | .leave B name on_control frame bytes peer peer_len now fresh a =>
    (rtpmidi_handle_applemidi B data name on_control frame bytes peer peer_len now fresh a).data

/-- The instance after a sequence of calls that change the registry. -/
def registry_run (data : rtpmidi_instance_data) : List registry_call → rtpmidi_instance_data
  | [] => data
  | c :: rest => registry_run (registry_step data c) rest

/-- What is assumed of a call: the socket address handed to `rtpmidi_push_peer` has its
`sock_len` bytes, and the frame of a leave is a leave frame of protocol version 2. -/
def registry_call.ok : registry_call → Bool
  | .push _ sock len _ _ _ => decide (len ≤ sock.length)
  | .leave _ _ _ frame _ _ _ _ _ _ =>
    decide (be16toh_at frame 2 = apple_leave) && decide (be32toh_at frame 4 = 2)

/-- No two active entries of a registry hold the same socket address with the same
length. -/
def registry_unique (l : List rtpmidi_peer) : Prop :=
  ∀ (i j : Nat) (x y : rtpmidi_peer), i < j → l[i]? = some x → l[j]? = some y →
    x.active = true → y.active = true →
    ¬ (x.dest_len = y.dest_len ∧ x.dest.take x.dest_len = y.dest.take y.dest_len)

/-- The function `isspace` of the C locale on a byte. -/
def isspace (c : Nat) : Bool := decide (c = 0x20) || (decide (0x09 ≤ c) && decide (c ≤ 0x0D))

/-- The function `isdigit` on a byte. -/
def isdigit (c : Nat) : Bool := decide (0x30 ≤ c) && decide (c ≤ 0x39)

/-- The function `strtoul(s, &end, 10)` of the C library on the bytes of a string: white
space is skipped, a sign is taken, the decimal digits are converted; the result is
`ULONG_MAX` (64 bit) when the value does not fit, the negation modulo `2^64` after a minus
sign, and 0 with `end = s` when there is no digit.  The pair is the value and the bytes
from `end` on. -/
def strtoul (s : List Nat) : Nat × List Nat :=
  let t := s.dropWhile isspace
  let neg := decide (t.head? = some 0x2D)
  let u := if t.head? = some 0x2D ∨ t.head? = some 0x2B then t.drop 1 else t
  let digits := u.takeWhile isdigit
  if digits = [] then (0, s)
  else
    let v := digits.foldl (fun a c => 10 * a + (c - 0x30)) 0
    ((if v ≥ 2 ^ 64 then 2 ^ 64 - 1 else if neg then (2 ^ 64 - v) % 2 ^ 64 else v),
      u.dropWhile isdigit)

/-- The function `rtpmidi_channel` on the bytes of `spec`: the identifier of the channel
handed to `mm_channel`, `none` when the function returns `NULL`.  The fields of the
identifier have 8, 8 and 16 bits; `mm_channel` is taken to provide the channel. -/
def rtpmidi_channel (spec : List Nat) : Option rtpmidi_channel_ident :=
  if spec.take 2 = [0x63, 0x68] then
    let next_token :=
      if spec.take 7 = [0x63, 0x68, 0x61, 0x6E, 0x6E, 0x65, 0x6C] then spec.drop 7
      else spec.drop 2
    let r := strtoul next_token
    let channel := r.1 % 256
    if channel > 15 then none
    else if r.2.head? ≠ some 0x2E then none
    else
      let next_token := r.2.drop 1
      let sel : Option (Nat × List Nat) :=
        if next_token.take 2 = [0x63, 0x63] then some (cc, next_token.drop 2)
        else if next_token.take 8 = [0x6E, 0x6F, 0x74, 0x65, 0x5F, 0x6F, 0x66, 0x66] then
          some (note_off, next_token.drop 8)
        else if next_token.take 4 = [0x6E, 0x6F, 0x74, 0x65] then some (note, next_token.drop 4)
        else if next_token.take 3 = [0x72, 0x70, 0x6E] then some (rpn, next_token.drop 3)
        else if next_token.take 4 = [0x6E, 0x72, 0x70, 0x6E] then some (nrpn, next_token.drop 4)
        else if next_token.take 8 = [0x70, 0x72, 0x65, 0x73, 0x73, 0x75, 0x72, 0x65] then
          some (pressure, next_token.drop 8)
        else if next_token.take 5 = [0x70, 0x69, 0x74, 0x63, 0x68] then
          some (pitchbend, next_token)
        else if next_token.take 10
            = [0x61, 0x66, 0x74, 0x65, 0x72, 0x74, 0x6F, 0x75, 0x63, 0x68] then
          some (aftertouch, next_token)
        else if next_token.take 7 = [0x70, 0x72, 0x6F, 0x67, 0x72, 0x61, 0x6D] then
          some (program, next_token)
        else none
      match sel with
      | none => none
      | some (type, next_token) =>
        let control := (strtoul next_token).1 % 65536
        if type % 256 = 0 ∧ channel = 0 ∧ control = 0 then none
        else some { type := type % 256, channel := channel, control := control }
  else none

/-- The value of a string of decimal digits. -/
def decimal_value (ds : List Nat) : Nat := ds.foldl (fun a d => 10 * a + d) 0

/-- The bytes of a string of decimal digits (ASCII). -/
def decimal_text (ds : List Nat) : List Nat := ds.map (fun d => d + 0x30)

/-- The type names of a channel specification with the type each one selects and whether
a control number follows the name. -/
def channel_types : List (List Nat × Nat × Bool) :=
  [([0x63, 0x63], cc, true),
   ([0x6E, 0x6F, 0x74, 0x65, 0x5F, 0x6F, 0x66, 0x66], note_off, true),
   ([0x6E, 0x6F, 0x74, 0x65], note, true),
   ([0x72, 0x70, 0x6E], rpn, true),
   ([0x6E, 0x72, 0x70, 0x6E], nrpn, true),
   ([0x70, 0x72, 0x65, 0x73, 0x73, 0x75, 0x72, 0x65], pressure, true),
   ([0x70, 0x69, 0x74, 0x63, 0x68], pitchbend, false),
   ([0x61, 0x66, 0x74, 0x65, 0x72, 0x74, 0x6F, 0x75, 0x63, 0x68], aftertouch, false),
   ([0x70, 0x72, 0x6F, 0x67, 0x72, 0x61, 0x6D], program, false)]

/-- The result of `strtoul` for a decimal number of value `v`. -/
def strtoul_value (v : Nat) : Nat := if v ≥ 2 ^ 64 then 2 ^ 64 - 1 else v

/-- The two spellings of the channel word of a specification: `channel` and `ch`. -/
def channel_word (long : Bool) : List Nat :=
  if long then [0x63, 0x68, 0x61, 0x6E, 0x6E, 0x65, 0x6C] else [0x63, 0x68]

/-- The bytes of the specification `ch<N>.<type><M>` (or `channel<N>.<type><M>`) with the
digits `ds` of N, the type name `name` and the digits `ms` of M. -/
def channel_spec (long : Bool) (ds name ms : List Nat) : List Nat :=
  channel_word long ++ (decimal_text ds ++ 0x2E :: (name ++ decimal_text ms))

/-- Modelled from the spec: `RTPMIDI_MDNS_DOMAIN`, the text `_apple-midi._udp.local.`, a
constant of the absent `rtpmidi.h`. -/
def RTPMIDI_MDNS_DOMAIN : List Nat :=
  [0x5F, 0x61, 0x70, 0x70, 0x6C, 0x65, 0x2D, 0x6D, 0x69, 0x64, 0x69, 0x2E,
   0x5F, 0x75, 0x64, 0x70, 0x2E, 0x6C, 0x6F, 0x63, 0x61, 0x6C, 0x2E]

/-- Modelled from the spec: `RTPMIDI_DNSSD_DOMAIN`, the text
`_services._dns-sd._udp.local.`, a constant of the absent `rtpmidi.h`. -/
def RTPMIDI_DNSSD_DOMAIN : List Nat :=
  [0x5F, 0x73, 0x65, 0x72, 0x76, 0x69, 0x63, 0x65, 0x73, 0x2E,
   0x5F, 0x64, 0x6E, 0x73, 0x2D, 0x73, 0x64, 0x2E,
   0x5F, 0x75, 0x64, 0x70, 0x2E, 0x6C, 0x6F, 0x63, 0x61, 0x6C, 0x2E]

/-- The text `.local` of the format string `%s.local`. -/
def dot_local : List Nat := [0x2E, 0x6C, 0x6F, 0x63, 0x61, 0x6C]

/-- Modelled from the spec: `sizeof(dns_header)`, the 12 bytes
`id(16), flags[2], questions(16), answers(16), servers(16), additional(16)` of the DNS
message header. -/
def sizeof_dns_header : Nat := 12

/-- Modelled from the spec: `sizeof(dns_rr)`, the 10 bytes
`rtype(16), rclass(16), ttl(32), data(16)` that follow the owner name of a record. -/
def sizeof_dns_rr : Nat := 10

/-- Modelled from the spec: `sizeof(dns_rr_srv)`, the 6 bytes
`priority(16), weight(16), port(16)` at the start of the data of an SRV record. -/
def sizeof_dns_rr_srv : Nat := 6

/-- The constant `AF_INET` of the socket interface. -/
def AF_INET : Nat := 2

/-- Modelled from the spec: one element of `cfg.address`, the address family and the 16
bytes of the array `addr` (an IPv4 address uses the first 4). -/
structure rtpmidi_addr where
  family : Nat := 0
  addr : List Nat := []
  deriving DecidableEq, Repr

/-- The call `snprintf(frame + pos, size, ...)` for the formatted text `text`: at most
`size - 1` bytes of the text and a NUL are stored. -/
def snprintf (frame : List Nat) (pos size : Nat) (text : List Nat) : List Nat :=
  if size = 0 then frame else poke_bytes frame pos (text.take (size - 1) ++ [0])

/-- The bytes of a string after the token loop of `dns_encode_name` has run over it:
`strtok_r` stores a NUL over the dot that ends each token. -/
def strtok_r_source : Nat → List Nat → List Nat
  | 0, s => s
  | fuel + 1, s =>
    match s.dropWhile (fun c => c == 0x2E) with
    | [] => s
    | c :: r =>
      match (c :: r).dropWhile (fun c => c != 0x2E) with
      | [] => s
      | _ :: save =>
        s.takeWhile (fun c => c == 0x2E) ++ ((c :: r).takeWhile (fun c => c != 0x2E)
          ++ 0 :: strtok_r_source fuel save)

/-- The call `dns_encode_name((char*) frame + p, &name)` on a name that lies in the frame:
the encoded name and the frame afterwards (the token loop writes into the string). -/
def dns_encode_name_at (frame : List Nat) (p : Nat) : dns_name × List Nat :=
  let name := c_string frame p
  (dns_encode_name name, poke_bytes frame p (strtok_r_source (name.length + 1) name))

/-- The bytes of a `dns_rr` with the given fields: `rtype`, `rclass`, `ttl` and `data` in
network byte order. -/
def dns_rr_bytes (type cls ttl len : Nat) : List Nat :=
  htobe16 type ++ htobe16 cls ++ htobe32 ttl ++ htobe16 len

/-- The function `dns_push_rr` with `buffer = frame + pos`; `name` is the index of the
name in the frame, `none` for `NULL`.  The result is the frame, the return value and the
index of the record header `*out`; `none` stands for the return value -1. -/
def dns_push_rr (frame : List Nat) (pos length : Nat) (name : Option Nat)
    (type cls ttl len : Nat) : Option (List Nat × Nat × Nat) :=
  let enc : dns_name × List Nat :=
    match name with
    | some p => dns_encode_name_at frame p
    | none => ({ name := [], length := 0 }, frame)
  if enc.1.length + sizeof_dns_rr > length then none
  else
    let frame := if name.isSome then poke_bytes enc.2 pos (enc.1.name.take enc.1.length) else enc.2
    let offset := if name.isSome then enc.1.length else 0
    let frame := poke_bytes frame (pos + offset)
      (dns_rr_bytes (type % 65536) (cls % 65536) (ttl % 2 ^ 32) (len % 65536))
    some (frame, offset + sizeof_dns_rr, pos + offset)

/-- The number of address bytes of a record: 4 for `AF_INET`, 16 otherwise. -/
def rtpmidi_addr.bytes (a : rtpmidi_addr) : Nat := if a.family = AF_INET then 4 else 16

/-- The record type of an address: 1 (A) for `AF_INET`, 28 (AAAA) otherwise. -/
def rtpmidi_addr.rtype (a : rtpmidi_addr) : Nat := if a.family = AF_INET then 1 else 28

/-- The loop of `rtpmidi_mdns_announce` over `cfg.address[1 ..]`: frame and offset
afterwards, `none` when `dns_push_rr` fails. -/
def rtpmidi_mdns_announce_loop (B host_offset : Nat) :
    List rtpmidi_addr → List Nat → Nat → Option (List Nat × Nat)
  | [], frame, offset => some (frame, offset)
  | a :: rest, frame, offset =>
    let frame := poke frame offset ((0xC0 ||| (host_offset >>> 8)) % 256)
    let frame := poke frame (offset + 1) (host_offset &&& 0xFF)
    let offset := offset + 2
    match dns_push_rr frame offset (size_sub B offset) (some offset) a.rtype 1 120 a.bytes with
    | none => none
    | some (frame, bytes, _) =>
      let offset := offset + bytes
      rtpmidi_mdns_announce_loop B host_offset rest
        (poke_bytes frame offset (a.addr.take a.bytes)) (offset + a.bytes)

/-- The function `rtpmidi_mdns_announce` for an instance named `inst_name` with
`data->control_port = control_port`, with `cfg.mdns_name` and the list `cfg.address`;
`B` is `RTPMIDI_PACKET_BUFFER`.  The result is the return value and the datagram handed
to `rtpmidi_mdns_broadcast`; `none` stands for the read of `cfg.address[0]` of an empty
list. -/
def rtpmidi_mdns_announce (B : Nat) (inst_name mdns_name : List Nat)
    (address : List rtpmidi_addr) (control_port : Nat) : Option (Nat × Option (List Nat)) :=
  let frame := List.replicate B 0
  let frame := poke_bytes frame 0
    ([0, 0, 0x84, 0, 0, 0] ++ htobe16 4 ++ [0, 0] ++ htobe16 (address.length % 65536))
  let offset := sizeof_dns_header
  let frame := snprintf frame offset (size_sub B offset)
    (inst_name ++ 0x2E :: RTPMIDI_MDNS_DOMAIN)
  match dns_push_rr frame offset (size_sub B offset) (some offset) 33 1 120 0 with
  | none => some (1, none)
  | some (frame, bytes, rr) =>
    let offset := offset + bytes
    let frame := poke_bytes frame offset ([0, 0, 0, 0] ++ htobe16 (control_port % 65536))
    let offset := offset + sizeof_dns_rr_srv
    let frame := snprintf frame offset (size_sub B offset) (mdns_name ++ dot_local)
    let enc := dns_encode_name_at frame offset
    let frame := poke_bytes enc.2 offset (enc.1.name.take enc.1.length)
    let offset := offset + enc.1.length
    let frame := poke_bytes frame (rr + 8) (htobe16 ((sizeof_dns_rr_srv + enc.1.length) % 65536))
    let frame := poke_bytes frame offset [0xC0, sizeof_dns_header]
    let offset := offset + 2
    match dns_push_rr frame offset (size_sub B offset) none 16 1 4500 1 with
    | none => some (1, none)
    | some (frame, bytes, _) =>
      let offset := offset + bytes
      let frame := poke frame offset 0
      let offset := offset + 1
      let frame := snprintf frame offset (size_sub B offset) RTPMIDI_DNSSD_DOMAIN
      match dns_push_rr frame offset (size_sub B offset) (some offset) 12 1 4500 2 with
      | none => some (1, none)
      | some (frame, bytes, _) =>
        let offset := offset + bytes
        let frame := poke frame offset 0xC0
        let frame := poke frame (offset + 1)
          ((sizeof_dns_header + peek frame sizeof_dns_header + 1) % 256)
        let offset := offset + 2
        let frame := poke frame offset 0xC0
        let frame := poke frame (offset + 1)
          ((sizeof_dns_header + peek frame sizeof_dns_header + 1) % 256)
        let offset := offset + 2
        match dns_push_rr frame offset (size_sub B offset) none 12 1 4500 2 with
        | none => some (1, none)
        | some (frame, bytes, _) =>
          let offset := offset + bytes
          let frame := poke_bytes frame offset [0xC0, sizeof_dns_header]
          let offset := offset + 2
          let host_offset := offset
          let frame := snprintf frame offset (size_sub B offset) (mdns_name ++ dot_local)
          match address with
          | [] => none
          | a :: rest =>
            match dns_push_rr frame offset (size_sub B offset) (some offset)
                a.rtype 1 120 a.bytes with
            | none => some (1, none)
            | some (frame, bytes, _) =>
              let offset := offset + bytes
              let frame := poke_bytes frame offset (a.addr.take a.bytes)
              let offset := offset + a.bytes
              match rtpmidi_mdns_announce_loop B host_offset rest frame offset with
              | none => some (1, none)
              | some (frame, offset) => some (0, some (frame.take offset))

/-- A frame of `B` bytes whose first bytes are `w` and whose other bytes are zero. -/
def frame_at (B : Nat) (w : List Nat) : List Nat := w ++ List.replicate (B - w.length) 0

/-- Spec-side: one of the later address records as the code builds it, the pointer to the
host name, the bytes `gap`, the record header and the address. -/
def announce_address_record (host_offset : Nat) (gap : List Nat) (a : rtpmidi_addr) :
    List Nat :=
  [(0xC0 ||| (host_offset >>> 8)) % 256, host_offset &&& 0xFF]
    ++ (gap ++ (dns_rr_bytes a.rtype 1 120 a.bytes ++ a.addr.take a.bytes))

/-- Spec-side: the SRV record of an announce packet: owner `s._apple-midi._udp.local.`, type
33, class 1, TTL 120, priority 0, weight 0, port `P`, target `h.local`. -/
def announce_srv (s h : List Nat) (P : Nat) : List Nat :=
  (dns_encode_name (s ++ 0x2E :: RTPMIDI_MDNS_DOMAIN)).name
    ++ dns_rr_bytes 33 1 120 (6 + (dns_encode_name (h ++ dot_local)).length)
    ++ [0, 0, 0, 0] ++ htobe16 P ++ (dns_encode_name (h ++ dot_local)).name

/-- Spec-side: the TXT record: owner a pointer to offset 12, type 16, class 1, TTL 4500, one
byte of data, `00`. -/
def announce_txt : List Nat := [0xC0, 12] ++ dns_rr_bytes 16 1 4500 1 ++ [0]

/-- Spec-side: the PTR record of the service list: owner `_services._dns-sd._udp.local.`,
type 12, class 1, TTL 4500, data a pointer to the byte behind the first label of the SRV
owner. -/
def announce_ptr_dnssd (s : List Nat) : List Nat :=
  (dns_encode_name RTPMIDI_DNSSD_DOMAIN).name ++ dns_rr_bytes 12 1 4500 2
    ++ [0xC0, 13 + s.length]

/-- Spec-side: the PTR record of the service: owner the same pointer, type 12, class 1, TTL
4500, data a pointer to offset 12. -/
def announce_ptr_service (s : List Nat) : List Nat :=
  [0xC0, 13 + s.length] ++ dns_rr_bytes 12 1 4500 2 ++ [0xC0, 12]

/-- Spec-side: the four answer records of an announce packet for the instance name `s`, the
host name `h` and the control port `P`. -/
def announce_answers (s h : List Nat) (P : Nat) : List Nat :=
  announce_srv s h P ++ announce_txt ++ announce_ptr_dnssd s ++ announce_ptr_service s

/-- Spec-side: the additional records of an announce packet: the first address record owned
by the encoding of `h.local`, the others by a pointer to it, with `gap` between that pointer
and the record header. -/
def announce_additional (h : List Nat) (host_offset : Nat) (gap : List Nat) :
    List rtpmidi_addr → List Nat
  | [] => []
  | a :: rest =>
    ((dns_encode_name (h ++ dot_local)).name ++ dns_rr_bytes a.rtype 1 120 a.bytes
        ++ a.addr.take a.bytes)
      ++ rest.flatMap (announce_address_record host_offset gap)

/-- Spec-side: the announce packet: the header with 4 answers and one additional record per
address, the four answers, and the address records. -/
def announce_packet (s h : List Nat) (P : Nat) (address : List rtpmidi_addr)
    (gap : List Nat) : List Nat :=
  [0, 0, 0x84, 0, 0, 0, 0, 4, 0, 0] ++ htobe16 address.length ++ announce_answers s h P
    ++ announce_additional h (12 + (announce_answers s h P).length) gap address

/-- Modelled from the spec: `RTPMIDI_ANNOUNCE_INTERVAL`, 90 seconds in milliseconds, a
constant of the absent `rtpmidi.h`. -/
def RTPMIDI_ANNOUNCE_INTERVAL : Nat := 90000

/-- The bytes of the `apple_sync_frame` that `rtpmidi_service` prepares and completes with
`sync.ssrc = htobe32(data->ssrc)`: `res1 = 0xFFFF`, the sync command, the ssrc, `count = 0`,
three reserved bytes, `timestamp[0] = htobe64(mm_timestamp() * 10)` and two zero
timestamps. -/
def apple_sync_frame (ssrc now : Nat) : List Nat :=
  [0xFF, 0xFF] ++ htobe16 apple_sync ++ htobe32 ssrc ++ [0] ++ [0, 0, 0]
    ++ htobe64 ((now * 10) % 2 ^ 64) ++ List.replicate 16 0

/-- The body of the peer loop of `rtpmidi_service` for the instance with index `u` and the
peer index `p`: the datagrams it sends.  `now` is the value of `mm_timestamp()`, `fresh`
the random token of an invitation.  The sync frame is addressed with `data->peer[u]`; an
index outside the registry reads a zero-filled entry. -/
def rtpmidi_service_peer (now : Nat) (fresh : List Nat) (name : List Nat)
    (data : rtpmidi_instance_data) (u p : Nat) : List datagram :=
  let e := data.peer.getD p {}
  if e.active && e.connected then
    let control_peer := memcpy (List.replicate 128 0) (data.peer.getD u {}).dest 128
    let control_peer := sockaddr_prev_port control_peer
    [{ control := true, dest := control_peer, dest_len := (data.peer.getD u {}).dest_len,
       payload := apple_sync_frame data.ssrc now }]
  else if e.active && !e.learned && decide ((now / 1000) % 10 = 0) then
    [rtpmidi_peer_applecommand data name p true apple_invite [0, 0, 0, 0] fresh]
  else []

/-- What `rtpmidi_service` leaves behind: the instances, the datagrams sent, each with the
indices `u` and `p` of the loops that sent it, and the packets broadcast by
`rtpmidi_mdns_announce`. -/
structure service_result where
  insts : List mm_instance := []
  sent : List (Nat × Nat × datagram) := []
  announced : List (List Nat) := []
  deriving DecidableEq, Repr

/-- The instance loop of `rtpmidi_service` from index `u` on.  `mdns` tells whether
`cfg.mdns_fd` or `cfg.mdns4_fd` is open; `B`, `mdns_name` and `address` are what
`rtpmidi_mdns_announce` uses; `fresh u p` is the random token drawn for an invitation. -/
def rtpmidi_service_loop (now : Nat) (mdns : Bool) (B : Nat) (mdns_name : List Nat)
    (address : List rtpmidi_addr) (fresh : Nat → Nat → List Nat) :
    Nat → List mm_instance → service_result
  | _, [] => {}
  | u, inst :: rest =>
    let data := inst.impl
    let r := rtpmidi_service_loop now mdns B mdns_name address fresh (u + 1) rest
    if data.mode = .apple then
      let announce : Option (List Nat) :=
        if mdns && (decide (data.last_announce = 0)
            || decide (size_sub now data.last_announce > RTPMIDI_ANNOUNCE_INTERVAL)) then
          match rtpmidi_mdns_announce B inst.name mdns_name address data.control_port with
          | some (0, some packet) => some packet
          | _ => none
        else none
      let data := if announce.isSome then { data with last_announce := now } else data
      let sent := (List.range data.peer.length).flatMap
        (fun p => (rtpmidi_service_peer now (fresh u p) inst.name data u p).map
          (fun d => (u, p, d)))
      { insts := { inst with impl := data } :: r.insts,
        sent := sent ++ r.sent,
        announced := announce.toList ++ r.announced }
    else { r with insts := inst :: r.insts }

/-- The function `rtpmidi_service` on the list of the instances of the backend. -/
def rtpmidi_service (now : Nat) (mdns : Bool) (B : Nat) (mdns_name : List Nat)
    (address : List rtpmidi_addr) (fresh : Nat → Nat → List Nat)
    (insts : List mm_instance) : service_result :=
  rtpmidi_service_loop now mdns B mdns_name address fresh 0 insts

/-! ## Lemmas on the memory model -/

theorem poke_zero (m : List Nat) (b : Nat) : poke m 0 b = b :: m.tail := by
  cases m <;> rfl

theorem poke_succ (m : List Nat) (j b : Nat) :
    poke m (j + 1) b = m.headD 0 :: poke m.tail j b := by
  cases m <;> rfl

theorem poke_append (pre m : List Nat) (j b : Nat) :
    poke (pre ++ m) (pre.length + j) b = pre ++ poke m j b := by
  induction pre with
  | nil => simp
  | cons x xs ih =>
    have : (x :: xs).length + j = (xs.length + j) + 1 := by simp; omega
    rw [this]
    simp [poke, ih]

theorem peek_append (pre m : List Nat) (j : Nat) :
    peek (pre ++ m) (pre.length + j) = peek m j := by
  induction pre with
  | nil => simp
  | cons x xs ih =>
    have : (x :: xs).length + j = (xs.length + j) + 1 := by simp; omega
    rw [this]
    simpa [peek] using ih

theorem poke_length_le (m : List Nat) (i b : Nat) : m.length ≤ (poke m i b).length := by
  induction m generalizing i with
  | nil => simp
  | cons x xs ih => cases i <;> simp [poke, ih]

theorem midi_bytes_length_pos (t c k v : Nat) : 3 ≤ (midi_bytes t c k v).length := by
  unfold midi_bytes; split_ifs <;> simp

theorem rtpmidi_push_midi_full (frame : List Nat) (payload bl t c k v : Nat) (h : bl < 4) :
    rtpmidi_push_midi frame payload bl t c k v = (frame, 0) := by
  simp [rtpmidi_push_midi, h]

theorem poke_append_zero (pre m : List Nat) (b : Nat) :
    poke (pre ++ m) pre.length b = pre ++ poke m 0 b := poke_append pre m 0 b

theorem rtpmidi_push_midi_bytes (pre rest : List Nat) (bl t c k v : Nat) (h : 4 ≤ bl) :
    rtpmidi_push_midi (pre ++ rest) pre.length bl t c k v
      = (pre ++ (midi_bytes t c k v ++ push_rest t v rest), (midi_bytes t c k v).length) := by
  have h' : ¬ bl < 4 := by omega
  unfold rtpmidi_push_midi midi_bytes push_rest
  simp only [h', if_false]
  split_ifs <;> simp only [poke_append_zero, poke_append, peek_append] <;>
    simp_all [poke_zero, poke_succ, peek]

theorem rtpmidi_push_midi_step (pre acc rest : List Nat) (bl t c k v n : Nat) (h : 4 ≤ bl)
    (hn : n = acc.length) :
    rtpmidi_push_midi (pre ++ (acc ++ rest)) (pre.length + n) bl t c k v
      = (pre ++ ((acc ++ midi_bytes t c k v) ++ push_rest t v rest),
          (midi_bytes t c k v).length) := by
  have := rtpmidi_push_midi_bytes (pre ++ acc) rest bl t c k v h
  simp only [List.length_append, List.append_assoc] at this
  subst hn
  simpa [List.append_assoc] using this

theorem midi_bytes_cc (c k v : Nat) :
    midi_bytes cc c k v = [0, (0xB0 ||| c % 256) % 256, k % 256, (v % 65536) &&& 0x7F] := by
  simp [midi_bytes, cc, pitchbend, aftertouch, program]

theorem event_bytes_length_pos (short : Bool) (e : channel_update) :
    3 ≤ (event_bytes short e).length := by
  unfold event_bytes
  have h1 := midi_bytes_length_pos (e.ident.type % 256) (e.ident.channel % 256)
    (e.ident.control % 65536) (double_to_u16 (e.normalised * 16383))
  have h2 := midi_bytes_length_pos (e.ident.type % 256) (e.ident.channel % 256)
    (e.ident.control % 65536) (double_to_u16 (e.normalised * 127))
  by_cases ht : e.ident.type % 256 = rpn ∨ e.ident.type % 256 = nrpn
  · simp only [ht, if_true, List.length_append, midi_bytes_cc, List.length_cons,
      List.length_nil]
    omega
  · simp only [ht, if_false]
    split_ifs <;> assumption

theorem rtpmidi_set_event_full (B : Nat) (short : Bool) (frame : List Nat) (offset : Nat)
    (id : rtpmidi_channel_ident) (v : ℚ) (h : size_sub B offset < 4) :
    rtpmidi_set_event B short frame offset id v = (frame, 0) := by
  unfold rtpmidi_set_event
  simp only [rtpmidi_push_midi_full _ _ _ _ _ _ _ h]
  split_ifs <;> rfl

theorem rtpmidi_set_event_bytes (B : Nat) (short : Bool) (pre rest : List Nat)
    (e : channel_update) (h : 4 ≤ size_sub B pre.length) :
    ∃ rest', rtpmidi_set_event B short (pre ++ rest) pre.length e.ident e.normalised
      = (pre ++ (event_bytes short e ++ rest'), (event_bytes short e).length) := by
  obtain ⟨id, v⟩ := e
  unfold rtpmidi_set_event event_bytes
  simp only []
  by_cases ht : id.type % 256 = rpn ∨ id.type % 256 = nrpn
  · simp only [ht, if_true]
    rw [rtpmidi_push_midi_bytes _ _ _ _ _ _ _ h]
    simp only []
    rw [rtpmidi_push_midi_step _ _ _ _ _ _ _ _ _ h rfl]
    simp only []
    rw [rtpmidi_push_midi_step _ _ _ _ _ _ _ _ _ h (by simp only [List.length_append])]
    simp only []
    rw [rtpmidi_push_midi_step _ _ _ _ _ _ _ _ _ h (by simp only [List.length_append])]
    simp only []
    cases short
    · simp only [Bool.false_eq_true, not_false_eq_true, if_true, if_false]
      rw [rtpmidi_push_midi_step _ _ _ _ _ _ _ _ _ h (by simp only [List.length_append])]
      simp only []
      rw [rtpmidi_push_midi_step _ _ _ _ _ _ _ _ _ h (by simp only [List.length_append])]
      refine ⟨push_rest cc 127 (push_rest cc 127
        (push_rest cc (double_to_u16 (v * 16383) &&& 127)
          (push_rest cc (double_to_u16 (v * 16383) >>> 7 &&& 127)
            (push_rest cc (id.control % 65536 &&& 127)
              (push_rest cc ((id.control % 65536) >>> 7 &&& 127) rest))))), ?_⟩
      simp only [List.append_assoc, List.length_append, Nat.add_assoc]
    · simp only [not_true_eq_false, if_false, if_true]
      refine ⟨(push_rest cc (double_to_u16 (v * 16383) &&& 127)
          (push_rest cc (double_to_u16 (v * 16383) >>> 7 &&& 127)
            (push_rest cc (id.control % 65536 &&& 127)
              (push_rest cc ((id.control % 65536) >>> 7 &&& 127) rest)))), ?_⟩
      simp only [List.append_assoc, List.length_append, Nat.add_assoc, List.append_nil,
        List.nil_append, List.length_nil, Nat.add_zero]
  · simp only [ht, if_false]
    split_ifs
    · exact ⟨_, rtpmidi_push_midi_bytes _ _ _ _ _ _ _ h⟩
    · exact ⟨_, rtpmidi_push_midi_bytes _ _ _ _ _ _ _ h⟩

theorem rtpmidi_set_loop_bytes (B : Nat) (short : Bool) (ev : List channel_update) :
    ∀ pre rest : List Nat, ∃ n rest', n ≤ ev.length ∧
      rtpmidi_set_loop B short ev (pre ++ rest) pre.length
        = (pre ++ (batch_bytes short ev n ++ rest'),
            pre.length + (batch_bytes short ev n).length, n) := by
  induction ev with
  | nil =>
    intro pre rest
    exact ⟨0, rest, le_refl _, by simp [rtpmidi_set_loop, batch_bytes]⟩
  | cons e es ih =>
    intro pre rest
    by_cases h : size_sub B pre.length < 4
    · refine ⟨0, rest, Nat.zero_le _, ?_⟩
      simp [rtpmidi_set_loop, batch_bytes, rtpmidi_set_event_full _ _ _ _ _ _ h]
    · obtain ⟨r1, h1⟩ := rtpmidi_set_event_bytes B short pre rest e (by omega)
      have hpos := event_bytes_length_pos short e
      have hne : ¬ (event_bytes short e).length = 0 := by omega
      obtain ⟨n, r2, hn, h2⟩ := ih (pre ++ event_bytes short e) r1
      refine ⟨n + 1, r2, by simpa using hn, ?_⟩
      simp only [List.length_append, List.append_assoc] at h2
      simp only [rtpmidi_set_loop, h1, hne, if_false, h2, batch_bytes, List.take_succ_cons,
        List.flatMap_cons, List.append_assoc, List.length_append, Nat.add_assoc]

theorem rtpmidi_set_header_eq (B : Nat) (data : rtpmidi_instance_data) (now : Nat)
    (hB : 14 ≤ B) :
    rtpmidi_set_header B data now =
      ([0x80, (if data.mode = rtpmidi_mode.apple then 0 else 0x80) ||| 0x61]
        ++ htobe16 (data.sequence % 65536) ++ htobe32 ((now * 10) % 4294967296)
        ++ htobe32 (data.ssrc % 4294967296) ++ [0xA0, 0]) ++ List.replicate (B - 14) 0 := by
  obtain ⟨k, rfl⟩ : ∃ k, B = k + 14 := ⟨B - 14, by omega⟩
  simp only [Nat.add_sub_cancel]
  rfl

theorem rtp_header_bytes_length (data : rtpmidi_instance_data) (now : Nat) :
    (rtp_header_bytes data now).length = 12 := rfl

theorem size_sub_add_left (a b : Nat) : size_sub (a + b) a = b := by
  simp [size_sub]

/-- The datagram of `rtpmidi_set`: RTP header, two-byte command header carrying the
12-bit section length, and the bytes of the events that were serialised. -/
theorem rtpmidi_set_frame (B : Nat) (data : rtpmidi_instance_data) (now : Nat)
    (ev : List channel_update) (hB : 14 ≤ B) :
    (rtpmidi_set B data now ev).serialised ≤ ev.length ∧
    (rtpmidi_set B data now ev).offset
      = 14 + (batch_bytes data.epn_tx_short ev (rtpmidi_set B data now ev).serialised).length ∧
    (rtpmidi_set B data now ev).frame.take (rtpmidi_set B data now ev).offset
      = rtp_header_bytes data now
        ++ [0xA0 ||| (((batch_bytes data.epn_tx_short ev
                (rtpmidi_set B data now ev).serialised).length &&& 0x0F00) >>> 8) % 256,
            (batch_bytes data.epn_tx_short ev
                (rtpmidi_set B data now ev).serialised).length &&& 0xFF]
        ++ batch_bytes data.epn_tx_short ev (rtpmidi_set B data now ev).serialised := by
  obtain ⟨n, rest', hn, hl⟩ := rtpmidi_set_loop_bytes B data.epn_tx_short ev
    (rtp_header_bytes data now ++ [0xA0, 0]) (List.replicate (B - 14) 0)
  have hh : rtpmidi_set_header B data now
      = (rtp_header_bytes data now ++ [0xA0, 0]) ++ List.replicate (B - 14) 0 := by
    rw [rtpmidi_set_header_eq B data now hB]; rfl
  have hlen : (rtp_header_bytes data now ++ [0xA0, 0]).length = 14 := rfl
  rw [hlen] at hl
  have hloop : rtpmidi_set_loop B data.epn_tx_short ev (rtpmidi_set_header B data now)
      (sizeof_rtpmidi_header + sizeof_rtpmidi_command_header)
      = ((rtp_header_bytes data now ++ [0xA0, 0])
          ++ (batch_bytes data.epn_tx_short ev n ++ rest'),
        14 + (batch_bytes data.epn_tx_short ev n).length, n) := by
    rw [hh]; exact hl
  have hser : (rtpmidi_set B data now ev).serialised = n := by
    simp only [rtpmidi_set, hloop]
  have hoff : (rtpmidi_set B data now ev).offset
      = 14 + (batch_bytes data.epn_tx_short ev n).length := by
    simp only [rtpmidi_set, hloop]
  have hfr : (rtpmidi_set B data now ev).frame
      = (rtp_header_bytes data now
          ++ [0xA0 ||| (((batch_bytes data.epn_tx_short ev n).length &&& 0x0F00) >>> 8) % 256,
              (batch_bytes data.epn_tx_short ev n).length &&& 0xFF]
          ++ batch_bytes data.epn_tx_short ev n) ++ rest' := by
    simp only [rtpmidi_set, hloop]
    have e14 : sizeof_rtpmidi_header + sizeof_rtpmidi_command_header = 14 := rfl
    rw [e14, size_sub_add_left]
    rfl
  rw [hser, hoff, hfr]
  refine ⟨hn, rfl, ?_⟩
  apply List.take_left'
  simp only [List.length_append, rtp_header_bytes_length, List.length_cons, List.length_nil]

theorem size_sub_ge (B offset : Nat) (h : offset + 4 ≤ B) : 4 ≤ size_sub B offset := by
  unfold size_sub
  split_ifs <;> omega

theorem rtpmidi_set_event_snd_pos (B : Nat) (short : Bool) (frame : List Nat) (offset : Nat)
    (e : channel_update) (h : 4 ≤ size_sub B offset) :
    (rtpmidi_set_event B short frame offset e.ident e.normalised).2
      = (event_bytes short e).length := by
  obtain ⟨id, v⟩ := e
  have key : ∀ (f : List Nat) (p bl t c k w : Nat), 4 ≤ bl →
      (rtpmidi_push_midi f p bl t c k w).2 = (midi_bytes t c k w).length := by
    intro f p bl t c k w hbl
    have h' : ¬ bl < 4 := by omega
    unfold rtpmidi_push_midi midi_bytes
    simp only [h', if_false]
    split_ifs <;> rfl
  unfold rtpmidi_set_event event_bytes
  simp only []
  by_cases ht : id.type % 256 = rpn ∨ id.type % 256 = nrpn
  · simp only [ht, if_true, key _ _ _ _ _ _ _ h]
    cases short <;> simp [Nat.add_assoc]
  · simp only [ht, if_false]
    split_ifs <;> exact key _ _ _ _ _ _ _ h

/-- Every event that starts at least four bytes before the end of the frame, after a
prefix `pre` of the batch, is serialised by the loop of `rtpmidi_set`. -/
theorem rtpmidi_set_loop_reaches (B : Nat) (short : Bool) (e : channel_update)
    (post : List channel_update) :
    ∀ (pre : List channel_update) (frame : List Nat) (offset : Nat),
      offset + (batch_bytes short pre pre.length).length + 4 ≤ B →
      pre.length < (rtpmidi_set_loop B short (pre ++ e :: post) frame offset).2.2 := by
  intro pre
  induction pre with
  | nil =>
    intro frame offset h
    have h4 : 4 ≤ size_sub B offset := size_sub_ge _ _ (by omega)
    have hpos := event_bytes_length_pos short e
    have hs := rtpmidi_set_event_snd_pos B short frame offset e h4
    have hne : ¬ (rtpmidi_set_event B short frame offset e.ident e.normalised).2 = 0 := by
      rw [hs]; omega
    simp [rtpmidi_set_loop, hne]
  | cons p ps ih =>
    intro frame offset h
    have hb : (batch_bytes short (p :: ps) (p :: ps).length).length
        = (event_bytes short p).length + (batch_bytes short ps ps.length).length := by
      simp [batch_bytes]
    have h4 : 4 ≤ size_sub B offset := size_sub_ge _ _ (by omega)
    have hpos := event_bytes_length_pos short p
    have hs := rtpmidi_set_event_snd_pos B short frame offset p h4
    have hne : ¬ (rtpmidi_set_event B short frame offset p.ident p.normalised).2 = 0 := by
      rw [hs]; omega
    have := ih (rtpmidi_set_event B short frame offset p.ident p.normalised).1
      (offset + (rtpmidi_set_event B short frame offset p.ident p.normalised).2)
      (by rw [hs]; omega)
    simp only [List.cons_append, rtpmidi_set_loop, hne, if_false, List.length_cons,
      List.append_eq]
    omega

theorem rtpmidi_set_reaches (B : Nat) (data : rtpmidi_instance_data) (now : Nat)
    (pre : List channel_update) (e : channel_update) (post : List channel_update)
    (h : 14 + (batch_bytes data.epn_tx_short pre pre.length).length + 4 ≤ B) :
    pre.length < (rtpmidi_set B data now (pre ++ e :: post)).serialised :=
  rtpmidi_set_loop_reaches B data.epn_tx_short e post pre _ _ h

theorem rtpmidi_set_datagram (B : Nat) (data : rtpmidi_instance_data) (now : Nat)
    (ev : List channel_update) (hB : 14 ≤ B) :
    (rtpmidi_set B data now ev).datagram
      = rtp_header_bytes data now
        ++ ([0xA0 ||| (((batch_bytes data.epn_tx_short ev
                (rtpmidi_set B data now ev).serialised).length &&& 0x0F00) >>> 8) % 256,
            (batch_bytes data.epn_tx_short ev
                (rtpmidi_set B data now ev).serialised).length &&& 0xFF]
        ++ batch_bytes data.epn_tx_short ev (rtpmidi_set B data now ev).serialised) := by
  have := (rtpmidi_set_frame B data now ev hB).2.2
  simpa [set_result.datagram, List.append_assoc] using this

/-- A batch is serialised completely when its last event starts at least four bytes
before the end of the frame. -/
theorem rtpmidi_set_serialised_all (B : Nat) (data : rtpmidi_instance_data) (now : Nat)
    (pre : List channel_update) (e : channel_update)
    (h : 14 + (batch_bytes data.epn_tx_short pre pre.length).length + 4 ≤ B) :
    (rtpmidi_set B data now (pre ++ [e])).serialised = (pre ++ [e]).length := by
  have h1 := rtpmidi_set_reaches B data now pre e [] h
  have h2 := (rtpmidi_set_frame B data now (pre ++ [e]) (by omega)).1
  simp only [List.length_append, List.length_cons, List.length_nil] at h2 ⊢
  omega

theorem rtpmidi_set_single (B : Nat) (data : rtpmidi_instance_data) (now : Nat)
    (e : channel_update) (hB : 18 ≤ B) :
    (rtpmidi_set B data now [e]).datagram
      = rtp_header_bytes data now
        ++ ([0xA0 ||| (((event_bytes data.epn_tx_short e).length &&& 0x0F00) >>> 8) % 256,
            (event_bytes data.epn_tx_short e).length &&& 0xFF]
        ++ event_bytes data.epn_tx_short e) := by
  have hs := rtpmidi_set_serialised_all B data now [] e
    (by simp only [batch_bytes, List.take_nil, List.flatMap_nil, List.length_nil]; omega)
  simp only [List.nil_append, List.length_cons, List.length_nil] at hs
  rw [rtpmidi_set_datagram B data now [e] (by omega), hs]
  simp [batch_bytes]

theorem double_to_u16_eq (x : ℚ) (n : Nat) (h1 : (n : ℚ) ≤ x) (h2 : x < n + 1)
    (h3 : n < 65536) : double_to_u16 x = n := by
  have hf : ⌊x⌋ = (n : ℤ) := by
    rw [Int.floor_eq_iff]
    exact ⟨by exact_mod_cast h1, by exact_mod_cast h2⟩
  simp [double_to_u16, hf, Nat.mod_eq_of_lt h3]

theorem double_to_u16_half_127 : double_to_u16 (2⁻¹ * 127) = 63 :=
  double_to_u16_eq _ 63 (by norm_num) (by norm_num) (by norm_num)

theorem event_bytes_S1 (short : Bool) :
    event_bytes short ⟨⟨cc, 1, 7⟩, 1 / 2⟩ = [0x00, 0xB1, 0x07, 0x3F] := by
  simp [event_bytes, midi_bytes, cc, rpn, nrpn, pitchbend, aftertouch, program,
    double_to_u16_half_127]
  decide

/-- C4 (as amended). For a direct-mode instance with SSRC `0x11223344` and sequence
counter 0, `rtpmidi_set` called with the single event (channel 1, cc, control 7, value
0.5) builds the 18-byte datagram `80 E1 00 00 <ts32> 11 22 33 44 A0 04 00 B1 07 3F`:
the marker bit is set and the command section has the two-byte header `A0 04`. -/
theorem scenario_S1_datagram (B : Nat) (data : rtpmidi_instance_data) (now : Nat)
    (hB : 18 ≤ B) (hm : data.mode = rtpmidi_mode.direct) (hs : data.ssrc = 0x11223344)
    (hq : data.sequence = 0) :
    (rtpmidi_set B data now [⟨⟨cc, 1, 7⟩, 1 / 2⟩]).datagram
      = [0x80, 0xE1, 0x00, 0x00,
          (now * 10 % 2 ^ 32) / 2 ^ 24 % 256, (now * 10 % 2 ^ 32) / 2 ^ 16 % 256,
          (now * 10 % 2 ^ 32) / 2 ^ 8 % 256, (now * 10 % 2 ^ 32) % 256,
          0x11, 0x22, 0x33, 0x44, 0xA0, 0x04, 0x00, 0xB1, 0x07, 0x3F]
    ∧ (rtpmidi_set B data now [⟨⟨cc, 1, 7⟩, 1 / 2⟩]).datagram.length = 18 := by
  have h := rtpmidi_set_single B data now ⟨⟨cc, 1, 7⟩, 1 / 2⟩ hB
  rw [event_bytes_S1] at h
  rw [h]
  simp [rtp_header_bytes, htobe16, htobe32, hm, hs, hq]
  exact ⟨by decide, by decide⟩

theorem scenario_S1_datagram_witness :
    (rtpmidi_set 1500 { mode := rtpmidi_mode.direct, ssrc := 0x11223344, sequence := 0 } 0
        [⟨⟨cc, 1, 7⟩, 1 / 2⟩]).datagram
      = [0x80, 0xE1, 0x00, 0x00, 0, 0, 0, 0,
          0x11, 0x22, 0x33, 0x44, 0xA0, 0x04, 0x00, 0xB1, 0x07, 0x3F] := by
  simpa using (scenario_S1_datagram 1500
    { mode := rtpmidi_mode.direct, ssrc := 0x11223344, sequence := 0 } 0
    (by decide) rfl rfl rfl).1

/-- C4 (as stated) fails: with packet buffer 1500 and timestamp 0 the datagram of
scenario S1 is not the 17 bytes `80 61 00 00 <ts32> 11 22 33 44 A3 00 B1 07 3F`, whatever
the four timestamp bytes. -/
theorem scenario_S1_not_as_stated :
    ¬ ∃ t0 t1 t2 t3 : Nat,
      (rtpmidi_set 1500 { mode := rtpmidi_mode.direct, ssrc := 0x11223344, sequence := 0 } 0
          [⟨⟨cc, 1, 7⟩, 1 / 2⟩]).datagram
        = [0x80, 0x61, 0x00, 0x00, t0, t1, t2, t3,
            0x11, 0x22, 0x33, 0x44, 0xA3, 0x00, 0xB1, 0x07, 0x3F] := by
  have h := rtpmidi_set_single 1500
    { mode := rtpmidi_mode.direct, ssrc := 0x11223344, sequence := 0 } 0
    ⟨⟨cc, 1, 7⟩, 1 / 2⟩ (by decide)
  rw [event_bytes_S1] at h
  rw [h]
  simp [rtp_header_bytes, htobe16, htobe32]

theorem and_127 (x : Nat) : x &&& 127 = x % 128 :=
  Nat.and_pow_two_sub_one_eq_mod x 7

theorem batch_bytes_concat (short : Bool) (pre : List channel_update) (e : channel_update) :
    batch_bytes short (pre ++ [e]) (pre ++ [e]).length
      = batch_bytes short pre pre.length ++ event_bytes short e := by
  unfold batch_bytes
  rw [List.take_length, List.take_length]
  simp

theorem batch_bytes_replicate_cc (short : Bool) (n : Nat) :
    (batch_bytes short (List.replicate n ⟨⟨cc, 0, 0⟩, 0⟩)
      (List.replicate n (⟨⟨cc, 0, 0⟩, 0⟩ : channel_update)).length).length = 4 * n := by
  induction n with
  | zero => simp [batch_bytes]
  | succ n ih =>
    simp only [batch_bytes, List.take_length, List.replicate_succ, List.flatMap_cons,
      List.length_append] at ih ⊢
    rw [ih]
    have : (event_bytes short ⟨⟨cc, 0, 0⟩, 0⟩).length = 4 := by
      simp [event_bytes, midi_bytes, rpn, nrpn, cc, pitchbend, aftertouch, program]
    omega

theorem event_bytes_rpn_length (short : Bool) (e : channel_update)
    (h : e.ident.type = rpn) : 16 ≤ (event_bytes short e).length := by
  unfold event_bytes
  simp only [h, show rpn % 256 = rpn from rfl, true_or, if_true, midi_bytes_cc,
    List.length_append, List.length_cons, List.length_nil]
  omega

/-- C8 (the code at the failing input). With a frame of `B ≥ 18` bytes, a batch of
`(B - 18) / 4` cc events followed by one rpn event makes `rtpmidi_set` store beyond
`frame[B - 1]`: the rpn burst starts with between four and seven bytes left, every
`rtpmidi_push_midi` of the burst is told `sizeof(frame) - offset` bytes are left, and the
buffer after the call is longer than `B`. -/
theorem rpn_burst_overruns_frame (B : Nat) (data : rtpmidi_instance_data) (now : Nat)
    (hB : 18 ≤ B) :
    B < (rtpmidi_set B data now (overrun_batch B)).frame.length
    ∧ B < (rtpmidi_set B data now (overrun_batch B)).offset
    ∧ (rtpmidi_set B data now (overrun_batch B)).serialised = (overrun_batch B).length := by
  have hpre := batch_bytes_replicate_cc data.epn_tx_short ((B - 18) / 4)
  have hs : (rtpmidi_set B data now (overrun_batch B)).serialised = (overrun_batch B).length :=
    rtpmidi_set_serialised_all B data now
      (List.replicate ((B - 18) / 4) ⟨⟨cc, 0, 0⟩, 0⟩) ⟨⟨rpn, 0, 0⟩, 0⟩ (by rw [hpre]; omega)
  obtain ⟨_, hoff, hfr⟩ := rtpmidi_set_frame B data now (overrun_batch B) (by omega)
  rw [hs] at hoff hfr
  have hbb : (batch_bytes data.epn_tx_short (overrun_batch B) (overrun_batch B).length).length
      = 4 * ((B - 18) / 4) + (event_bytes data.epn_tx_short ⟨⟨rpn, 0, 0⟩, 0⟩).length := by
    unfold overrun_batch
    rw [batch_bytes_concat, List.length_append, hpre]
  have hr := event_bytes_rpn_length data.epn_tx_short ⟨⟨rpn, 0, 0⟩, 0⟩ rfl
  have hlen := congrArg List.length hfr
  rw [List.length_take] at hlen
  simp only [List.length_append, rtp_header_bytes_length, List.length_cons,
    List.length_nil] at hlen
  rw [hbb] at hoff hlen
  rw [hoff] at hlen
  refine ⟨?_, ?_, hs⟩ <;> omega

theorem rpn_burst_overruns_frame_witness :
    1500 < (rtpmidi_set 1500 {} 0 (overrun_batch 1500)).frame.length
    ∧ (overrun_batch 1500).length = 371 :=
  ⟨(rpn_burst_overruns_frame 1500 {} 0 (by decide)).1,
    by rw [overrun_batch, List.length_append, List.length_replicate]; rfl⟩

/-! ## Lemmas on the decoder -/

theorem rtpmidi_parse_dtime_stop (frame : List Nat) (cb o d : Nat) (ho : o < cb)
    (hr : frame[o]? = some d) (hd : d &&& 0x80 = 0) :
    rtpmidi_parse_dtime frame cb (cb - o) o = some o := by
  obtain ⟨n, hn⟩ : ∃ n, cb - o = n + 1 := ⟨cb - o - 1, by omega⟩
  rw [hn]
  simp [rtpmidi_parse_dtime, ho, hr, hd]

/-- One pass of the loop body of `rtpmidi_parse` over an event with a one-byte
delta-time, a status byte and two data bytes. -/
theorem rtpmidi_parse_event_two (frame : List Nat) (cb : Nat) (st : parse_state)
    (d s d1 d2 : Nat) (hdt : st.decode_time = true) (hcb : st.offset + 4 ≤ cb)
    (h0 : frame[st.offset]? = some d) (h1 : frame[st.offset + 1]? = some s)
    (h2 : frame[st.offset + 2]? = some d1) (h3 : frame[st.offset + 3]? = some d2)
    (hd : d &&& 0x80 = 0) (hs : s &&& 0x80 ≠ 0)
    (ht : ¬ (s &&& 0xF0 = aftertouch ∨ s &&& 0xF0 = program)) :
    rtpmidi_parse_event frame cb st
      = some (true,
          { offset := st.offset + 4, decode_time := true, midi_status := s,
            data := (if (decide ((if ((!st.data.note_off) && decide (s &&& 0xF0 = note_off))
                        then note else s &&& 0xF0) = cc) &&
                      ((decide ((if s &&& 0xF0 = pitchbend then 0 else d1) ≤ 101)
                          && decide ((if s &&& 0xF0 = pitchbend then 0 else d1) ≥ 98))
                        || decide ((if s &&& 0xF0 = pitchbend then 0 else d1) = 6)
                        || decide ((if s &&& 0xF0 = pitchbend then 0 else d1) = 38)))
                    then rtpmidi_handle_epn st.data (s &&& 0x0F)
                      (if s &&& 0xF0 = pitchbend then 0 else d1)
                      (if ((!st.data.note_off) && decide (s &&& 0xF0 = note_off)) then 0
                        else if s &&& 0xF0 = pitchbend then (d2 <<< 7) ||| d1 else d2)
                    else (st.data, [])).1,
            events := st.events
              ++ (if (decide ((if ((!st.data.note_off) && decide (s &&& 0xF0 = note_off))
                        then note else s &&& 0xF0) = cc) &&
                      ((decide ((if s &&& 0xF0 = pitchbend then 0 else d1) ≤ 101)
                          && decide ((if s &&& 0xF0 = pitchbend then 0 else d1) ≥ 98))
                        || decide ((if s &&& 0xF0 = pitchbend then 0 else d1) = 6)
                        || decide ((if s &&& 0xF0 = pitchbend then 0 else d1) = 38)))
                    then rtpmidi_handle_epn st.data (s &&& 0x0F)
                      (if s &&& 0xF0 = pitchbend then 0 else d1)
                      (if ((!st.data.note_off) && decide (s &&& 0xF0 = note_off)) then 0
                        else if s &&& 0xF0 = pitchbend then (d2 <<< 7) ||| d1 else d2)
                    else (st.data, [])).2
              ++ [{ ident :=
                      { type := if ((!st.data.note_off) && decide (s &&& 0xF0 = note_off))
                          then note else s &&& 0xF0,
                        channel := s &&& 0x0F,
                        control := if s &&& 0xF0 = pitchbend then 0 else d1 },
                    normalised :=
                      if ((!st.data.note_off) && decide (s &&& 0xF0 = note_off)) then 0
                      else if s &&& 0xF0 = pitchbend then
                        (((d2 <<< 7) ||| d1 : Nat) : ℚ) / 16383
                      else (d2 : ℚ) / 127 }] }) := by
  have hdtime := rtpmidi_parse_dtime_stop frame cb st.offset d (by omega) h0 hd
  have e1 : ¬ cb ≤ st.offset + 1 := by omega
  have e2 : ¬ cb ≤ st.offset + 1 + 1 := by omega
  have e3 : ¬ cb ≤ st.offset + 1 + 1 + 1 := by omega
  have a2 : st.offset + 1 + 1 = st.offset + 2 := rfl
  have a3 : st.offset + 1 + 1 + 1 = st.offset + 3 := rfl
  have a4 : st.offset + 3 - 1 = st.offset + 2 := by omega
  unfold rtpmidi_parse_event
  simp only [hdt, if_true, hdtime, Option.map_some', ge_iff_le, e1, if_false, h1, hs,
    ne_eq, not_false_eq_true, e2, ht, e3, Nat.add_sub_cancel, a2, a3, a4, h2, h3]
  split_ifs <;> rfl

theorem status_bits : ∀ h < 16, 8 ≤ h → ∀ c < 16,
    ((16 * h) ||| c) &&& 0xF0 = 16 * h ∧ ((16 * h) ||| c) &&& 0x0F = c
      ∧ ((16 * h) ||| c) &&& 0x80 ≠ 0 := by
  decide

/-- C10. An incoming event with status `0x80|c`, note number `k` and velocity `v`, at
any place in a command section after a one-byte delta-time, is dispatched by the loop
body of `rtpmidi_parse` as type note, channel `c`, control `k`, value 0 when the
instance's `note_off` option is false, and as type note_off, channel `c`, control `k`,
value `v/127` when it is true; the same holds for `rtpmidi_parse` on the section
`A0 04 00 80|c k v` that holds this one event. -/
theorem note_off_folding (c k v : Nat) (hc : c < 16) :
    (∀ (frame : List Nat) (cb : Nat) (st : parse_state) (d : Nat),
      st.decode_time = true → st.offset + 4 ≤ cb → d &&& 0x80 = 0 →
      frame[st.offset]? = some d → frame[st.offset + 1]? = some (0x80 ||| c) →
      frame[st.offset + 2]? = some k → frame[st.offset + 3]? = some v →
      rtpmidi_parse_event frame cb st
        = some (true,
            { offset := st.offset + 4, decode_time := true, midi_status := 0x80 ||| c,
              data := st.data,
              events := st.events
                ++ [{ ident := { type := if st.data.note_off then note_off else note,
                                 channel := c, control := k },
                      normalised := if st.data.note_off then (v : ℚ) / 127 else 0 }] }))
    ∧ ∀ data : rtpmidi_instance_data,
        rtpmidi_parse data [0xA0, 0x04, 0x00, 0x80 ||| c, k, v] 6
          = some { rc := 0, data := data,
                   events := [{ ident := { type := if data.note_off then note_off else note,
                                           channel := c, control := k },
                                normalised := if data.note_off then (v : ℚ) / 127 else 0 }] } := by
  obtain ⟨b1, b2, b3⟩ := status_bits 8 (by decide) (by decide) c hc
  simp only [Nat.reduceMul] at b1 b2 b3
  have step : ∀ (frame : List Nat) (cb : Nat) (st : parse_state) (d : Nat),
      st.decode_time = true → st.offset + 4 ≤ cb → d &&& 0x80 = 0 →
      frame[st.offset]? = some d → frame[st.offset + 1]? = some (0x80 ||| c) →
      frame[st.offset + 2]? = some k → frame[st.offset + 3]? = some v →
      rtpmidi_parse_event frame cb st
        = some (true,
            { offset := st.offset + 4, decode_time := true, midi_status := 0x80 ||| c,
              data := st.data,
              events := st.events
                ++ [{ ident := { type := if st.data.note_off then note_off else note,
                                 channel := c, control := k },
                      normalised := if st.data.note_off then (v : ℚ) / 127 else 0 }] }) := by
    intro frame cb st d hdt hcb hd h0 h1 h2 h3
    rw [rtpmidi_parse_event_two frame cb st d (0x80 ||| c) k v hdt hcb h0 h1 h2 h3 hd b3
      (by rw [b1]; decide)]
    simp only [b1, b2]
    cases hn : st.data.note_off <;>
      simp [note_off, note, cc, pitchbend]
  refine ⟨step, ?_⟩
  intro data
  have hstep := step [0xA0, 0x04, 0x00, 0x80 ||| c, k, v] 6
    { offset := 2, decode_time := true, midi_status := 0, data := data, events := [] } 0
    rfl (Nat.le_refl 6) (by decide) rfl rfl rfl rfl
  have f1 : ((160 &&& 15) <<< 8 ||| 4) % 65536 = 4 := by decide
  simp only [] at hstep
  simp [rtpmidi_parse, rtpmidi_parse_loop, hstep, f1]

theorem note_off_folding_witness :
    rtpmidi_parse {} [0xA0, 0x04, 0x00, 0x85, 60, 100] 6
      = some { rc := 0, data := {},
               events := [{ ident := { type := note, channel := 5, control := 60 },
                            normalised := 0 }] } := by
  simpa using (note_off_folding 5 60 100 (by decide)).2 {}

theorem rtpmidi_parse_dtime_total (frame : List Nat) (cb : Nat) (hcb : cb ≤ frame.length) :
    ∀ n o, ∃ o', rtpmidi_parse_dtime frame cb n o = some o' ∧ o ≤ o' := by
  intro n
  induction n with
  | zero => intro o; exact ⟨o, rfl, le_refl _⟩
  | succ n ih =>
    intro o
    unfold rtpmidi_parse_dtime
    by_cases ho : o < cb
    · obtain ⟨b, hb⟩ : ∃ b, frame[o]? = some b :=
        ⟨frame[o], List.getElem?_eq_getElem (by omega)⟩
      simp only [ho, if_true, hb]
      by_cases h : b &&& 0x80 ≠ 0
      · obtain ⟨o', h1, h2⟩ := ih (o + 1)
        rw [if_pos h]
        exact ⟨o', h1, by omega⟩
      · rw [if_neg h]
        exact ⟨o, rfl, le_refl _⟩
    · simp only [ho, if_false]
      exact ⟨o, rfl, le_refl _⟩

theorem rtpmidi_parse_event_total (frame : List Nat) (cb : Nat) (hcb : cb ≤ frame.length)
    (st : parse_state) :
    ∃ b st', rtpmidi_parse_event frame cb st = some (b, st')
      ∧ (b = true → st.offset < st'.offset) := by
  have rd : ∀ i, i < cb → ∃ b, frame[i]? = some b :=
    fun i hi => ⟨frame[i], List.getElem?_eq_getElem (by omega)⟩
  obtain ⟨off1, h1, hle1⟩ : ∃ off1,
      (if st.decode_time then
        (rtpmidi_parse_dtime frame cb (cb - st.offset) st.offset).map (· + 1)
       else some st.offset) = some off1 ∧ st.offset ≤ off1 := by
    cases st.decode_time
    · exact ⟨st.offset, by simp, le_refl _⟩
    · obtain ⟨o', h1, h2⟩ := rtpmidi_parse_dtime_total frame cb hcb (cb - st.offset) st.offset
      exact ⟨o' + 1, by simp [h1], by omega⟩
  unfold rtpmidi_parse_event
  simp only [h1]
  by_cases c1 : off1 ≥ cb
  · simp only [c1, if_true]
    exact ⟨_, _, rfl, by simp⟩
  · obtain ⟨b, hb⟩ := rd off1 (by omega)
    simp only [c1, if_false, hb]
    by_cases c2 : (if b &&& 0x80 ≠ 0 then off1 + 1 else off1) ≥ cb
    · simp only [c2, if_true]
      exact ⟨_, _, rfl, by simp⟩
    · have hoff2 : off1 ≤ (if b &&& 0x80 ≠ 0 then off1 + 1 else off1) := by
        split_ifs <;> omega
      obtain ⟨d, hd⟩ := rd (if b &&& 0x80 ≠ 0 then off1 + 1 else off1) (by omega)
      simp only [c2, if_false]
      by_cases c3 : (if b &&& 0x80 ≠ 0 then b else st.midi_status) &&& 0xF0 = aftertouch
          ∨ (if b &&& 0x80 ≠ 0 then b else st.midi_status) &&& 0xF0 = program
      · simp only [c3, if_true, hd]
        exact ⟨_, _, rfl, fun _ => by simp only []; omega⟩
      · simp only [c3, if_false]
        by_cases c4 : (if b &&& 0x80 ≠ 0 then off1 + 1 else off1) + 1 ≥ cb
        · simp only [c4, if_true]
          exact ⟨_, _, rfl, by simp⟩
        · obtain ⟨d2, hd2⟩ := rd ((if b &&& 0x80 ≠ 0 then off1 + 1 else off1) + 1) (by omega)
          simp only [c4, if_false, Nat.add_sub_cancel, hd, hd2]
          exact ⟨_, _, rfl, fun _ => by simp only []; omega⟩

theorem rtpmidi_parse_loop_total (frame : List Nat) (cb : Nat) (hcb : cb ≤ frame.length) :
    ∀ (fuel : Nat) (st : parse_state), 1 ≤ fuel → cb + 1 ≤ fuel + st.offset →
      ∃ st', rtpmidi_parse_loop frame cb fuel st = some st' := by
  intro fuel
  induction fuel with
  | zero => intro st h; omega
  | succ fuel ih =>
    intro st _ h
    obtain ⟨b, st', he, hlt⟩ := rtpmidi_parse_event_total frame cb hcb st
    unfold rtpmidi_parse_loop
    rw [he]
    cases b
    · exact ⟨st', rfl⟩
    · have := hlt rfl
      by_cases hc : st'.offset < cb
      · simp only [hc, if_true]
        exact ih st' (by omega) (by omega)
      · simp only [hc, if_false]
        exact ⟨st', rfl⟩

theorem rtpmidi_parse_dtime_congr (f g : List Nat) (cb : Nat)
    (key : ∀ i, i < cb → f[i]? = g[i]?) :
    ∀ n o, rtpmidi_parse_dtime f cb n o = rtpmidi_parse_dtime g cb n o := by
  intro n
  induction n with
  | zero => intro o; rfl
  | succ n ih =>
    intro o
    unfold rtpmidi_parse_dtime
    by_cases ho : o < cb
    · rw [if_pos ho, if_pos ho, key o ho]
      cases g[o]? with
      | none => rfl
      | some b => simp only [ih]
    · rw [if_neg ho, if_neg ho]

/-- The loop body of `rtpmidi_parse` looks at the frame only below `command_bytes`. -/
theorem rtpmidi_parse_event_congr (f g : List Nat) (cb : Nat)
    (key : ∀ i, i < cb → f[i]? = g[i]?) (st : parse_state) :
    rtpmidi_parse_event f cb st = rtpmidi_parse_event g cb st := by
  unfold rtpmidi_parse_event
  rw [rtpmidi_parse_dtime_congr f g cb key]
  cases (if st.decode_time then
        (rtpmidi_parse_dtime g cb (cb - st.offset) st.offset).map (· + 1)
       else some st.offset) with
  | none => rfl
  | some off1 =>
    simp only []
    by_cases c1 : off1 ≥ cb
    · rw [if_pos c1, if_pos c1]
    · rw [if_neg c1, if_neg c1, key off1 (by omega)]
      cases g[off1]? with
      | none => rfl
      | some b =>
        simp only []
        by_cases c2 : (if b &&& 0x80 ≠ 0 then off1 + 1 else off1) ≥ cb
        · rw [if_pos c2, if_pos c2]
        · rw [if_neg c2, if_neg c2]
          by_cases c3 : (if b &&& 0x80 ≠ 0 then b else st.midi_status) &&& 0xF0 = aftertouch
              ∨ (if b &&& 0x80 ≠ 0 then b else st.midi_status) &&& 0xF0 = program
          · rw [if_pos c3, if_pos c3, key _ (by omega)]
          · rw [if_neg c3, if_neg c3]
            by_cases c4 : (if b &&& 0x80 ≠ 0 then off1 + 1 else off1) + 1 ≥ cb
            · rw [if_pos c4, if_pos c4]
            · rw [if_neg c4, if_neg c4,
                key ((if b &&& 0x80 ≠ 0 then off1 + 1 else off1) + 1 - 1) (by omega),
                key ((if b &&& 0x80 ≠ 0 then off1 + 1 else off1) + 1) (by omega)]

theorem rtpmidi_parse_loop_congr (f g : List Nat) (cb : Nat)
    (key : ∀ i, i < cb → f[i]? = g[i]?) :
    ∀ (fuel : Nat) (st : parse_state),
      rtpmidi_parse_loop f cb fuel st = rtpmidi_parse_loop g cb fuel st := by
  intro fuel
  induction fuel with
  | zero => intro st; rfl
  | succ fuel ih =>
    intro st
    unfold rtpmidi_parse_loop
    rw [rtpmidi_parse_event_congr f g cb key st]
    cases rtpmidi_parse_event g cb st with
    | none => rfl
    | some r =>
      obtain ⟨b, st'⟩ := r
      cases b
      · rfl
      · simp only [ih]

theorem spec_header_size_congr (f g : List Nat) (h : f.getD 0 0 = g.getD 0 0) :
    spec_header_size f = spec_header_size g := by
  unfold spec_header_size; rw [h]

theorem spec_section_length_congr (f g : List Nat) (h : f.getD 0 0 = g.getD 0 0)
    (h1 : g.getD 0 0 &&& 0x80 ≠ 0 → f.getD 1 0 = g.getD 1 0) :
    spec_section_length f = spec_section_length g := by
  unfold spec_section_length
  rw [h]
  split_ifs with hc
  · rfl
  · rw [h1 hc]

theorem section_length_lt (f0 f1 : Nat) (h1 : f1 < 256) :
    ((f0 &&& 0x0F) <<< 8 ||| f1) % 65536 = (f0 &&& 0x0F) <<< 8 ||| f1 := by
  apply Nat.mod_eq_of_lt
  have h : f0 &&& 0x0F < 16 := by
    have := Nat.and_pow_two_sub_one_eq_mod f0 4
    simp only [Nat.reducePow, Nat.add_one_sub_one] at this
    omega
  have h2 : (f0 &&& 0x0F) <<< 8 < 2 ^ 16 := by
    rw [Nat.shiftLeft_eq]; omega
  exact Nat.or_lt_two_pow h2 (by omega)

theorem rtpmidi_parse_framed (data : rtpmidi_instance_data) (frame : List Nat) (bytes : Nat)
    (hb : bytes ≤ frame.length) (hbyte : ∀ b ∈ frame, b < 256) (h0 : bytes ≠ 0)
    (h1 : ¬ (frame.getD 0 0 &&& 0x80 ≠ 0 ∧ bytes < 2))
    (h2 : spec_header_size frame + spec_section_length frame ≤ bytes) :
    ∃ st, rtpmidi_parse_loop frame (spec_header_size frame + spec_section_length frame)
        (spec_header_size frame + spec_section_length frame + 1)
        { offset := spec_header_size frame,
          decode_time := decide (frame.getD 0 0 &&& 0x20 ≠ 0), midi_status := 0,
          data := data, events := [] } = some st
      ∧ rtpmidi_parse data frame bytes = some { rc := 0, data := st.data, events := st.events } := by
  have hs : 1 ≤ spec_header_size frame := by unfold spec_header_size; split_ifs <;> omega
  obtain ⟨st, hst⟩ := rtpmidi_parse_loop_total frame
    (spec_header_size frame + spec_section_length frame) (by omega)
    (spec_header_size frame + spec_section_length frame + 1)
    { offset := spec_header_size frame,
      decode_time := decide (frame.getD 0 0 &&& 0x20 ≠ 0), midi_status := 0,
      data := data, events := [] } (by omega) (by simp only []; omega)
  refine ⟨st, hst, ?_⟩
  have hf0 : frame[0]? = some (frame.getD 0 0) := by
    rw [List.getD_eq_getElem?_getD, List.getElem?_eq_getElem (by omega)]; rfl
  unfold rtpmidi_parse
  rw [if_neg h0]
  simp only [hf0]
  rw [if_neg h1]
  by_cases hext : frame.getD 0 0 &&& 0x80 = 0
  · have hne : ¬ (frame.getD 0 0 &&& 0x80 ≠ 0) := by simpa using hext
    simp only [spec_header_size, spec_section_length, hext, if_true] at h2 hst
    simp only [hne, if_false]
    rw [if_neg (by omega), hst]
  · have hne : frame.getD 0 0 &&& 0x80 ≠ 0 := hext
    have hb2 : 2 ≤ bytes := by
      by_contra hc
      exact h1 ⟨hne, by omega⟩
    have hf1 : frame[1]? = some (frame.getD 1 0) := by
      rw [List.getD_eq_getElem?_getD, List.getElem?_eq_getElem (by omega)]; rfl
    have hlt : frame.getD 1 0 < 256 := by
      apply hbyte
      rw [List.getD_eq_getElem?_getD, List.getElem?_eq_getElem (by omega)]
      exact List.getElem_mem _
    simp only [spec_header_size, spec_section_length, hext, if_false] at h2 hst
    simp only [ne_eq, hext, not_false_eq_true, if_true, hf1, section_length_lt _ _ hlt]
    rw [if_neg (by omega), hst]

/-- C9. `rtpmidi_parse` takes the section length from the low four bits of the first
byte when `B` (bit 7) is clear and from `(low four bits << 8) | second byte` when `B` is
set.  It returns failure exactly when the input is empty, or `B` is set and fewer than
two bytes are present, or header size plus length exceeds the bytes available, and then
it dispatches no event and leaves the instance unchanged; otherwise it returns success
and its result is determined by the first header size plus length bytes alone. -/
theorem command_section_framing (data : rtpmidi_instance_data) (frame : List Nat)
    (bytes : Nat) (hb : bytes ≤ frame.length) (hbyte : ∀ b ∈ frame, b < 256) :
    ∃ r, rtpmidi_parse data frame bytes = some r
      ∧ (r.rc = 0 ∨ r.rc = 1)
      ∧ (r.rc = 1 ↔ (bytes = 0 ∨ (frame.getD 0 0 &&& 0x80 ≠ 0 ∧ bytes < 2)
            ∨ spec_header_size frame + spec_section_length frame > bytes))
      ∧ (r.rc = 1 → r.events = [] ∧ r.data = data)
      ∧ (r.rc = 0 →
          rtpmidi_parse data
            (frame.take (spec_header_size frame + spec_section_length frame))
            (spec_header_size frame + spec_section_length frame) = some r) := by
  by_cases h0 : bytes = 0
  · refine ⟨{ rc := 1, data := data, events := [] }, by simp [rtpmidi_parse, h0],
      Or.inr rfl, ⟨fun _ => Or.inl h0, fun _ => rfl⟩, fun _ => ⟨rfl, rfl⟩,
      fun h => (by cases h)⟩
  have hf0 : frame[0]? = some (frame.getD 0 0) := by
    rw [List.getD_eq_getElem?_getD, List.getElem?_eq_getElem (by omega)]; rfl
  by_cases h1 : frame.getD 0 0 &&& 0x80 ≠ 0 ∧ bytes < 2
  · refine ⟨{ rc := 1, data := data, events := [] }, ?_,
      Or.inr rfl, ⟨fun _ => Or.inr (Or.inl h1), fun _ => rfl⟩, fun _ => ⟨rfl, rfl⟩,
      fun h => (by cases h)⟩
    unfold rtpmidi_parse
    rw [if_neg h0]
    simp only [hf0]
    rw [if_pos h1]
  by_cases h2 : spec_header_size frame + spec_section_length frame > bytes
  · refine ⟨{ rc := 1, data := data, events := [] }, ?_,
      Or.inr rfl, ⟨fun _ => Or.inr (Or.inr h2), fun _ => rfl⟩, fun _ => ⟨rfl, rfl⟩,
      fun h => (by cases h)⟩
    unfold rtpmidi_parse
    rw [if_neg h0]
    simp only [hf0]
    rw [if_neg h1]
    by_cases hext : frame.getD 0 0 &&& 0x80 = 0
    · have hne : ¬ (frame.getD 0 0 &&& 0x80 ≠ 0) := by simpa using hext
      simp only [spec_header_size, spec_section_length, hext, if_true] at h2
      simp only [hne, if_false]
      rw [if_pos (by omega)]
    · have hne : frame.getD 0 0 &&& 0x80 ≠ 0 := hext
      have hb2 : 2 ≤ bytes := by
        by_contra hc
        exact h1 ⟨hne, by omega⟩
      have hf1 : frame[1]? = some (frame.getD 1 0) := by
        rw [List.getD_eq_getElem?_getD, List.getElem?_eq_getElem (by omega)]; rfl
      have hlt : frame.getD 1 0 < 256 := by
        apply hbyte
        rw [List.getD_eq_getElem?_getD, List.getElem?_eq_getElem (by omega)]
        exact List.getElem_mem _
      simp only [spec_header_size, spec_section_length, hext, if_false] at h2
      simp only [ne_eq, hext, not_false_eq_true, if_true, hf1, section_length_lt _ _ hlt]
      rw [if_pos (by omega)]
  · obtain ⟨st, hst, hp⟩ := rtpmidi_parse_framed data frame bytes hb hbyte h0 h1 (by omega)
    refine ⟨_, hp, Or.inl rfl,
      ⟨fun h => (by cases h), fun h => ?_⟩, fun h => (by cases h), fun _ => ?_⟩
    · rcases h with h | h | h
      · exact absurd h h0
      · exact absurd h h1
      · exact absurd h h2
    -- the truncated frame
    have hs1 : 1 ≤ spec_header_size frame := by unfold spec_header_size; split_ifs <;> omega
    have hs2 : spec_header_size frame ≤ 2 := by unfold spec_header_size; split_ifs <;> omega
    have key : ∀ i, i < spec_header_size frame + spec_section_length frame →
        (frame.take (spec_header_size frame + spec_section_length frame))[i]? = frame[i]? := by
      intro i hi
      rw [List.getElem?_take]
      simp [hi]
    have hg0 : (frame.take (spec_header_size frame + spec_section_length frame)).getD 0 0
        = frame.getD 0 0 := by
      rw [List.getD_eq_getElem?_getD, List.getD_eq_getElem?_getD, key 0 (by omega)]
    have hg1 : frame.getD 0 0 &&& 0x80 ≠ 0 →
        (frame.take (spec_header_size frame + spec_section_length frame)).getD 1 0
          = frame.getD 1 0 := by
      intro hne
      have : spec_header_size frame = 2 := by unfold spec_header_size; rw [if_neg hne]
      rw [List.getD_eq_getElem?_getD, List.getD_eq_getElem?_getD, key 1 (by omega)]
    have hsz : spec_header_size (frame.take (spec_header_size frame + spec_section_length frame))
        = spec_header_size frame := spec_header_size_congr _ _ hg0
    have hsl : spec_section_length
        (frame.take (spec_header_size frame + spec_section_length frame))
        = spec_section_length frame := spec_section_length_congr _ _ hg0 hg1
    have hlen : (frame.take (spec_header_size frame + spec_section_length frame)).length
        = spec_header_size frame + spec_section_length frame := by
      rw [List.length_take]; omega
    obtain ⟨st', hst', hp'⟩ := rtpmidi_parse_framed data
      (frame.take (spec_header_size frame + spec_section_length frame))
      (spec_header_size frame + spec_section_length frame)
      (by omega) (fun b hb' => hbyte b (List.mem_of_mem_take hb')) (by omega)
      (by
        rw [hg0]; intro hc
        have : spec_header_size frame = 2 := by unfold spec_header_size; rw [if_neg hc.1]
        omega)
      (by rw [hsz, hsl])
    rw [hsz, hsl, hg0, rtpmidi_parse_loop_congr _ frame _ key, hst] at hst'
    rw [hp']
    cases hst'
    rfl

theorem command_section_framing_witness :
    ∃ r, rtpmidi_parse {} [0x83] 1 = some r ∧ r.rc = 1 ∧ r.events = [] := by
  obtain ⟨r, hr, _, hiff, hev, _⟩ := command_section_framing {} [0x83] 1 (by decide)
    (by decide)
  have h1 : r.rc = 1 := hiff.2 (Or.inr (Or.inl ⟨by decide, by decide⟩))
  exact ⟨r, hr, h1, (hev h1).1⟩

theorem getD_set_self {α : Type} (l : List α) (i : Nat) (x d : α) (h : i < l.length) :
    (l.set i x).getD i d = x := by
  rw [List.getD_eq_getElem?_getD, List.getElem?_set_self h]
  rfl

theorem rtpmidi_handle_epn_eq (data : rtpmidi_instance_data) (chan control value : Nat) :
    rtpmidi_handle_epn data chan control value
      = ({ data with
            epn_status := data.epn_status.set (chan % 256)
              (epn_step (epn_view data (chan % 256)) (chan % 256) (control % 65536)
                (value % 65536)).1.1
            epn_control := data.epn_control.set (chan % 256)
              (epn_step (epn_view data (chan % 256)) (chan % 256) (control % 65536)
                (value % 65536)).1.2.1
            epn_value := data.epn_value.set (chan % 256)
              (epn_step (epn_view data (chan % 256)) (chan % 256) (control % 65536)
                (value % 65536)).1.2.2 },
         (epn_step (epn_view data (chan % 256)) (chan % 256) (control % 65536)
            (value % 65536)).2) := rfl

theorem rtpmidi_handle_epn_view (data : rtpmidi_instance_data) (chan control value : Nat)
    (hc : chan < 16) (hk : control < 65536) (hv : value < 65536) (hd : epn_arrays data) :
    epn_arrays (rtpmidi_handle_epn data chan control value).1
    ∧ epn_view (rtpmidi_handle_epn data chan control value).1 chan
        = (epn_step (epn_view data chan) chan control value).1
    ∧ (rtpmidi_handle_epn data chan control value).2
        = (epn_step (epn_view data chan) chan control value).2 := by
  obtain ⟨h1, h2, h3⟩ := hd
  rw [rtpmidi_handle_epn_eq]
  have e1 : chan % 256 = chan := Nat.mod_eq_of_lt (by omega)
  have e2 : control % 65536 = control := Nat.mod_eq_of_lt hk
  have e3 : value % 65536 = value := Nat.mod_eq_of_lt hv
  rw [e1, e2, e3]
  refine ⟨⟨by simp [h1], by simp [h2], by simp [h3]⟩, ?_, rfl⟩
  simp only [epn_view]
  rw [getD_set_self _ _ _ _ (by omega), getD_set_self _ _ _ _ (by omega),
    getD_set_self _ _ _ _ (by omega)]

theorem rtpmidi_handle_epn_list_run (chan : Nat) (hc : chan < 16) :
    ∀ (ccs : List (Nat × Nat)) (data : rtpmidi_instance_data),
      (∀ cv ∈ ccs, cv.1 < 65536 ∧ cv.2 < 65536) → epn_arrays data →
      epn_arrays (rtpmidi_handle_epn_list data chan ccs).1
      ∧ epn_view (rtpmidi_handle_epn_list data chan ccs).1 chan
          = (epn_run (epn_view data chan) chan ccs).1
      ∧ (rtpmidi_handle_epn_list data chan ccs).2 = (epn_run (epn_view data chan) chan ccs).2 := by
  intro ccs
  induction ccs with
  | nil => intro data _ hd; exact ⟨hd, rfl, rfl⟩
  | cons cv rest ih =>
    intro data hb hd
    obtain ⟨hk, hv⟩ := hb cv (List.mem_cons_self _ _)
    obtain ⟨a1, a2, a3⟩ := rtpmidi_handle_epn_view data chan cv.1 cv.2 hc hk hv hd
    obtain ⟨b1, b2, b3⟩ := ih (rtpmidi_handle_epn data chan cv.1 cv.2).1
      (fun x hx => hb x (List.mem_cons_of_mem _ hx)) a1
    simp only [rtpmidi_handle_epn_list, epn_run]
    rw [a2] at b2 b3
    exact ⟨b1, b2, by rw [a3, b3]⟩

theorem and_ff80 (x : Nat) (hx : x < 65536) : x &&& 0xFF80 = x / 128 * 128 := by
  have : x &&& 0xFF80 = ((x >>> 7) &&& 0x1FF) <<< 7 := by
    apply Nat.eq_of_testBit_eq
    intro i
    have e : (0xFF80 : Nat) = 0x1FF <<< 7 := by decide
    rw [e]
    simp only [Nat.testBit_and, Nat.testBit_shiftLeft, Nat.testBit_shiftRight]
    by_cases hi : 7 ≤ i
    · have : 7 + (i - 7) = i := by omega
      simp [hi, this]
    · simp [hi]
  rw [this, Nat.shiftLeft_eq, Nat.shiftRight_eq_div_pow]
  have := Nat.and_pow_two_sub_one_eq_mod (x / 2 ^ 7) 9
  simp only [Nat.reducePow, Nat.add_one_sub_one] at this ⊢
  rw [this]; omega

theorem epn_control_join (c H L : Nat) (hH : H < 128) (hL : L < 128) :
    ((((c &&& 0x7F) ||| (H <<< 7)) % 65536) &&& 0xFF80) ||| (L &&& 0x7F) = (H <<< 7) ||| L := by
  have e1 : (c &&& 0x7F) ||| (H <<< 7) = 2 ^ 7 * H + c % 128 := by
    rw [and_127, Nat.shiftLeft_eq, Nat.lor_comm, Nat.mul_comm,
      ← Nat.mul_add_lt_is_or (Nat.mod_lt _ (by norm_num))]
  have e2 : (2 ^ 7 * H + c % 128) % 65536 = 2 ^ 7 * H + c % 128 := by
    apply Nat.mod_eq_of_lt; omega
  have e3 : (2 ^ 7 * H + c % 128) / 128 * 128 = H <<< 7 := by
    rw [Nat.shiftLeft_eq]; omega
  rw [e1, e2, and_ff80 _ (by omega), e3, and_127, Nat.mod_eq_of_lt hL]

theorem epn_value_join (V W : Nat) (hV : V < 128) (hW : W < 128) :
    (((V <<< 7) % 65536) &&& 0xFF80) ||| (W &&& 0x7F) = (V <<< 7) ||| W := by
  have e1 : V <<< 7 = V * 128 := by rw [Nat.shiftLeft_eq]
  have e2 : (V * 128) % 65536 = V * 128 := by apply Nat.mod_eq_of_lt; omega
  have e3 : V * 128 / 128 * 128 = V * 128 := by omega
  rw [e1, e2, and_ff80 _ (by omega), e3, and_127, Nat.mod_eq_of_lt hW]

theorem epn_run_nrpn (st : epn_flags × Nat × Nat) (C H L V W : Nat)
    (hH : H < 128) (hL : L < 128) (hV : V < 128) (hW : W < 128) :
    (epn_run st C [(99, H), (98, L), (6, V)]).2 = []
    ∧ (epn_run st C [(99, H), (98, L), (6, V), (38, W)]).2
        = [{ ident := { type := nrpn, channel := C, control := (H <<< 7) ||| L }
             normalised := (((V <<< 7) ||| W : Nat) : ℚ) / 16383 }] := by
  obtain ⟨⟨a, b, c, d⟩, c0, w0⟩ := st
  have j1 := epn_control_join c0 H L hH hL
  have j2 := epn_value_join V W hV hW
  cases a <;> cases b <;> cases c <;> cases d <;>
    simp [epn_run, epn_step, j1, j2]

theorem epn_run_append (C : Nat) :
    ∀ (xs ys : List (Nat × Nat)) (st : epn_flags × Nat × Nat),
      epn_run st C (xs ++ ys)
        = ((epn_run (epn_run st C xs).1 C ys).1,
            (epn_run st C xs).2 ++ (epn_run (epn_run st C xs).1 C ys).2) := by
  intro xs
  induction xs with
  | nil => intro ys st; simp [epn_run]
  | cons x xs ih => intro ys st; simp [epn_run, ih]

theorem epn_run_rpn (st : epn_flags × Nat × Nat) (C h l V W : Nat)
    (hh : h < 128) (hl : l < 128) (hV : V < 128) (hW : W < 128)
    (nh : h ≠ 127) (nl : l ≠ 127) :
    (epn_run st C [(101, h), (100, l), (6, V)]).2 = []
    ∧ (epn_run st C [(101, h), (100, l), (6, V), (38, W)]).2
        = [{ ident := { type := rpn, channel := C, control := (h <<< 7) ||| l }
             normalised := (((V <<< 7) ||| W : Nat) : ℚ) / 16383 }] := by
  obtain ⟨⟨a, b, c, d⟩, c0, w0⟩ := st
  have j1 := epn_control_join c0 h l hh hl
  have j2 := epn_value_join V W hV hW
  cases a <;> cases b <;> cases c <;> cases d <;>
    simp [epn_run, epn_step, j1, j2, nh, nl]

theorem epn_run_select_end (st : epn_flags × Nat × Nat) (C H L : Nat) :
    (epn_run st C [(99, H), (98, L), (101, 127)]).2 = [] := by
  obtain ⟨⟨a, b, c, d⟩, c0, w0⟩ := st
  cases a <;> cases b <;> cases c <;> cases d <;> simp [epn_run, epn_step]

theorem epn_run_switch (st : epn_flags × Nat × Nat) (C H L h l V W : Nat)
    (hh : h < 128) (hl : l < 128) (hV : V < 128) (hW : W < 128)
    (nh : h ≠ 127) (nl : l ≠ 127) :
    (epn_run st C [(99, H), (98, L), (101, 127), (101, h), (100, l), (6, V), (38, W)]).2
        = [{ ident := { type := rpn, channel := C, control := (h <<< 7) ||| l }
             normalised := (((V <<< 7) ||| W : Nat) : ℚ) / 16383 }] := by
  have e := epn_run_append C [(99, H), (98, L), (101, 127)]
    [(101, h), (100, l), (6, V), (38, W)] st
  simp only [List.cons_append, List.nil_append] at e
  rw [e, epn_run_select_end, List.nil_append,
    (epn_run_rpn _ C h l V W hh hl hV hW nh nl).2]

theorem epn_list_bounds (ccs : List (Nat × Nat)) (h : ccs.all (fun cv => cv.1 < 128 && cv.2 < 128)) :
    ∀ cv ∈ ccs, cv.1 < 65536 ∧ cv.2 < 65536 := by
  intro cv hcv
  have := List.all_eq_true.mp h cv hcv
  simp only [Bool.and_eq_true, decide_eq_true_eq] at this
  omega

/-- C11 (EPN reassembly). From every prior EPN state of channel `C`, the CC sequence
`99=H, 98=L, 6=V, 38=W` (all values below 128) fed through `rtpmidi_handle_epn` produces no
event during its first three CCs and, with the fourth, exactly one event: type `nrpn`,
channel `C`, control `(H << 7) | L`, value `((V << 7) | W) / 16383`. For channel 3 and the
values `0x10, 0x20, 0x40, 0x01` that event has control `0x0820` and value `0x2001 / 16383`. -/
theorem epn_reassembly (data : rtpmidi_instance_data) (C H L V W : Nat)
    (hC : C < 16) (hd : epn_arrays data)
    (hH : H < 128) (hL : L < 128) (hV : V < 128) (hW : W < 128) :
    (rtpmidi_handle_epn_list data C [(99, H), (98, L), (6, V)]).2 = []
    ∧ (rtpmidi_handle_epn_list data C [(99, H), (98, L), (6, V), (38, W)]).2
        = [{ ident := { type := nrpn, channel := C, control := (H <<< 7) ||| L }
             normalised := (((V <<< 7) ||| W : Nat) : ℚ) / 16383 }]
    ∧ (rtpmidi_handle_epn_list data 3 [(99, 0x10), (98, 0x20), (6, 0x40), (38, 0x01)]).2
        = [{ ident := { type := nrpn, channel := 3, control := 0x0820 }
             normalised := (0x2001 : ℚ) / 16383 }] := by
  have r3 := (rtpmidi_handle_epn_list_run C hC [(99, H), (98, L), (6, V)] data
    (epn_list_bounds _ (by simp [hH, hL, hV])) hd).2.2
  have r4 := (rtpmidi_handle_epn_list_run C hC [(99, H), (98, L), (6, V), (38, W)] data
    (epn_list_bounds _ (by simp [hH, hL, hV, hW])) hd).2.2
  have s5 := (rtpmidi_handle_epn_list_run 3 (by decide)
    [(99, 0x10), (98, 0x20), (6, 0x40), (38, 0x01)] data
    (epn_list_bounds _ (by decide)) hd).2.2
  have g := epn_run_nrpn (epn_view data C) C H L V W hH hL hV hW
  have g5 := (epn_run_nrpn (epn_view data 3) 3 0x10 0x20 0x40 0x01
    (by decide) (by decide) (by decide) (by decide)).2
  have k1 : (0x10 <<< 7 ||| 0x20 : Nat) = 0x0820 := by decide
  have k2 : (0x40 <<< 7 ||| 0x01 : Nat) = 0x2001 := by decide
  rw [k1, k2] at g5
  refine ⟨r3.trans g.1, r4.trans g.2, ?_⟩
  rw [s5, g5]
  norm_num

theorem epn_reassembly_witness :
    (rtpmidi_handle_epn_list {} 3 [(99, 0x10), (98, 0x20), (6, 0x40)]).2 = []
    ∧ (rtpmidi_handle_epn_list {} 3 [(99, 0x10), (98, 0x20), (6, 0x40), (38, 0x01)]).2
        = [{ ident := { type := nrpn, channel := 3, control := (0x10 <<< 7) ||| 0x20 }
             normalised := (((0x40 <<< 7) ||| 0x01 : Nat) : ℚ) / 16383 }]
    ∧ (rtpmidi_handle_epn_list {} 3 [(99, 0x10), (98, 0x20), (6, 0x40), (38, 0x01)]).2
        = [{ ident := { type := nrpn, channel := 3, control := 0x0820 }
             normalised := (0x2001 : ℚ) / 16383 }] :=
  epn_reassembly {} 3 0x10 0x20 0x40 0x01 (by decide) ⟨rfl, rfl, rfl⟩
    (by decide) (by decide) (by decide) (by decide)

/-- C12 (EPN family switch). From every prior EPN state of channel `C`, an NRPN selection
`99=H, 98=L` followed by the terminator CC `101=127` and the RPN sequence
`101=h, 100=l, 6=V, 38=W` (`h`, `l` not 127) produces exactly one event in total: type
`rpn`, channel `C`, control `(h << 7) | l`, value `((V << 7) | W) / 16383`. No `nrpn` event
is produced and the NRPN parameter `H, L` does not appear in the event. -/
theorem epn_family_switch (data : rtpmidi_instance_data) (C H L h l V W : Nat)
    (hC : C < 16) (hd : epn_arrays data)
    (hH : H < 128) (hL : L < 128) (hh : h < 128) (hl : l < 128) (hV : V < 128) (hW : W < 128)
    (nh : h ≠ 127) (nl : l ≠ 127) :
    (rtpmidi_handle_epn_list data C
        [(99, H), (98, L), (101, 127), (101, h), (100, l), (6, V), (38, W)]).2
      = [{ ident := { type := rpn, channel := C, control := (h <<< 7) ||| l }
           normalised := (((V <<< 7) ||| W : Nat) : ℚ) / 16383 }] := by
  have r := (rtpmidi_handle_epn_list_run C hC
    [(99, H), (98, L), (101, 127), (101, h), (100, l), (6, V), (38, W)] data
    (epn_list_bounds _ (by simp [hH, hL, hh, hl, hV, hW])) hd).2.2
  exact r.trans (epn_run_switch (epn_view data C) C H L h l V W hh hl hV hW nh nl)

theorem epn_family_switch_witness :
    (rtpmidi_handle_epn_list {} 3
        [(99, 0x10), (98, 0x20), (101, 127), (101, 0), (100, 5), (6, 0x40), (38, 0x01)]).2
      = [{ ident := { type := rpn, channel := 3, control := (0 <<< 7) ||| 5 }
           normalised := (((0x40 <<< 7) ||| 0x01 : Nat) : ℚ) / 16383 }] :=
  epn_family_switch {} 3 0x10 0x20 0 5 0x40 0x01 (by decide) ⟨rfl, rfl, rfl⟩
    (by decide) (by decide) (by decide) (by decide) (by decide) (by decide)
    (by decide) (by decide)

theorem rtpmidi_push_peer_scan_find (sock : List Nat) (len : Nat) :
    ∀ (l : List rtpmidi_peer) (u0 p0 u : Nat) (e : rtpmidi_peer),
      l[u]? = some e → rtpmidi_push_peer_match sock len e = true →
      (∀ j y, j < u → l[j]? = some y → rtpmidi_push_peer_match sock len y = false) →
      rtpmidi_push_peer_scan sock len l u0 p0 = Sum.inl (u0 + u) := by
  intro l
  induction l with
  | nil => intro u0 p0 u e h; simp at h
  | cons x rest ih =>
    intro u0 p0 u e h hm hpre
    cases u with
    | zero =>
      simp only [List.getElem?_cons_zero, Option.some.injEq] at h
      subst h
      simp [rtpmidi_push_peer_scan, hm]
    | succ v =>
      have hx : rtpmidi_push_peer_match sock len x = false :=
        hpre 0 x (Nat.succ_pos v) (by simp)
      simp only [List.getElem?_cons_succ] at h
      have := ih (u0 + 1) (if x.active then p0 else u0) v e h hm
        (fun j y hj hy => hpre (j + 1) y (by omega) (by simpa using hy))
      simp only [rtpmidi_push_peer_scan, hx, Bool.false_eq_true, if_false]
      rw [this]
      congr 1
      omega

theorem rtpmidi_push_peer_scan_inr (sock : List Nat) (len : Nat) :
    ∀ (l : List rtpmidi_peer) (u0 p0 p : Nat),
      rtpmidi_push_peer_scan sock len l u0 p0 = Sum.inr p →
      (∀ y ∈ l, rtpmidi_push_peer_match sock len y = false)
      ∧ (p = p0 ∨ (u0 ≤ p ∧ p < u0 + l.length)) := by
  intro l
  induction l with
  | nil =>
    intro u0 p0 p h
    simp only [rtpmidi_push_peer_scan, Sum.inr.injEq] at h
    exact ⟨by simp, Or.inl h.symm⟩
  | cons x rest ih =>
    intro u0 p0 p h
    simp only [rtpmidi_push_peer_scan] at h
    by_cases hx : rtpmidi_push_peer_match sock len x = true
    · simp [hx] at h
    · simp only [hx, if_false] at h
      obtain ⟨a, b⟩ := ih _ _ _ h
      refine ⟨?_, ?_⟩
      · intro y hy
        rcases List.mem_cons.mp hy with rfl | hy
        · simpa using hx
        · exact a y hy
      · simp only [List.length_cons]
        rcases b with b | b
        · cases ha : x.active
          · simp only [ha, Bool.false_eq_true, if_false] at b; right; omega
          · simp only [ha, if_true] at b; exact Or.inl b
        · right; omega

theorem rtpmidi_push_peer_scan_inl (sock : List Nat) (len : Nat) :
    ∀ (l : List rtpmidi_peer) (u0 p0 u : Nat),
      rtpmidi_push_peer_scan sock len l u0 p0 = Sum.inl u →
      ∃ e, u0 ≤ u ∧ l[u - u0]? = some e ∧ rtpmidi_push_peer_match sock len e = true
        ∧ ∀ j y, j < u - u0 → l[j]? = some y → rtpmidi_push_peer_match sock len y = false := by
  intro l
  induction l with
  | nil => intro u0 p0 u h; simp [rtpmidi_push_peer_scan] at h
  | cons x rest ih =>
    intro u0 p0 u h
    simp only [rtpmidi_push_peer_scan] at h
    by_cases hx : rtpmidi_push_peer_match sock len x = true
    · simp only [hx, if_true, Sum.inl.injEq] at h
      subst h
      exact ⟨x, Nat.le_refl _, by simp, hx, fun j y hj => by omega⟩
    · simp only [hx, if_false] at h
      obtain ⟨e, a, b, c, d⟩ := ih _ _ _ h
      have e1 : u - u0 = (u - (u0 + 1)) + 1 := by omega
      refine ⟨e, by omega, by rw [e1]; simpa using b, c, ?_⟩
      intro j y hj hy
      cases j with
      | zero =>
        simp only [List.getElem?_cons_zero, Option.some.injEq] at hy
        subst hy; simpa using hx
      | succ i =>
        simp only [List.getElem?_cons_succ] at hy
        exact d i y (by omega) hy

theorem rtpmidi_push_peer_match_iff (sock : List Nat) (len : Nat) (x : rtpmidi_peer) :
    rtpmidi_push_peer_match sock len x = true
      ↔ x.active = true ∧ len = x.dest_len ∧ x.dest.take len = sock.take len := by
  simp [rtpmidi_push_peer_match, and_assoc]

theorem memcpy_take (dst src : List Nat) (n : Nat) (h : n ≤ src.length) :
    (memcpy dst src n).take n = src.take n := by
  rw [memcpy]
  exact List.take_left' (by simp [h])

/-- After a call of `rtpmidi_push_peer` that returned 0 the registry has a first entry that
is active and holds the address; when no entry held it before, that entry carries the
flags and invite reference of the call. -/
theorem rtpmidi_push_peer_after (a : Bool) (data : rtpmidi_instance_data) (sock : List Nat)
    (len : Nat) (l c : Bool) (i : Int) (hlen : len ≤ sock.length)
    (h0 : (rtpmidi_push_peer a data sock len l c i).1 = 0) :
    ∃ u e, (rtpmidi_push_peer a data sock len l c i).2.peer[u]? = some e
      ∧ rtpmidi_push_peer_match sock len e = true
      ∧ (∀ (j : Nat) (y : rtpmidi_peer), j < u →
          (rtpmidi_push_peer a data sock len l c i).2.peer[j]? = some y →
          rtpmidi_push_peer_match sock len y = false)
      ∧ e.connected = c
      ∧ ((∀ y ∈ data.peer, rtpmidi_push_peer_match sock len y = false) →
          e.learned = l ∧ e.invite = i) := by
  unfold rtpmidi_push_peer at h0 ⊢
  cases hs : rtpmidi_push_peer_scan sock len data.peer 0 data.peer.length with
  | inl u =>
    obtain ⟨e, -, hget, hm, hpre⟩ := rtpmidi_push_peer_scan_inl sock len _ _ _ _ hs
    simp only [Nat.sub_zero] at hget hpre
    have hu : u < data.peer.length := (List.getElem?_eq_some.mp hget).1
    have hD : data.peer.getD u {} = e := by
      rw [List.getD_eq_getElem?_getD, hget]; rfl
    have hm2 := (rtpmidi_push_peer_match_iff sock len e).mp hm
    refine ⟨u, { e with connected := c }, ?_, ?_, ?_, rfl, ?_⟩
    · simp only [hD]
      exact List.getElem?_set_self hu
    · exact (rtpmidi_push_peer_match_iff sock len _).mpr hm2
    · intro j y hj hy
      have hne : u ≠ j := by omega
      simp only at hy
      rw [List.getElem?_set_ne hne] at hy
      exact hpre j y hj hy
    · intro hall
      have := hall e (List.getElem?_mem hget)
      rw [hm] at this
      cases this
  | inr p =>
    obtain ⟨hall, hp⟩ := rtpmidi_push_peer_scan_inr sock len _ _ _ _ hs
    rw [hs] at h0
    simp only at h0
    by_cases hf : p = data.peer.length ∧ a = false
    · rw [if_pos hf] at h0; cases h0
    · simp only [if_neg hf]
      have hlt : p < (if p = data.peer.length then data.peer ++ [({} : rtpmidi_peer)]
          else data.peer).length := by
        by_cases hq : p = data.peer.length
        · simp [hq]
        · rw [if_neg hq]; omega
      have hmem : ∀ y ∈ (if p = data.peer.length then data.peer ++ [({} : rtpmidi_peer)]
          else data.peer),
          rtpmidi_push_peer_match sock len y = false := by
        intro y hy
        by_cases hq : p = data.peer.length
        · rw [if_pos hq] at hy
          rcases List.mem_append.mp hy with hy | hy
          · exact hall y hy
          · simp only [List.mem_singleton] at hy
            subst hy
            simp [rtpmidi_push_peer_match]
        · rw [if_neg hq] at hy; exact hall y hy
      refine ⟨p, _, List.getElem?_set_self hlt, ?_, ?_, rfl, fun _ => ⟨rfl, rfl⟩⟩
      · exact (rtpmidi_push_peer_match_iff sock len _).mpr
          ⟨rfl, rfl, memcpy_take _ _ _ hlen⟩
      · intro j y hj hy
        have hne : p ≠ j := by omega
        rw [List.getElem?_set_ne hne] at hy
        exact hmem y (List.getElem?_mem hy)

/-- A call of `rtpmidi_push_peer` for an address whose first active holder is entry `u`
only stores the `connected` argument in that entry and returns 0. -/
theorem rtpmidi_push_peer_known (a : Bool) (data : rtpmidi_instance_data) (sock : List Nat)
    (len : Nat) (l c : Bool) (i : Int) (u : Nat) (e : rtpmidi_peer)
    (hget : data.peer[u]? = some e) (hm : rtpmidi_push_peer_match sock len e = true)
    (hpre : ∀ (j : Nat) (y : rtpmidi_peer), j < u → data.peer[j]? = some y →
      rtpmidi_push_peer_match sock len y = false) :
    rtpmidi_push_peer a data sock len l c i
      = (0, { data with peer := data.peer.set u { e with connected := c } }) := by
  have hs := rtpmidi_push_peer_scan_find sock len data.peer 0 data.peer.length u e hget hm hpre
  have hD : data.peer.getD u {} = e := by
    rw [List.getD_eq_getElem?_getD, hget]; rfl
  rw [Nat.zero_add] at hs
  unfold rtpmidi_push_peer
  rw [hs]
  simp only [hD]

/-- C20 (peer deduplication). After a first `rtpmidi_push_peer` for `(sock, len)` that
returned 0, the registry has an active entry `e` holding that address (carrying the first
call's `learned` and invite reference when the address was new); a second call with the
same address, whatever `learned`, invite reference and allocation outcome it is given,
returns 0, leaves the number of entries unchanged and changes nothing but the `connected`
flag of that entry, which becomes the newly given value. -/
theorem peer_deduplication (a1 a2 : Bool) (data : rtpmidi_instance_data) (sock : List Nat)
    (len : Nat) (l1 c1 : Bool) (i1 : Int) (l2 c2 : Bool) (i2 : Int)
    (hlen : len ≤ sock.length)
    (h0 : (rtpmidi_push_peer a1 data sock len l1 c1 i1).1 = 0) :
    ∃ u e, (rtpmidi_push_peer a1 data sock len l1 c1 i1).2.peer[u]? = some e
      ∧ e.active = true ∧ e.dest_len = len ∧ e.dest.take len = sock.take len
      ∧ e.connected = c1
      ∧ ((∀ y ∈ data.peer, rtpmidi_push_peer_match sock len y = false) →
          e.learned = l1 ∧ e.invite = i1)
      ∧ rtpmidi_push_peer a2 (rtpmidi_push_peer a1 data sock len l1 c1 i1).2 sock len l2 c2 i2
          = (0, { (rtpmidi_push_peer a1 data sock len l1 c1 i1).2 with
                  peer := (rtpmidi_push_peer a1 data sock len l1 c1 i1).2.peer.set u
                    { e with connected := c2 } })
      ∧ (rtpmidi_push_peer a2 (rtpmidi_push_peer a1 data sock len l1 c1 i1).2
            sock len l2 c2 i2).2.peer.length
          = (rtpmidi_push_peer a1 data sock len l1 c1 i1).2.peer.length := by
  obtain ⟨u, e, hget, hm, hpre, hc, hnew⟩ :=
    rtpmidi_push_peer_after a1 data sock len l1 c1 i1 hlen h0
  have hk := rtpmidi_push_peer_known a2 (rtpmidi_push_peer a1 data sock len l1 c1 i1).2
    sock len l2 c2 i2 u e hget hm hpre
  obtain ⟨m1, m2, m3⟩ := (rtpmidi_push_peer_match_iff sock len e).mp hm
  refine ⟨u, e, hget, m1, m2.symm, m3, hc, hnew, hk, ?_⟩
  rw [hk]
  simp

theorem peer_deduplication_witness :
    ∃ u e, (rtpmidi_push_peer true {} [2, 0, 0x9C, 0x40, 10, 0, 0, 5] 8 true true (-1)).2.peer[u]?
        = some e
      ∧ e.active = true ∧ e.dest_len = 8
      ∧ e.dest.take 8 = [2, 0, 0x9C, 0x40, 10, 0, 0, 5].take 8
      ∧ e.connected = true
      ∧ ((∀ y ∈ ({} : rtpmidi_instance_data).peer,
            rtpmidi_push_peer_match [2, 0, 0x9C, 0x40, 10, 0, 0, 5] 8 y = false) →
          e.learned = true ∧ e.invite = -1)
      ∧ rtpmidi_push_peer false
            (rtpmidi_push_peer true {} [2, 0, 0x9C, 0x40, 10, 0, 0, 5] 8 true true (-1)).2
            [2, 0, 0x9C, 0x40, 10, 0, 0, 5] 8 false false 7
          = (0, { (rtpmidi_push_peer true {} [2, 0, 0x9C, 0x40, 10, 0, 0, 5] 8
                    true true (-1)).2 with
                  peer := (rtpmidi_push_peer true {} [2, 0, 0x9C, 0x40, 10, 0, 0, 5] 8
                      true true (-1)).2.peer.set u { e with connected := false } })
      ∧ (rtpmidi_push_peer false
            (rtpmidi_push_peer true {} [2, 0, 0x9C, 0x40, 10, 0, 0, 5] 8 true true (-1)).2
            [2, 0, 0x9C, 0x40, 10, 0, 0, 5] 8 false false 7).2.peer.length
          = (rtpmidi_push_peer true {} [2, 0, 0x9C, 0x40, 10, 0, 0, 5] 8
              true true (-1)).2.peer.length :=
  peer_deduplication true false {} [2, 0, 0x9C, 0x40, 10, 0, 0, 5] 8 true true (-1)
    false false 7 (by decide) (by decide)

theorem peek_nil (j : Nat) : peek [] j = 0 := by simp [peek]

theorem peek_cons_zero (x : Nat) (xs : List Nat) : peek (x :: xs) 0 = x := by simp [peek]

theorem peek_cons_succ (x : Nat) (xs : List Nat) (j : Nat) :
    peek (x :: xs) (j + 1) = peek xs j := by simp [peek]

theorem peek_poke (m : List Nat) (i b j : Nat) :
    peek (poke m i b) j = if j = i then b else peek m j := by
  induction m generalizing i j with
  | nil =>
    induction i generalizing j with
    | zero =>
      cases j with
      | zero => simp [poke, peek_cons_zero]
      | succ k => simp [poke, peek_cons_succ, peek_nil]
    | succ n ih =>
      cases j with
      | zero => simp [poke, peek_cons_zero, peek_nil]
      | succ k =>
        simp only [poke, peek_cons_succ, ih k, peek_nil, Nat.add_right_cancel_iff]
  | cons x xs ih =>
    cases i with
    | zero =>
      cases j with
      | zero => simp [poke, peek_cons_zero]
      | succ k => simp [poke, peek_cons_succ]
    | succ n =>
      cases j with
      | zero => simp [poke, peek_cons_zero]
      | succ k => simp only [poke, peek_cons_succ, ih n k, Nat.add_right_cancel_iff]

theorem poke_length (m : List Nat) (i b : Nat) (h : i < m.length) :
    (poke m i b).length = m.length := by
  induction m generalizing i with
  | nil => simp at h
  | cons x xs ih =>
    cases i with
    | zero => simp [poke]
    | succ n => simp only [poke, List.length_cons, ih n (by simpa using h)]

theorem peek_take (m : List Nat) (n j : Nat) :
    peek (m.take n) j = if j < n then peek m j else 0 := by
  simp only [peek, List.getD_eq_getElem?_getD, List.getElem?_take]
  split_ifs <;> rfl

theorem peek_replicate_zero (n j : Nat) : peek (List.replicate n 0) j = 0 := by
  simp only [peek, List.getD_eq_getElem?_getD, List.getElem?_replicate]
  split_ifs <;> rfl

theorem peek_ge (m : List Nat) (j : Nat) (h : m.length ≤ j) : peek m j = 0 := by
  simp [peek, List.getD_eq_getElem?_getD, List.getElem?_eq_none h]

theorem peek_memcpy_zero (src : List Nat) (B n j : Nat) :
    peek (memcpy (List.replicate B 0) src n) j = if j < n then peek src j else 0 := by
  unfold memcpy
  by_cases h : j < (src.take n).length
  · have e : peek (src.take n ++ (List.replicate B 0).drop n) j = peek (src.take n) j := by
      simp only [peek, List.getD_eq_getElem?_getD, List.getElem?_append_left h]
    rw [e, peek_take]
  · have h' : (src.take n).length ≤ j := by omega
    obtain ⟨k, rfl⟩ := Nat.exists_eq_add_of_le h'
    rw [peek_append, List.drop_replicate, peek_replicate_zero]
    split_ifs with hj
    · rw [peek_ge]
      have hl : (src.take n).length = min n src.length := List.length_take _ _
      omega
    · rfl

theorem memcpy_zero_length (src : List Nat) (B n : Nat) (h : n ≤ src.length) (hB : n ≤ B) :
    (memcpy (List.replicate B 0) src n).length = B := by
  simp [memcpy]
  omega

theorem peek_ext (l1 l2 : List Nat) (hl : l1.length = l2.length)
    (h : ∀ j, j < l1.length → peek l1 j = peek l2 j) : l1 = l2 := by
  apply List.ext_getElem hl
  intro j h1 h2
  have := h j h1
  simp only [peek, List.getD_eq_getElem?_getD, List.getElem?_eq_getElem h1,
    List.getElem?_eq_getElem h2] at this
  exact this

theorem isprint_ne_zero (c : Nat) (h : isprint c = true) : c ≠ 0 := by
  intro h0
  subst h0
  simp [isprint] at h

theorem rtpmidi_session_name_scan_stop (frame : List Nat) (bytes : Nat) :
    ∀ (fuel n m : Nat), n ≤ m → m < bytes → m - n < fuel → peek frame m = 0 →
      (∀ j, n ≤ j → j < m → isprint (peek frame j) = true) →
      rtpmidi_session_name_scan frame bytes fuel n = (m, true) := by
  intro fuel
  induction fuel with
  | zero => intro n m _ _ h; omega
  | succ f ih =>
    intro n m hnm hm hf h0 hp
    have hn : n < bytes := by omega
    simp only [rtpmidi_session_name_scan, hn, if_true]
    by_cases e : n = m
    · subst e
      simp [h0]
    · have hpn := hp n (Nat.le_refl _) (by omega)
      have hz := isprint_ne_zero _ hpn
      simp only [hz, if_false, hpn, not_true_eq_false]
      exact ih (n + 1) m (by omega) hm (by omega) h0 (fun j hj hj2 => hp j (by omega) hj2)

theorem rtpmidi_session_name_scan_named (frame : List Nat) (bytes : Nat) :
    ∀ (fuel n : Nat), n ≤ bytes → bytes - n < fuel →
      (rtpmidi_session_name_scan frame bytes fuel n).2 = true →
      (rtpmidi_session_name_scan frame bytes fuel n).1 ≠ bytes →
      n ≤ (rtpmidi_session_name_scan frame bytes fuel n).1
      ∧ (rtpmidi_session_name_scan frame bytes fuel n).1 < bytes
      ∧ peek frame (rtpmidi_session_name_scan frame bytes fuel n).1 = 0
      ∧ ∀ j, n ≤ j → j < (rtpmidi_session_name_scan frame bytes fuel n).1 →
          isprint (peek frame j) = true := by
  intro fuel
  induction fuel with
  | zero => intro n _ h; omega
  | succ f ih =>
    intro n hn hf
    simp only [rtpmidi_session_name_scan]
    by_cases hb : n < bytes
    · simp only [hb, if_true]
      by_cases h0 : peek frame n = 0
      · rw [if_pos h0]
        intro _ _
        exact ⟨Nat.le_refl _, hb, h0, fun j a b => by omega⟩
      · rw [if_neg h0]
        by_cases hp : isprint (peek frame n) = true
        · simp only [hp, not_true_eq_false, if_false]
          intro h1 h2
          obtain ⟨a, b, c, d⟩ := ih (n + 1) (by omega) (by omega) h1 h2
          refine ⟨by omega, b, c, ?_⟩
          intro j hj hj2
          by_cases e : j = n
          · subst e; exact hp
          · exact d j (by omega) hj2
        · simp only [hp, not_false_eq_true, if_true]
          intro h; cases h
    · simp only [hb, if_false]
      intro _ h
      exact absurd (by omega : n = bytes) h

theorem peek_drop (m : List Nat) (i j : Nat) : peek (m.drop i) j = peek m (i + j) := by
  simp [peek, List.getD_eq_getElem?_getD, List.getElem?_drop]

theorem takeWhile_until_zero :
    ∀ (l : List Nat) (k : Nat), (∀ j, j < k → peek l j ≠ 0) → peek l k = 0 →
      l.takeWhile (fun b => b != 0) = l.take k ∧ (l.take k).length = k := by
  intro l
  induction l with
  | nil =>
    intro k h _
    cases k with
    | zero => simp
    | succ n => exact absurd (peek_nil 0) (h 0 (Nat.succ_pos n))
  | cons x xs ih =>
    intro k h h0
    cases k with
    | zero =>
      rw [peek_cons_zero] at h0
      subst h0
      simp
    | succ n =>
      have hx : x ≠ 0 := by
        have := h 0 (Nat.succ_pos n)
        rwa [peek_cons_zero] at this
      rw [peek_cons_succ] at h0
      obtain ⟨a, b⟩ := ih n (fun j hj => by
        have := h (j + 1) (by omega)
        rwa [peek_cons_succ] at this) h0
      simp [List.takeWhile_cons, hx, a, b]

theorem peek_mem (l : List Nat) (j : Nat) (h : j < l.length) : peek l j ∈ l := by
  simp only [peek, List.getD_eq_getElem?_getD, List.getElem?_eq_getElem h, Option.getD_some]
  exact List.getElem_mem h

theorem mem_peek (l : List Nat) (b : Nat) (h : b ∈ l) : ∃ j, j < l.length ∧ peek l j = b := by
  obtain ⟨j, hj, e⟩ := List.mem_iff_getElem.mp h
  refine ⟨j, hj, ?_⟩
  simp only [peek, List.getD_eq_getElem?_getD, List.getElem?_eq_getElem hj, Option.getD_some]
  exact e

theorem carries_session_name_iff (frame : List Nat) (bytes : Nat) (pat : List Nat) :
    carries_session_name frame bytes pat = true
      ↔ 16 + pat.length < bytes ∧ (frame.drop 16).take pat.length = pat
        ∧ peek frame (16 + pat.length) = 0 ∧ ∀ b ∈ pat, isprint b = true := by
  simp [carries_session_name, and_assoc]

/-- The name test of the invite branch (`session_name` still non-NULL after the scan and
the `n == bytes` check, and `strcmp` with the pattern equal) agrees with the spec-side
predicate on every frame that holds the whole command header. -/
theorem session_name_decision (frame : List Nat) (bytes : Nat) (pat : List Nat)
    (hb : 16 ≤ bytes) :
    (((rtpmidi_session_name_scan frame bytes (bytes + 1) 16).2
        && !decide ((rtpmidi_session_name_scan frame bytes (bytes + 1) 16).1 = bytes)) = true
      ∧ some (c_string frame 16) = some pat)
    ↔ carries_session_name frame bytes pat = true := by
  rw [carries_session_name_iff]
  constructor
  · rintro ⟨hn, hs⟩
    simp only [Bool.and_eq_true, Bool.not_eq_true', decide_eq_false_iff_not] at hn
    obtain ⟨a, b, c, d⟩ := rtpmidi_session_name_scan_named frame bytes (bytes + 1) 16 hb
      (by omega) hn.1 hn.2
    generalize (rtpmidi_session_name_scan frame bytes (bytes + 1) 16).1 = m at a b c d
    obtain ⟨k, rfl⟩ := Nat.exists_eq_add_of_le a
    have t := takeWhile_until_zero (frame.drop 16) k
      (fun j hj => by
        rw [peek_drop]
        exact isprint_ne_zero _ (d (16 + j) (by omega) (by omega)))
      (by rw [peek_drop]; exact c)
    simp only [Option.some.injEq, c_string] at hs
    rw [t.1] at hs
    have hk : pat.length = k := by rw [← hs]; exact t.2
    refine ⟨by omega, by rw [hk]; exact hs, by rw [hk]; exact c, ?_⟩
    intro x hx
    obtain ⟨j, hj, e⟩ := mem_peek pat x hx
    rw [← e, ← hs, peek_take, if_pos (by omega), peek_drop]
    exact d (16 + j) (by omega) (by omega)
  · rintro ⟨h1, h2, h3, h4⟩
    have hp : ∀ j, j < pat.length → isprint (peek frame (16 + j)) = true := by
      intro j hj
      have e : peek frame (16 + j) = peek pat j := by
        rw [← peek_drop]
        conv_rhs => rw [← h2]
        rw [peek_take, if_pos hj]
      rw [e]
      exact h4 _ (peek_mem pat j hj)
    have hs := rtpmidi_session_name_scan_stop frame bytes (bytes + 1) 16 (16 + pat.length)
      (by omega) h1 (by omega) h3
      (fun j hj hj2 => by
        obtain ⟨i, rfl⟩ := Nat.exists_eq_add_of_le hj
        exact hp i (by omega))
    have t := takeWhile_until_zero (frame.drop 16) pat.length
      (fun j hj => by
        rw [peek_drop]
        exact isprint_ne_zero _ (hp j hj))
      (by rw [peek_drop]; exact h3)
    refine ⟨?_, ?_⟩
    · rw [hs]
      simp only [Bool.true_and, Bool.not_eq_true', decide_eq_false_iff_not]
      omega
    · simp only [c_string, Option.some.injEq]
      rw [t.1, h2]

theorem rtpmidi_invite_accepted_spec (data : rtpmidi_instance_data) (frame : List Nat)
    (bytes : Nat) (hb : 16 ≤ bytes) :
    rtpmidi_invite_accepted data frame bytes = spec_invite_accepted data.accept frame bytes := by
  unfold rtpmidi_invite_accepted spec_invite_accepted
  cases ha : data.accept with
  | none => simp
  | some pat =>
    have d := session_name_decision frame bytes pat hb
    simp only [Option.isSome_some, Bool.true_and, Option.some.injEq, sizeof_apple_command]
    by_cases hp : pat = [0x2A]
    · simp [hp]
    · simp only [hp, decide_False, Bool.false_or]
      rw [Bool.eq_iff_iff, ← d]
      simp only [Bool.and_eq_true, Bool.not_eq_true', decide_eq_false_iff_not,
        decide_eq_true_eq, Option.some.injEq]

/-- The invite branch of `rtpmidi_handle_applemidi`: one reply to the source on the socket
of the invite, `accept` or `reject` by the decision, and a `rtpmidi_push_peer` only for an
accepted invite on the data socket. -/
theorem rtpmidi_handle_applemidi_invite (B : Nat) (data : rtpmidi_instance_data)
    (name : List Nat) (on_control : Bool) (frame : List Nat) (bytes : Nat) (peer : List Nat)
    (peer_len now : Nat) (fresh : List Nat) (alloc_ok : Bool)
    (hcmd : be16toh_at frame 2 = apple_invite) (hver : be32toh_at frame 4 = 2) :
    rtpmidi_handle_applemidi B data name on_control frame bytes peer peer_len now fresh alloc_ok
      = { rc := if rtpmidi_invite_accepted data frame bytes = true ∧ on_control = false
            then (rtpmidi_push_peer alloc_ok data peer peer_len true true (-1)).1 else 0,
          data := if rtpmidi_invite_accepted data frame bytes = true ∧ on_control = false
            then (rtpmidi_push_peer alloc_ok data peer peer_len true true (-1)).2 else data,
          sent := [rtpmidi_applecommand data name peer peer_len on_control
            (if rtpmidi_invite_accepted data frame bytes then apple_accept else apple_reject)
            [peek frame 8, peek frame 9, peek frame 10, peek frame 11] fresh] } := by
  unfold rtpmidi_handle_applemidi
  simp only [hcmd, hver, ne_eq, not_true_eq_false, and_false, if_false, if_true]
  cases rtpmidi_invite_accepted data frame bytes <;> cases on_control <;> simp

theorem rtpmidi_invite_accepted_short (data : rtpmidi_instance_data) (frame : List Nat)
    (bytes : Nat) (hb : bytes < 16) (ha : data.accept = some (c_string frame 16)) :
    rtpmidi_invite_accepted data frame bytes = true := by
  have hn : ¬ 16 < bytes := by omega
  have hne : ¬ 16 = bytes := by omega
  simp [rtpmidi_invite_accepted, rtpmidi_session_name_scan, sizeof_apple_command, hn, hne, ha]

theorem carries_session_name_short (frame : List Nat) (bytes : Nat) (pat : List Nat)
    (hb : bytes ≤ 16) : carries_session_name frame bytes pat = false := by
  have hn : ¬ 16 + pat.length < bytes := by omega
  simp [carries_session_name, hn]

/-- C13 (inbound invite decision). An invite frame with version 2 is answered by exactly
one datagram, sent to the source address on the socket the invite arrived on.  When the
frame holds the whole 16 byte command header, the reply is `OK` if and only if the accept
pattern is set and is `*` or equals a printable NUL-terminated session name carried by the
frame, and `NO` otherwise.  For a shorter frame the name is read from the buffer behind
the datagram: the reply is `OK` when the pattern equals the string found there (the empty
string in a zero-filled buffer) although the frame carries no session name. -/
theorem invite_decision (B : Nat) (data : rtpmidi_instance_data) (name : List Nat)
    (on_control : Bool) (frame : List Nat) (bytes : Nat) (peer : List Nat)
    (peer_len now : Nat) (fresh : List Nat) (alloc_ok : Bool)
    (hcmd : be16toh_at frame 2 = apple_invite) (hver : be32toh_at frame 4 = 2) :
    (∃ d, (rtpmidi_handle_applemidi B data name on_control frame bytes peer peer_len now
          fresh alloc_ok).sent = [d]
      ∧ d.control = on_control ∧ d.dest = peer ∧ d.dest_len = peer_len
      ∧ (16 ≤ bytes → d.payload.take 4 = [0xFF, 0xFF]
          ++ htobe16 (if spec_invite_accepted data.accept frame bytes then apple_accept
              else apple_reject))
      ∧ (bytes < 16 → data.accept = some (c_string frame 16) →
          d.payload.take 4 = [0xFF, 0xFF] ++ htobe16 apple_accept
          ∧ carries_session_name frame bytes (c_string frame 16) = false)) := by
  rw [rtpmidi_handle_applemidi_invite B data name on_control frame bytes peer peer_len now
    fresh alloc_ok hcmd hver]
  refine ⟨_, rfl, rfl, rfl, rfl, ?_, ?_⟩
  · intro hb
    rw [rtpmidi_invite_accepted_spec data frame bytes hb]
    simp [rtpmidi_applecommand, htobe16]
  · intro hb ha
    rw [rtpmidi_invite_accepted_short data frame bytes hb ha]
    exact ⟨by simp [rtpmidi_applecommand, htobe16],
      carries_session_name_short frame bytes _ (by omega)⟩

theorem invite_decision_witness :
    (∃ d, (rtpmidi_handle_applemidi 64 { accept := some [] } [0x61] false
          ([0xFF, 0xFF, 0x49, 0x4E, 0, 0, 0, 2, 0xCA, 0xFE, 0xBA, 0xBE] ++ List.replicate 52 0)
          12 [2, 0, 0x9C, 0x40, 10, 0, 0, 5, 0, 0, 0, 0, 0, 0, 0, 0] 16 0
          [1, 2, 3, 4] true).sent = [d]
      ∧ d.control = false ∧ d.dest = [2, 0, 0x9C, 0x40, 10, 0, 0, 5, 0, 0, 0, 0, 0, 0, 0, 0]
      ∧ d.dest_len = 16
      ∧ (16 ≤ 12 → d.payload.take 4 = [0xFF, 0xFF]
          ++ htobe16 (if spec_invite_accepted ({ accept := some [] } : rtpmidi_instance_data).accept
                ([0xFF, 0xFF, 0x49, 0x4E, 0, 0, 0, 2, 0xCA, 0xFE, 0xBA, 0xBE]
                  ++ List.replicate 52 0) 12 then apple_accept
              else apple_reject))
      ∧ (12 < 16 → ({ accept := some [] } : rtpmidi_instance_data).accept
            = some (c_string ([0xFF, 0xFF, 0x49, 0x4E, 0, 0, 0, 2, 0xCA, 0xFE, 0xBA, 0xBE]
                ++ List.replicate 52 0) 16) →
          d.payload.take 4 = [0xFF, 0xFF] ++ htobe16 apple_accept
          ∧ carries_session_name ([0xFF, 0xFF, 0x49, 0x4E, 0, 0, 0, 2, 0xCA, 0xFE, 0xBA, 0xBE]
              ++ List.replicate 52 0) 12
              (c_string ([0xFF, 0xFF, 0x49, 0x4E, 0, 0, 0, 2, 0xCA, 0xFE, 0xBA, 0xBE]
                ++ List.replicate 52 0) 16) = false)) :=
  invite_decision 64 { accept := some [] } [0x61] false
    ([0xFF, 0xFF, 0x49, 0x4E, 0, 0, 0, 2, 0xCA, 0xFE, 0xBA, 0xBE] ++ List.replicate 52 0)
    12 [2, 0, 0x9C, 0x40, 10, 0, 0, 5, 0, 0, 0, 0, 0, 0, 0, 0] 16 0 [1, 2, 3, 4] true
    (by decide) (by decide)

/-- C16 (token echo). The reply to an invite with version 2 is the frame
`FF FF, command, 00 00 00 02, token, own ssrc (big-endian), own instance name, NUL`.  Its
token field equals the four token bytes of the invite whenever one of them is non-zero;
for the all-zero token the field holds a freshly generated value instead.  For the invite
of scenario S4 (token `CA FE BA BE`, instance `a`, SSRC `0xDEADBEEF`, pattern `*`) the reply
is `FF FF 4F 4B 00 00 00 02 CA FE BA BE DE AD BE EF 61 00`. -/
theorem token_echo (B : Nat) (data : rtpmidi_instance_data) (name : List Nat)
    (on_control : Bool) (frame : List Nat) (bytes : Nat) (peer : List Nat)
    (peer_len now : Nat) (fresh : List Nat) (alloc_ok : Bool)
    (hcmd : be16toh_at frame 2 = apple_invite) (hver : be32toh_at frame 4 = 2) :
    (¬ (peek frame 8 = 0 ∧ peek frame 9 = 0 ∧ peek frame 10 = 0 ∧ peek frame 11 = 0) →
      (rtpmidi_handle_applemidi B data name on_control frame bytes peer peer_len now
          fresh alloc_ok).sent.map (fun d => d.payload)
        = [[0xFF, 0xFF]
            ++ htobe16 (if rtpmidi_invite_accepted data frame bytes then apple_accept
                else apple_reject)
            ++ [0, 0, 0, 2] ++ [peek frame 8, peek frame 9, peek frame 10, peek frame 11]
            ++ htobe32 data.ssrc ++ name ++ [0]])
    ∧ (peek frame 8 = 0 ∧ peek frame 9 = 0 ∧ peek frame 10 = 0 ∧ peek frame 11 = 0 →
      (rtpmidi_handle_applemidi B data name on_control frame bytes peer peer_len now
          fresh alloc_ok).sent.map (fun d => d.payload)
        = [[0xFF, 0xFF]
            ++ htobe16 (if rtpmidi_invite_accepted data frame bytes then apple_accept
                else apple_reject)
            ++ [0, 0, 0, 2] ++ fresh ++ htobe32 data.ssrc ++ name ++ [0]])
    ∧ (rtpmidi_handle_applemidi B { accept := some [0x2A], ssrc := 0xDEADBEEF } [0x61] false
          [0xFF, 0xFF, 0x49, 0x4E, 0, 0, 0, 2, 0xCA, 0xFE, 0xBA, 0xBE, 0, 0, 0, 0,
            0x66, 0x6F, 0x6F, 0]
          20 peer peer_len now fresh alloc_ok).sent.map (fun d => d.payload)
        = [[0xFF, 0xFF, 0x4F, 0x4B, 0, 0, 0, 2, 0xCA, 0xFE, 0xBA, 0xBE,
            0xDE, 0xAD, 0xBE, 0xEF, 0x61, 0]] := by
  refine ⟨?_, ?_, ?_⟩
  · intro hz
    rw [rtpmidi_handle_applemidi_invite B data name on_control frame bytes peer peer_len now
      fresh alloc_ok hcmd hver]
    have hall : [peek frame 8, peek frame 9, peek frame 10, peek frame 11].all
        (fun b => b == 0) = false := by
      simp only [List.all_cons, List.all_nil, Bool.and_true, Bool.and_eq_false_imp,
        beq_iff_eq, beq_eq_false_iff_ne]
      intro a b c d
      exact hz ⟨a, b, c, d⟩
    simp [rtpmidi_applecommand, hall, htobe32]
  · rintro ⟨a, b, c, d⟩
    rw [rtpmidi_handle_applemidi_invite B data name on_control frame bytes peer peer_len now
      fresh alloc_ok hcmd hver]
    simp [rtpmidi_applecommand, a, b, c, d, htobe32]
  · rw [rtpmidi_handle_applemidi_invite B _ _ _ _ _ _ _ _ _ _ (by decide) (by decide)]
    have hacc : rtpmidi_invite_accepted { accept := some [0x2A], ssrc := 0xDEADBEEF }
        [0xFF, 0xFF, 0x49, 0x4E, 0, 0, 0, 2, 0xCA, 0xFE, 0xBA, 0xBE, 0, 0, 0, 0,
          0x66, 0x6F, 0x6F, 0] 20 = true := by decide
    rw [hacc]
    have hz : [peek [0xFF, 0xFF, 0x49, 0x4E, 0, 0, 0, 2, 0xCA, 0xFE, 0xBA, 0xBE, 0, 0, 0, 0,
          0x66, 0x6F, 0x6F, 0] 8,
        peek [0xFF, 0xFF, 0x49, 0x4E, 0, 0, 0, 2, 0xCA, 0xFE, 0xBA, 0xBE, 0, 0, 0, 0,
          0x66, 0x6F, 0x6F, 0] 9,
        peek [0xFF, 0xFF, 0x49, 0x4E, 0, 0, 0, 2, 0xCA, 0xFE, 0xBA, 0xBE, 0, 0, 0, 0,
          0x66, 0x6F, 0x6F, 0] 10,
        peek [0xFF, 0xFF, 0x49, 0x4E, 0, 0, 0, 2, 0xCA, 0xFE, 0xBA, 0xBE, 0, 0, 0, 0,
          0x66, 0x6F, 0x6F, 0] 11].all (fun b => b == 0) = false := by decide
    simp only [List.map_cons, List.map_nil, rtpmidi_applecommand, hz, Bool.false_eq_true,
      if_false, if_true]
    decide

theorem token_echo_witness :
    (rtpmidi_handle_applemidi 64 { accept := some [0x2A], ssrc := 0xDEADBEEF } [0x61] true
        [0xFF, 0xFF, 0x49, 0x4E, 0, 0, 0, 2, 0, 0, 0, 0, 0, 0, 0, 0, 0x66, 0x6F, 0x6F, 0]
        20 [2, 0, 0x9C, 0x40, 10, 0, 0, 5, 0, 0, 0, 0, 0, 0, 0, 0] 16 0
        [0x12, 0x34, 0x56, 0x78] true).sent.map (fun d => d.payload)
      = [[0xFF, 0xFF, 0x4F, 0x4B, 0, 0, 0, 2, 0x12, 0x34, 0x56, 0x78,
          0xDE, 0xAD, 0xBE, 0xEF, 0x61, 0]] :=
  ((token_echo 64 { accept := some [0x2A], ssrc := 0xDEADBEEF } [0x61] true
      [0xFF, 0xFF, 0x49, 0x4E, 0, 0, 0, 2, 0, 0, 0, 0, 0, 0, 0, 0, 0x66, 0x6F, 0x6F, 0]
      20 [2, 0, 0x9C, 0x40, 10, 0, 0, 5, 0, 0, 0, 0, 0, 0, 0, 0] 16 0
      [0x12, 0x34, 0x56, 0x78] true (by decide) (by decide)).2.1
    (by decide)).trans (by decide)

/-- When an active entry of the registry already holds the address, `rtpmidi_push_peer`
returns 0 and only stores the `connected` argument in the first such entry. -/
theorem rtpmidi_push_peer_refresh (a : Bool) (data : rtpmidi_instance_data) (sock : List Nat)
    (len : Nat) (l c : Bool) (i : Int)
    (h : ∃ y ∈ data.peer, rtpmidi_push_peer_match sock len y = true) :
    ∃ u e, data.peer[u]? = some e ∧ rtpmidi_push_peer_match sock len e = true
      ∧ rtpmidi_push_peer a data sock len l c i
          = (0, { data with peer := data.peer.set u { e with connected := c } }) := by
  cases hs : rtpmidi_push_peer_scan sock len data.peer 0 data.peer.length with
  | inl u =>
    obtain ⟨e, -, hget, hm, hpre⟩ := rtpmidi_push_peer_scan_inl sock len _ _ _ _ hs
    simp only [Nat.sub_zero] at hget hpre
    exact ⟨u, e, hget, hm, rtpmidi_push_peer_known a data sock len l c i u e hget hm hpre⟩
  | inr p =>
    obtain ⟨hall, -⟩ := rtpmidi_push_peer_scan_inr sock len _ _ _ _ hs
    obtain ⟨y, hy, hm⟩ := h
    rw [hall y hy] at hm
    cases hm

/-- C14, as stated, fails: with a configured peer (`learned = 0`) already registered at
the source address, an accepted invite on the data socket leaves that entry with
`learned = 0`; no entry with `learned = 1` exists afterwards. -/
theorem invite_registry_effect_not_as_stated :
    (rtpmidi_handle_applemidi 64
        { accept := some [0x2A], ssrc := 0xDEADBEEF,
          peer := [{ active := true, learned := false, connected := false, invite := -1,
                     dest := [2, 0, 0x9C, 0x40, 10, 0, 0, 5, 0, 0, 0, 0, 0, 0, 0, 0],
                     dest_len := 16 }] }
        [0x61] false
        [0xFF, 0xFF, 0x49, 0x4E, 0, 0, 0, 2, 0xCA, 0xFE, 0xBA, 0xBE, 0, 0, 0, 0,
          0x66, 0x6F, 0x6F, 0]
        20 [2, 0, 0x9C, 0x40, 10, 0, 0, 5, 0, 0, 0, 0, 0, 0, 0, 0] 16 0 [1, 2, 3, 4]
        true).data.peer
      = [{ active := true, learned := false, connected := true, invite := -1,
           dest := [2, 0, 0x9C, 0x40, 10, 0, 0, 5, 0, 0, 0, 0, 0, 0, 0, 0],
           dest_len := 16 }] := by
  decide

/-- C14, amended (invite effect on the registry). For an invite with version 2: a rejected
invite, or one accepted on the control socket, leaves the instance and so the peer registry
unchanged.  An accepted invite on the data socket, when an active entry already holds the
source address, only sets the `connected` flag of the first such entry (its `learned` flag
and invite reference stay).  When no active entry holds the address and the push returns
0, the registry afterwards has an active entry for the address with `learned = 1`,
`connected = 1`, invite reference -1.  For the S4 invite from `10.0.0.5:40000` into an empty
registry, the registry then is that single entry. -/
theorem invite_registry_effect (B : Nat) (data : rtpmidi_instance_data) (name : List Nat)
    (on_control : Bool) (frame : List Nat) (bytes : Nat) (peer : List Nat)
    (peer_len now : Nat) (fresh : List Nat) (alloc_ok : Bool)
    (hcmd : be16toh_at frame 2 = apple_invite) (hver : be32toh_at frame 4 = 2) :
    ((rtpmidi_invite_accepted data frame bytes = false ∨ on_control = true) →
      (rtpmidi_handle_applemidi B data name on_control frame bytes peer peer_len now fresh
        alloc_ok).data = data)
    ∧ (rtpmidi_invite_accepted data frame bytes = true → on_control = false →
        (∃ y ∈ data.peer, rtpmidi_push_peer_match peer peer_len y = true) →
        ∃ u e, data.peer[u]? = some e ∧ e.active = true ∧ e.dest_len = peer_len
          ∧ e.dest.take peer_len = peer.take peer_len
          ∧ (rtpmidi_handle_applemidi B data name on_control frame bytes peer peer_len now
              fresh alloc_ok).rc = 0
          ∧ (rtpmidi_handle_applemidi B data name on_control frame bytes peer peer_len now
              fresh alloc_ok).data
            = { data with peer := data.peer.set u { e with connected := true } })
    ∧ (rtpmidi_invite_accepted data frame bytes = true → on_control = false →
        (∀ y ∈ data.peer, rtpmidi_push_peer_match peer peer_len y = false) →
        peer_len ≤ peer.length →
        (rtpmidi_handle_applemidi B data name on_control frame bytes peer peer_len now
          fresh alloc_ok).rc = 0 →
        ∃ (u : Nat) (e : rtpmidi_peer),
          (rtpmidi_handle_applemidi B data name on_control frame bytes peer peer_len now
              fresh alloc_ok).data.peer[u]? = some e
          ∧ e.active = true ∧ e.learned = true ∧ e.connected = true ∧ e.invite = -1
          ∧ e.dest_len = peer_len ∧ e.dest.take peer_len = peer.take peer_len)
    ∧ (rtpmidi_handle_applemidi B { accept := some [0x2A], ssrc := 0xDEADBEEF } [0x61] false
          [0xFF, 0xFF, 0x49, 0x4E, 0, 0, 0, 2, 0xCA, 0xFE, 0xBA, 0xBE, 0, 0, 0, 0,
            0x66, 0x6F, 0x6F, 0]
          20 [2, 0, 0x9C, 0x40, 10, 0, 0, 5, 0, 0, 0, 0, 0, 0, 0, 0] 16 now fresh
          true).data.peer
        = [{ active := true, learned := true, connected := true, invite := -1,
             dest := [2, 0, 0x9C, 0x40, 10, 0, 0, 5, 0, 0, 0, 0, 0, 0, 0, 0],
             dest_len := 16 }] := by
  refine ⟨?_, ?_, ?_, ?_⟩
  · intro h
    rw [rtpmidi_handle_applemidi_invite B data name on_control frame bytes peer peer_len now
      fresh alloc_ok hcmd hver]
    rcases h with h | h <;> simp [h]
  · intro hacc hoc hex
    rw [rtpmidi_handle_applemidi_invite B data name on_control frame bytes peer peer_len now
      fresh alloc_ok hcmd hver]
    obtain ⟨u, e, hget, hm, hpush⟩ :=
      rtpmidi_push_peer_refresh alloc_ok data peer peer_len true true (-1) hex
    obtain ⟨m1, m2, m3⟩ := (rtpmidi_push_peer_match_iff peer peer_len e).mp hm
    refine ⟨u, e, hget, m1, m2.symm, m3, ?_, ?_⟩
    · simp only [hacc, hoc, and_self, if_true, hpush]
    · simp only [hacc, hoc, and_self, if_true, hpush]
  · intro hacc hoc hall hlen
    rw [rtpmidi_handle_applemidi_invite B data name on_control frame bytes peer peer_len now
      fresh alloc_ok hcmd hver]
    simp only [hacc, hoc, and_self, if_true]
    intro h0
    obtain ⟨u, e, hget, hm, -, hc, hnew⟩ :=
      rtpmidi_push_peer_after alloc_ok data peer peer_len true true (-1) hlen h0
    obtain ⟨m1, m2, m3⟩ := (rtpmidi_push_peer_match_iff peer peer_len e).mp hm
    exact ⟨u, e, hget, m1, (hnew hall).1, hc, (hnew hall).2, m2.symm, m3⟩
  · rw [rtpmidi_handle_applemidi_invite B _ _ _ _ _ _ _ _ _ _ (by decide) (by decide)]
    simp only []
    decide

theorem invite_registry_effect_witness :
    (rtpmidi_handle_applemidi 64 { accept := some [0x2A], ssrc := 0xDEADBEEF } [0x61] false
        [0xFF, 0xFF, 0x49, 0x4E, 0, 0, 0, 2, 0xCA, 0xFE, 0xBA, 0xBE, 0, 0, 0, 0,
          0x66, 0x6F, 0x6F, 0]
        20 [2, 0, 0x9C, 0x40, 10, 0, 0, 5, 0, 0, 0, 0, 0, 0, 0, 0] 16 0 [1, 2, 3, 4]
        true).data.peer
      = [{ active := true, learned := true, connected := true, invite := -1,
           dest := [2, 0, 0x9C, 0x40, 10, 0, 0, 5, 0, 0, 0, 0, 0, 0, 0, 0],
           dest_len := 16 }] :=
  (invite_registry_effect 64 { accept := some [0x2A], ssrc := 0xDEADBEEF } [0x61] false
    [0xFF, 0xFF, 0x49, 0x4E, 0, 0, 0, 2, 0xCA, 0xFE, 0xBA, 0xBE, 0, 0, 0, 0,
      0x66, 0x6F, 0x6F, 0]
    20 [2, 0, 0x9C, 0x40, 10, 0, 0, 5, 0, 0, 0, 0, 0, 0, 0, 0] 16 0 [1, 2, 3, 4] true
    (by decide) (by decide)).2.2.2

/-- C15, as stated, fails: the reply to the S4 invite, which arrived on the data socket,
is sent on the data socket and not on the control socket. -/
theorem applemidi_handshake_not_as_stated :
    (rtpmidi_handle_applemidi 64 { accept := some [0x2A], ssrc := 0xDEADBEEF } [0x61] false
        [0xFF, 0xFF, 0x49, 0x4E, 0, 0, 0, 2, 0xCA, 0xFE, 0xBA, 0xBE, 0, 0, 0, 0,
          0x66, 0x6F, 0x6F, 0]
        20 [2, 0, 0x9C, 0x40, 10, 0, 0, 5, 0, 0, 0, 0, 0, 0, 0, 0] 16 0 [1, 2, 3, 4]
        true).sent.map (fun d => (d.control, d.payload.take 4))
      = [(false, [0xFF, 0xFF, 0x4F, 0x4B])] := by
  decide

/-- C15, amended (AppleMIDI handshake). For an invite with version 2 received on the data
socket whose frame holds the command header and matches the accept pattern: the one
datagram sent is addressed to the source, goes out on the data socket, and starts with
`FF FF 4F 4B 00 00 00 02` followed by the token bytes of the invite when these are not all
zero; when the push returns 0 the registry afterwards has an active entry holding the
source address with `connected = 1`, and with `learned = 1` when no active entry held the
address before. -/
theorem applemidi_handshake (B : Nat) (data : rtpmidi_instance_data) (name : List Nat)
    (frame : List Nat) (bytes : Nat) (peer : List Nat)
    (peer_len now : Nat) (fresh : List Nat) (alloc_ok : Bool)
    (hcmd : be16toh_at frame 2 = apple_invite) (hver : be32toh_at frame 4 = 2)
    (hb : 16 ≤ bytes) (hacc : spec_invite_accepted data.accept frame bytes = true)
    (hz : ¬ (peek frame 8 = 0 ∧ peek frame 9 = 0 ∧ peek frame 10 = 0 ∧ peek frame 11 = 0))
    (hlen : peer_len ≤ peer.length)
    (h0 : (rtpmidi_handle_applemidi B data name false frame bytes peer peer_len now fresh
      alloc_ok).rc = 0) :
    (∃ d, (rtpmidi_handle_applemidi B data name false frame bytes peer peer_len now fresh
          alloc_ok).sent = [d]
      ∧ d.control = false ∧ d.dest = peer ∧ d.dest_len = peer_len
      ∧ d.payload.take 12 = [0xFF, 0xFF, 0x4F, 0x4B, 0, 0, 0, 2,
          peek frame 8, peek frame 9, peek frame 10, peek frame 11])
    ∧ ∃ (u : Nat) (e : rtpmidi_peer),
        (rtpmidi_handle_applemidi B data name false frame bytes peer peer_len now fresh
          alloc_ok).data.peer[u]? = some e
        ∧ e.active = true ∧ e.connected = true
        ∧ e.dest_len = peer_len ∧ e.dest.take peer_len = peer.take peer_len
        ∧ ((∀ y ∈ data.peer, rtpmidi_push_peer_match peer peer_len y = false) →
            e.learned = true) := by
  have hacc2 : rtpmidi_invite_accepted data frame bytes = true := by
    rw [rtpmidi_invite_accepted_spec data frame bytes hb]; exact hacc
  rw [rtpmidi_handle_applemidi_invite B data name false frame bytes peer peer_len now
    fresh alloc_ok hcmd hver] at h0 ⊢
  simp only [hacc2, and_self, if_true] at h0 ⊢
  have hall : [peek frame 8, peek frame 9, peek frame 10, peek frame 11].all
      (fun b => b == 0) = false := by
    simp only [List.all_cons, List.all_nil, Bool.and_true, Bool.and_eq_false_imp,
      beq_iff_eq, beq_eq_false_iff_ne]
    intro a b c d
    exact hz ⟨a, b, c, d⟩
  refine ⟨⟨_, rfl, rfl, rfl, rfl, ?_⟩, ?_⟩
  · simp only [rtpmidi_applecommand, hall, Bool.false_eq_true, if_false]
    rfl
  · obtain ⟨u, e, hget, hm, -, hc, hnew⟩ :=
      rtpmidi_push_peer_after alloc_ok data peer peer_len true true (-1) hlen h0
    obtain ⟨m1, m2, m3⟩ := (rtpmidi_push_peer_match_iff peer peer_len e).mp hm
    exact ⟨u, e, hget, m1, hc, m2.symm, m3, fun h => (hnew h).1⟩

theorem applemidi_handshake_witness :
    (∃ d, (rtpmidi_handle_applemidi 64 { accept := some [0x66, 0x6F, 0x6F] } [0x61] false
          [0xFF, 0xFF, 0x49, 0x4E, 0, 0, 0, 2, 0xCA, 0xFE, 0xBA, 0xBE, 0, 0, 0, 0,
            0x66, 0x6F, 0x6F, 0]
          20 [2, 0, 0x9C, 0x40, 10, 0, 0, 5, 0, 0, 0, 0, 0, 0, 0, 0] 16 0 [1, 2, 3, 4]
          true).sent = [d]
      ∧ d.control = false ∧ d.dest = [2, 0, 0x9C, 0x40, 10, 0, 0, 5, 0, 0, 0, 0, 0, 0, 0, 0]
      ∧ d.dest_len = 16
      ∧ d.payload.take 12 = [0xFF, 0xFF, 0x4F, 0x4B, 0, 0, 0, 2,
          peek [0xFF, 0xFF, 0x49, 0x4E, 0, 0, 0, 2, 0xCA, 0xFE, 0xBA, 0xBE, 0, 0, 0, 0,
            0x66, 0x6F, 0x6F, 0] 8,
          peek [0xFF, 0xFF, 0x49, 0x4E, 0, 0, 0, 2, 0xCA, 0xFE, 0xBA, 0xBE, 0, 0, 0, 0,
            0x66, 0x6F, 0x6F, 0] 9,
          peek [0xFF, 0xFF, 0x49, 0x4E, 0, 0, 0, 2, 0xCA, 0xFE, 0xBA, 0xBE, 0, 0, 0, 0,
            0x66, 0x6F, 0x6F, 0] 10,
          peek [0xFF, 0xFF, 0x49, 0x4E, 0, 0, 0, 2, 0xCA, 0xFE, 0xBA, 0xBE, 0, 0, 0, 0,
            0x66, 0x6F, 0x6F, 0] 11])
    ∧ ∃ (u : Nat) (e : rtpmidi_peer),
        (rtpmidi_handle_applemidi 64 { accept := some [0x66, 0x6F, 0x6F] } [0x61] false
          [0xFF, 0xFF, 0x49, 0x4E, 0, 0, 0, 2, 0xCA, 0xFE, 0xBA, 0xBE, 0, 0, 0, 0,
            0x66, 0x6F, 0x6F, 0]
          20 [2, 0, 0x9C, 0x40, 10, 0, 0, 5, 0, 0, 0, 0, 0, 0, 0, 0] 16 0 [1, 2, 3, 4]
          true).data.peer[u]? = some e
        ∧ e.active = true ∧ e.connected = true
        ∧ e.dest_len = 16
        ∧ e.dest.take 16 = [2, 0, 0x9C, 0x40, 10, 0, 0, 5, 0, 0, 0, 0, 0, 0, 0, 0].take 16
        ∧ ((∀ y ∈ ({ accept := some [0x66, 0x6F, 0x6F] } : rtpmidi_instance_data).peer,
              rtpmidi_push_peer_match [2, 0, 0x9C, 0x40, 10, 0, 0, 5, 0, 0, 0, 0, 0, 0, 0, 0]
                16 y = false) →
            e.learned = true) :=
  applemidi_handshake 64 { accept := some [0x66, 0x6F, 0x6F] } [0x61]
    [0xFF, 0xFF, 0x49, 0x4E, 0, 0, 0, 2, 0xCA, 0xFE, 0xBA, 0xBE, 0, 0, 0, 0,
      0x66, 0x6F, 0x6F, 0]
    20 [2, 0, 0x9C, 0x40, 10, 0, 0, 5, 0, 0, 0, 0, 0, 0, 0, 0] 16 0 [1, 2, 3, 4] true
    (by decide) (by decide) (by decide) (by decide) (by decide) (by decide) (by decide)

/-- The accept branch of `rtpmidi_handle_applemidi`. -/
theorem rtpmidi_handle_applemidi_accept (B : Nat) (data : rtpmidi_instance_data)
    (name : List Nat) (on_control : Bool) (frame : List Nat) (bytes : Nat) (peer : List Nat)
    (peer_len now : Nat) (fresh : List Nat) (alloc_ok : Bool)
    (hcmd : be16toh_at frame 2 = apple_accept) (hver : be32toh_at frame 4 = 2) :
    rtpmidi_handle_applemidi B data name on_control frame bytes peer peer_len now fresh alloc_ok
      = if on_control = false then
          { rc := (rtpmidi_push_peer alloc_ok data peer peer_len true true (-1)).1,
            data := (rtpmidi_push_peer alloc_ok data peer peer_len true true (-1)).2,
            sent := [] }
        else
          { rc := 0, data := data,
            sent := [rtpmidi_applecommand data name (sockaddr_next_port peer) peer_len false
              apple_invite [0, 0, 0, 0] fresh] } := by
  have n1 : apple_accept ≠ apple_invite := by decide
  unfold rtpmidi_handle_applemidi
  simp only [hcmd, hver, ne_eq, not_true_eq_false, and_false, if_false, if_true, n1]

theorem peek_sockaddr_next_port (peer : List Nat) (j : Nat) :
    peek (sockaddr_next_port peer) j
      = if j = 2 then ((be16toh_at peer 2 + 1) % 65536) / 256
        else if j = 3 then ((be16toh_at peer 2 + 1) % 65536) % 256
        else peek peer j := by
  simp only [sockaddr_next_port, htobe16, poke_bytes, peek_poke]
  by_cases h3 : j = 3
  · subst h3
    simp
  · simp only [h3, if_false]
    by_cases h2 : j = 2
    · subst h2
      simp only [if_true]
      omega
    · simp only [h2, if_false]

theorem be16toh_at_sockaddr_next_port (peer : List Nat) :
    be16toh_at (sockaddr_next_port peer) 2 = (be16toh_at peer 2 + 1) % 65536 := by
  have h2 := peek_sockaddr_next_port peer 2
  have h3 := peek_sockaddr_next_port peer 3
  rw [if_pos rfl] at h2
  rw [if_neg (by decide), if_pos rfl] at h3
  generalize be16toh_at peer 2 = port at h2 h3 ⊢
  show peek (sockaddr_next_port peer) 2 * 256 + peek (sockaddr_next_port peer) 3 = _
  rw [h2, h3]
  omega

/-- C17, as stated, fails: with a peer already registered at the source address by an
earlier discovery (`connected = 0`, invite reference 0), an accept received on the data
socket only sets `connected`; the invite reference of the entry stays 0 and is not -1. -/
theorem inbound_accept_not_as_stated :
    (rtpmidi_handle_applemidi 64
        { ssrc := 0xDEADBEEF,
          peer := [{ active := true, learned := true, connected := false, invite := 0,
                     dest := [2, 0, 0x9C, 0x40, 10, 0, 0, 5, 0, 0, 0, 0, 0, 0, 0, 0],
                     dest_len := 16 }] }
        [0x61] false
        [0xFF, 0xFF, 0x4F, 0x4B, 0, 0, 0, 2, 0xCA, 0xFE, 0xBA, 0xBE, 0, 0, 0, 0,
          0x66, 0x6F, 0x6F, 0]
        20 [2, 0, 0x9C, 0x40, 10, 0, 0, 5, 0, 0, 0, 0, 0, 0, 0, 0] 16 0 [1, 2, 3, 4]
        true).data.peer
      = [{ active := true, learned := true, connected := true, invite := 0,
           dest := [2, 0, 0x9C, 0x40, 10, 0, 0, 5, 0, 0, 0, 0, 0, 0, 0, 0],
           dest_len := 16 }] := by
  decide

/-- C17, amended (inbound accept). For an accept (`OK`) frame with version 2: received on
the data socket it sends nothing; when an active entry already holds the source address
only the `connected` flag of the first such entry is set, and when none does and the push
returns 0 the registry afterwards has an active entry for the address with `learned = 1`,
`connected = 1`, invite reference -1.  Received on the control socket it leaves the
instance unchanged and sends exactly one invite (`IN`, version 2) frame on the data socket
to the source address with the port field replaced by `(source_port + 1) mod 2^16`. -/
theorem inbound_accept (B : Nat) (data : rtpmidi_instance_data) (name : List Nat)
    (on_control : Bool) (frame : List Nat) (bytes : Nat) (peer : List Nat)
    (peer_len now : Nat) (fresh : List Nat) (alloc_ok : Bool)
    (hcmd : be16toh_at frame 2 = apple_accept) (hver : be32toh_at frame 4 = 2) :
    (on_control = false →
      (rtpmidi_handle_applemidi B data name on_control frame bytes peer peer_len now fresh
        alloc_ok).sent = [])
    ∧ (on_control = false →
        (∃ y ∈ data.peer, rtpmidi_push_peer_match peer peer_len y = true) →
        ∃ u e, data.peer[u]? = some e ∧ e.active = true ∧ e.dest_len = peer_len
          ∧ e.dest.take peer_len = peer.take peer_len
          ∧ (rtpmidi_handle_applemidi B data name on_control frame bytes peer peer_len now
              fresh alloc_ok).rc = 0
          ∧ (rtpmidi_handle_applemidi B data name on_control frame bytes peer peer_len now
              fresh alloc_ok).data
            = { data with peer := data.peer.set u { e with connected := true } })
    ∧ (on_control = false →
        (∀ y ∈ data.peer, rtpmidi_push_peer_match peer peer_len y = false) →
        peer_len ≤ peer.length →
        (rtpmidi_handle_applemidi B data name on_control frame bytes peer peer_len now
          fresh alloc_ok).rc = 0 →
        ∃ (u : Nat) (e : rtpmidi_peer),
          (rtpmidi_handle_applemidi B data name on_control frame bytes peer peer_len now
              fresh alloc_ok).data.peer[u]? = some e
          ∧ e.active = true ∧ e.learned = true ∧ e.connected = true ∧ e.invite = -1
          ∧ e.dest_len = peer_len ∧ e.dest.take peer_len = peer.take peer_len)
    ∧ (on_control = true →
        (rtpmidi_handle_applemidi B data name on_control frame bytes peer peer_len now fresh
          alloc_ok).data = data
        ∧ ∃ d, (rtpmidi_handle_applemidi B data name on_control frame bytes peer peer_len now
              fresh alloc_ok).sent = [d]
          ∧ d.control = false ∧ d.dest_len = peer_len
          ∧ d.payload.take 8 = [0xFF, 0xFF, 0x49, 0x4E, 0, 0, 0, 2]
          ∧ be16toh_at d.dest 2 = (be16toh_at peer 2 + 1) % 65536
          ∧ ∀ j, j ≠ 2 → j ≠ 3 → peek d.dest j = peek peer j) := by
  rw [rtpmidi_handle_applemidi_accept B data name on_control frame bytes peer peer_len now
    fresh alloc_ok hcmd hver]
  refine ⟨?_, ?_, ?_, ?_⟩
  · intro hoc
    simp only [hoc, if_true]
  · intro hoc hex
    obtain ⟨u, e, hget, hm, hpush⟩ :=
      rtpmidi_push_peer_refresh alloc_ok data peer peer_len true true (-1) hex
    obtain ⟨m1, m2, m3⟩ := (rtpmidi_push_peer_match_iff peer peer_len e).mp hm
    refine ⟨u, e, hget, m1, m2.symm, m3, ?_, ?_⟩
    · simp only [hoc, if_true, hpush]
    · simp only [hoc, if_true, hpush]
  · intro hoc hall hlen
    simp only [hoc, if_true]
    intro h0
    obtain ⟨u, e, hget, hm, -, hc, hnew⟩ :=
      rtpmidi_push_peer_after alloc_ok data peer peer_len true true (-1) hlen h0
    obtain ⟨m1, m2, m3⟩ := (rtpmidi_push_peer_match_iff peer peer_len e).mp hm
    exact ⟨u, e, hget, m1, (hnew hall).1, hc, (hnew hall).2, m2.symm, m3⟩
  · intro hoc
    simp only [hoc, Bool.true_eq_false, if_false]
    refine ⟨trivial, _, rfl, rfl, rfl, ?_, be16toh_at_sockaddr_next_port peer, ?_⟩
    · simp [rtpmidi_applecommand, htobe16, htobe32, apple_invite]
    · intro j h2 h3
      show peek (sockaddr_next_port peer) j = peek peer j
      rw [peek_sockaddr_next_port, if_neg h2, if_neg h3]

theorem inbound_accept_witness :
    (rtpmidi_handle_applemidi 64 { ssrc := 0xDEADBEEF } [0x61] true
        [0xFF, 0xFF, 0x4F, 0x4B, 0, 0, 0, 2, 0xCA, 0xFE, 0xBA, 0xBE, 0, 0, 0, 0,
          0x66, 0x6F, 0x6F, 0]
        20 [2, 0, 0x9C, 0x3F, 10, 0, 0, 5, 0, 0, 0, 0, 0, 0, 0, 0] 16 0 [1, 2, 3, 4]
        true).data = { ssrc := 0xDEADBEEF }
    ∧ ∃ d, (rtpmidi_handle_applemidi 64 { ssrc := 0xDEADBEEF } [0x61] true
          [0xFF, 0xFF, 0x4F, 0x4B, 0, 0, 0, 2, 0xCA, 0xFE, 0xBA, 0xBE, 0, 0, 0, 0,
            0x66, 0x6F, 0x6F, 0]
          20 [2, 0, 0x9C, 0x3F, 10, 0, 0, 5, 0, 0, 0, 0, 0, 0, 0, 0] 16 0 [1, 2, 3, 4]
          true).sent = [d]
      ∧ d.control = false ∧ d.dest_len = 16
      ∧ d.payload.take 8 = [0xFF, 0xFF, 0x49, 0x4E, 0, 0, 0, 2]
      ∧ be16toh_at d.dest 2
          = (be16toh_at [2, 0, 0x9C, 0x3F, 10, 0, 0, 5, 0, 0, 0, 0, 0, 0, 0, 0] 2 + 1) % 65536
      ∧ ∀ j, j ≠ 2 → j ≠ 3 →
          peek d.dest j = peek [2, 0, 0x9C, 0x3F, 10, 0, 0, 5, 0, 0, 0, 0, 0, 0, 0, 0] j :=
  (inbound_accept 64 { ssrc := 0xDEADBEEF } [0x61] true
    [0xFF, 0xFF, 0x4F, 0x4B, 0, 0, 0, 2, 0xCA, 0xFE, 0xBA, 0xBE, 0, 0, 0, 0,
      0x66, 0x6F, 0x6F, 0]
    20 [2, 0, 0x9C, 0x3F, 10, 0, 0, 5, 0, 0, 0, 0, 0, 0, 0, 0] 16 0 [1, 2, 3, 4] true
    (by decide) (by decide)).2.2.2 rfl

theorem poke_bytes_length_le (bs : List Nat) :
    ∀ (m : List Nat) (i : Nat), m.length ≤ (poke_bytes m i bs).length := by
  induction bs with
  | nil => intro m i; exact Nat.le_refl _
  | cons b bs ih =>
    intro m i
    exact Nat.le_trans (poke_length_le m i b) (ih (poke m i b) (i + 1))

theorem peek_poke_bytes (bs : List Nat) :
    ∀ (m : List Nat) (i j : Nat),
      peek (poke_bytes m i bs) j
        = if i ≤ j ∧ j < i + bs.length then peek bs (j - i) else peek m j := by
  induction bs with
  | nil =>
    intro m i j
    have : ¬ (i ≤ j ∧ j < i + 0) := by omega
    simp only [poke_bytes, List.length_nil, this, if_false]
  | cons b bs ih =>
    intro m i j
    simp only [poke_bytes, ih, peek_poke, List.length_cons]
    by_cases h1 : i + 1 ≤ j ∧ j < i + 1 + bs.length
    · have h2 : i ≤ j ∧ j < i + (bs.length + 1) := by omega
      obtain ⟨k, hk⟩ : ∃ k, j - i = k + 1 := ⟨j - i - 1, by omega⟩
      have h3 : j - (i + 1) = k := by omega
      rw [if_pos h1, if_pos h2, hk, h3, peek_cons_succ]
    · rw [if_neg h1]
      by_cases h4 : j = i
      · subst h4
        have h2 : j ≤ j ∧ j < j + (bs.length + 1) := by omega
        rw [if_pos rfl, if_pos h2, Nat.sub_self, peek_cons_zero]
      · have h2 : ¬ (i ≤ j ∧ j < i + (bs.length + 1)) := by omega
        rw [if_neg h4, if_neg h2]

theorem peek_sync_response (B : Nat) (data : rtpmidi_instance_data) (frame : List Nat)
    (bytes j : Nat) :
    peek (sync_response B data frame bytes) j
      = if 4 ≤ j ∧ j < 8 then peek (htobe32 data.ssrc) (j - 4)
        else if 2 ≤ j ∧ j < 4 then peek (htobe16 apple_sync) (j - 2)
        else if j < bytes then peek frame j else 0 := by
  simp only [sync_response, peek_poke_bytes, peek_memcpy_zero]
  rfl

theorem sync_response_length (B : Nat) (data : rtpmidi_instance_data) (frame : List Nat)
    (bytes : Nat) (h : bytes ≤ frame.length) (hB : bytes ≤ B) :
    B ≤ (sync_response B data frame bytes).length := by
  unfold sync_response
  refine Nat.le_trans ?_ (poke_bytes_length_le _ _ _)
  refine Nat.le_trans ?_ (poke_bytes_length_le _ _ _)
  rw [memcpy_zero_length frame B bytes h hB]

/-- The sync branch of `rtpmidi_handle_applemidi`. -/
theorem rtpmidi_handle_applemidi_sync (B : Nat) (data : rtpmidi_instance_data)
    (name : List Nat) (on_control : Bool) (frame : List Nat) (bytes : Nat) (peer : List Nat)
    (peer_len now : Nat) (fresh : List Nat) (alloc_ok : Bool)
    (hcmd : be16toh_at frame 2 = apple_sync) :
    rtpmidi_handle_applemidi B data name on_control frame bytes peer peer_len now fresh alloc_ok
      = if peek (sync_response B data frame bytes) 8 = 0 then
          { rc := 0, data := data,
            sent := [{ control := on_control, dest := peer, dest_len := peer_len,
                       payload := (poke_bytes (poke (sync_response B data frame bytes) 8
                           ((peek (sync_response B data frame bytes) 8 + 1) % 256)) 20
                         (htobe64 ((now * 10) % 2 ^ 64))).take 36 }] }
        else if peek (sync_response B data frame bytes) 8 = 1 then
          { rc := 0, data := data,
            sent := [{ control := on_control, dest := peer, dest_len := peer_len,
                       payload := (poke_bytes (poke (sync_response B data frame bytes) 8
                           ((peek (sync_response B data frame bytes) 8 + 1) % 256)) 28
                         (htobe64 ((now * 10) % 2 ^ 64))).take 36 }] }
        else { rc := 0, data := data, sent := [] } := by
  have n1 : apple_sync ≠ apple_invite := by decide
  have n2 : apple_sync ≠ apple_accept := by decide
  have n3 : apple_sync ≠ apple_reject := by decide
  have n4 : apple_sync ≠ apple_leave := by decide
  unfold rtpmidi_handle_applemidi
  simp only [hcmd, ne_eq, not_true_eq_false, false_and, if_false, if_true, n1, n2, n3, n4,
    sync_response, sizeof_apple_sync_frame]

theorem htobe64_length (x : Nat) : (htobe64 x).length = 8 := rfl

theorem htobe16_apple_sync : htobe16 apple_sync = [0x43, 0x4B] := by decide

theorem sync_payload_peek (X ts : List Nat) (c ofs i : Nat) (hi : i < 36) :
    peek ((poke_bytes (poke X 8 c) ofs ts).take 36) i
      = if ofs ≤ i ∧ i < ofs + ts.length then peek ts (i - ofs)
        else if i = 8 then c else peek X i := by
  rw [peek_take, if_pos hi, peek_poke_bytes, peek_poke]

theorem sync_payload_length (X ts : List Nat) (c ofs : Nat) (h : 36 ≤ X.length) :
    ((poke_bytes (poke X 8 c) ofs ts).take 36).length = 36 := by
  have h1 := poke_length_le X 8 c
  have h2 := poke_bytes_length_le ts (poke X 8 c) ofs
  rw [List.length_take]
  omega

theorem sync_count (B : Nat) (data : rtpmidi_instance_data) (frame : List Nat) (bytes : Nat)
    (h : 12 ≤ bytes) : peek (sync_response B data frame bytes) 8 = peek frame 8 := by
  rw [peek_sync_response, if_neg (by omega), if_neg (by omega), if_pos (by omega)]

/-- C18 (clock-sync response). For a sync (`CK`) frame of at least 12 bytes the instance is
never changed.  With `count = 0` (byte 8) exactly one datagram is sent, on the socket the
frame arrived on and to its source: 36 bytes that echo the received bytes (zero behind
the end of the datagram) except command = `CK` (bytes 2..3), ssrc = own ssrc (bytes 4..7),
count = 1 and timestamp[1] (bytes 20..27) = `now * 10` big-endian.  With `count = 1` the
same holds with count = 2 and timestamp[2] (bytes 28..35) instead.  For every other count
nothing is sent. -/
theorem clock_sync_response (B : Nat) (data : rtpmidi_instance_data) (name : List Nat)
    (on_control : Bool) (frame : List Nat) (bytes : Nat) (peer : List Nat)
    (peer_len now : Nat) (fresh : List Nat) (alloc_ok : Bool)
    (hcmd : be16toh_at frame 2 = apple_sync) (h12 : 12 ≤ bytes)
    (hlen : bytes ≤ frame.length) (hbB : bytes ≤ B) (hB : 36 ≤ B) :
    (rtpmidi_handle_applemidi B data name on_control frame bytes peer peer_len now fresh
        alloc_ok).data = data
    ∧ (peek frame 8 = 0 →
        ∃ d, (rtpmidi_handle_applemidi B data name on_control frame bytes peer peer_len now
              fresh alloc_ok).sent = [d]
          ∧ d.control = on_control ∧ d.dest = peer ∧ d.dest_len = peer_len
          ∧ d.payload.length = 36
          ∧ ∀ i, i < 36 → peek d.payload i
              = if 20 ≤ i ∧ i < 28 then peek (htobe64 ((now * 10) % 2 ^ 64)) (i - 20)
                else if i = 8 then 1
                else if 4 ≤ i ∧ i < 8 then peek (htobe32 data.ssrc) (i - 4)
                else if 2 ≤ i ∧ i < 4 then peek [0x43, 0x4B] (i - 2)
                else if i < bytes then peek frame i else 0)
    ∧ (peek frame 8 = 1 →
        ∃ d, (rtpmidi_handle_applemidi B data name on_control frame bytes peer peer_len now
              fresh alloc_ok).sent = [d]
          ∧ d.control = on_control ∧ d.dest = peer ∧ d.dest_len = peer_len
          ∧ d.payload.length = 36
          ∧ ∀ i, i < 36 → peek d.payload i
              = if 28 ≤ i ∧ i < 36 then peek (htobe64 ((now * 10) % 2 ^ 64)) (i - 28)
                else if i = 8 then 2
                else if 4 ≤ i ∧ i < 8 then peek (htobe32 data.ssrc) (i - 4)
                else if 2 ≤ i ∧ i < 4 then peek [0x43, 0x4B] (i - 2)
                else if i < bytes then peek frame i else 0)
    ∧ (peek frame 8 ≠ 0 → peek frame 8 ≠ 1 →
        (rtpmidi_handle_applemidi B data name on_control frame bytes peer peer_len now fresh
          alloc_ok).sent = []) := by
  rw [rtpmidi_handle_applemidi_sync B data name on_control frame bytes peer peer_len now
    fresh alloc_ok hcmd, sync_count B data frame bytes h12]
  have hX : 36 ≤ (sync_response B data frame bytes).length :=
    Nat.le_trans hB (sync_response_length B data frame bytes hlen hbB)
  refine ⟨?_, ?_, ?_, ?_⟩
  · split_ifs <;> rfl
  · intro h0
    rw [if_pos h0, h0]
    refine ⟨{ control := on_control, dest := peer, dest_len := peer_len,
              payload := (poke_bytes (poke (sync_response B data frame bytes) 8
                ((0 + 1) % 256)) 20 (htobe64 ((now * 10) % 2 ^ 64))).take 36 },
      rfl, rfl, rfl, rfl, ?_, ?_⟩
    · simp only []
      exact sync_payload_length (sync_response B data frame bytes)
        (htobe64 ((now * 10) % 2 ^ 64)) ((0 + 1) % 256) 20 hX
    · intro i hi
      simp only []
      rw [sync_payload_peek _ _ _ _ _ hi, peek_sync_response, htobe64_length,
        htobe16_apple_sync]
  · intro h1
    have hne : peek frame 8 ≠ 0 := by omega
    rw [if_neg hne, if_pos h1, h1]
    refine ⟨{ control := on_control, dest := peer, dest_len := peer_len,
              payload := (poke_bytes (poke (sync_response B data frame bytes) 8
                ((1 + 1) % 256)) 28 (htobe64 ((now * 10) % 2 ^ 64))).take 36 },
      rfl, rfl, rfl, rfl, ?_, ?_⟩
    · simp only []
      exact sync_payload_length (sync_response B data frame bytes)
        (htobe64 ((now * 10) % 2 ^ 64)) ((1 + 1) % 256) 28 hX
    · intro i hi
      simp only []
      rw [sync_payload_peek _ _ _ _ _ hi, peek_sync_response, htobe64_length,
        htobe16_apple_sync]
  · intro h0 h1
    rw [if_neg h0, if_neg h1]

theorem clock_sync_response_witness :
    ∃ d, (rtpmidi_handle_applemidi 64 { ssrc := 0xDEADBEEF } [0x61] true
        ([0xFF, 0xFF, 0x43, 0x4B, 1, 2, 3, 4, 0, 0, 0, 0, 0, 0, 0, 0, 0, 0, 0, 9]
          ++ List.replicate 44 0)
        36 [2, 0, 0x9C, 0x40, 10, 0, 0, 5, 0, 0, 0, 0, 0, 0, 0, 0] 16 5 [1, 2, 3, 4]
        true).sent = [d]
      ∧ d.control = true ∧ d.dest = [2, 0, 0x9C, 0x40, 10, 0, 0, 5, 0, 0, 0, 0, 0, 0, 0, 0]
      ∧ d.dest_len = 16 ∧ d.payload.length = 36
      ∧ ∀ i, i < 36 → peek d.payload i
          = if 20 ≤ i ∧ i < 28 then peek (htobe64 ((5 * 10) % 2 ^ 64)) (i - 20)
            else if i = 8 then 1
            else if 4 ≤ i ∧ i < 8
              then peek (htobe32 ({ ssrc := 0xDEADBEEF } : rtpmidi_instance_data).ssrc) (i - 4)
            else if 2 ≤ i ∧ i < 4 then peek [0x43, 0x4B] (i - 2)
            else if i < 36 then peek ([0xFF, 0xFF, 0x43, 0x4B, 1, 2, 3, 4, 0, 0, 0, 0, 0, 0, 0, 0, 0, 0, 0, 9]
                    ++ List.replicate 44 0) i else 0 :=
  (clock_sync_response 64 { ssrc := 0xDEADBEEF } [0x61] true
    ([0xFF, 0xFF, 0x43, 0x4B, 1, 2, 3, 4, 0, 0, 0, 0, 0, 0, 0, 0, 0, 0, 0, 9]
      ++ List.replicate 44 0)
    36 [2, 0, 0x9C, 0x40, 10, 0, 0, 5, 0, 0, 0, 0, 0, 0, 0, 0] 16 5 [1, 2, 3, 4] true
    (by decide) (by decide) (by decide) (by decide) (by decide)).2.1 (by decide)

theorem poke_length_eq (m : List Nat) (i b : Nat) :
    (poke m i b).length = max m.length (i + 1) := by
  induction m generalizing i with
  | nil =>
    induction i with
    | zero => simp [poke]
    | succ n ih => simp only [poke, List.length_cons, ih, List.length_nil]; omega
  | cons x xs ih =>
    cases i with
    | zero => simp [poke]
    | succ n => simp only [poke, List.length_cons, ih n]; omega

theorem poke_bytes_length_congr (bs : List Nat) :
    ∀ (m m' : List Nat) (i : Nat), m.length = m'.length →
      (poke_bytes m i bs).length = (poke_bytes m' i bs).length := by
  induction bs with
  | nil => intro m m' i h; exact h
  | cons b bs ih =>
    intro m m' i h
    exact ih _ _ _ (by rw [poke_length_eq, poke_length_eq, h])

/-- The response buffer of the sync branch does not depend on bytes 4..7 of the frame. -/
theorem sync_response_congr (B : Nat) (data : rtpmidi_instance_data) (frame frame' : List Nat)
    (bytes : Nat) (hl : frame'.length = frame.length)
    (hs : ∀ j, ¬ (4 ≤ j ∧ j < 8) → peek frame' j = peek frame j) :
    sync_response B data frame' bytes = sync_response B data frame bytes := by
  apply peek_ext
  · unfold sync_response
    apply poke_bytes_length_congr
    apply poke_bytes_length_congr
    simp [memcpy, hl]
  · intro j _
    rw [peek_sync_response, peek_sync_response]
    by_cases h : 4 ≤ j ∧ j < 8
    · rw [if_pos h, if_pos h]
    · rw [if_neg h, if_neg h, hs j h]

/-- The feedback branch of `rtpmidi_handle_applemidi`. -/
theorem rtpmidi_handle_applemidi_feedback (B : Nat) (data : rtpmidi_instance_data)
    (name : List Nat) (on_control : Bool) (frame : List Nat) (bytes : Nat) (peer : List Nat)
    (peer_len now : Nat) (fresh : List Nat) (alloc_ok : Bool)
    (hcmd : be16toh_at frame 2 = apple_feedback) :
    rtpmidi_handle_applemidi B data name on_control frame bytes peer peer_len now fresh alloc_ok
      = { rc := 0, data := data, sent := [] } := by
  have n1 : apple_feedback ≠ apple_invite := by decide
  have n2 : apple_feedback ≠ apple_accept := by decide
  have n3 : apple_feedback ≠ apple_reject := by decide
  have n4 : apple_feedback ≠ apple_leave := by decide
  have n5 : apple_feedback ≠ apple_sync := by decide
  unfold rtpmidi_handle_applemidi
  simp only [hcmd, ne_eq, not_true_eq_false, false_and, and_false, if_false, if_true,
    n1, n2, n3, n4, n5]

/-- C19 (version validation). A frame whose command is neither sync (`CK`) nor feedback
(`RS`) and whose version field is not 2 is dropped: nothing is sent, the instance (and so
the peer registry) is unchanged and 0 is returned.  For a sync or feedback frame the
result of `rtpmidi_handle_applemidi` is the same for every content of bytes 4..7, the
position of the version field in the other commands. -/
theorem version_validation (B : Nat) (data : rtpmidi_instance_data) (name : List Nat)
    (on_control : Bool) (frame : List Nat) (bytes : Nat) (peer : List Nat)
    (peer_len now : Nat) (fresh : List Nat) (alloc_ok : Bool) :
    (be16toh_at frame 2 ≠ apple_sync → be16toh_at frame 2 ≠ apple_feedback →
      be32toh_at frame 4 ≠ 2 →
      rtpmidi_handle_applemidi B data name on_control frame bytes peer peer_len now fresh
          alloc_ok
        = { rc := 0, data := data, sent := [] })
    ∧ (be16toh_at frame 2 = apple_sync ∨ be16toh_at frame 2 = apple_feedback →
      ∀ frame' : List Nat, frame'.length = frame.length →
        (∀ j, ¬ (4 ≤ j ∧ j < 8) → peek frame' j = peek frame j) →
        rtpmidi_handle_applemidi B data name on_control frame' bytes peer peer_len now fresh
            alloc_ok
          = rtpmidi_handle_applemidi B data name on_control frame bytes peer peer_len now
              fresh alloc_ok) := by
  refine ⟨?_, ?_⟩
  · intro h1 h2 h3
    unfold rtpmidi_handle_applemidi
    simp only [h1, h2, h3, ne_eq, not_false_eq_true, and_self, if_true]
  · intro hc frame' hl hs
    have hcmd' : be16toh_at frame' 2 = be16toh_at frame 2 := by
      unfold be16toh_at
      rw [hs 2 (by omega), hs (2 + 1) (by omega)]
    rcases hc with hc | hc
    · rw [rtpmidi_handle_applemidi_sync B data name on_control frame' bytes peer peer_len
          now fresh alloc_ok (hcmd'.trans hc),
        rtpmidi_handle_applemidi_sync B data name on_control frame bytes peer peer_len
          now fresh alloc_ok hc,
        sync_response_congr B data frame frame' bytes hl hs]
    · rw [rtpmidi_handle_applemidi_feedback B data name on_control frame' bytes peer
          peer_len now fresh alloc_ok (hcmd'.trans hc),
        rtpmidi_handle_applemidi_feedback B data name on_control frame bytes peer peer_len
          now fresh alloc_ok hc]

theorem version_validation_witness :
    rtpmidi_handle_applemidi 64 { accept := some [0x2A], ssrc := 0xDEADBEEF } [0x61] false
        [0xFF, 0xFF, 0x49, 0x4E, 0, 0, 0, 3, 0xCA, 0xFE, 0xBA, 0xBE, 0, 0, 0, 0,
          0x66, 0x6F, 0x6F, 0]
        20 [2, 0, 0x9C, 0x40, 10, 0, 0, 5, 0, 0, 0, 0, 0, 0, 0, 0] 16 0 [1, 2, 3, 4] true
      = { rc := 0, data := { accept := some [0x2A], ssrc := 0xDEADBEEF }, sent := [] } :=
  (version_validation 64 { accept := some [0x2A], ssrc := 0xDEADBEEF } [0x61] false
    [0xFF, 0xFF, 0x49, 0x4E, 0, 0, 0, 3, 0xCA, 0xFE, 0xBA, 0xBE, 0, 0, 0, 0,
      0x66, 0x6F, 0x6F, 0]
    20 [2, 0, 0x9C, 0x40, 10, 0, 0, 5, 0, 0, 0, 0, 0, 0, 0, 0] 16 0 [1, 2, 3, 4] true).1
    (by decide) (by decide) (by decide)

theorem splitOn_dot_structure (l : List Nat) :
    l.splitOn 0x2E = l.takeWhile (fun c => c != 0x2E)
      :: (match l.dropWhile (fun c => c != 0x2E) with
          | [] => []
          | _ :: rest => rest.splitOn 0x2E) := by
  induction l with
  | nil => simp [List.splitOn, List.splitOnP_nil]
  | cons x xs ih =>
    unfold List.splitOn at ih ⊢
    rw [List.splitOnP_cons]
    by_cases hx : x = 0x2E
    · subst hx
      simp
    · have h1 : (x == 0x2E) = false := by simpa using hx
      have h2 : (x != 0x2E) = true := by simpa using hx
      rw [h1, ih]
      simp [List.modifyHead, List.takeWhile_cons, List.dropWhile_cons, h2]

theorem dns_labels_nil : dns_labels [] = [] := by decide

theorem dns_labels_dot (r : List Nat) : dns_labels (0x2E :: r) = dns_labels r := by
  unfold dns_labels
  rw [splitOn_dot_structure]
  simp

theorem dns_labels_cons (c : Nat) (r : List Nat) (hc : c ≠ 0x2E) :
    dns_labels (c :: r)
      = (c :: r).takeWhile (fun c => c != 0x2E)
        :: dns_labels (((c :: r).dropWhile (fun c => c != 0x2E)).drop 1) := by
  have h2 : (c != 0x2E) = true := by simpa using hc
  unfold dns_labels
  rw [splitOn_dot_structure]
  rw [List.filter_cons_of_pos (by simp [List.takeWhile_cons, h2])]
  congr 1
  cases h : (c :: r).dropWhile (fun c => c != 0x2E) with
  | nil => simp [List.splitOn, List.splitOnP_nil]
  | cons d rest => simp

theorem dns_labels_dropWhile (s : List Nat) :
    dns_labels (s.dropWhile (fun c => c == 0x2E)) = dns_labels s := by
  induction s with
  | nil => rfl
  | cons x xs ih =>
    by_cases hx : x = 0x2E
    · subst hx
      rw [dns_labels_dot]
      simpa [List.dropWhile_cons] using ih
    · have h1 : (x == 0x2E) = false := by simpa using hx
      simp [List.dropWhile_cons, h1]

theorem dropWhile_head_not (p : Nat → Bool) :
    ∀ (s : List Nat) (c : Nat) (r : List Nat), s.dropWhile p = c :: r → p c = false := by
  intro s
  induction s with
  | nil => intro c r h; simp at h
  | cons x xs ih =>
    intro c r h
    by_cases hx : p x = true
    · rw [List.dropWhile_cons_of_pos hx] at h
      exact ih c r h
    · rw [List.dropWhile_cons_of_neg hx] at h
      simp only [List.cons.injEq] at h
      rw [← h.1]
      simpa using hx

theorem dropWhile_length_le (p : Nat → Bool) (s : List Nat) :
    (s.dropWhile p).length ≤ s.length := by
  induction s with
  | nil => simp
  | cons x xs ih =>
    by_cases hx : p x = true
    · rw [List.dropWhile_cons_of_pos hx]; simp only [List.length_cons]; omega
    · rw [List.dropWhile_cons_of_neg hx]

/-- What `strtok_r` returns, in terms of the labels of the string. -/
theorem strtok_r_labels (s : List Nat) :
    (strtok_r s = none ∧ dns_labels s = [])
    ∨ ∃ token save, strtok_r s = some (token, save)
        ∧ dns_labels s = token :: dns_labels save ∧ save.length < s.length := by
  unfold strtok_r
  cases h : s.dropWhile (fun c => c == 0x2E) with
  | nil =>
    left
    refine ⟨rfl, ?_⟩
    rw [← dns_labels_dropWhile, h, dns_labels_nil]
  | cons c r =>
    right
    have hc : c ≠ 0x2E := by
      have := dropWhile_head_not _ s c r h
      simpa using this
    refine ⟨_, _, rfl, ?_, ?_⟩
    · rw [← dns_labels_dropWhile, h, dns_labels_cons c r hc]
    · have h1 := dropWhile_length_le (fun c => c == 0x2E) s
      have h2 := dropWhile_length_le (fun c => c != 0x2E) (c :: r)
      rw [h] at h1
      have h3 : ((c :: r).dropWhile (fun c => c != 0x2E)).length ≤ r.length := by
        have h4 : (c != 0x2E) = true := by simpa using hc
        have h5 : (c :: r).dropWhile (fun c => c != 0x2E)
            = r.dropWhile (fun c => c != 0x2E) := by
          simp [List.dropWhile_cons, h4]
        rw [h5]
        exact dropWhile_length_le _ r
      simp only [List.length_drop, List.length_cons] at h1 h2 ⊢
      omega

theorem dns_encode_loop_labels :
    ∀ (fuel : Nat) (s : List Nat) (out : dns_name), s.length < fuel →
      dns_encode_loop fuel s out
        = { name := out.name ++ dns_wire (dns_labels s),
            length := out.length + ((dns_labels s).map (fun t => t.length + 1)).sum } := by
  intro fuel
  induction fuel with
  | zero => intro s out h; omega
  | succ n ih =>
    intro s out h
    rcases strtok_r_labels s with ⟨h1, h2⟩ | ⟨token, save, h1, h2, h3⟩
    · simp [dns_encode_loop, h1, h2, dns_wire]
    · simp only [dns_encode_loop, h1]
      rw [ih save _ (by omega), h2]
      simp [dns_wire, List.flatMap_cons, Nat.add_assoc]

/-- The bytes and the length `dns_encode_name` produces, for every input string. -/
theorem dns_encode_name_eq (s : List Nat) :
    dns_encode_name s
      = { name := dns_wire (dns_labels s) ++ [0],
          length := ((dns_labels s).map (fun t => t.length + 1)).sum + 1 } := by
  unfold dns_encode_name
  rw [dns_encode_loop_labels _ s _ (Nat.lt_succ_self _)]
  simp

theorem dns_label_byte : ∀ n, n < 64 →
    DNS_POINTER (n % 256) = false ∧ DNS_LABEL_LENGTH (n % 256) = n ∧ n % 256 = n := by
  decide

theorem dns_label_byte_top : ∀ k, k < 64 →
    (k + 64) &&& 0xC0 ≠ 0 ∧ (k + 128) &&& 0xC0 ≠ 0 ∧ (k + 192) &&& 0xC0 = 0xC0 := by
  decide

theorem dns_long_label_byte : ∀ n, n < 256 → 64 ≤ n → n &&& 0xC0 ≠ 0 := by
  intro n h1 h2
  by_cases h3 : n < 128
  · have := (dns_label_byte_top (n - 64) (by omega)).1
    rwa [Nat.sub_add_cancel h2] at this
  · by_cases h4 : n < 192
    · have := (dns_label_byte_top (n - 128) (by omega)).2.1
      rwa [Nat.sub_add_cancel (by omega)] at this
    · have := (dns_label_byte_top (n - 192) (by omega)).2.2
      rw [Nat.sub_add_cancel (by omega)] at this
      rw [this]
      decide

theorem dns_pointer_label_byte : ∀ n, n < 256 → 192 ≤ n → DNS_POINTER n = true := by
  intro n h1 h2
  have := (dns_label_byte_top (n - 192) (by omega)).2.2
  rw [Nat.sub_add_cancel h2] at this
  unfold DNS_POINTER
  rw [this]
  decide

theorem map_peek_range' (buffer t : List Nat) (a : Nat)
    (h : ∀ k, k < t.length → peek buffer (a + k) = peek t k) :
    (List.range' a t.length).map (peek buffer) = t := by
  apply List.ext_getElem
  · simp
  · intro k h1 h2
    simp only [List.getElem_map, List.getElem_range', Nat.one_mul]
    rw [h k h2]
    simp only [peek, List.getD_eq_getElem?_getD, List.getElem?_eq_getElem h2, Option.getD_some]

theorem dns_wire_cons (t : List Nat) (ls : List (List Nat)) :
    dns_wire (t :: ls) = (t.length % 256 :: t) ++ dns_wire ls := by
  simp [dns_wire, List.flatMap_cons]

theorem dns_text_cons (t : List Nat) (ls : List (List Nat)) :
    dns_text (t :: ls) = t ++ [0x2E] ++ dns_text ls := by
  simp [dns_text, List.flatMap_cons]

theorem peek_append_left (a b : List Nat) (j : Nat) (h : j < a.length) :
    peek (a ++ b) j = peek a j := by
  simp only [peek, List.getD_eq_getElem?_getD, List.getElem?_append_left h]

/-- The loop of `dns_decode_name` walks a run of labels of 1..63 bytes that lies before the
end of the packet, one iteration per label: the labels are appended to the name, each
followed by a dot, and `out->length` follows `offset` as long as no pointer was taken. -/
theorem dns_decode_loop_labels (buffer : List Nat) (len : Nat) :
    ∀ (ls : List (List Nat)) (fuel : Nat) (st : dns_decode_state),
      (∀ t ∈ ls, 1 ≤ t.length ∧ t.length ≤ 63) →
      (∀ j, j < (dns_wire ls).length →
        peek buffer (st.start + st.offset + j) = peek (dns_wire ls) j) →
      st.start + st.offset + (dns_wire ls).length < len →
      (st.ptr_target = 0 → st.out.length = st.offset) →
      ∃ rd, (∀ i ∈ rd, i < len)
        ∧ dns_decode_loop buffer len (fuel + ls.length) st
          = dns_decode_loop buffer len fuel
              { st with
                offset := st.offset + (dns_wire ls).length
                out := { name := st.out.name ++ dns_text ls,
                         length := if st.ptr_target = 0 then st.offset + (dns_wire ls).length
                                   else st.out.length }
                reads := st.reads ++ rd } := by
  intro ls
  induction ls with
  | nil =>
    intro fuel st _ _ _ hinv
    refine ⟨[], by simp, ?_⟩
    congr 1
    obtain ⟨s0, o0, p0, ⟨nm, ln⟩, r0⟩ := st
    simp only [dns_wire, dns_text, List.flatMap_nil, List.length_nil, Nat.add_zero,
      List.append_nil]
    by_cases hp : p0 = 0
    · have := hinv hp
      simp only at this
      simp [hp, this]
    · simp [hp]
  | cons t ls ih =>
    intro fuel st hls hw hlen hinv
    obtain ⟨ht1, ht2⟩ := hls t (List.mem_cons_self _ _)
    obtain ⟨b1, b2, b3⟩ := dns_label_byte t.length (by omega)
    rw [dns_wire_cons] at hw hlen
    simp only [List.length_append, List.length_cons] at hw hlen
    have h0 : peek buffer (st.start + st.offset) = t.length % 256 := by
      have := hw 0 (by omega)
      rw [Nat.add_zero] at this
      rw [this]
      simp [peek]
    have hsrc : (List.range' (st.start + st.offset + 1) t.length).map (peek buffer) = t := by
      apply map_peek_range'
      intro k hk
      have := hw (1 + k) (by omega)
      rw [← Nat.add_assoc] at this
      rw [this, List.cons_append, Nat.add_comm 1 k, peek_cons_succ, peek_append_left _ _ _ hk]
    have hlt : st.start + st.offset < len := by omega
    have hnz : ¬ t.length = 0 := by omega
    have hfit : ¬ st.start + st.offset + t.length > len := by omega
    obtain ⟨rd, hrd, hrec⟩ := ih fuel
      { st with
        offset := st.offset + t.length + 1
        out := { name := st.out.name ++ t ++ [0x2E],
                 length := if st.ptr_target = 0 then st.offset + t.length + 1
                           else st.out.length }
        reads := st.reads ++ [st.start + st.offset]
          ++ List.range' (st.start + st.offset + 1) t.length }
      (fun x hx => hls x (List.mem_cons_of_mem _ hx))
      (by
        intro j hj
        have := hw (t.length + 1 + j) (by omega)
        simp only at this ⊢
        have e : st.start + (st.offset + t.length + 1) + j
            = st.start + st.offset + (t.length + 1 + j) := by omega
        rw [e, this]
        have e2 : t.length + 1 + j = (t.length % 256 :: t).length + j := by simp
        rw [e2, peek_append])
      (by simp only; omega)
      (by
        intro hp
        simp only at hp ⊢
        simp [hp])
    refine ⟨[st.start + st.offset] ++ List.range' (st.start + st.offset + 1) t.length ++ rd,
      ?_, ?_⟩
    · intro i hi
      simp only [List.mem_append, List.mem_singleton, List.mem_range', Nat.one_mul] at hi
      rcases hi with (hi | ⟨k, hk, rfl⟩) | hi
      · omega
      · omega
      · exact hrd i hi
    · have hstep : dns_decode_loop buffer len (fuel + (t :: ls).length) st
          = dns_decode_loop buffer len (fuel + ls.length)
            { st with
              offset := st.offset + t.length + 1
              out := { name := st.out.name ++ t ++ [0x2E],
                       length := if st.ptr_target = 0 then st.offset + t.length + 1
                                 else st.out.length }
              reads := st.reads ++ [st.start + st.offset]
                ++ List.range' (st.start + st.offset + 1) t.length } := by
        show dns_decode_loop buffer len ((fuel + ls.length) + 1) st = _
        rw [b3] at b1 b2
        simp only [dns_decode_loop, hlt, if_true, h0, b3, b1, b2, Bool.false_eq_true,
          if_false, hnz, hfit, hsrc]
      rw [hstep, hrec]
      congr 1
      have e1 : st.offset + t.length + 1 + (dns_wire ls).length
          = st.offset + (t.length + 1 + (dns_wire ls).length) := by omega
      simp only [dns_wire_cons, dns_text_cons, List.length_append, List.length_cons,
        List.append_assoc, e1]
      by_cases hp : st.ptr_target = 0 <;> simp [hp]

theorem takeWhile_dot (t rest : List Nat) (h : 0x2E ∉ t) :
    (t ++ 0x2E :: rest).takeWhile (fun c => c != 0x2E) = t
    ∧ (t ++ 0x2E :: rest).dropWhile (fun c => c != 0x2E) = 0x2E :: rest := by
  induction t with
  | nil => simp
  | cons x xs ih =>
    have hx : x ≠ 0x2E := fun e => h (by simp [e])
    have hxs : 0x2E ∉ xs := fun e => h (List.mem_cons_of_mem _ e)
    have h2 : (x != 0x2E) = true := by simpa using hx
    obtain ⟨a, b⟩ := ih hxs
    simp only [List.cons_append, List.takeWhile_cons, List.dropWhile_cons, h2, if_true, a, b]
    exact ⟨trivial, trivial⟩

theorem dns_labels_text (ls : List (List Nat))
    (h : ∀ t ∈ ls, 1 ≤ t.length ∧ 0x2E ∉ t) : dns_labels (dns_text ls) = ls := by
  induction ls with
  | nil => exact dns_labels_nil
  | cons t ls ih =>
    obtain ⟨h1, h2⟩ := h t (List.mem_cons_self _ _)
    rw [dns_text_cons, List.append_assoc, List.singleton_append]
    cases t with
    | nil => simp at h1
    | cons c r =>
      have hc : c ≠ 0x2E := fun e => h2 (by simp [e])
      obtain ⟨a, b⟩ := takeWhile_dot (c :: r) (dns_text ls) h2
      rw [List.cons_append, dns_labels_cons c _ hc, ← List.cons_append, a, b]
      simp only [List.drop_succ_cons, List.drop_zero]
      rw [ih (fun x hx => h x (List.mem_cons_of_mem _ hx))]

theorem dns_wire_length (ls : List (List Nat)) :
    (dns_wire ls).length = (ls.map (fun t => t.length + 1)).sum := by
  induction ls with
  | nil => rfl
  | cons t ls ih =>
    rw [dns_wire_cons, List.length_append, ih]
    simp [Nat.add_comm]

theorem dns_short_label_bits : ∀ n, n < 64 → (n % 256) &&& 0xC0 = 0 := by
  decide

theorem dns_wire_mem (ls : List (List Nat)) (t : List Nat) (h : t ∈ ls) :
    ∃ pre post, dns_wire ls = pre ++ (t.length % 256 :: t) ++ post := by
  obtain ⟨a, b, rfl⟩ := List.append_of_mem h
  refine ⟨dns_wire a, dns_wire b, ?_⟩
  simp [dns_wire, List.flatMap_append, List.flatMap_cons]

/-- C30 (DNS label limit). Every piece `t` between the dots of the input appears in the
output of `dns_encode_name` behind the byte `strlen(t) mod 256`.  For a piece of at most
63 bytes that byte has both top bits clear; for a piece of 64..255 bytes it has a top bit
set, and for 192..255 bytes it has both set, the mark of a compression pointer. -/
theorem dns_label_limit (s t : List Nat) (ht : t ∈ dns_labels s) :
    (∃ pre post, (dns_encode_name s).name = pre ++ (t.length % 256 :: t) ++ post)
    ∧ (t.length ≤ 63 → (t.length % 256) &&& 0xC0 = 0)
    ∧ (64 ≤ t.length → t.length < 256 → (t.length % 256) &&& 0xC0 ≠ 0)
    ∧ (192 ≤ t.length → t.length < 256 → DNS_POINTER (t.length % 256) = true) := by
  refine ⟨?_, ?_, ?_, ?_⟩
  · obtain ⟨pre, post, h⟩ := dns_wire_mem (dns_labels s) t ht
    refine ⟨pre, post ++ [0], ?_⟩
    rw [dns_encode_name_eq]
    simp only [h, List.append_assoc]
  · intro h
    exact dns_short_label_bits t.length (by omega)
  · intro h1 h2
    rw [Nat.mod_eq_of_lt h2]
    exact dns_long_label_byte t.length h2 h1
  · intro h1 h2
    rw [Nat.mod_eq_of_lt h2]
    exact dns_pointer_label_byte t.length h2 h1

theorem dns_long_label_ok :
    ∀ t ∈ [List.replicate 192 0x61], 1 ≤ t.length ∧ 0x2E ∉ t := by
  intro t ht
  rw [List.mem_singleton] at ht
  subst ht
  refine ⟨by rw [List.length_replicate]; omega, fun h => ?_⟩
  have := List.eq_of_mem_replicate h
  omega

theorem dns_label_limit_witness :
    (∃ pre post, (dns_encode_name (dns_text [List.replicate 192 0x61])).name
        = pre ++ ((List.replicate 192 0x61).length % 256 :: List.replicate 192 0x61) ++ post)
    ∧ DNS_POINTER ((List.replicate 192 0x61).length % 256) = true :=
  ⟨(dns_label_limit (dns_text [List.replicate 192 0x61]) (List.replicate 192 0x61)
      (by rw [dns_labels_text _ dns_long_label_ok]; exact List.mem_singleton_self _)).1,
    (dns_label_limit (dns_text [List.replicate 192 0x61]) (List.replicate 192 0x61)
      (by rw [dns_labels_text _ dns_long_label_ok]; exact List.mem_singleton_self _)).2.2.2
      (by rw [List.length_replicate]) (by rw [List.length_replicate]; omega)⟩

/-- A compression pointer that points at itself keeps the loop of `dns_decode_name`
running for every amount of fuel. -/
theorem dns_decode_loop_self_pointer (buffer : List Nat) (len p : Nat) (hp : p + 1 < len)
    (hptr : DNS_POINTER (peek buffer p % 256) = true)
    (htgt : dns_pointer_target buffer p = p) :
    ∀ (fuel : Nat) (st : dns_decode_state), st.start = p → st.offset = 0 →
      dns_decode_loop buffer len fuel st = none := by
  intro fuel
  induction fuel with
  | zero => intro st _ _; rfl
  | succ n ih =>
    intro st h1 h2
    have hlt : p < len := by omega
    have hge : ¬ p + 1 ≥ len := by omega
    have hge2 : ¬ p ≥ len := by omega
    unfold dns_pointer_target at htgt
    simp only [dns_decode_loop, h1, h2, Nat.add_zero, hlt, if_true, hptr, hge, if_false,
      htgt, hge2]
    exact ih _ rfl rfl

/-- C27 (DNS decode termination). On a buffer in which the compression pointer at the
start offset points at itself (two bytes inside the packet), `dns_decode_name` does not
return for any number of loop iterations: there is no limit on pointer hops. -/
theorem dns_decode_no_hop_limit (buffer : List Nat) (len p : Nat) (hp : p + 1 < len)
    (hptr : DNS_POINTER (peek buffer p % 256) = true)
    (htgt : dns_pointer_target buffer p = p) (fuel : Nat) :
    dns_decode_name fuel buffer len p = none :=
  dns_decode_loop_self_pointer buffer len p hp hptr htgt fuel _ rfl rfl

theorem dns_decode_no_hop_limit_witness :
    dns_decode_name 65536 [0xC0, 0x00] 2 0 = none :=
  dns_decode_no_hop_limit [0xC0, 0x00] 2 0 (by decide) (by decide) (by decide) 65536

/-- Every buffer index `dns_decode_name` reads is at most `len`. -/
theorem dns_decode_loop_reads (buffer : List Nat) (len : Nat) :
    ∀ (fuel : Nat) (st : dns_decode_state) (r : Nat × dns_decode_state),
      dns_decode_loop buffer len fuel st = some r →
      (∀ i ∈ st.reads, i ≤ len) → ∀ i ∈ r.2.reads, i ≤ len := by
  intro fuel
  induction fuel with
  | zero => intro st r h; simp [dns_decode_loop] at h
  | succ n ih =>
    intro st r h hst
    simp only [dns_decode_loop] at h
    by_cases c1 : st.start + st.offset < len
    · rw [if_pos c1] at h
      by_cases c2 : DNS_POINTER (peek buffer (st.start + st.offset) % 256) = true
      · rw [if_pos c2] at h
        by_cases c3 : st.start + st.offset + 1 ≥ len
        · rw [if_pos c3] at h
          simp only [Option.some.injEq] at h
          subst h
          intro i hi
          simp only [List.mem_append, List.mem_singleton] at hi
          rcases hi with hi | hi
          · exact hst i hi
          · omega
        · rw [if_neg c3] at h
          have hrd : ∀ i ∈ st.reads ++ [st.start + st.offset] ++ [st.start + st.offset + 1],
              i ≤ len := by
            intro i hi
            simp only [List.mem_append, List.mem_singleton] at hi
            rcases hi with (hi | hi) | hi
            · exact hst i hi
            · omega
            · omega
          by_cases c4 : dns_pointer_target buffer (st.start + st.offset) ≥ len
          · unfold dns_pointer_target at c4
            rw [if_pos c4] at h
            simp only [Option.some.injEq] at h
            subst h
            exact hrd
          · unfold dns_pointer_target at c4
            rw [if_neg c4] at h
            exact ih _ r h hrd
      · rw [if_neg c2] at h
        have hrd : ∀ i ∈ st.reads ++ [st.start + st.offset], i ≤ len := by
          intro i hi
          simp only [List.mem_append, List.mem_singleton] at hi
          rcases hi with hi | hi
          · exact hst i hi
          · omega
        by_cases c5 : DNS_LABEL_LENGTH (peek buffer (st.start + st.offset) % 256) = 0
        · rw [if_pos c5] at h
          simp only [Option.some.injEq] at h
          subst h
          by_cases hp : st.ptr_target = 0
          · simp only [hp, if_true]; exact hrd
          · simp only [hp, if_false]; exact hrd
        · rw [if_neg c5] at h
          by_cases c6 : st.start + st.offset
              + DNS_LABEL_LENGTH (peek buffer (st.start + st.offset) % 256) > len
          · rw [if_pos c6] at h
            simp only [Option.some.injEq] at h
            subst h
            exact hrd
          · rw [if_neg c6] at h
            refine ih _ r h ?_
            intro i hi
            simp only [List.mem_append, List.mem_singleton, List.mem_range', Nat.one_mul] at hi
            rcases hi with (hi | hi) | ⟨k, hk, rfl⟩
            · exact hst i hi
            · omega
            · omega
    · rw [if_neg c1] at h
      simp only [Option.some.injEq] at h
      subst h
      exact hst

/-- More fuel does not change a result of the loop of `dns_decode_name`. -/
theorem dns_decode_loop_succ (buffer : List Nat) (len : Nat) :
    ∀ (fuel : Nat) (st : dns_decode_state) (r : Nat × dns_decode_state),
      dns_decode_loop buffer len fuel st = some r →
      dns_decode_loop buffer len (fuel + 1) st = some r := by
  intro fuel
  induction fuel with
  | zero => intro st r h; simp [dns_decode_loop] at h
  | succ n ih =>
    intro st r h
    rw [dns_decode_loop] at h ⊢
    by_cases c1 : st.start + st.offset < len
    · rw [if_pos c1] at h ⊢
      by_cases c2 : DNS_POINTER (peek buffer (st.start + st.offset) % 256) = true
      · simp only [c2, if_true] at h ⊢
        by_cases c3 : st.start + st.offset + 1 ≥ len
        · rw [if_pos c3] at h ⊢
          exact h
        · rw [if_neg c3] at h ⊢
          by_cases c4 : dns_pointer_target buffer (st.start + st.offset) ≥ len
          · unfold dns_pointer_target at c4
            rw [if_pos c4] at h ⊢
            exact h
          · unfold dns_pointer_target at c4
            rw [if_neg c4] at h ⊢
            exact ih _ r h
      · simp only [c2, Bool.false_eq_true, if_false] at h ⊢
        by_cases c5 : DNS_LABEL_LENGTH (peek buffer (st.start + st.offset) % 256) = 0
        · rw [if_pos c5] at h ⊢
          exact h
        · rw [if_neg c5] at h ⊢
          by_cases c6 : st.start + st.offset
              + DNS_LABEL_LENGTH (peek buffer (st.start + st.offset) % 256) > len
          · rw [if_pos c6] at h ⊢
            exact h
          · rw [if_neg c6] at h ⊢
            exact ih _ r h
    · rw [if_neg c1] at h ⊢
      exact h

theorem dns_decode_loop_mono (buffer : List Nat) (len : Nat) (fuel : Nat)
    (st : dns_decode_state) (r : Nat × dns_decode_state)
    (h : dns_decode_loop buffer len fuel st = some r) :
    ∀ k, dns_decode_loop buffer len (fuel + k) st = some r := by
  intro k
  induction k with
  | zero => exact h
  | succ k ih => exact dns_decode_loop_succ buffer len (fuel + k) st r ih

/-- Once a pointer with a non-zero target has been taken, `out->length` is not changed
any more, as long as no pointer of the packet targets offset 0. -/
theorem dns_decode_loop_frozen (buffer : List Nat) (len : Nat)
    (hnz : ∀ i, DNS_POINTER (peek buffer i % 256) = true → dns_pointer_target buffer i ≠ 0) :
    ∀ (fuel : Nat) (st : dns_decode_state) (r : Nat × dns_decode_state),
      dns_decode_loop buffer len fuel st = some r → st.ptr_target ≠ 0 →
      r.2.out.length = st.out.length := by
  intro fuel
  induction fuel with
  | zero => intro st r h; simp [dns_decode_loop] at h
  | succ n ih =>
    intro st r h hp
    rw [dns_decode_loop] at h
    by_cases c1 : st.start + st.offset < len
    · rw [if_pos c1] at h
      by_cases c2 : DNS_POINTER (peek buffer (st.start + st.offset) % 256) = true
      · simp only [c2, if_true, hp, if_false] at h
        by_cases c3 : st.start + st.offset + 1 ≥ len
        · rw [if_pos c3] at h
          simp only [Option.some.injEq] at h
          subst h
          rfl
        · rw [if_neg c3] at h
          have ht := hnz _ c2
          by_cases c4 : dns_pointer_target buffer (st.start + st.offset) ≥ len
          · unfold dns_pointer_target at c4
            rw [if_pos c4] at h
            simp only [Option.some.injEq] at h
            subst h
            rfl
          · unfold dns_pointer_target at c4 ht
            rw [if_neg c4] at h
            have e := ih _ r h ht
            exact e
      · simp only [c2, Bool.false_eq_true, if_false, hp] at h
        by_cases c5 : DNS_LABEL_LENGTH (peek buffer (st.start + st.offset) % 256) = 0
        · rw [if_pos c5] at h
          simp only [Option.some.injEq] at h
          subst h
          rfl
        · rw [if_neg c5] at h
          by_cases c6 : st.start + st.offset
              + DNS_LABEL_LENGTH (peek buffer (st.start + st.offset) % 256) > len
          · rw [if_pos c6] at h
            simp only [Option.some.injEq] at h
            subst h
            rfl
          · rw [if_neg c6] at h
            have e := ih _ r h hp
            exact e
    · rw [if_neg c1] at h
      simp only [Option.some.injEq] at h
      subst h
      rfl

/-- C26 (DNS decode bounds). Every buffer index a returning call of `dns_decode_name` has
read is at most `len`: the overrun is limited to the byte at index `len` itself.  That
byte is read: on the 3-byte packet `03 61 62` (a label of length 3 with two bytes of
content inside the packet) the call returns 0 after reading the indices 0, 1, 2 and 3, and
the byte behind the packet is part of the decoded name. -/
theorem dns_decode_bounds (buffer : List Nat) (len start fuel : Nat)
    (r : Nat × dns_decode_state) (h : dns_decode_name fuel buffer len start = some r) :
    (∀ i ∈ r.2.reads, i ≤ len)
    ∧ dns_decode_name 2 [3, 0x61, 0x62, 0x63] 3 0
        = some (0, { start := 0, offset := 4, ptr_target := 0,
                     out := { name := [0x61, 0x62, 0x63, 0x2E], length := 4 },
                     reads := [0, 1, 2, 3] }) :=
  ⟨dns_decode_loop_reads buffer len fuel _ r h (by simp), by decide⟩

theorem dns_decode_bounds_witness :
    (∀ i ∈ [0, 1, 2, 3], i ≤ 3)
    ∧ dns_decode_name 2 [3, 0x61, 0x62, 0x63] 3 0
        = some (0, { start := 0, offset := 4, ptr_target := 0,
                     out := { name := [0x61, 0x62, 0x63, 0x2E], length := 4 },
                     reads := [0, 1, 2, 3] }) :=
  dns_decode_bounds [3, 0x61, 0x62, 0x63] 3 0 2
    (0, { start := 0, offset := 4, ptr_target := 0,
          out := { name := [0x61, 0x62, 0x63, 0x2E], length := 4 },
          reads := [0, 1, 2, 3] }) (by decide)

/-- A run of labels followed by a zero byte inside the packet is decoded with return
code 0; the reported length is the size of the labels plus 1. -/
theorem dns_decode_labels_root (buffer : List Nat) (len start : Nat) (ls : List (List Nat))
    (hls : ∀ t ∈ ls, 1 ≤ t.length ∧ t.length ≤ 63)
    (hw : ∀ j, j < (dns_wire ls).length → peek buffer (start + j) = peek (dns_wire ls) j)
    (hq : start + (dns_wire ls).length < len)
    (h0 : peek buffer (start + (dns_wire ls).length) % 256 = 0)
    (fuel : Nat) (hf : ls.length + 1 ≤ fuel) :
    ∃ st, dns_decode_name fuel buffer len start = some (0, st)
      ∧ st.out.length = (dns_wire ls).length + 1 ∧ st.out.name = dns_text ls := by
  obtain ⟨k, rfl⟩ : ∃ k, fuel = (k + 1) + ls.length := ⟨fuel - (ls.length + 1), by omega⟩
  obtain ⟨rd, -, hrun⟩ := dns_decode_loop_labels buffer len ls (k + 1) { start := start } hls
    (fun j hj => by simpa using hw j hj) (by simpa using hq) (fun _ => rfl)
  have hp0 : DNS_POINTER 0 = false := by decide
  have hl0 : DNS_LABEL_LENGTH 0 = 0 := by decide
  unfold dns_decode_name
  rw [hrun]
  simp only [dns_decode_loop, Nat.zero_add, hq, h0, hp0, hl0, if_true, Bool.false_eq_true,
    if_false]
  exact ⟨_, rfl, rfl, by simp⟩

/-- A run of labels followed by a compression pointer inside the packet: when no pointer
of the packet targets offset 0, every result of the call reports the size of the labels
plus 2. -/
theorem dns_decode_labels_pointer (buffer : List Nat) (len start : Nat) (ls : List (List Nat))
    (hls : ∀ t ∈ ls, 1 ≤ t.length ∧ t.length ≤ 63)
    (hw : ∀ j, j < (dns_wire ls).length → peek buffer (start + j) = peek (dns_wire ls) j)
    (hq : start + (dns_wire ls).length + 1 < len)
    (hp : DNS_POINTER (peek buffer (start + (dns_wire ls).length) % 256) = true)
    (hnz : ∀ i, DNS_POINTER (peek buffer i % 256) = true → dns_pointer_target buffer i ≠ 0)
    (fuel : Nat) (r : Nat × dns_decode_state)
    (h : dns_decode_name fuel buffer len start = some r) :
    r.2.out.length = (dns_wire ls).length + 2 := by
  unfold dns_decode_name at h
  have h1 := dns_decode_loop_mono buffer len fuel _ r h ls.length
  obtain ⟨rd, -, hrun⟩ := dns_decode_loop_labels buffer len ls fuel { start := start } hls
    (fun j hj => by simpa using hw j hj) (by simp only [Nat.add_zero]; omega) (fun _ => rfl)
  rw [hrun] at h1
  cases fuel with
  | zero => simp [dns_decode_loop] at h1
  | succ n =>
    have hq1 : start + (dns_wire ls).length < len := by omega
    have hq2 : ¬ start + (dns_wire ls).length + 1 ≥ len := by omega
    have ht := hnz _ hp
    rw [dns_decode_loop] at h1
    simp only [Nat.zero_add, hq1, hp, hq2, if_true, if_false] at h1
    by_cases c4 : dns_pointer_target buffer (start + (dns_wire ls).length) ≥ len
    · unfold dns_pointer_target at c4
      rw [if_pos c4] at h1
      simp only [Option.some.injEq] at h1
      subst h1
      rfl
    · unfold dns_pointer_target at c4 ht
      rw [if_neg c4] at h1
      have e := dns_decode_loop_frozen buffer len hnz n _ r h1 ht
      exact e

/-- C28 (DNS decode wire length). For a first segment made of labels of 1..63 bytes that
lies inside the packet: when a zero byte follows, the call returns 0 and reports the size
of the labels plus 1; when a compression pointer follows (both bytes inside the packet)
and no pointer of the packet targets offset 0, every result reports the size of the labels
plus 2, whatever lies behind the pointer.  A pointer to offset 0 is not recognised as
taken: on the packet `01 61 00 C0 00` decoded from offset 3 the first segment is the
pointer alone (2 bytes) but the reported length is 3. -/
theorem dns_decode_wire_length (buffer : List Nat) (len start : Nat) (ls : List (List Nat))
    (hls : ∀ t ∈ ls, 1 ≤ t.length ∧ t.length ≤ 63)
    (hw : ∀ j, j < (dns_wire ls).length → peek buffer (start + j) = peek (dns_wire ls) j)
    (hq : start + (dns_wire ls).length < len) :
    (peek buffer (start + (dns_wire ls).length) % 256 = 0 →
      ∀ fuel, ls.length + 1 ≤ fuel →
        ∃ st, dns_decode_name fuel buffer len start = some (0, st)
          ∧ st.out.length = (dns_wire ls).length + 1 ∧ st.out.name = dns_text ls)
    ∧ (DNS_POINTER (peek buffer (start + (dns_wire ls).length) % 256) = true →
        start + (dns_wire ls).length + 1 < len →
        (∀ i, DNS_POINTER (peek buffer i % 256) = true → dns_pointer_target buffer i ≠ 0) →
        ∀ fuel r, dns_decode_name fuel buffer len start = some r →
          r.2.out.length = (dns_wire ls).length + 2)
    ∧ dns_decode_name 3 [1, 0x61, 0, 0xC0, 0] 5 3
        = some (0, { start := 0, offset := 2, ptr_target := 0,
                     out := { name := [0x61, 0x2E], length := 3 },
                     reads := [3, 4, 0, 1, 2] }) :=
  ⟨fun h0 fuel hf => dns_decode_labels_root buffer len start ls hls hw hq h0 fuel hf,
    fun hp hq1 hnz fuel r h =>
      dns_decode_labels_pointer buffer len start ls hls hw hq1 hp hnz fuel r h,
    by decide⟩

theorem dns_decode_wire_length_witness :
    dns_decode_name 3 [1, 0x61, 0, 0xC0, 0] 5 3
      = some (0, { start := 0, offset := 2, ptr_target := 0,
                   out := { name := [0x61, 0x2E], length := 3 },
                   reads := [3, 4, 0, 1, 2] }) :=
  (dns_decode_wire_length [1, 0x61, 0, 0xC0, 0] 5 3 [] (by decide) (by decide)
    (by decide)).2.2

/-- The leave branch of `rtpmidi_handle_applemidi`. -/
theorem rtpmidi_handle_applemidi_leave (B : Nat) (data : rtpmidi_instance_data)
    (name : List Nat) (on_control : Bool) (frame : List Nat) (bytes : Nat) (peer : List Nat)
    (peer_len now : Nat) (fresh : List Nat) (alloc_ok : Bool)
    (hcmd : be16toh_at frame 2 = apple_leave) (hver : be32toh_at frame 4 = 2) :
    rtpmidi_handle_applemidi B data name on_control frame bytes peer peer_len now fresh alloc_ok
      = { rc := 0,
          data := { data with
            peer := data.peer.map (fun x =>
              if x.dest_len = peer_len
                  ∧ x.dest.take peer_len = (sockaddr_next_port peer).take peer_len then
                (if x.learned then { x with active := false }
                 else { x with connected := false })
              else x) },
          sent := [] } := by
  have n1 : apple_leave ≠ apple_invite := by decide
  have n2 : apple_leave ≠ apple_accept := by decide
  have n3 : apple_leave ≠ apple_reject := by decide
  unfold rtpmidi_handle_applemidi
  simp only [hcmd, hver, ne_eq, not_true_eq_false, and_false, if_false, if_true, n1, n2, n3]

/-- C21 (inbound leave). For a leave (`BY`) frame with version 2 from a source address,
nothing is sent and nothing but the registry changes; the registry keeps its length and
entry by entry: an entry whose `dest_len` is the length of the source address and whose
address bytes equal the source address with the port replaced by
`(source_port + 1) mod 2^16` gets `active = 0` when it is a learned peer and
`connected = 0` (active untouched) when it is a configured peer; every other entry is
unchanged. -/
theorem inbound_leave (B : Nat) (data : rtpmidi_instance_data)
    (name : List Nat) (on_control : Bool) (frame : List Nat) (bytes : Nat) (peer : List Nat)
    (peer_len now : Nat) (fresh : List Nat) (alloc_ok : Bool)
    (hcmd : be16toh_at frame 2 = apple_leave) (hver : be32toh_at frame 4 = 2) :
    (rtpmidi_handle_applemidi B data name on_control frame bytes peer peer_len now fresh
        alloc_ok).sent = []
    ∧ (rtpmidi_handle_applemidi B data name on_control frame bytes peer peer_len now fresh
        alloc_ok).rc = 0
    ∧ (rtpmidi_handle_applemidi B data name on_control frame bytes peer peer_len now fresh
        alloc_ok).data
      = { data with peer := (rtpmidi_handle_applemidi B data name on_control frame bytes peer
            peer_len now fresh alloc_ok).data.peer }
    ∧ (rtpmidi_handle_applemidi B data name on_control frame bytes peer peer_len now fresh
        alloc_ok).data.peer.length = data.peer.length
    ∧ (∀ (u : Nat) (e : rtpmidi_peer), data.peer[u]? = some e →
        (rtpmidi_handle_applemidi B data name on_control frame bytes peer peer_len now fresh
            alloc_ok).data.peer[u]?
          = some (if e.dest_len = peer_len
                ∧ e.dest.take peer_len = (sockaddr_next_port peer).take peer_len then
              (if e.learned then { e with active := false }
               else { e with connected := false })
            else e))
    ∧ be16toh_at (sockaddr_next_port peer) 2 = (be16toh_at peer 2 + 1) % 65536
    ∧ ∀ j, j ≠ 2 → j ≠ 3 → peek (sockaddr_next_port peer) j = peek peer j := by
  rw [rtpmidi_handle_applemidi_leave B data name on_control frame bytes peer peer_len now
    fresh alloc_ok hcmd hver]
  refine ⟨rfl, rfl, rfl, by simp, ?_, be16toh_at_sockaddr_next_port peer, ?_⟩
  · intro u e h
    simp only [List.getElem?_map, h, Option.map_some']
  · intro j h2 h3
    rw [peek_sockaddr_next_port, if_neg h2, if_neg h3]

theorem inbound_leave_witness :
    (rtpmidi_handle_applemidi 64
        { peer := [{ active := true, learned := true, connected := true, invite := 0,
                     dest := [2, 0, 0x9C, 0x40, 10, 0, 0, 5, 0, 0, 0, 0, 0, 0, 0, 0],
                     dest_len := 16 },
                   { active := true, learned := false, connected := true, invite := -1,
                     dest := [2, 0, 0x9C, 0x40, 10, 0, 0, 5, 0, 0, 0, 0, 0, 0, 0, 0],
                     dest_len := 16 },
                   { active := true, learned := true, connected := true, invite := 1,
                     dest := [2, 0, 0x9C, 0x42, 10, 0, 0, 5, 0, 0, 0, 0, 0, 0, 0, 0],
                     dest_len := 16 }] }
        [0x61] true
        [0xFF, 0xFF, 0x42, 0x59, 0, 0, 0, 2, 0xCA, 0xFE, 0xBA, 0xBE, 0, 0, 0, 0]
        16 [2, 0, 0x9C, 0x3F, 10, 0, 0, 5, 0, 0, 0, 0, 0, 0, 0, 0] 16 0 [1, 2, 3, 4]
        true).sent = [] :=
  (inbound_leave 64
    { peer := [{ active := true, learned := true, connected := true, invite := 0,
                 dest := [2, 0, 0x9C, 0x40, 10, 0, 0, 5, 0, 0, 0, 0, 0, 0, 0, 0],
                 dest_len := 16 },
               { active := true, learned := false, connected := true, invite := -1,
                 dest := [2, 0, 0x9C, 0x40, 10, 0, 0, 5, 0, 0, 0, 0, 0, 0, 0, 0],
                 dest_len := 16 },
               { active := true, learned := true, connected := true, invite := 1,
                 dest := [2, 0, 0x9C, 0x42, 10, 0, 0, 5, 0, 0, 0, 0, 0, 0, 0, 0],
                 dest_len := 16 }] }
    [0x61] true
    [0xFF, 0xFF, 0x42, 0x59, 0, 0, 0, 2, 0xCA, 0xFE, 0xBA, 0xBE, 0, 0, 0, 0]
    16 [2, 0, 0x9C, 0x3F, 10, 0, 0, 5, 0, 0, 0, 0, 0, 0, 0, 0] 16 0 [1, 2, 3, 4] true
    (by decide) (by decide)).1

theorem rtpmidi_push_peer_scan_slot (sock : List Nat) (len : Nat) :
    ∀ (l : List rtpmidi_peer) (u0 p0 p : Nat),
      rtpmidi_push_peer_scan sock len l u0 p0 = Sum.inr p →
      p = p0 ∨ (u0 ≤ p ∧ ∃ x, l[p - u0]? = some x ∧ x.active = false) := by
  intro l
  induction l with
  | nil =>
    intro u0 p0 p h
    simp only [rtpmidi_push_peer_scan, Sum.inr.injEq] at h
    exact Or.inl h.symm
  | cons x rest ih =>
    intro u0 p0 p h
    simp only [rtpmidi_push_peer_scan] at h
    by_cases hx : rtpmidi_push_peer_match sock len x = true
    · simp [hx] at h
    · simp only [hx, if_false] at h
      rcases ih _ _ _ h with b | ⟨b1, y, b2, b3⟩
      · cases ha : x.active
        · simp only [ha, Bool.false_eq_true, if_false] at b
          right
          refine ⟨by omega, x, ?_, ha⟩
          rw [b, Nat.sub_self]
          simp
        · simp only [ha, if_true] at b
          exact Or.inl b
      · right
        refine ⟨by omega, y, ?_, b3⟩
        have e1 : p - u0 = (p - (u0 + 1)) + 1 := by omega
        rw [e1]
        simpa using b2

/-- When no active entry holds the address and the allocation succeeds,
`rtpmidi_push_peer` stores the new entry in a slot `p` that is either behind the end of
the registry or inactive, and leaves every other entry alone. -/
theorem rtpmidi_push_peer_new (data : rtpmidi_instance_data) (sock : List Nat)
    (len : Nat) (l c : Bool) (i : Int)
    (hall : ∀ y ∈ data.peer, rtpmidi_push_peer_match sock len y = false) :
    ∃ p old, ((p = data.peer.length ∧ old = {})
        ∨ (p < data.peer.length ∧ data.peer[p]? = some old ∧ old.active = false))
      ∧ rtpmidi_push_peer true data sock len l c i
        = (0, { data with
            peer := (if p = data.peer.length then data.peer ++ [{}] else data.peer).set p
              { active := true, learned := l, connected := c, invite := i,
                dest := memcpy old.dest sock len, dest_len := len } }) := by
  unfold rtpmidi_push_peer
  cases hs : rtpmidi_push_peer_scan sock len data.peer 0 data.peer.length with
  | inl u =>
    obtain ⟨e, -, hget, hm, -⟩ := rtpmidi_push_peer_scan_inl sock len _ _ _ _ hs
    have := hall e (List.getElem?_mem hget)
    rw [hm] at this
    cases this
  | inr p =>
    rcases rtpmidi_push_peer_scan_slot sock len _ _ _ _ hs with h | ⟨-, x, hx, hact⟩
    · refine ⟨p, {}, Or.inl ⟨h, rfl⟩, ?_⟩
      subst h
      simp
    · simp only [Nat.sub_zero] at hx
      have hp : p < data.peer.length := (List.getElem?_eq_some.mp hx).1
      have hne : p ≠ data.peer.length := by omega
      refine ⟨p, x, Or.inr ⟨hp, hx, hact⟩, ?_⟩
      simp [hne, List.getD_eq_getElem?_getD, hx]

theorem peermatch_frame_refl (i : Nat) (st : peermatch_state) : peermatch_frame i st st :=
  ⟨rfl, ⟨[], by simp⟩, fun h => h⟩

theorem peermatch_frame_trans (i : Nat) (a b c : peermatch_state)
    (h1 : peermatch_frame i a b) (h2 : peermatch_frame i b c) : peermatch_frame i a c := by
  obtain ⟨a1, ⟨x, a2⟩, a3⟩ := h1
  obtain ⟨b1, ⟨y, b2⟩, b3⟩ := h2
  exact ⟨b1.trans a1, ⟨x ++ y, by rw [b2, a2, List.append_assoc]⟩, fun h => b3 (a3 h)⟩

theorem rtpmidi_push_peer_rc_ok (data : rtpmidi_instance_data) (sock : List Nat)
    (len : Nat) (l c : Bool) (i : Int) :
    (rtpmidi_push_peer true data sock len l c i).1 = 0 := by
  unfold rtpmidi_push_peer
  cases rtpmidi_push_peer_scan sock len data.peer 0 data.peer.length <;> simp

theorem getElem?_set_other {α : Type} (l : List α) (i j : Nat) (x : α) (h : i ≠ j) :
    (l.set i x)[j]? = l[j]? := by
  rw [List.getElem?_set, if_neg h]

theorem peermatch_connect_frame (alloc_ok : Bool) (fresh : Nat → List Nat) (peer : List Nat)
    (peer_len inst n i : Nat) (st : peermatch_state) (h : inst ≠ i) :
    peermatch_frame i st (peermatch_connect alloc_ok fresh peer peer_len inst n st).1
    ∧ ((peermatch_connect alloc_ok fresh peer peer_len inst n st).1.done = true)
    ∧ (alloc_ok = true →
        (peermatch_connect alloc_ok fresh peer peer_len inst n st).2 ≠ peermatch_exit.ret) := by
  unfold peermatch_connect
  simp only
  split_ifs with c1 c2 c3
  · refine ⟨⟨getElem?_set_other _ _ _ _ h, ⟨[], by simp⟩, fun _ => rfl⟩, rfl, ?_⟩
    intro ha
    subst ha
    exact absurd (rtpmidi_push_peer_rc_ok _ _ _ _ _ _) c2
  · exact ⟨⟨getElem?_set_other _ _ _ _ h, ⟨_, rfl⟩, fun _ => rfl⟩, rfl,
      fun _ hx => (by cases hx)⟩
  · exact ⟨⟨rfl, ⟨[], by simp⟩, fun _ => rfl⟩, rfl, fun _ hx => (by cases hx)⟩
  · exact ⟨⟨getElem?_set_other _ _ _ _ h, ⟨_, rfl⟩, fun _ => rfl⟩, rfl,
      fun _ hx => (by cases hx)⟩

theorem peermatch_names_frame (alloc_ok : Bool) (fresh : Nat → List Nat) (peer : List Nat)
    (peer_len raw0 : Nat) (session_name : List Nat) (inst i : Nat) (h : inst ≠ i) :
    ∀ (names : List (List Nat)) (n : Nat) (st : peermatch_state),
      peermatch_frame i st
        (peermatch_names alloc_ok fresh peer peer_len raw0 session_name inst names n st).1
      ∧ (alloc_ok = true →
          (peermatch_names alloc_ok fresh peer peer_len raw0 session_name inst names n st).2
            = false) := by
  intro names
  induction names with
  | nil => intro n st; exact ⟨peermatch_frame_refl i st, fun _ => rfl⟩
  | cons nm rest ih =>
    intro n st
    simp only [peermatch_names]
    split_ifs with c
    · obtain ⟨f1, -, f3⟩ := peermatch_connect_frame alloc_ok fresh peer peer_len inst n i st h
      rcases hc : peermatch_connect alloc_ok fresh peer peer_len inst n st with ⟨st1, ex⟩
      rw [hc] at f1 f3
      cases ex with
      | next =>
        obtain ⟨g1, g2⟩ := ih (n + 1) st1
        exact ⟨peermatch_frame_trans i _ _ _ f1 g1, g2⟩
      | brk => exact ⟨f1, fun _ => rfl⟩
      | ret => exact ⟨f1, fun ha => absurd rfl (f3 ha)⟩
    · exact ih (n + 1) st

theorem peermatch_names_nomatch (alloc_ok : Bool) (fresh : Nat → List Nat) (peer : List Nat)
    (peer_len raw0 : Nat) (session_name : List Nat) (inst : Nat) :
    ∀ (names : List (List Nat)) (n : Nat) (st : peermatch_state),
      (∀ nm ∈ names, ¬ (nm.length = raw0 ∧ nm = session_name)) →
      peermatch_names alloc_ok fresh peer peer_len raw0 session_name inst names n st
        = (st, false) := by
  intro names
  induction names with
  | nil => intro n st _; rfl
  | cons nm rest ih =>
    intro n st h
    simp only [peermatch_names, h nm (List.mem_cons_self _ _), if_false]
    exact ih (n + 1) st (fun x hx => h x (List.mem_cons_of_mem _ hx))

theorem getD_append_self {α : Type} (pre post : List α) (e d : α) :
    (pre ++ e :: post).getD pre.length d = e := by
  rw [List.getD_eq_getElem?_getD, List.getElem?_append_right (Nat.le_refl _)]
  simp

theorem set_append_self {α : Type} (pre post : List α) (e x : α) :
    (pre ++ e :: post).set pre.length x = pre ++ x :: post := by
  simp

theorem findIdx_append_self {α : Type} (p : α → Bool) (pre post : List α) (e : α)
    (h : ∀ x ∈ pre, p x = false) (he : p e = true) :
    (pre ++ e :: post).findIdx p = pre.length := by
  induction pre with
  | nil => simp [List.findIdx_cons, he]
  | cons a l ih =>
    have ha : p a = false := h a (by simp)
    simp only [List.cons_append, List.findIdx_cons, ha, cond_false, List.length_cons]
    rw [ih (fun x hx => h x (by simp [hx]))]

/-- The function `rtpmidi_push_invite` on an instance that has its element in `cfg.invite`
(the first one for this instance), when the allocations succeed. -/
theorem rtpmidi_push_invite_at (pre post : List rtpmidi_invite) (inst : Nat)
    (names : List (List Nat)) (s : List Nat) (hpre : ∀ x ∈ pre, x.inst ≠ inst) :
    rtpmidi_push_invite true (pre ++ { inst := inst, name := names } :: post) inst s
      = (0, if s ∈ names then pre ++ { inst := inst, name := names } :: post
            else pre ++ { inst := inst, name := names ++ [s] } :: post) := by
  have hf : (pre ++ ({ inst := inst, name := names } : rtpmidi_invite) :: post).findIdx
      (fun e => e.inst == inst) = pre.length :=
    findIdx_append_self _ pre post _ (fun x hx => by simpa using hpre x hx) (by simp)
  have hlt : ¬ pre.length
      = (pre ++ ({ inst := inst, name := names } : rtpmidi_invite) :: post).length := by
    simp only [List.length_append, List.length_cons]
    omega
  unfold rtpmidi_push_invite
  simp only [hf]
  rw [if_neg (fun h => hlt h.1), if_neg hlt, getD_append_self, set_append_self]
  by_cases hs : s ∈ names
  · rw [if_pos hs, if_pos hs]
  · rw [if_neg hs, if_neg hs, if_neg (by decide), set_append_self]

/-- The inner loop of the wildcard pass on an element that gets no further name: either it
holds the session name already or no `*` is left from index `n` on. -/
theorem peermatch_wild_names_stable (session_name : List Nat) (pre post : List rtpmidi_invite)
    (inst : Nat) (names : List (List Nat)) (hpre : ∀ x ∈ pre, x.inst ≠ inst) :
    ∀ (fuel n : Nat) (done : Bool),
      (session_name ∈ names ∨ [0x2A] ∉ names.drop n) → names.length ≤ fuel + n →
      peermatch_wild_names true session_name pre.length fuel n
          (pre ++ { inst := inst, name := names } :: post) done
        = (0, pre ++ { inst := inst, name := names } :: post,
            done || decide ([0x2A] ∈ names.drop n)) := by
  intro fuel
  induction fuel with
  | zero =>
    intro n done _ hl
    have hd : names.drop n = [] := List.drop_eq_nil_of_le (by omega)
    simp [peermatch_wild_names, hd]
  | succ f ih =>
    intro n done h hl
    unfold peermatch_wild_names
    rw [getD_append_self]
    by_cases hn : n < names.length
    · have hd : names.drop n = names[n] :: names.drop (n + 1) := List.drop_eq_getElem_cons hn
      have hg : names.getD n [] = names[n] := by
        rw [List.getD_eq_getElem?_getD, List.getElem?_eq_getElem hn]
        rfl
      simp only []
      rw [if_pos hn, hg]
      by_cases hs : names[n] = [0x2A]
      · have hmem : session_name ∈ names := by
          rcases h with h | h
          · exact h
          · exfalso
            apply h
            rw [hd, hs]
            exact List.mem_cons_self _ _
        rw [if_pos hs, rtpmidi_push_invite_at _ _ _ _ _ hpre, if_pos hmem]
        simp only []
        rw [if_neg (by simp), ih (n + 1) true (Or.inl hmem) (by omega)]
        have hin : [0x2A] ∈ names.drop n := by
          rw [hd, hs]
          exact List.mem_cons_self _ _
        simp only [hin, decide_True, Bool.true_or, Bool.or_true]
      · have h' : session_name ∈ names ∨ [0x2A] ∉ names.drop (n + 1) := by
          rcases h with h | h
          · exact Or.inl h
          · right
            intro hc
            apply h
            rw [hd]
            exact List.mem_cons_of_mem _ hc
        rw [if_neg hs, ih (n + 1) done h' (by omega)]
        have hne : ¬ [0x2A] = names[n] := fun hc => hs hc.symm
        have hiff : ([0x2A] ∈ names.drop n) ↔ ([0x2A] ∈ names.drop (n + 1)) := by
          rw [hd, List.mem_cons]
          exact ⟨fun hc => hc.resolve_left hne, Or.inr⟩
        simp only [hiff]
    · have hd : names.drop n = [] := List.drop_eq_nil_of_le (by omega)
      simp only []
      rw [if_neg hn]
      simp [hd]

/-- The inner loop of the wildcard pass on an element that does not hold the session name:
the first `*` from index `n` on appends the name, once. -/
theorem peermatch_wild_names_clone (session_name : List Nat) (pre post : List rtpmidi_invite)
    (inst : Nat) (names : List (List Nat)) (hpre : ∀ x ∈ pre, x.inst ≠ inst)
    (hs : session_name ∉ names) :
    ∀ (fuel n : Nat) (done : Bool), names.length + 1 ≤ fuel + n →
      peermatch_wild_names true session_name pre.length fuel n
          (pre ++ { inst := inst, name := names } :: post) done
        = (0, pre ++ (if [0x2A] ∈ names.drop n
              then ({ inst := inst, name := names ++ [session_name] } : rtpmidi_invite)
              else { inst := inst, name := names }) :: post,
            done || decide ([0x2A] ∈ names.drop n)) := by
  intro fuel
  induction fuel with
  | zero =>
    intro n done hl
    have hd : names.drop n = [] := List.drop_eq_nil_of_le (by omega)
    simp [peermatch_wild_names, hd]
  | succ f ih =>
    intro n done hl
    unfold peermatch_wild_names
    rw [getD_append_self]
    by_cases hn : n < names.length
    · have hd : names.drop n = names[n] :: names.drop (n + 1) := List.drop_eq_getElem_cons hn
      have hg : names.getD n [] = names[n] := by
        rw [List.getD_eq_getElem?_getD, List.getElem?_eq_getElem hn]
        rfl
      simp only []
      rw [if_pos hn, hg]
      by_cases hw : names[n] = [0x2A]
      · have hin : [0x2A] ∈ names.drop n := by
          rw [hd, hw]
          exact List.mem_cons_self _ _
        rw [if_pos hw, rtpmidi_push_invite_at _ _ _ _ _ hpre, if_neg hs]
        simp only []
        rw [if_neg (by simp), peermatch_wild_names_stable session_name pre post inst
          (names ++ [session_name]) hpre f (n + 1) true (Or.inl (by simp))
          (by rw [List.length_append]; simp only [List.length_cons, List.length_nil]; omega)]
        rw [if_pos hin]
        simp only [hin, decide_True, Bool.true_or, Bool.or_true]
      · have hne : ¬ [0x2A] = names[n] := fun hc => hw hc.symm
        have hiff : ([0x2A] ∈ names.drop n) ↔ ([0x2A] ∈ names.drop (n + 1)) := by
          rw [hd, List.mem_cons]
          exact ⟨fun hc => hc.resolve_left hne, Or.inr⟩
        rw [if_neg hw, ih (n + 1) done (by omega)]
        simp only [hiff]
    · have hd : names.drop n = [] := List.drop_eq_nil_of_le (by omega)
      simp only []
      rw [if_neg hn]
      simp [hd]

/-- The inner loop of the wildcard pass on element `pre.length` of `cfg.invite`, with the
fuel `rtpmidi_apple_peermatch` gives it: the element becomes its `mdns_wildcard_clone`,
`done` is set when the element has the pattern `*`, and the loop does not return 1. -/
theorem peermatch_wild_names_eq (session_name : List Nat) (pre post : List rtpmidi_invite)
    (e : rtpmidi_invite) (done : Bool) (hpre : ∀ x ∈ pre, x.inst ≠ e.inst) :
    peermatch_wild_names true session_name pre.length (e.name.length + 2) 0
        (pre ++ e :: post) done
      = (0, pre ++ mdns_wildcard_clone session_name e :: post,
          done || decide ([0x2A] ∈ e.name)) := by
  obtain ⟨inst, names⟩ := e
  unfold mdns_wildcard_clone
  by_cases hs : session_name ∈ names
  · rw [peermatch_wild_names_stable session_name pre post inst names hpre _ 0 done
      (Or.inl hs) (by simp only []; omega)]
    simp only []
    rw [if_neg (fun h => h.2 hs), List.drop_zero]
  · rw [peermatch_wild_names_clone session_name pre post inst names hpre hs _ 0 done
      (by simp only []; omega)]
    simp only [List.drop_zero]
    by_cases hw : [0x2A] ∈ names
    · rw [if_pos hw, if_pos ⟨hw, hs⟩]
    · rw [if_neg hw, if_neg (fun h => hw h.1)]

theorem mdns_wildcard_clone_inst (session_name : List Nat) (e : rtpmidi_invite) :
    (mdns_wildcard_clone session_name e).inst = e.inst := by
  unfold mdns_wildcard_clone
  split <;> rfl

theorem mdns_wildcard_clone_star (session_name : List Nat) (e : rtpmidi_invite) :
    [0x2A] ∈ (mdns_wildcard_clone session_name e).name ↔ [0x2A] ∈ e.name := by
  unfold mdns_wildcard_clone
  split
  · rename_i h
    simp only [List.mem_append, List.mem_singleton]
    exact ⟨fun _ => h.1, Or.inl⟩
  · rfl

/-- The wildcard pass of `rtpmidi_apple_peermatch` from element `pre.length` on, when the
elements of `cfg.invite` belong to different instances and the allocations succeed: every
element from there on becomes its `mdns_wildcard_clone`, `done` is set when one of them has
the pattern `*`, and the pass does not return 1. -/
theorem peermatch_wild_eq (session_name : List Nat) :
    ∀ (rest pre : List rtpmidi_invite) (fuel : Nat) (done : Bool),
      rest.length ≤ fuel → ((pre ++ rest).map (fun e => e.inst)).Nodup →
      peermatch_wild true session_name fuel pre.length (pre ++ rest) done
        = (0, pre ++ rest.map (mdns_wildcard_clone session_name),
            done || rest.any (fun e => decide ([0x2A] ∈ e.name))) := by
  intro rest
  induction rest with
  | nil =>
    intro pre fuel done _ _
    cases fuel with
    | zero => simp [peermatch_wild]
    | succ f => simp [peermatch_wild]
  | cons e rest ih =>
    intro pre fuel done hl hnd
    cases fuel with
    | zero => simp at hl
    | succ f =>
      have hpre : ∀ x ∈ pre, x.inst ≠ e.inst := by
        intro x hx hc
        rw [List.map_append, List.map_cons, List.nodup_middle, List.nodup_cons] at hnd
        apply hnd.1
        rw [List.mem_append]
        left
        rw [← hc]
        exact List.mem_map_of_mem _ hx
      have hlt : pre.length < (pre ++ e :: rest).length := by
        rw [List.length_append, List.length_cons]
        omega
      unfold peermatch_wild
      simp only []
      rw [if_pos hlt, getD_append_self, peermatch_wild_names_eq session_name pre rest e done hpre]
      simp only []
      rw [if_neg (by simp)]
      have e1 : pre ++ mdns_wildcard_clone session_name e :: rest
          = (pre ++ [mdns_wildcard_clone session_name e]) ++ rest := by simp
      have e2 : pre.length + 1 = (pre ++ [mdns_wildcard_clone session_name e]).length := by simp
      rw [e1, e2, ih (pre ++ [mdns_wildcard_clone session_name e]) f _
        (by simp only [List.length_cons] at hl; omega)
        (by simpa [mdns_wildcard_clone_inst] using hnd)]
      simp [Bool.or_assoc]

/-- The first pass of `rtpmidi_apple_peermatch` over elements none of whose names matches:
nothing happens. -/
theorem peermatch_invites_nomatch (alloc_ok : Bool) (fresh : Nat → List Nat) (peer : List Nat)
    (peer_len raw0 : Nat) (session_name : List Nat) :
    ∀ (cfg : List rtpmidi_invite) (st : peermatch_state),
      (∀ e ∈ cfg, ∀ nm ∈ e.name, ¬ (nm.length = raw0 ∧ nm = session_name)) →
      peermatch_invites alloc_ok fresh peer peer_len raw0 session_name cfg st
        = (st, false) := by
  intro cfg
  induction cfg with
  | nil =>
    intro st _
    rfl
  | cons e rest ih =>
    intro st h
    unfold peermatch_invites
    rw [peermatch_names_nomatch alloc_ok fresh peer peer_len raw0 session_name e.inst e.name 0
      st (h e (List.mem_cons_self _ _))]
    exact ih st (fun x hx => h x (List.mem_cons_of_mem _ hx))

/-- The inner loop of the first pass leaves `done` set when it was set before or when one
of the names matches. -/
theorem peermatch_names_done (alloc_ok : Bool) (fresh : Nat → List Nat) (peer : List Nat)
    (peer_len raw0 : Nat) (session_name : List Nat) (inst : Nat) :
    ∀ (names : List (List Nat)) (n : Nat) (st : peermatch_state),
      (st.done = true ∨ ∃ nm ∈ names, nm.length = raw0 ∧ nm = session_name) →
      (peermatch_names alloc_ok fresh peer peer_len raw0 session_name inst names n st).1.done
        = true := by
  intro names
  induction names with
  | nil =>
    intro n st h
    rcases h with h | ⟨nm, hnm, _⟩
    · exact h
    · cases hnm
  | cons nm rest ih =>
    intro n st h
    have hc := (peermatch_connect_frame alloc_ok fresh peer peer_len inst n (inst + 1) st
      (by omega)).2.1
    unfold peermatch_names
    by_cases hm : nm.length = raw0 ∧ nm = session_name
    · rw [if_pos hm]
      split
      · rename_i st1 hst
        rw [hst] at hc
        exact hc
      · rename_i st1 hst
        rw [hst] at hc
        exact hc
      · rename_i st1 hst
        rw [hst] at hc
        exact ih (n + 1) st1 (Or.inl hc)
    · rw [if_neg hm]
      apply ih (n + 1) st
      rcases h with h | ⟨x, hx, hxm⟩
      · exact Or.inl h
      · right
        rcases List.mem_cons.mp hx with hx | hx
        · exfalso
          rw [hx] at hxm
          exact hm hxm
        · exact ⟨x, hx, hxm⟩

/-- The inner loop of the first pass returns 1 only after `done` was set. -/
theorem peermatch_names_ret_done (alloc_ok : Bool) (fresh : Nat → List Nat) (peer : List Nat)
    (peer_len raw0 : Nat) (session_name : List Nat) (inst : Nat) :
    ∀ (names : List (List Nat)) (n : Nat) (st : peermatch_state),
      (peermatch_names alloc_ok fresh peer peer_len raw0 session_name inst names n st).2 = true →
      (peermatch_names alloc_ok fresh peer peer_len raw0 session_name inst names n st).1.done
        = true := by
  intro names
  induction names with
  | nil =>
    intro n st h
    simp [peermatch_names] at h
  | cons nm rest ih =>
    intro n st
    have hc := (peermatch_connect_frame alloc_ok fresh peer peer_len inst n (inst + 1) st
      (by omega)).2.1
    unfold peermatch_names
    by_cases hm : nm.length = raw0 ∧ nm = session_name
    · rw [if_pos hm]
      split
      · rename_i st1 hst
        rw [hst] at hc
        exact fun _ => hc
      · intro h
        cases h
      · exact ih (n + 1) _
    · rw [if_neg hm]
      exact ih (n + 1) st

/-- The first pass leaves `done` set when it was set before or when a name of one of the
elements matches; with successful allocations it does not return 1. -/
theorem peermatch_invites_done (alloc_ok : Bool) (fresh : Nat → List Nat) (peer : List Nat)
    (peer_len raw0 : Nat) (session_name : List Nat) :
    ∀ (cfg : List rtpmidi_invite) (st : peermatch_state),
      ((st.done = true ∨ ∃ e ∈ cfg, ∃ nm ∈ e.name, nm.length = raw0 ∧ nm = session_name) →
        (peermatch_invites alloc_ok fresh peer peer_len raw0 session_name cfg st).1.done
          = true)
      ∧ (alloc_ok = true →
        (peermatch_invites alloc_ok fresh peer peer_len raw0 session_name cfg st).2
          = false) := by
  intro cfg
  induction cfg with
  | nil =>
    intro st
    refine ⟨fun h => ?_, fun _ => rfl⟩
    rcases h with h | ⟨e, he, _⟩
    · exact h
    · cases he
  | cons e rest ih =>
    intro st
    have hd := peermatch_names_done alloc_ok fresh peer peer_len raw0 session_name e.inst
      e.name 0 st
    have hr := (peermatch_names_frame alloc_ok fresh peer peer_len raw0 session_name e.inst
      (e.inst + 1) (by omega) e.name 0 st).2
    have ht := peermatch_names_ret_done alloc_ok fresh peer peer_len raw0 session_name e.inst
      e.name 0 st
    unfold peermatch_invites
    split
    · rename_i st1 hst
      rw [hst] at hr ht
      refine ⟨fun _ => ht rfl, fun ha => ?_⟩
      have hf := hr ha
      simp at hf
    · rename_i st1 hst
      rw [hst] at hd
      refine ⟨fun h => ?_, (ih st1).2⟩
      apply (ih st1).1
      rcases h with h | ⟨x, hx, hxm⟩
      · exact Or.inl (hd (Or.inl h))
      · rcases List.mem_cons.mp hx with hx | hx
        · rw [hx] at hxm
          exact Or.inl (hd (Or.inr hxm))
        · exact Or.inr ⟨x, hx, hxm⟩

/-- One call of `rtpmidi_apple_peermatch` in which no name matches and an element has the
pattern `*`, with successful allocations and elements of different instances: the call is
the recursive call on the cloned list, with the registries untouched. -/
theorem rtpmidi_apple_peermatch_wild (fresh : Nat → List Nat) (fuel : Nat)
    (cfg : List rtpmidi_invite) (insts : List mm_instance) (session_raw peer : List Nat)
    (peer_len control_port : Nat)
    (hnd : (cfg.map (fun e => e.inst)).Nodup) (hw : ∃ e ∈ cfg, [0x2A] ∈ e.name)
    (hno : ∀ e ∈ cfg, ∀ nm ∈ e.name,
      ¬ (nm.length = peek session_raw 0 % 256 ∧ nm = mdns_session_name session_raw)) :
    rtpmidi_apple_peermatch true fresh (fuel + 1) cfg insts session_raw peer peer_len
        control_port
      = match rtpmidi_apple_peermatch true fresh fuel
          (cfg.map (mdns_wildcard_clone (mdns_session_name session_raw))) insts session_raw
          (sockaddr_set_port peer (control_port % 65536 + 1)) peer_len control_port with
        | none => none
        | some t =>
          some { rc := 0, cfg := t.cfg, insts := t.insts, sent := [] ++ t.sent,
                 fault := false || t.fault } := by
  have hwild := peermatch_wild_eq (mdns_session_name session_raw) cfg [] (cfg.length + 1) false
    (by omega) (by simpa using hnd)
  simp only [List.nil_append, List.length_nil, Bool.false_or] at hwild
  have hany : cfg.any (fun e => decide ([0x2A] ∈ e.name)) = true := by
    obtain ⟨e, he, hs⟩ := hw
    rw [List.any_eq_true]
    exact ⟨e, he, by simpa using hs⟩
  simp only [rtpmidi_apple_peermatch]
  rw [peermatch_invites_nomatch true fresh _ peer_len _ _ cfg _ hno, hwild, hany]
  simp

/-- A session name with a NUL byte inside its announced length matches none of the names
in the first pass, so with a pattern `*` in `cfg.invite` every call of
`rtpmidi_apple_peermatch` ends in the recursive call: no amount of fuel gives a result. -/
theorem rtpmidi_apple_peermatch_nul (fresh : Nat → List Nat) (session_raw : List Nat)
    (peer_len control_port : Nat)
    (hnul : (mdns_session_name session_raw).length ≠ peek session_raw 0 % 256) :
    ∀ (fuel : Nat) (cfg : List rtpmidi_invite) (insts : List mm_instance) (peer : List Nat),
      (cfg.map (fun e => e.inst)).Nodup → (∃ e ∈ cfg, [0x2A] ∈ e.name) →
      rtpmidi_apple_peermatch true fresh fuel cfg insts session_raw peer peer_len control_port
        = none := by
  intro fuel
  induction fuel with
  | zero =>
    intro cfg insts peer _ _
    rfl
  | succ f ih =>
    intro cfg insts peer hnd hw
    rw [rtpmidi_apple_peermatch_wild fresh f cfg insts session_raw peer peer_len control_port
      hnd hw (fun e _ nm _ hc => hnul (by rw [← hc.2]; exact hc.1))]
    rw [ih]
    · rw [List.map_map]
      have hm : (fun e => e.inst) ∘ mdns_wildcard_clone (mdns_session_name session_raw)
          = fun e => e.inst := by
        funext e
        exact mdns_wildcard_clone_inst _ e
      rw [hm]
      exact hnd
    · obtain ⟨e, he, hs⟩ := hw
      exact ⟨_, List.mem_map_of_mem _ he, (mdns_wildcard_clone_star _ e).mpr hs⟩

/-- A call of `rtpmidi_apple_peermatch` in which a name matches returns after the first
pass, without recursion and with `cfg.invite` as it was (allocations succeeding). -/
theorem rtpmidi_apple_peermatch_literal (fresh : Nat → List Nat) (fuel : Nat)
    (cfg : List rtpmidi_invite) (insts : List mm_instance) (session_raw peer : List Nat)
    (peer_len control_port : Nat)
    (h : ∃ e ∈ cfg, ∃ nm ∈ e.name,
      nm.length = peek session_raw 0 % 256 ∧ nm = mdns_session_name session_raw) :
    ∃ t, rtpmidi_apple_peermatch true fresh (fuel + 1) cfg insts session_raw peer peer_len
        control_port = some t ∧ t.rc = 0 ∧ t.cfg = cfg := by
  obtain ⟨hd, hr⟩ := peermatch_invites_done true fresh
    (sockaddr_set_port peer (control_port % 65536 + 1)) peer_len (peek session_raw 0 % 256)
    (mdns_session_name session_raw) cfg { insts := insts }
  have hd := hd (Or.inr h)
  have hr := hr rfl
  simp only [rtpmidi_apple_peermatch]
  rw [if_neg (by rw [hr]; decide), if_pos hd]
  exact ⟨_, rfl, rfl, rfl⟩

/-- Claim C24 (mDNS discovery, wildcard conversion). Let the elements of `cfg.invite`
belong to different instances, one of them have the pattern `*`, and the allocations
succeed.  For a session name without NUL byte inside its announced length that is in none of
the invite lists, `rtpmidi_apple_peermatch` appends the name to the list of every element
with a `*` (the lists keep their `*`), recurses exactly once (one level of recursion gives
no result, two or more give it) and returns 0.  For a session name with a NUL byte inside
its announced length the first pass never matches, and the function recurses without end:
no number of levels gives a result. -/
theorem mdns_wildcard_conversion (fresh : Nat → List Nat) (cfg : List rtpmidi_invite)
    (insts : List mm_instance) (session_raw peer : List Nat) (peer_len control_port : Nat)
    (hnd : (cfg.map (fun e => e.inst)).Nodup) (hw : ∃ e ∈ cfg, [0x2A] ∈ e.name) :
    ((mdns_session_name session_raw).length = peek session_raw 0 % 256 →
      (∀ e ∈ cfg, mdns_session_name session_raw ∉ e.name) →
      rtpmidi_apple_peermatch true fresh 1 cfg insts session_raw peer peer_len control_port
        = none
      ∧ ∀ fuel : Nat, ∃ r,
        rtpmidi_apple_peermatch true fresh (fuel + 2) cfg insts session_raw peer peer_len
          control_port = some r
        ∧ r.rc = 0
        ∧ r.cfg = cfg.map (fun e =>
            if [0x2A] ∈ e.name
            then { e with name := e.name ++ [mdns_session_name session_raw] } else e))
    ∧ ((mdns_session_name session_raw).length ≠ peek session_raw 0 % 256 →
      ∀ fuel : Nat,
        rtpmidi_apple_peermatch true fresh fuel cfg insts session_raw peer peer_len
          control_port = none) := by
  refine ⟨fun hraw hno => ?_, fun hnul fuel =>
    rtpmidi_apple_peermatch_nul fresh session_raw peer_len control_port hnul fuel cfg insts
      peer hnd hw⟩
  have hno' : ∀ e ∈ cfg, ∀ nm ∈ e.name,
      ¬ (nm.length = peek session_raw 0 % 256 ∧ nm = mdns_session_name session_raw) := by
    intro e he nm hnm hc
    apply hno e he
    rw [← hc.2]
    exact hnm
  have hmap : cfg.map (mdns_wildcard_clone (mdns_session_name session_raw))
      = cfg.map (fun e =>
          if [0x2A] ∈ e.name
          then { e with name := e.name ++ [mdns_session_name session_raw] } else e) := by
    apply List.map_congr_left
    intro e he
    unfold mdns_wildcard_clone
    by_cases hs : [0x2A] ∈ e.name
    · rw [if_pos ⟨hs, hno e he⟩, if_pos hs]
    · rw [if_neg (fun h => hs h.1), if_neg hs]
  refine ⟨?_, fun fuel => ?_⟩
  · rw [rtpmidi_apple_peermatch_wild fresh 0 cfg insts session_raw peer peer_len control_port
      hnd hw hno']
    rfl
  · obtain ⟨e, he, hs⟩ := hw
    obtain ⟨t, ht, -, htc⟩ := rtpmidi_apple_peermatch_literal fresh fuel
      (cfg.map (mdns_wildcard_clone (mdns_session_name session_raw))) insts session_raw
      (sockaddr_set_port peer (control_port % 65536 + 1)) peer_len control_port
      ⟨_, List.mem_map_of_mem _ he, mdns_session_name session_raw, by
        unfold mdns_wildcard_clone
        rw [if_pos ⟨hs, hno e he⟩]
        simp, hraw, rfl⟩
    rw [rtpmidi_apple_peermatch_wild fresh (fuel + 1) cfg insts session_raw peer peer_len
      control_port hnd ⟨e, he, hs⟩ hno', ht]
    refine ⟨_, rfl, rfl, ?_⟩
    simp only []
    rw [htc, hmap]

theorem mdns_wildcard_conversion_witness :
    (∃ r, rtpmidi_apple_peermatch true (fun _ => [1, 2, 3, 4]) 2
        [{ inst := 0, name := [[0x2A]] }] [{ name := [0x69] }] [1, 0x61]
        [2, 0, 0, 0, 10, 0, 0, 1, 0, 0, 0, 0, 0, 0, 0, 0] 16 5004 = some r
      ∧ r.rc = 0
      ∧ r.cfg = [{ inst := 0, name := [[0x2A], [0x61]] }])
    ∧ rtpmidi_apple_peermatch true (fun _ => [1, 2, 3, 4]) 65536
        [{ inst := 0, name := [[0x2A]] }] [{ name := [0x69] }] [2, 0x61, 0x00]
        [2, 0, 0, 0, 10, 0, 0, 1, 0, 0, 0, 0, 0, 0, 0, 0] 16 5004 = none :=
  ⟨((mdns_wildcard_conversion (fun _ => [1, 2, 3, 4]) [{ inst := 0, name := [[0x2A]] }]
      [{ name := [0x69] }] [1, 0x61] [2, 0, 0, 0, 10, 0, 0, 1, 0, 0, 0, 0, 0, 0, 0, 0] 16 5004
      (by decide) (by decide)).1 (by decide) (by decide)).2 0,
   (mdns_wildcard_conversion (fun _ => [1, 2, 3, 4]) [{ inst := 0, name := [[0x2A]] }]
      [{ name := [0x69] }] [2, 0x61, 0x00] [2, 0, 0, 0, 10, 0, 0, 1, 0, 0, 0, 0, 0, 0, 0, 0]
      16 5004 (by decide) (by decide)).2 (by decide) 65536⟩

theorem set_getD_self {α : Type} (l : List α) (i : Nat) (d : α) : l.set i (l.getD i d) = l := by
  induction l generalizing i with
  | nil => rfl
  | cons a l ih =>
    cases i with
    | zero => rfl
    | succ i =>
      simp only [List.set_cons_succ, List.getD_cons_succ]
      rw [ih]

/-- A call of `rtpmidi_handle_epn` whose step leaves the three entries of the channel as
they are leaves the instance as it is. -/
theorem rtpmidi_handle_epn_same (data : rtpmidi_instance_data) (chan control value : Nat)
    (hc : chan < 256)
    (h : (epn_step (epn_view data chan) chan (control % 65536) (value % 65536)).1
      = epn_view data chan) :
    (rtpmidi_handle_epn data chan control value).1 = data := by
  rw [rtpmidi_handle_epn_eq, Nat.mod_eq_of_lt hc, h]
  simp only [epn_view, set_getD_self]

/-- The step of the EPN machine for a CC 6 while the parameter is not complete. -/
theorem epn_step_value_hi_gated (st : epn_flags × Nat × Nat) (chan value : Nat)
    (h : ¬ (st.1.parameter_hi = true ∧ st.1.parameter_lo = true)) :
    epn_step st chan 6 value = (st, []) := by
  obtain ⟨s, c, w⟩ := st
  have h' : (s.parameter_hi && s.parameter_lo) = false := by
    simp only [] at h
    cases h1 : s.parameter_hi <;> cases h2 : s.parameter_lo <;> simp_all
  simp [epn_step, h']

/-- The step of the EPN machine for a CC 38 while `EPN_VALUE_HI` is clear. -/
theorem epn_step_value_lo_gated (st : epn_flags × Nat × Nat) (chan value : Nat)
    (h : st.1.value_hi = false) :
    epn_step st chan 38 value = (st, []) := by
  obtain ⟨s, c, w⟩ := st
  simp only [] at h
  simp [epn_step, h]

/-- The step of the EPN machine for a CC 38 while `EPN_VALUE_HI` is set. -/
theorem epn_step_value_lo (st : epn_flags × Nat × Nat) (chan value : Nat)
    (h : st.1.value_hi = true) :
    epn_step st chan 38 value
      = (({ st.1 with value_hi := false }, st.2.1,
            (st.2.2 &&& 0xFF80) ||| (value &&& 0x7F)),
          [{ ident := { type := if st.1.nrpn then nrpn else rpn, channel := chan,
                        control := st.2.1 }
             normalised := (((st.2.2 &&& 0xFF80) ||| (value &&& 0x7F) : Nat) : ℚ) / 16383 }]) := by
  obtain ⟨s, c, w⟩ := st
  simp only [] at h
  simp [epn_step, h]

/-- Claim C35 (EPN value gating). In `rtpmidi_handle_epn` on a channel below 16: a CC 6
while `EPN_PARAMETER_HI` and `EPN_PARAMETER_LO` are not both set leaves the instance as it
is and pushes no event; a CC 38 while `EPN_VALUE_HI` is clear leaves the instance as it is
and pushes no event; a CC 38 while `EPN_VALUE_HI` is set pushes exactly one event (family
from `EPN_NRPN`, control `epn_control[chan]`, value `epn_value[chan]` with its low 7 bits
replaced, over 16383) and clears `EPN_VALUE_HI`, so that a second CC 38 directly after it
leaves the instance as it is and pushes no event. -/
theorem epn_value_gating (data : rtpmidi_instance_data) (chan value value2 : Nat)
    (hc : chan < 16) (hd : epn_arrays data) :
    (¬ ((epn_view data chan).1.parameter_hi = true
        ∧ (epn_view data chan).1.parameter_lo = true) →
      rtpmidi_handle_epn data chan 6 value = (data, []))
    ∧ ((epn_view data chan).1.value_hi = false →
      rtpmidi_handle_epn data chan 38 value = (data, []))
    ∧ ((epn_view data chan).1.value_hi = true →
      (rtpmidi_handle_epn data chan 38 value).2
        = [{ ident := { type := if (epn_view data chan).1.nrpn then nrpn else rpn,
                        channel := chan, control := (epn_view data chan).2.1 }
             normalised := ((((epn_view data chan).2.2 &&& 0xFF80)
               ||| ((value % 65536) &&& 0x7F) : Nat) : ℚ) / 16383 }]
      ∧ epn_view (rtpmidi_handle_epn data chan 38 value).1 chan
        = ({ (epn_view data chan).1 with value_hi := false }, (epn_view data chan).2.1,
            ((epn_view data chan).2.2 &&& 0xFF80) ||| ((value % 65536) &&& 0x7F))
      ∧ rtpmidi_handle_epn (rtpmidi_handle_epn data chan 38 value).1 chan 38 value2
        = ((rtpmidi_handle_epn data chan 38 value).1, [])) := by
  have hc' : chan < 256 := by omega
  have gate : ∀ (d : rtpmidi_instance_data) (v : Nat), (epn_view d chan).1.value_hi = false →
      rtpmidi_handle_epn d chan 38 v = (d, []) := by
    intro d v h
    have hs := epn_step_value_lo_gated (epn_view d chan) chan (v % 65536) h
    apply Prod.ext
    · exact rtpmidi_handle_epn_same d chan 38 v hc' (by rw [show 38 % 65536 = 38 from rfl, hs])
    · rw [rtpmidi_handle_epn_eq, Nat.mod_eq_of_lt hc', show 38 % 65536 = 38 from rfl, hs]
  refine ⟨fun h => ?_, gate data value, fun h => ?_⟩
  · have hs := epn_step_value_hi_gated (epn_view data chan) chan (value % 65536) h
    apply Prod.ext
    · exact rtpmidi_handle_epn_same data chan 6 value hc'
        (by rw [show 6 % 65536 = 6 from rfl, hs])
    · rw [rtpmidi_handle_epn_eq, Nat.mod_eq_of_lt hc', show 6 % 65536 = 6 from rfl, hs]
  · have hs := epn_step_value_lo (epn_view data chan) chan (value % 65536) h
    obtain ⟨-, v1, v2⟩ := rtpmidi_handle_epn_view data chan 38 (value % 65536) hc
      (by decide) (Nat.mod_lt _ (by decide)) hd
    have e0 : rtpmidi_handle_epn data chan 38 (value % 65536)
        = rtpmidi_handle_epn data chan 38 value := by
      rw [rtpmidi_handle_epn_eq, rtpmidi_handle_epn_eq, Nat.mod_mod]
    rw [e0, hs] at v1 v2
    refine ⟨v2, v1, gate _ value2 ?_⟩
    rw [v1]

theorem epn_value_gating_witness :
    rtpmidi_handle_epn {} 3 6 0x40 = ({}, [])
    ∧ rtpmidi_handle_epn {} 3 38 0x01 = ({}, [])
    ∧ (rtpmidi_handle_epn
        { epn_status := [{}, {}, {}, { nrpn := true, parameter_hi := true,
                                       parameter_lo := true, value_hi := true },
                         {}, {}, {}, {}, {}, {}, {}, {}, {}, {}, {}, {}]
          epn_control := [0, 0, 0, 0x0820, 0, 0, 0, 0, 0, 0, 0, 0, 0, 0, 0, 0]
          epn_value := [0, 0, 0, 0x2000, 0, 0, 0, 0, 0, 0, 0, 0, 0, 0, 0, 0] }
        3 38 0x01).2
      = [{ ident := { type := nrpn, channel := 3, control := 0x0820 }
           normalised := (((0x2000 &&& 0xFF80) ||| ((0x01 % 65536) &&& 0x7F) : Nat) : ℚ)
             / 16383 }] :=
  ⟨(epn_value_gating {} 3 0x40 0 (by decide) ⟨rfl, rfl, rfl⟩).1 (by decide),
   (epn_value_gating {} 3 0x01 0 (by decide) ⟨rfl, rfl, rfl⟩).2.1 (by decide),
   ((epn_value_gating
      { epn_status := [{}, {}, {}, { nrpn := true, parameter_hi := true,
                                     parameter_lo := true, value_hi := true },
                       {}, {}, {}, {}, {}, {}, {}, {}, {}, {}, {}, {}]
        epn_control := [0, 0, 0, 0x0820, 0, 0, 0, 0, 0, 0, 0, 0, 0, 0, 0, 0]
        epn_value := [0, 0, 0, 0x2000, 0, 0, 0, 0, 0, 0, 0, 0, 0, 0, 0, 0] }
      3 0x01 0 (by decide) ⟨rfl, rfl, rfl⟩).2.2 (by decide)).1⟩

/-- One step of the EPN machine keeps the status in agreement with the history, and pushes
an event only for a CC 38 while both halves of the parameter are written. -/
theorem epn_step_agrees (st : epn_flags × Nat × Nat) (h : List (Nat × Nat)) (chan k v : Nat)
    (ha : epn_agrees st.1 h) :
    epn_agrees (epn_step st chan k v).1.1 ((k, v) :: h)
    ∧ ((epn_step st chan k v).2 ≠ [] →
        k = 38 ∧ epn_hi_since h = true ∧ epn_lo_since h = true
        ∧ ∃ e, (epn_step st chan k v).2 = [e]
          ∧ e.ident.type = (if epn_family_since h then nrpn else rpn)
          ∧ e.ident.channel = chan ∧ e.ident.control = st.2.1) := by
  obtain ⟨⟨a, b, c, d⟩, c0, w0⟩ := st
  obtain ⟨h1, h2, h3, h4⟩ := ha
  simp only [] at h1 h2 h3 h4
  unfold epn_agrees
  simp only [epn_family_since, epn_hi_since, epn_lo_since]
  rw [← h1, ← h2, ← h3]
  by_cases k1 : k = 101
  · subst k1
    cases a <;> cases b <;> cases c <;> cases d <;> by_cases hv : v = 127 <;>
      simp [epn_step, hv] at h4 ⊢
  · by_cases k2 : k = 99
    · subst k2
      cases a <;> cases b <;> cases c <;> cases d <;> simp [epn_step] at h4 ⊢
    · by_cases k3 : k = 100
      · subst k3
        cases a <;> cases b <;> cases c <;> cases d <;> by_cases hv : v = 127 <;>
          simp [epn_step, hv] at h4 ⊢
      · by_cases k4 : k = 98
        · subst k4
          cases a <;> cases b <;> cases c <;> cases d <;> simp [epn_step] at h4 ⊢
        · by_cases k5 : k = 6
          · subst k5
            cases a <;> cases b <;> cases c <;> cases d <;> simp [epn_step] at h4 ⊢
          · by_cases k6 : k = 38
            · subst k6
              cases a <;> cases b <;> cases c <;> cases d <;> simp [epn_step] at h4 ⊢
            · have k7 : ¬ (98 ≤ k ∧ k ≤ 101) := by omega
              cases a <;> cases b <;> cases c <;> cases d <;>
                simp [epn_step, k1, k2, k3, k4, k5, k6, k7] at h4 ⊢

/-- A call of `rtpmidi_handle_epn` leaves the entries of every other channel as they are. -/
theorem rtpmidi_handle_epn_other (data : rtpmidi_instance_data) (chan control value c : Nat)
    (hc : chan < 256) (hne : chan ≠ c) :
    epn_view (rtpmidi_handle_epn data chan control value).1 c = epn_view data c := by
  rw [rtpmidi_handle_epn_eq, Nat.mod_eq_of_lt hc]
  simp only [epn_view, List.getD_eq_getElem?_getD, List.getElem?_set_ne hne]

theorem epn_history_snoc (pre : List (Nat × Nat × Nat)) (x : Nat × Nat × Nat) (c : Nat) :
    epn_history (pre ++ [x]) c
      = if x.1 = c then x.2 :: epn_history pre c else epn_history pre c := by
  unfold epn_history
  by_cases h : x.1 = c
  · rw [if_pos h]
    simp [List.filter_append, h]
  · rw [if_neg h]
    simp [List.filter_append, h]

theorem epn_step_control_eq (st : epn_flags × Nat × Nat) (chan k v : Nat) :
    (epn_step st chan k v).1.2.1
      = (if k = 100 ∨ k = 98 then
          ((if k = 101 ∨ k = 99 then ((st.2.1 &&& 0x7F) ||| (v <<< 7)) % 65536 else st.2.1)
            &&& 0xFF80) ||| (v &&& 0x7F)
        else (if k = 101 ∨ k = 99 then ((st.2.1 &&& 0x7F) ||| (v <<< 7)) % 65536
          else st.2.1)) := rfl

/-- One step of the EPN machine keeps `epn_control[chan]` in agreement with the history. -/
theorem epn_step_control (st : epn_flags × Nat × Nat) (h : List (Nat × Nat)) (chan k v : Nat)
    (hc : epn_control_agrees st.2.1 h) :
    epn_control_agrees (epn_step st chan k v).1.2.1 ((k, v) :: h) := by
  obtain ⟨c1, c2, c3⟩ := hc
  rw [epn_step_control_eq]
  unfold epn_control_agrees
  simp only [epn_last_hi, epn_last_lo]
  have e1 : (st.2.1 &&& 0x7F) ||| (v <<< 7) = 2 ^ 7 * v + st.2.1 % 128 := by
    rw [and_127, Nat.shiftLeft_eq, Nat.lor_comm, Nat.mul_comm,
      ← Nat.mul_add_lt_is_or (Nat.mod_lt _ (by norm_num))]
  have e2 : (st.2.1 &&& 0xFF80) ||| (v &&& 0x7F) = 2 ^ 7 * (st.2.1 / 128) + v % 128 := by
    rw [and_ff80 _ c1, and_127, Nat.mul_comm]
    exact (Nat.mul_add_lt_is_or (Nat.mod_lt v (by norm_num : 0 < 2 ^ 7)) (st.2.1 / 128)).symm
  by_cases k1 : k = 101 ∨ k = 99
  · have k2 : ¬ (k = 100 ∨ k = 98) := by omega
    rw [if_neg k2, if_pos k1, if_neg k2, if_pos k1, e1]
    omega
  · by_cases k2 : k = 100 ∨ k = 98
    · rw [if_pos k2, if_neg k1, if_pos k2, if_neg k1, e2]
      omega
    · rw [if_neg k2, if_neg k1, if_neg k2, if_neg k1]
      exact ⟨c1, c2, c3⟩

/-- One call of `rtpmidi_handle_epn` keeps every channel in agreement with its history. -/
theorem rtpmidi_handle_epn_agrees (data : rtpmidi_instance_data)
    (done : List (Nat × Nat × Nat)) (x : Nat × Nat × Nat)
    (hx : x.1 < 16 ∧ x.2.1 < 65536 ∧ x.2.2 < 65536) (hd : epn_arrays data)
    (ha : ∀ c < 16, epn_agrees (epn_view data c).1 (epn_history done c)
      ∧ epn_control_agrees (epn_view data c).2.1 (epn_history done c)) :
    epn_arrays (rtpmidi_handle_epn data x.1 x.2.1 x.2.2).1
    ∧ ∀ c < 16, epn_agrees (epn_view (rtpmidi_handle_epn data x.1 x.2.1 x.2.2).1 c).1
        (epn_history (done ++ [x]) c)
      ∧ epn_control_agrees (epn_view (rtpmidi_handle_epn data x.1 x.2.1 x.2.2).1 c).2.1
        (epn_history (done ++ [x]) c) := by
  obtain ⟨v0, v1, -⟩ := rtpmidi_handle_epn_view data x.1 x.2.1 x.2.2 hx.1 hx.2.1 hx.2.2 hd
  refine ⟨v0, fun c hc => ?_⟩
  rw [epn_history_snoc]
  by_cases h : x.1 = c
  · rw [if_pos h, ← h, v1]
    exact ⟨(epn_step_agrees (epn_view data x.1) (epn_history done x.1) x.1 x.2.1 x.2.2
      (ha x.1 hx.1).1).1,
      epn_step_control (epn_view data x.1) (epn_history done x.1) x.1 x.2.1 x.2.2
        (ha x.1 hx.1).2⟩
  · rw [if_neg h, rtpmidi_handle_epn_other data x.1 x.2.1 x.2.2 c (by omega) h]
    exact ha c hc

theorem rtpmidi_handle_epn_calls_agrees :
    ∀ (calls done : List (Nat × Nat × Nat)) (data : rtpmidi_instance_data),
      (∀ x ∈ calls, x.1 < 16 ∧ x.2.1 < 65536 ∧ x.2.2 < 65536) → epn_arrays data →
      (∀ c < 16, epn_agrees (epn_view data c).1 (epn_history done c)
        ∧ epn_control_agrees (epn_view data c).2.1 (epn_history done c)) →
      epn_arrays (rtpmidi_handle_epn_calls data calls).1
      ∧ ∀ c < 16, epn_agrees (epn_view (rtpmidi_handle_epn_calls data calls).1 c).1
          (epn_history (done ++ calls) c)
        ∧ epn_control_agrees (epn_view (rtpmidi_handle_epn_calls data calls).1 c).2.1
          (epn_history (done ++ calls) c) := by
  intro calls
  induction calls with
  | nil =>
    intro done data _ hd ha
    rw [List.append_nil]
    exact ⟨hd, ha⟩
  | cons x rest ih =>
    intro done data hb hd ha
    obtain ⟨d1, a1⟩ := rtpmidi_handle_epn_agrees data done x (hb x (List.mem_cons_self _ _))
      hd ha
    have e := ih (done ++ [x]) (rtpmidi_handle_epn data x.1 x.2.1 x.2.2).1
      (fun y hy => hb y (List.mem_cons_of_mem _ hy)) d1 a1
    rw [List.append_assoc, List.singleton_append] at e
    exact e

/-- Every event of a sequence of calls is pushed by one of the calls, made in the state the
calls before it left. -/
theorem rtpmidi_handle_epn_calls_mem (e : channel_event) :
    ∀ (calls : List (Nat × Nat × Nat)) (data : rtpmidi_instance_data),
      e ∈ (rtpmidi_handle_epn_calls data calls).2 →
      ∃ pre x post, calls = pre ++ x :: post
        ∧ e ∈ (rtpmidi_handle_epn (rtpmidi_handle_epn_calls data pre).1 x.1 x.2.1 x.2.2).2 := by
  intro calls
  induction calls with
  | nil =>
    intro data h
    simp [rtpmidi_handle_epn_calls] at h
  | cons x rest ih =>
    intro data h
    simp only [rtpmidi_handle_epn_calls, List.mem_append] at h
    rcases h with h | h
    · exact ⟨[], x, rest, rfl, h⟩
    · obtain ⟨pre, y, post, hc, he⟩ := ih _ h
      refine ⟨x :: pre, y, post, ?_, ?_⟩
      · rw [hc]
        rfl
      · exact he

/-- Claim C38 (EPN state invariant). Start from an instance whose EPN state is all zero and
make any sequence of `rtpmidi_handle_epn` calls (channels below 16, controls and values of
16 bits).  Afterwards, on every channel, `EPN_VALUE_HI` is set only together with
`EPN_PARAMETER_HI` and `EPN_PARAMETER_LO`, and these two flags and `EPN_NRPN` are what the
history of the channel says (`epn_hi_since`, `epn_lo_since`, `epn_family_since`).  Every
event the sequence pushes is pushed by a CC 38 at a moment when both halves of the parameter
number were written since the last family switch and the last null of that half; it has the
family selected then, the channel of the call, and a control number whose low 7 bits are the
last value written by CC 100 or 98 and whose upper bits are the last value written by CC 101
or 99. -/
theorem epn_state_invariant (data : rtpmidi_instance_data) (calls : List (Nat × Nat × Nat))
    (hd : epn_arrays data) (hz : ∀ c < 16, epn_view data c = ({}, 0, 0))
    (hb : ∀ x ∈ calls, x.1 < 16 ∧ x.2.1 < 65536 ∧ x.2.2 < 65536) :
    (∀ c < 16,
      (epn_view (rtpmidi_handle_epn_calls data calls).1 c).1.value_hi = true →
        (epn_view (rtpmidi_handle_epn_calls data calls).1 c).1.parameter_hi = true
        ∧ (epn_view (rtpmidi_handle_epn_calls data calls).1 c).1.parameter_lo = true)
    ∧ (∀ c < 16,
      (epn_view (rtpmidi_handle_epn_calls data calls).1 c).1.nrpn
          = epn_family_since (epn_history calls c)
        ∧ (epn_view (rtpmidi_handle_epn_calls data calls).1 c).1.parameter_hi
          = epn_hi_since (epn_history calls c)
        ∧ (epn_view (rtpmidi_handle_epn_calls data calls).1 c).1.parameter_lo
          = epn_lo_since (epn_history calls c))
    ∧ (∀ e ∈ (rtpmidi_handle_epn_calls data calls).2,
      ∃ pre x post, calls = pre ++ x :: post
        ∧ (rtpmidi_handle_epn (rtpmidi_handle_epn_calls data pre).1 x.1 x.2.1 x.2.2).2 = [e]
        ∧ x.2.1 = 38
        ∧ epn_hi_since (epn_history pre x.1) = true
        ∧ epn_lo_since (epn_history pre x.1) = true
        ∧ e.ident.type = (if epn_family_since (epn_history pre x.1) then nrpn else rpn)
        ∧ e.ident.channel = x.1
        ∧ e.ident.control % 128 = epn_last_lo (epn_history pre x.1) % 128
        ∧ e.ident.control / 128 = epn_last_hi (epn_history pre x.1) % 512) := by
  have hstart : ∀ c < 16, epn_agrees (epn_view data c).1 (epn_history [] c)
      ∧ epn_control_agrees (epn_view data c).2.1 (epn_history [] c) := by
    intro c hc
    rw [hz c hc]
    exact ⟨⟨rfl, rfl, rfl, fun h => by cases h⟩, by decide, rfl, rfl⟩
  obtain ⟨-, hall⟩ := rtpmidi_handle_epn_calls_agrees calls [] data hb hd hstart
  rw [List.nil_append] at hall
  refine ⟨fun c hc => (hall c hc).1.2.2.2, fun c hc =>
    ⟨(hall c hc).1.1, (hall c hc).1.2.1, (hall c hc).1.2.2.1⟩, fun e he => ?_⟩
  obtain ⟨pre, x, post, hsplit, hmem⟩ := rtpmidi_handle_epn_calls_mem e calls data he
  have hbx : x.1 < 16 ∧ x.2.1 < 65536 ∧ x.2.2 < 65536 := hb x (by rw [hsplit]; simp)
  obtain ⟨hd1, hpre⟩ := rtpmidi_handle_epn_calls_agrees pre [] data
    (fun y hy => hb y (by rw [hsplit]; simp [hy])) hd hstart
  rw [List.nil_append] at hpre
  obtain ⟨-, -, v2⟩ := rtpmidi_handle_epn_view (rtpmidi_handle_epn_calls data pre).1 x.1 x.2.1
    x.2.2 hbx.1 hbx.2.1 hbx.2.2 hd1
  rw [v2] at hmem
  obtain ⟨k38, s1, s2, e', he', t1, t2, t3⟩ :=
    (epn_step_agrees (epn_view (rtpmidi_handle_epn_calls data pre).1 x.1)
      (epn_history pre x.1) x.1 x.2.1 x.2.2 (hpre x.1 hbx.1).1).2
      (List.ne_nil_of_mem hmem)
  rw [he'] at hmem
  have hee : e = e' := by simpa using hmem
  subst hee
  obtain ⟨-, g2, g3⟩ := (hpre x.1 hbx.1).2
  refine ⟨pre, x, post, hsplit, by rw [v2, he'], k38, s1, s2, t1, t2, ?_, ?_⟩
  · rw [t3]
    exact g2
  · rw [t3]
    exact g3

theorem epn_state_invariant_witness :
    (epn_view (rtpmidi_handle_epn_calls {}
        [(3, 99, 0x10), (3, 98, 0x20), (5, 101, 127), (3, 6, 0x40), (3, 38, 0x01)]).1 3).1.nrpn
        = epn_family_since (epn_history
            [(3, 99, 0x10), (3, 98, 0x20), (5, 101, 127), (3, 6, 0x40), (3, 38, 0x01)] 3)
    ∧ (epn_view (rtpmidi_handle_epn_calls {}
        [(3, 99, 0x10), (3, 98, 0x20), (5, 101, 127), (3, 6, 0x40), (3, 38, 0x01)]).1
          3).1.parameter_hi
        = epn_hi_since (epn_history
            [(3, 99, 0x10), (3, 98, 0x20), (5, 101, 127), (3, 6, 0x40), (3, 38, 0x01)] 3)
    ∧ (epn_view (rtpmidi_handle_epn_calls {}
        [(3, 99, 0x10), (3, 98, 0x20), (5, 101, 127), (3, 6, 0x40), (3, 38, 0x01)]).1
          3).1.parameter_lo
        = epn_lo_since (epn_history
            [(3, 99, 0x10), (3, 98, 0x20), (5, 101, 127), (3, 6, 0x40), (3, 38, 0x01)] 3) :=
  (epn_state_invariant {}
    [(3, 99, 0x10), (3, 98, 0x20), (5, 101, 127), (3, 6, 0x40), (3, 38, 0x01)]
    ⟨rfl, rfl, rfl⟩ (by decide) (by decide)).2.1 3 (by decide)

/-- The function `rtpmidi_parse` returns on every buffer that holds the bytes it is given,
and it returns 0 only when the command section fits the bytes. -/
theorem rtpmidi_parse_total (data : rtpmidi_instance_data) (frame : List Nat)
    (bytes : Nat) (hb : bytes ≤ frame.length) (hbyte : ∀ b ∈ frame, b < 256) :
    ∃ r, rtpmidi_parse data frame bytes = some r
      ∧ (r.rc = 0 → spec_header_size frame + spec_section_length frame ≤ bytes) := by
  by_cases h0 : bytes = 0
  · exact ⟨{ rc := 1, data := data, events := [] }, by simp [rtpmidi_parse, h0],
      fun h => (by cases h)⟩
  have hf0 : frame[0]? = some (frame.getD 0 0) := by
    rw [List.getD_eq_getElem?_getD, List.getElem?_eq_getElem (by omega)]; rfl
  by_cases h1 : frame.getD 0 0 &&& 0x80 ≠ 0 ∧ bytes < 2
  · refine ⟨{ rc := 1, data := data, events := [] }, ?_, fun h => (by cases h)⟩
    unfold rtpmidi_parse
    rw [if_neg h0]
    simp only [hf0]
    rw [if_pos h1]
  by_cases h2 : spec_header_size frame + spec_section_length frame > bytes
  · refine ⟨{ rc := 1, data := data, events := [] }, ?_, fun h => (by cases h)⟩
    unfold rtpmidi_parse
    rw [if_neg h0]
    simp only [hf0]
    rw [if_neg h1]
    by_cases hext : frame.getD 0 0 &&& 0x80 = 0
    · have hne : ¬ (frame.getD 0 0 &&& 0x80 ≠ 0) := by simpa using hext
      simp only [spec_header_size, spec_section_length, hext, if_true] at h2
      simp only [hne, if_false]
      rw [if_pos (by omega)]
    · have hne : frame.getD 0 0 &&& 0x80 ≠ 0 := hext
      have hb2 : 2 ≤ bytes := by
        by_contra hc
        exact h1 ⟨hne, by omega⟩
      have hf1 : frame[1]? = some (frame.getD 1 0) := by
        rw [List.getD_eq_getElem?_getD, List.getElem?_eq_getElem (by omega)]; rfl
      have hlt : frame.getD 1 0 < 256 := by
        apply hbyte
        rw [List.getD_eq_getElem?_getD, List.getElem?_eq_getElem (by omega)]
        exact List.getElem_mem _
      simp only [spec_header_size, spec_section_length, hext, if_false] at h2
      simp only [ne_eq, hext, not_false_eq_true, if_true, hf1, section_length_lt _ _ hlt]
      rw [if_pos (by omega)]
  · obtain ⟨st, -, hp⟩ := rtpmidi_parse_framed data frame bytes hb hbyte h0 h1 (by omega)
    exact ⟨_, hp, fun _ => by omega⟩

/-- The result of `rtpmidi_parse` depends on the buffer only through the entries below
both the byte count and header size plus section length. -/
theorem rtpmidi_parse_congr (data : rtpmidi_instance_data) (f g : List Nat) (bytes : Nat)
    (hb : bytes ≤ f.length) (hbyte : ∀ b ∈ f, b < 256)
    (key : ∀ i, i < min bytes (spec_header_size f + spec_section_length f) → f[i]? = g[i]?) :
    rtpmidi_parse data f bytes = rtpmidi_parse data g bytes := by
  by_cases h0 : bytes = 0
  · simp [rtpmidi_parse, h0]
  have hs1 : 1 ≤ spec_header_size f := by unfold spec_header_size; split_ifs <;> omega
  have hf0 : f[0]? = some (f.getD 0 0) := by
    rw [List.getD_eq_getElem?_getD, List.getElem?_eq_getElem (by omega)]; rfl
  have hg0 : g[0]? = some (f.getD 0 0) := by
    rw [← key 0 (by omega), hf0]
  unfold rtpmidi_parse
  rw [if_neg h0, if_neg h0]
  simp only [hf0, hg0]
  by_cases h1 : f.getD 0 0 &&& 0x80 ≠ 0 ∧ bytes < 2
  · rw [if_pos h1, if_pos h1]
  rw [if_neg h1, if_neg h1]
  by_cases hext : f.getD 0 0 &&& 0x80 = 0
  · have hne : ¬ (f.getD 0 0 &&& 0x80 ≠ 0) := by simpa using hext
    simp only [hne, if_false]
    by_cases h2 : 1 + (f.getD 0 0 &&& 0x0F) > bytes
    · rw [if_pos h2, if_pos h2]
    · rw [if_neg h2, if_neg h2]
      have hcb : spec_header_size f + spec_section_length f = 1 + (f.getD 0 0 &&& 0x0F) := by
        simp only [spec_header_size, spec_section_length, hext, if_true]
      rw [rtpmidi_parse_loop_congr f g _ (fun i hi => key i (by omega))]
  · have hne : f.getD 0 0 &&& 0x80 ≠ 0 := hext
    have hb2 : 2 ≤ bytes := by
      by_contra hc
      exact h1 ⟨hne, by omega⟩
    have hsz : spec_header_size f = 2 := by unfold spec_header_size; rw [if_neg hext]
    have hf1 : f[1]? = some (f.getD 1 0) := by
      rw [List.getD_eq_getElem?_getD, List.getElem?_eq_getElem (by omega)]; rfl
    have hg1 : g[1]? = some (f.getD 1 0) := by
      rw [← key 1 (by omega), hf1]
    have hlt : f.getD 1 0 < 256 := by
      apply hbyte
      rw [List.getD_eq_getElem?_getD, List.getElem?_eq_getElem (by omega)]
      exact List.getElem_mem _
    simp only [ne_eq, hext, not_false_eq_true, if_true, hf1, hg1, section_length_lt _ _ hlt]
    by_cases h2 : 2 + ((f.getD 0 0 &&& 0x0F) <<< 8 ||| f.getD 1 0) > bytes
    · rw [if_pos h2, if_pos h2]
    · rw [if_neg h2, if_neg h2]
      have hcb : spec_header_size f + spec_section_length f
          = 2 + ((f.getD 0 0 &&& 0x0F) <<< 8 ||| f.getD 1 0) := by
        simp only [spec_header_size, spec_section_length, hext, if_false]
      rw [rtpmidi_parse_loop_congr f g _ (fun i hi => key i (by omega))]

/-- Claim C37 (decoder bounds). On every buffer that holds the `bytes` bytes it is given,
`rtpmidi_parse` returns.  Its result is the same on the buffer cut off at the smaller of
`bytes` and header size plus declared section length, where every load at or behind that
index would fail, and on every other buffer with the same entries below that index.  It
returns 0 only when header size plus section length is at most `bytes`, and then every pass
through the loop body that does not leave the loop moves the offset forward by at least one
byte. -/
theorem decoder_bounds (data : rtpmidi_instance_data) (frame : List Nat) (bytes : Nat)
    (hb : bytes ≤ frame.length) (hbyte : ∀ b ∈ frame, b < 256) :
    ∃ r, rtpmidi_parse data frame bytes = some r
      ∧ rtpmidi_parse data
          (frame.take (min bytes (spec_header_size frame + spec_section_length frame)))
          bytes = some r
      ∧ (∀ g : List Nat,
          (∀ i, i < min bytes (spec_header_size frame + spec_section_length frame) →
            frame[i]? = g[i]?) →
          rtpmidi_parse data g bytes = some r)
      ∧ (r.rc = 0 → spec_header_size frame + spec_section_length frame ≤ bytes)
      ∧ (r.rc = 0 → ∀ st : parse_state, ∃ b st',
          rtpmidi_parse_event frame (spec_header_size frame + spec_section_length frame) st
            = some (b, st')
          ∧ (b = true → st.offset < st'.offset)) := by
  obtain ⟨r, hr, hrc⟩ := rtpmidi_parse_total data frame bytes hb hbyte
  have hall : ∀ g : List Nat,
      (∀ i, i < min bytes (spec_header_size frame + spec_section_length frame) →
        frame[i]? = g[i]?) →
      rtpmidi_parse data g bytes = some r := by
    intro g key
    rw [← rtpmidi_parse_congr data frame g bytes hb hbyte key, hr]
  refine ⟨r, hr, hall _ (fun i hi => ?_), hall, hrc, fun h0 st => ?_⟩
  · rw [List.getElem?_take]
    simp [hi]
  · exact rtpmidi_parse_event_total frame _ (Nat.le_trans (hrc h0) hb) st

theorem decoder_bounds_witness :
    ∃ r, rtpmidi_parse {} [0x03, 0x90, 60, 100, 0xFF, 0xFF] 4 = some r
      ∧ rtpmidi_parse {}
          ([0x03, 0x90, 60, 100, 0xFF, 0xFF].take
            (min 4 (spec_header_size [0x03, 0x90, 60, 100, 0xFF, 0xFF]
              + spec_section_length [0x03, 0x90, 60, 100, 0xFF, 0xFF])))
          4 = some r := by
  obtain ⟨r, h1, h2, -⟩ := decoder_bounds {} [0x03, 0x90, 60, 100, 0xFF, 0xFF] 4 (by decide)
    (by decide)
  exact ⟨r, h1, h2⟩

theorem getElem?_append_at {α : Type} (pre l : List α) (k : Nat) :
    (pre ++ l)[pre.length + k]? = l[k]? := by
  rw [List.getElem?_append_right (by omega)]
  congr 1
  omega

/-- One pass through the loop body of `rtpmidi_parse` on an event without status byte
(delta-time `t`, then a byte with bit 7 clear), after a status byte was seen: the pass does
what it does on the same bytes with the last status byte put in front of the data, apart
from the offset. -/
theorem rtpmidi_parse_event_running (pre rest : List Nat) (t d3 d4 cb : Nat)
    (st : parse_state)
    (ho : st.offset = pre.length) (hdt : st.decode_time = true)
    (hS : st.midi_status &&& 0x80 ≠ 0) (ht : t &&& 0x80 = 0) (hd : d3 &&& 0x80 = 0)
    (hcb : pre.length + 3 ≤ cb) :
    rtpmidi_parse_event (pre ++ t :: st.midi_status :: d3 :: d4 :: rest) (cb + 1) st
      = (rtpmidi_parse_event (pre ++ t :: d3 :: d4 :: rest) cb st).map
          (fun r => (r.1, { r.2 with offset := r.2.offset + 1 })) := by
  have l0 : ∀ l : List Nat, (pre ++ l)[pre.length]? = l[0]? := fun l => by
    simpa using getElem?_append_at pre l 0
  have l1 : ∀ l : List Nat, (pre ++ l)[pre.length + 1]? = l[1]? := fun l =>
    getElem?_append_at pre l 1
  have l2 : ∀ l : List Nat, (pre ++ l)[pre.length + 2]? = l[2]? := fun l =>
    getElem?_append_at pre l 2
  have l3 : ∀ l : List Nat, (pre ++ l)[pre.length + 3]? = l[3]? := fun l =>
    getElem?_append_at pre l 3
  have dt1 := rtpmidi_parse_dtime_stop (pre ++ t :: st.midi_status :: d3 :: d4 :: rest) (cb + 1)
    pre.length t (by omega) (by rw [l0]; rfl) ht
  have dt2 := rtpmidi_parse_dtime_stop (pre ++ t :: d3 :: d4 :: rest) cb
    pre.length t (by omega) (by rw [l0]; rfl) ht
  unfold rtpmidi_parse_event
  simp only [ho, hdt, if_true, dt1, dt2, Option.map_some']
  have g1 : ¬ pre.length + 1 ≥ cb + 1 := by omega
  have g2 : ¬ pre.length + 1 ≥ cb := by omega
  rw [if_neg g1, if_neg g2]
  simp only [l1, List.getElem?_cons_succ, List.getElem?_cons_zero, hS, hd, ne_eq,
    not_true_eq_false, not_false_eq_true, if_true, if_false]
  have g3 : ¬ pre.length + 1 + 1 ≥ cb + 1 := by omega
  rw [if_neg g3, if_neg g2]
  by_cases h1 : st.midi_status &&& 0xF0 = aftertouch ∨ st.midi_status &&& 0xF0 = program
  · rw [if_pos h1, if_pos h1]
    simp [l1, l2]
  · rw [if_neg h1, if_neg h1]
    have g4 : ¬ pre.length + 1 + 1 + 1 ≥ cb + 1 := by omega
    have g5 : ¬ pre.length + 1 + 1 ≥ cb := by omega
    rw [if_neg g4, if_neg g5]
    simp [l1, l2, l3, Nat.add_assoc]

/-- The section `S d1 d2 t d3 d4` (status once) is decoded like the section
`S d1 d2 t S d3 d4` (status repeated). -/
theorem rtpmidi_parse_running (data : rtpmidi_instance_data) (S d1 d2 t d3 d4 : Nat)
    (hS : S &&& 0x80 ≠ 0) (ht : t &&& 0x80 = 0) (hd : d3 &&& 0x80 = 0)
    (h2 : ¬ (S &&& 0xF0 = aftertouch ∨ S &&& 0xF0 = program)) :
    rtpmidi_parse data [0x06, S, d1, d2, t, d3, d4] 7
      = rtpmidi_parse data [0x07, S, d1, d2, t, S, d3, d4] 8 := by
  have a1 : (6 : Nat) &&& 0x0F = 6 := by decide
  have a2 : (6 : Nat) &&& 0x80 = 0 := by decide
  have a3 : (6 : Nat) &&& 0x20 = 0 := by decide
  have b1 : (7 : Nat) &&& 0x0F = 7 := by decide
  have b2 : (7 : Nat) &&& 0x80 = 0 := by decide
  have b3 : (7 : Nat) &&& 0x20 = 0 := by decide
  simp [rtpmidi_parse, rtpmidi_parse_loop, rtpmidi_parse_event, rtpmidi_parse_dtime,
    a1, a2, a3, b1, b2, b3, hS, ht, hd, h2]

/-- The section `S d1 d2 t d3 d4` for a note, pressure or control change status (controls
outside the EPN controls): two events of the type and channel of `S`. -/
theorem rtpmidi_parse_running_plain (data : rtpmidi_instance_data) (S d1 d2 t d3 d4 : Nat)
    (hS : S &&& 0x80 ≠ 0) (ht : t &&& 0x80 = 0) (hd : d3 &&& 0x80 = 0)
    (hty : S &&& 0xF0 = note ∨ S &&& 0xF0 = pressure ∨ S &&& 0xF0 = cc)
    (h1 : ¬ ((98 ≤ d1 ∧ d1 ≤ 101) ∨ d1 = 6 ∨ d1 = 38))
    (h3 : ¬ ((98 ≤ d3 ∧ d3 ≤ 101) ∨ d3 = 6 ∨ d3 = 38)) :
    rtpmidi_parse data [0x06, S, d1, d2, t, d3, d4] 7
      = some { rc := 0, data := data,
               events := [{ ident := { type := S &&& 0xF0, channel := S &&& 0x0F,
                                       control := d1 }
                            normalised := (d2 : ℚ) / 127 },
                          { ident := { type := S &&& 0xF0, channel := S &&& 0x0F,
                                       control := d3 }
                            normalised := (d4 : ℚ) / 127 }] } := by
  have a1 : (6 : Nat) &&& 0x0F = 6 := by decide
  have a2 : (6 : Nat) &&& 0x80 = 0 := by decide
  have a3 : (6 : Nat) &&& 0x20 = 0 := by decide
  have e1 : ¬ (98 ≤ d1 ∧ d1 ≤ 101) := fun h => h1 (Or.inl h)
  have e2 : ¬ d1 = 6 := fun h => h1 (Or.inr (Or.inl h))
  have e3 : ¬ d1 = 38 := fun h => h1 (Or.inr (Or.inr h))
  have f1 : ¬ (98 ≤ d3 ∧ d3 ≤ 101) := fun h => h3 (Or.inl h)
  have f2 : ¬ d3 = 6 := fun h => h3 (Or.inr (Or.inl h))
  have f3 : ¬ d3 = 38 := fun h => h3 (Or.inr (Or.inr h))
  have k1 : (decide (d1 ≤ 101) && decide (d1 ≥ 98)) = false := by
    simp only [Bool.and_eq_false_iff, decide_eq_false_iff_not]
    omega
  have k3 : (decide (d3 ≤ 101) && decide (d3 ≥ 98)) = false := by
    simp only [Bool.and_eq_false_iff, decide_eq_false_iff_not]
    omega
  rcases hty with h | h | h <;>
    simp [rtpmidi_parse, rtpmidi_parse_loop, rtpmidi_parse_event, rtpmidi_parse_dtime,
      a1, a2, a3, hS, ht, hd, h, note, pressure, cc, aftertouch, program, pitchbend, note_off,
      k1, k3, e2, e3, f2, f3]

/-- Claim C33 (running status). Let `S` be a status byte (bit 7 set) of a two-byte command,
`t` a one-byte delta-time and `d3` a byte with bit 7 clear.  Then `rtpmidi_parse` decodes
the section `S d1 d2 t d3 d4` exactly as the section `S d1 d2 t S d3 d4`, in which the
status byte is repeated; for a note, pressure or control change status (controls outside
the EPN controls) the result is two events with the type and channel of `S` and the data
`(d1, d2)` and `(d3, d4)`.  The same holds at every place of a section: a pass through the
loop body on an event without status byte does what it does on the same bytes with the most
recent status byte put in front of the data (the offset apart). -/
theorem running_status (data : rtpmidi_instance_data) (S d1 d2 t d3 d4 : Nat)
    (hS : S &&& 0x80 ≠ 0) (ht : t &&& 0x80 = 0) (hd : d3 &&& 0x80 = 0)
    (h2 : ¬ (S &&& 0xF0 = aftertouch ∨ S &&& 0xF0 = program)) :
    rtpmidi_parse data [0x06, S, d1, d2, t, d3, d4] 7
      = rtpmidi_parse data [0x07, S, d1, d2, t, S, d3, d4] 8
    ∧ ((S &&& 0xF0 = note ∨ S &&& 0xF0 = pressure ∨ S &&& 0xF0 = cc) →
        ¬ ((98 ≤ d1 ∧ d1 ≤ 101) ∨ d1 = 6 ∨ d1 = 38) →
        ¬ ((98 ≤ d3 ∧ d3 ≤ 101) ∨ d3 = 6 ∨ d3 = 38) →
        rtpmidi_parse data [0x06, S, d1, d2, t, d3, d4] 7
          = some { rc := 0, data := data,
                   events := [{ ident := { type := S &&& 0xF0, channel := S &&& 0x0F,
                                           control := d1 }
                                normalised := (d2 : ℚ) / 127 },
                              { ident := { type := S &&& 0xF0, channel := S &&& 0x0F,
                                           control := d3 }
                                normalised := (d4 : ℚ) / 127 }] })
    ∧ ∀ (pre rest : List Nat) (cb : Nat) (st : parse_state),
        st.offset = pre.length → st.decode_time = true → st.midi_status = S →
        pre.length + 3 ≤ cb →
        rtpmidi_parse_event (pre ++ t :: S :: d3 :: d4 :: rest) (cb + 1) st
          = (rtpmidi_parse_event (pre ++ t :: d3 :: d4 :: rest) cb st).map
              (fun r => (r.1, { r.2 with offset := r.2.offset + 1 })) := by
  refine ⟨rtpmidi_parse_running data S d1 d2 t d3 d4 hS ht hd h2,
    fun hty h1 h3 => rtpmidi_parse_running_plain data S d1 d2 t d3 d4 hS ht hd hty h1 h3,
    fun pre rest cb st ho hdt hms hcb => ?_⟩
  subst hms
  exact rtpmidi_parse_event_running pre rest t d3 d4 cb st ho hdt hS ht hd hcb

theorem running_status_witness :
    rtpmidi_parse {} [0x06, 0x93, 60, 100, 0, 62, 80] 7
      = some { rc := 0, data := {},
               events := [{ ident := { type := 0x93 &&& 0xF0, channel := 0x93 &&& 0x0F,
                                       control := 60 }
                            normalised := ((100 : Nat) : ℚ) / 127 },
                          { ident := { type := 0x93 &&& 0xF0, channel := 0x93 &&& 0x0F,
                                       control := 62 }
                            normalised := ((80 : Nat) : ℚ) / 127 }] } :=
  (running_status {} 0x93 60 100 0 62 80 (by decide) (by decide) (by decide)
    (by decide)).2.1 (by decide) (by decide) (by decide)

theorem registry_unique_nil : registry_unique [] := by
  intro i j x y _ hx
  simp at hx

/-- A change of entries that keeps addresses and lengths and sets no `active` flag keeps
the registry free of duplicates. -/
theorem registry_unique_map (l : List rtpmidi_peer) (f : rtpmidi_peer → rtpmidi_peer)
    (hf : ∀ x, (f x).dest = x.dest ∧ (f x).dest_len = x.dest_len
      ∧ ((f x).active = true → x.active = true))
    (h : registry_unique l) : registry_unique (l.map f) := by
  intro i j x y hij hx hy ax ay
  rw [List.getElem?_map] at hx hy
  obtain ⟨x0, hx0, rfl⟩ := Option.map_eq_some'.mp hx
  obtain ⟨y0, hy0, rfl⟩ := Option.map_eq_some'.mp hy
  rw [(hf x0).1, (hf x0).2.1, (hf y0).1, (hf y0).2.1]
  exact h i j x0 y0 hij hx0 hy0 ((hf x0).2.2 ax) ((hf y0).2.2 ay)

/-- Replacing one entry by an entry with the same address, length and `active` flag keeps
the registry free of duplicates. -/
theorem registry_unique_set_same (l : List rtpmidi_peer) (u : Nat) (e e' : rtpmidi_peer)
    (hu : l[u]? = some e)
    (he : e'.dest = e.dest ∧ e'.dest_len = e.dest_len ∧ e'.active = e.active)
    (h : registry_unique l) : registry_unique (l.set u e') := by
  have hlt : u < l.length := (List.getElem?_eq_some.mp hu).1
  have key : ∀ (i : Nat) (x : rtpmidi_peer), (l.set u e')[i]? = some x →
      ∃ x0, l[i]? = some x0 ∧ x.dest = x0.dest ∧ x.dest_len = x0.dest_len
        ∧ x.active = x0.active := by
    intro i x hx
    by_cases hi : u = i
    · subst hi
      rw [List.getElem?_set_self hlt] at hx
      simp only [Option.some.injEq] at hx
      subst hx
      exact ⟨e, hu, he⟩
    · rw [List.getElem?_set_ne hi] at hx
      exact ⟨x, hx, rfl, rfl, rfl⟩
  intro i j x y hij hx hy ax ay
  obtain ⟨x0, hx0, a1, a2, a3⟩ := key i x hx
  obtain ⟨y0, hy0, b1, b2, b3⟩ := key j y hy
  rw [a1, a2, b1, b2]
  exact h i j x0 y0 hij hx0 hy0 (by rw [← a3]; exact ax) (by rw [← b3]; exact ay)

/-- Putting a new active entry into a free slot (an inactive entry or a new last one) keeps
the registry free of duplicates when no active entry holds the address. -/
theorem registry_unique_new (l : List rtpmidi_peer) (p : Nat) (old : rtpmidi_peer)
    (sock : List Nat) (len : Nat) (lr c : Bool) (i : Int) (hlen : len ≤ sock.length)
    (hslot : (p = l.length ∧ old = ({} : rtpmidi_peer))
      ∨ (p < l.length ∧ l[p]? = some old ∧ old.active = false))
    (hall : ∀ y ∈ l, rtpmidi_push_peer_match sock len y = false)
    (h : registry_unique l) :
    registry_unique ((if p = l.length then l ++ [({} : rtpmidi_peer)] else l).set p
      { active := true, learned := lr, connected := c, invite := i,
        dest := memcpy old.dest sock len, dest_len := len }) := by
  have hpl : p < (if p = l.length then l ++ [({} : rtpmidi_peer)] else l).length := by
    rcases hslot with ⟨hp, _⟩ | ⟨hp, _, _⟩
    · rw [if_pos hp, List.length_append, hp]
      simp
    · rw [if_neg (by omega)]
      exact hp
  have hother : ∀ (k : Nat) (x : rtpmidi_peer), k ≠ p →
      ((if p = l.length then l ++ [({} : rtpmidi_peer)] else l).set p
        { active := true, learned := lr, connected := c, invite := i,
          dest := memcpy old.dest sock len, dest_len := len })[k]? = some x →
      x.active = true → l[k]? = some x := by
    intro k x hk hx ax
    have hne : p ≠ k := fun e => hk e.symm
    rw [List.getElem?_set_ne hne] at hx
    by_cases hp : p = l.length
    · rw [if_pos hp] at hx
      by_cases hkl : k < l.length
      · rw [List.getElem?_append_left hkl] at hx
        exact hx
      · have hk2 : k = l.length ∨ l.length < k := by omega
        rcases hk2 with hk2 | hk2
        · exact absurd (hk2.trans hp.symm) hk
        · rw [List.getElem?_eq_none (by rw [List.length_append]; simp; omega)] at hx
          cases hx
    · rw [if_neg hp] at hx
      exact hx
  have hnew : ∀ (x : rtpmidi_peer), x ∈ l → x.active = true →
      ¬ (x.dest_len = len ∧ x.dest.take x.dest_len = sock.take len) := by
    intro x hx ax hc
    have hm := hall x hx
    have : rtpmidi_push_peer_match sock len x = true := by
      rw [rtpmidi_push_peer_match_iff]
      refine ⟨ax, hc.1.symm, ?_⟩
      rw [← hc.1]
      rw [hc.2, hc.1]
    rw [this] at hm
    cases hm
  intro a b x y hab hx hy ax ay
  by_cases ha : a = p
  · subst ha
    rw [List.getElem?_set_self hpl] at hx
    simp only [Option.some.injEq] at hx
    subst hx
    have hy0 := hother b y (by omega) hy ay
    simp only []
    intro hc
    apply hnew y (List.getElem?_mem hy0) ay
    rw [memcpy_take _ _ _ hlen] at hc
    exact ⟨hc.1.symm, hc.2.symm⟩
  · have hx0 := hother a x ha hx ax
    by_cases hb : b = p
    · subst hb
      rw [List.getElem?_set_self hpl] at hy
      simp only [Option.some.injEq] at hy
      subst hy
      simp only []
      intro hc
      apply hnew x (List.getElem?_mem hx0) ax
      rw [memcpy_take _ _ _ hlen] at hc
      exact hc
    · exact h a b x y hab hx0 (hother b y hb hy ay) ax ay

/-- When an entry of the scanned registry is inactive, the slot the scan of
`rtpmidi_push_peer` leaves behind is an entry of the registry. -/
theorem rtpmidi_push_peer_scan_reuse (sock : List Nat) (len : Nat) :
    ∀ (l : List rtpmidi_peer) (u0 p0 p : Nat),
      rtpmidi_push_peer_scan sock len l u0 p0 = Sum.inr p →
      (∃ x ∈ l, x.active = false) → u0 ≤ p ∧ p < u0 + l.length := by
  intro l
  induction l with
  | nil =>
    intro u0 p0 p _ h
    obtain ⟨x, hx, _⟩ := h
    cases hx
  | cons x rest ih =>
    intro u0 p0 p hs h
    unfold rtpmidi_push_peer_scan at hs
    by_cases hm : rtpmidi_push_peer_match sock len x = true
    · rw [if_pos hm] at hs
      cases hs
    · rw [if_neg hm] at hs
      by_cases hr : ∃ y ∈ rest, y.active = false
      · have := ih _ _ _ hs hr
        simp only [List.length_cons]
        omega
      · have hx : x.active = false := by
          obtain ⟨y, hy, hya⟩ := h
          rcases List.mem_cons.mp hy with e | e
          · rw [← e]
            exact hya
          · exact absurd ⟨y, e, hya⟩ hr
        rw [hx] at hs
        have := (rtpmidi_push_peer_scan_inr sock len _ _ _ _ hs).2
        simp only [List.length_cons]
        simp only [Bool.false_eq_true, if_false] at this
        omega

/-- The function `rtpmidi_push_peer` for an address no active entry holds, when the registry
can grow: the entry goes to an inactive slot when there is one and to a new last slot
otherwise. -/
theorem rtpmidi_push_peer_slot (data : rtpmidi_instance_data) (sock : List Nat)
    (len : Nat) (l c : Bool) (i : Int)
    (hall : ∀ y ∈ data.peer, rtpmidi_push_peer_match sock len y = false) :
    ∃ p old, ((p = data.peer.length ∧ old = ({} : rtpmidi_peer)
          ∧ ∀ x ∈ data.peer, x.active = true)
        ∨ (p < data.peer.length ∧ data.peer[p]? = some old ∧ old.active = false))
      ∧ rtpmidi_push_peer true data sock len l c i
        = (0, { data with
            peer := (if p = data.peer.length then data.peer ++ [{}] else data.peer).set p
              { active := true, learned := l, connected := c, invite := i,
                dest := memcpy old.dest sock len, dest_len := len } }) := by
  unfold rtpmidi_push_peer
  cases hs : rtpmidi_push_peer_scan sock len data.peer 0 data.peer.length with
  | inl u =>
    obtain ⟨e, -, hget, hm, -⟩ := rtpmidi_push_peer_scan_inl sock len _ _ _ _ hs
    have := hall e (List.getElem?_mem hget)
    rw [hm] at this
    cases this
  | inr p =>
    rcases rtpmidi_push_peer_scan_slot sock len _ _ _ _ hs with h | ⟨-, x, hx, hact⟩
    · refine ⟨p, {}, Or.inl ⟨h, rfl, ?_⟩, ?_⟩
      · intro x hx
        by_contra hc
        have hf : x.active = false := by simpa using hc
        have := rtpmidi_push_peer_scan_reuse sock len _ _ _ _ hs ⟨x, hx, hf⟩
        omega
      · subst h
        simp
    · simp only [Nat.sub_zero] at hx
      have hp : p < data.peer.length := (List.getElem?_eq_some.mp hx).1
      have hne : p ≠ data.peer.length := by omega
      refine ⟨p, x, Or.inr ⟨hp, hx, hact⟩, ?_⟩
      simp [hne, List.getD_eq_getElem?_getD, hx]

/-- A failing `realloc` empties the registry; in every other case `rtpmidi_push_peer` does
what it does when `realloc` succeeds. -/
theorem rtpmidi_push_peer_alloc (a : Bool) (data : rtpmidi_instance_data) (sock : List Nat)
    (len : Nat) (l c : Bool) (i : Int) :
    (rtpmidi_push_peer a data sock len l c i).2.peer = []
    ∨ rtpmidi_push_peer a data sock len l c i = rtpmidi_push_peer true data sock len l c i := by
  cases a with
  | true => exact Or.inr rfl
  | false =>
    unfold rtpmidi_push_peer
    cases hs : rtpmidi_push_peer_scan sock len data.peer 0 data.peer.length with
    | inl u => exact Or.inr rfl
    | inr p =>
      by_cases hp : p = data.peer.length
      · left
        simp [hp]
      · right
        simp [hp]

/-- Every call that changes the registry keeps it free of duplicates. -/
theorem registry_step_unique (data : rtpmidi_instance_data) (call : registry_call)
    (hok : call.ok = true) (h : registry_unique data.peer) :
    registry_unique (registry_step data call).peer := by
  cases call with
  | push a sock len l c i =>
    have hlen : len ≤ sock.length := by simpa [registry_call.ok] using hok
    show registry_unique (rtpmidi_push_peer a data sock len l c i).2.peer
    rcases rtpmidi_push_peer_alloc a data sock len l c i with he | he
    · rw [he]
      exact registry_unique_nil
    · rw [he]
      by_cases hm : ∃ y ∈ data.peer, rtpmidi_push_peer_match sock len y = true
      · obtain ⟨u, e, hu, -, hr⟩ := rtpmidi_push_peer_refresh true data sock len l c i hm
        rw [hr]
        exact registry_unique_set_same data.peer u e _ hu ⟨rfl, rfl, rfl⟩ h
      · have hall : ∀ y ∈ data.peer, rtpmidi_push_peer_match sock len y = false := by
          intro y hy
          by_contra hc
          exact hm ⟨y, hy, by simpa using hc⟩
        obtain ⟨p, old, hslot, hr⟩ := rtpmidi_push_peer_new data sock len l c i hall
        rw [hr]
        exact registry_unique_new data.peer p old sock len l c i hlen hslot hall h
  | leave B name on_control frame bytes peer peer_len now fresh a =>
    have hf : be16toh_at frame 2 = apple_leave ∧ be32toh_at frame 4 = 2 := by
      simpa [registry_call.ok] using hok
    show registry_unique (rtpmidi_handle_applemidi B data name on_control frame bytes peer
      peer_len now fresh a).data.peer
    rw [rtpmidi_handle_applemidi_leave B data name on_control frame bytes peer peer_len now
      fresh a hf.1 hf.2]
    apply registry_unique_map _ _ _ h
    intro x
    by_cases hc : x.dest_len = peer_len
        ∧ x.dest.take peer_len = (sockaddr_next_port peer).take peer_len
    · rw [if_pos hc]
      cases hl : x.learned
      · simp
      · simp
    · rw [if_neg hc]
      exact ⟨rfl, rfl, id⟩

theorem registry_run_unique :
    ∀ (calls : List registry_call) (data : rtpmidi_instance_data),
      (∀ c ∈ calls, c.ok = true) → registry_unique data.peer →
      registry_unique (registry_run data calls).peer := by
  intro calls
  induction calls with
  | nil =>
    intro data _ h
    exact h
  | cons c rest ih =>
    intro data hok h
    exact ih _ (fun x hx => hok x (List.mem_cons_of_mem _ hx))
      (registry_step_unique data c (hok c (List.mem_cons_self _ _)) h)

/-- Claim C40 (registry uniqueness). Starting from an empty registry, after every sequence
of `rtpmidi_push_peer` calls (with any outcome of `realloc`) and leave frames no two active
entries hold the same socket address with the same length.  A push of an address that no
active entry holds, when the registry can grow, puts the new active entry in an inactive
slot when there is one (the number of entries stays) and in a new last slot otherwise (the
number of entries grows by one), stores the address in it, and leaves every other entry as
it is. -/
theorem registry_uniqueness (data0 : rtpmidi_instance_data) (calls : List registry_call)
    (h0 : data0.peer = []) (hok : ∀ c ∈ calls, c.ok = true) :
    registry_unique (registry_run data0 calls).peer
    ∧ ∀ (data : rtpmidi_instance_data) (sock : List Nat) (len : Nat) (l c : Bool) (i : Int),
      len ≤ sock.length →
      (∀ y ∈ data.peer, rtpmidi_push_peer_match sock len y = false) →
      ∃ (p : Nat) (old : rtpmidi_peer) (peers : List rtpmidi_peer),
        rtpmidi_push_peer true data sock len l c i = (0, { data with peer := peers })
        ∧ ((∃ x ∈ data.peer, x.active = false) →
            p < data.peer.length ∧ data.peer[p]? = some old ∧ old.active = false
            ∧ peers.length = data.peer.length)
        ∧ ((∀ x ∈ data.peer, x.active = true) →
            p = data.peer.length ∧ peers.length = data.peer.length + 1)
        ∧ peers[p]? = some
            { active := true, learned := l, connected := c, invite := i,
              dest := memcpy old.dest sock len, dest_len := len }
        ∧ (memcpy old.dest sock len).take len = sock.take len
        ∧ ∀ j, j ≠ p → j < data.peer.length → peers[j]? = data.peer[j]? := by
  refine ⟨registry_run_unique calls data0 hok (by rw [h0]; exact registry_unique_nil), ?_⟩
  intro data sock len l c i hlen hall
  obtain ⟨p, old, hslot, hr⟩ := rtpmidi_push_peer_slot data sock len l c i hall
  have hpl : p < (if p = data.peer.length then data.peer ++ [({} : rtpmidi_peer)]
      else data.peer).length := by
    rcases hslot with ⟨hp, _⟩ | ⟨hp, _, _⟩
    · rw [if_pos hp, List.length_append, hp]
      simp
    · rw [if_neg (by omega)]
      exact hp
  refine ⟨p, old, _, hr, ?_, ?_, List.getElem?_set_self hpl, memcpy_take _ _ _ hlen, ?_⟩
  · intro hin
    rcases hslot with ⟨-, -, hact⟩ | ⟨hp, hget, ho⟩
    · obtain ⟨x, hx, hxa⟩ := hin
      rw [hact x hx] at hxa
      cases hxa
    · refine ⟨hp, hget, ho, ?_⟩
      rw [List.length_set, if_neg (by omega)]
  · intro hact
    rcases hslot with ⟨hp, -, -⟩ | ⟨-, hget, ho⟩
    · refine ⟨hp, ?_⟩
      rw [List.length_set, if_pos hp, List.length_append]
      rfl
    · rw [hact old (List.getElem?_mem hget)] at ho
      cases ho
  · intro j hj hjl
    have hne : p ≠ j := fun e => hj e.symm
    rw [List.getElem?_set_ne hne]
    by_cases hp : p = data.peer.length
    · rw [if_pos hp, List.getElem?_append_left hjl]
    · rw [if_neg hp]

theorem registry_uniqueness_witness :
    registry_unique (registry_run {}
      [.push true [2, 0, 0x13, 0x8D, 10, 0, 0, 1, 0, 0, 0, 0, 0, 0, 0, 0] 16 false true (-1),
       .push true [2, 0, 0x13, 0x8D, 10, 0, 0, 2, 0, 0, 0, 0, 0, 0, 0, 0] 16 true true (-1),
       .leave 1500 [0x61] true
         [0xFF, 0xFF, 0x42, 0x59, 0, 0, 0, 2, 0xCA, 0xFE, 0xBA, 0xBE, 0, 0, 0, 0] 16
         [2, 0, 0x13, 0x8C, 10, 0, 0, 2, 0, 0, 0, 0, 0, 0, 0, 0] 16 0 [1, 2, 3, 4] true,
       .push true [2, 0, 0x13, 0x8D, 10, 0, 0, 1, 0, 0, 0, 0, 0, 0, 0, 0] 16 true false 0]).peer :=
  (registry_uniqueness {}
    [.push true [2, 0, 0x13, 0x8D, 10, 0, 0, 1, 0, 0, 0, 0, 0, 0, 0, 0] 16 false true (-1),
     .push true [2, 0, 0x13, 0x8D, 10, 0, 0, 2, 0, 0, 0, 0, 0, 0, 0, 0] 16 true true (-1),
     .leave 1500 [0x61] true
       [0xFF, 0xFF, 0x42, 0x59, 0, 0, 0, 2, 0xCA, 0xFE, 0xBA, 0xBE, 0, 0, 0, 0] 16
       [2, 0, 0x13, 0x8C, 10, 0, 0, 2, 0, 0, 0, 0, 0, 0, 0, 0] 16 0 [1, 2, 3, 4] true,
     .push true [2, 0, 0x13, 0x8D, 10, 0, 0, 1, 0, 0, 0, 0, 0, 0, 0, 0] 16 true false 0]
    rfl (by decide)).1

theorem decimal_text_takeWhile (ds rest : List Nat) (hd : ∀ d ∈ ds, d < 10)
    (hr : ∀ c, rest.head? = some c → isdigit c = false) :
    (decimal_text ds ++ rest).takeWhile isdigit = decimal_text ds
    ∧ (decimal_text ds ++ rest).dropWhile isdigit = rest := by
  induction ds with
  | nil =>
    cases rest with
    | nil => simp [decimal_text]
    | cons c r =>
      have := hr c rfl
      simp [decimal_text, List.takeWhile, List.dropWhile, this]
  | cons d ds ih =>
    have h1 : d < 10 := hd d (List.mem_cons_self _ _)
    have h2 := ih (fun x hx => hd x (List.mem_cons_of_mem _ hx))
    have h3 : isdigit (d + 0x30) = true := by
      simp only [isdigit, Bool.and_eq_true, decide_eq_true_eq]; omega
    have e : decimal_text (d :: ds) ++ rest = (d + 0x30) :: (decimal_text ds ++ rest) := rfl
    rw [e, List.takeWhile_cons, List.dropWhile_cons, if_pos h3, if_pos h3, h2.1, h2.2]
    exact ⟨rfl, rfl⟩

theorem decimal_text_foldl (ds : List Nat) (a : Nat) :
    (decimal_text ds).foldl (fun a c => 10 * a + (c - 0x30)) a
      = ds.foldl (fun a d => 10 * a + d) a := by
  induction ds generalizing a with
  | nil => rfl
  | cons d ds ih =>
    show (decimal_text ds).foldl _ (10 * a + (d + 0x30 - 0x30)) = _
    rw [ih, Nat.add_sub_cancel]
    rfl

/-- On a string that starts with a decimal number `strtoul` returns its value (the largest
`unsigned long` when it does not fit) and the end of the digits. -/
theorem strtoul_decimal (ds rest : List Nat) (hds : ds ≠ []) (hd : ∀ d ∈ ds, d < 10)
    (hr : ∀ c, rest.head? = some c → isdigit c = false) :
    strtoul (decimal_text ds ++ rest)
      = ((if decimal_value ds ≥ 2 ^ 64 then 2 ^ 64 - 1 else decimal_value ds), rest) := by
  obtain ⟨d, ds', rfl⟩ := List.exists_cons_of_ne_nil hds
  have h1 : d < 10 := hd d (List.mem_cons_self _ _)
  have hw := decimal_text_takeWhile (d :: ds') rest hd hr
  have e : decimal_text (d :: ds') ++ rest = (d + 0x30) :: (decimal_text ds' ++ rest) := rfl
  have hs : isspace (d + 0x30) = false := by
    simp only [isspace, Bool.or_eq_false_iff, Bool.and_eq_false_iff, decide_eq_false_iff_not]
    omega
  have hsp : (decimal_text (d :: ds') ++ rest).dropWhile isspace
      = decimal_text (d :: ds') ++ rest := by
    rw [e, List.dropWhile_cons, if_neg (by simp [hs])]
  have hh : (decimal_text (d :: ds') ++ rest).head? = some (d + 0x30) := by rw [e]; rfl
  have hne : decimal_text (d :: ds') ≠ [] := by simp [decimal_text]
  have hm : ¬ ((some (d + 0x30) : Option Nat) = some 0x2D ∨ (some (d + 0x30) : Option Nat) = some 0x2B) := by
    simp only [Option.some.injEq]; omega
  have hm' : ¬ ((some (d + 0x30) : Option Nat) = some 0x2D) := by
    simp only [Option.some.injEq]; omega
  unfold strtoul
  simp only [hsp, hh, if_neg hm, hw.1, hw.2, if_neg hne, decide_eq_false hm', decimal_text_foldl]
  rfl

/-- On a string without a leading number (empty, or starting with a byte that is no white
space, sign or digit) `strtoul` returns 0. -/
theorem strtoul_none (s : List Nat)
    (h : ∀ c, s.head? = some c → isspace c = false ∧ isdigit c = false ∧ c ≠ 0x2D ∧ c ≠ 0x2B) :
    (strtoul s).1 = 0 := by
  cases s with
  | nil => rfl
  | cons c r =>
    obtain ⟨a, b, c1, c2⟩ := h c rfl
    simp [strtoul, List.dropWhile, List.takeWhile, a, b, c1, c2]

theorem decimal_text_head (ms : List Nat) (hm : ∀ m ∈ ms, m < 10) (c : Nat)
    (h : (decimal_text ms).head? = some c) : 0x30 ≤ c ∧ c ≤ 0x39 := by
  cases ms with
  | nil => simp [decimal_text] at h
  | cons m r =>
    have := hm m (List.mem_cons_self _ _)
    simp [decimal_text] at h
    omega

theorem strtoul_control (ms : List Nat) (hm : ∀ m ∈ ms, m < 10) :
    (strtoul (decimal_text ms)).1 = strtoul_value (decimal_value ms) := by
  by_cases h : ms = []
  · subst h; rfl
  · have := strtoul_decimal ms [] h hm (by simp)
    rw [List.append_nil] at this
    rw [this]; rfl

theorem rtpmidi_channel_sel (name : List Nat) (type : Nat) (ctl : Bool)
    (ms : List Nat) (ht : (name, type, ctl) ∈ channel_types) (hm : ∀ m ∈ ms, m < 10) :
    (if (name ++ decimal_text ms).take 2 = [0x63, 0x63] then some (cc, (name ++ decimal_text ms).drop 2)
        else if (name ++ decimal_text ms).take 8 = [0x6E, 0x6F, 0x74, 0x65, 0x5F, 0x6F, 0x66, 0x66] then
          some (note_off, (name ++ decimal_text ms).drop 8)
        else if (name ++ decimal_text ms).take 4 = [0x6E, 0x6F, 0x74, 0x65] then some (note, (name ++ decimal_text ms).drop 4)
        else if (name ++ decimal_text ms).take 3 = [0x72, 0x70, 0x6E] then some (rpn, (name ++ decimal_text ms).drop 3)
        else if (name ++ decimal_text ms).take 4 = [0x6E, 0x72, 0x70, 0x6E] then some (nrpn, (name ++ decimal_text ms).drop 4)
        else if (name ++ decimal_text ms).take 8 = [0x70, 0x72, 0x65, 0x73, 0x73, 0x75, 0x72, 0x65] then
          some (pressure, (name ++ decimal_text ms).drop 8)
        else if (name ++ decimal_text ms).take 5 = [0x70, 0x69, 0x74, 0x63, 0x68] then
          some (pitchbend, (name ++ decimal_text ms))
        else if (name ++ decimal_text ms).take 10
            = [0x61, 0x66, 0x74, 0x65, 0x72, 0x74, 0x6F, 0x75, 0x63, 0x68] then
          some (aftertouch, (name ++ decimal_text ms))
        else if (name ++ decimal_text ms).take 7 = [0x70, 0x72, 0x6F, 0x67, 0x72, 0x61, 0x6D] then
          some (program, (name ++ decimal_text ms))
        else (none : Option (Nat × List Nat)))
      = some (type, if ctl then decimal_text ms else name ++ decimal_text ms) := by
  simp only [channel_types, List.mem_cons, Prod.mk.injEq, List.mem_nil_iff, or_false] at ht
  rcases ht with h | h | h | h | h | h | h | h | h <;> obtain ⟨rfl, rfl, rfl⟩ := h
  · simp
  · simp
  · have : ¬ List.take 4 (decimal_text ms) = [0x5F, 0x6F, 0x66, 0x66] := by
      intro h
      have := decimal_text_head ms hm 0x5F (by
        cases hms : decimal_text ms with
        | nil => rw [hms] at h; simp at h
        | cons a r => rw [hms] at h; simp at h; simp [h.1])
      omega
    simp [this]
  · simp
  · simp
  · simp
  · simp
  · simp
  · simp

theorem rtpmidi_channel_next (long : Bool) (ds rest : List Nat) (hds : ds ≠ [])
    (hd : ∀ d ∈ ds, d < 10) :
    (channel_word long ++ (decimal_text ds ++ rest)).take 2 = [0x63, 0x68]
    ∧ (if (channel_word long ++ (decimal_text ds ++ rest)).take 7
          = [0x63, 0x68, 0x61, 0x6E, 0x6E, 0x65, 0x6C]
        then (channel_word long ++ (decimal_text ds ++ rest)).drop 7
        else (channel_word long ++ (decimal_text ds ++ rest)).drop 2)
      = decimal_text ds ++ rest := by
  obtain ⟨d, ds', rfl⟩ := List.exists_cons_of_ne_nil hds
  have h1 : d < 10 := hd d (List.mem_cons_self _ _)
  cases long
  · have : d + 48 ≠ 97 := by omega
    simp [channel_word, decimal_text, this]
  · simp [channel_word]

/-- The behaviour of `rtpmidi_channel` on a specification `ch<N>.<type><M>`: the channel
is what `strtoul` returns for N, cut to 8 bits, the specification is refused when that
is above 15, and the control is what `strtoul` returns for M, cut to 16 bits, for the types
that take a control and 0 for the others. -/
theorem rtpmidi_channel_spec (long : Bool) (ds name ms : List Nat) (type : Nat) (ctl : Bool)
    (ht : (name, type, ctl) ∈ channel_types) (hds : ds ≠ [])
    (hd : ∀ d ∈ ds, d < 10) (hm : ∀ m ∈ ms, m < 10) :
    rtpmidi_channel (channel_spec long ds name ms)
      = if strtoul_value (decimal_value ds) % 256 > 15 then none
        else some { type := type, channel := strtoul_value (decimal_value ds) % 256,
                    control := if ctl then strtoul_value (decimal_value ms) % 65536 else 0 } := by
  have hn := rtpmidi_channel_next long ds (0x2E :: (name ++ decimal_text ms)) hds hd
  have hs := strtoul_decimal ds (0x2E :: (name ++ decimal_text ms)) hds hd
    (by intro c hc; simp at hc; subst hc; decide)
  have hsel := rtpmidi_channel_sel name type ctl ms ht hm
  have hty : type % 256 = type ∧ type ≠ 0 := by
    simp only [channel_types, List.mem_cons, Prod.mk.injEq, List.mem_nil_iff, or_false] at ht
    rcases ht with h | h | h | h | h | h | h | h | h <;> obtain ⟨-, rfl, -⟩ := h <;> decide
  have hctl : (strtoul (if ctl then decimal_text ms else name ++ decimal_text ms)).1
      = if ctl then strtoul_value (decimal_value ms) else 0 := by
    cases ctl
    · simp only [Bool.false_eq_true, if_false]
      apply strtoul_none
      simp only [channel_types, List.mem_cons, Prod.mk.injEq, List.mem_nil_iff, or_false] at ht
      rcases ht with h | h | h | h | h | h | h | h | h <;> obtain ⟨rfl, -, h3⟩ := h <;>
        first
        | exact absurd h3 (by decide)
        | (intro c hc; simp at hc; subst hc; decide)
    · simp only [if_true]
      exact strtoul_control ms hm
  unfold rtpmidi_channel channel_spec
  simp only [hn.1, hn.2, if_true, hs]
  by_cases h15 : strtoul_value (decimal_value ds) % 256 > 15
  · have h15' : (if decimal_value ds ≥ 2 ^ 64 then 2 ^ 64 - 1 else decimal_value ds) % 256 > 15 := h15
    rw [if_pos h15, if_pos h15']
  · have h15' : ¬ (if decimal_value ds ≥ 2 ^ 64 then 2 ^ 64 - 1 else decimal_value ds) % 256 > 15 := h15
    rw [if_neg h15, if_neg h15']
    have e1 : (0x2E :: (name ++ decimal_text ms)).drop 1 = name ++ decimal_text ms := rfl
    have e2 : (0x2E :: (name ++ decimal_text ms)).head? = some 0x2E := rfl
    rw [e1, e2, if_neg (fun h => h rfl), hsel]
    simp only [hctl, hty.1]
    rw [if_neg (fun h => hty.2 h.1)]
    cases ctl <;> rfl

/-- Claim C31 as stated fails on two inputs.  For `ch0.pitch5` the identifier has control 0,
not 5: after the type names `pitch`, `aftertouch` and `program` the code leaves `next_token`
on the name, so `strtoul` finds no number.  For `ch256.cc1` a channel is returned, with
channel field 0: the result of `strtoul` is stored in the 8-bit field before it is compared
with 15. -/
theorem channel_spec_range_not_as_stated :
    rtpmidi_channel (channel_spec false [0] [0x70, 0x69, 0x74, 0x63, 0x68] [5])
      = some { type := pitchbend, channel := 0, control := 0 }
    ∧ rtpmidi_channel (channel_spec false [2, 5, 6] [0x63, 0x63] [1])
      = some { type := cc, channel := 0, control := 1 } := by
  constructor <;> decide

/-- Claim C31, amended: for a specification `ch<N>.<type><M>` or `channel<N>.<type><M>` with
N written in decimal digits and below 256, one of the nine type names, and M written in
decimal digits (or absent) and below `2^64`, `rtpmidi_channel` returns no channel when
N > 15, and for N in 0..15 the identifier has channel field N, the named type, and control
M modulo 65536 for `cc`, `note`, `note_off`, `rpn`, `nrpn` and `pressure` (0 when M is
absent) and control 0 for `pitch`, `aftertouch` and `program`. -/
theorem channel_spec_range (long : Bool) (ds name ms : List Nat) (type : Nat) (ctl : Bool)
    (ht : (name, type, ctl) ∈ channel_types) (hds : ds ≠ [])
    (hd : ∀ d ∈ ds, d < 10) (hm : ∀ m ∈ ms, m < 10)
    (hN : decimal_value ds < 256) (hM : decimal_value ms < 2 ^ 64) :
    rtpmidi_channel (channel_spec long ds name ms)
      = if decimal_value ds ≤ 15 then
          some { type := type, channel := decimal_value ds,
                 control := if ctl then decimal_value ms % 65536 else 0 }
        else none := by
  have e1 : strtoul_value (decimal_value ds) = decimal_value ds := by
    unfold strtoul_value
    rw [if_neg (by omega)]
  have e2 : strtoul_value (decimal_value ms) = decimal_value ms := by
    unfold strtoul_value
    rw [if_neg (by omega)]
  rw [rtpmidi_channel_spec long ds name ms type ctl ht hds hd hm, e1, e2, Nat.mod_eq_of_lt hN]
  by_cases h : decimal_value ds ≤ 15
  · rw [if_pos h, if_neg (by omega)]
  · rw [if_neg h, if_pos (by omega)]

theorem channel_spec_range_witness :
    rtpmidi_channel (channel_spec true [1, 5] [0x6E, 0x6F, 0x74, 0x65] [7, 0, 0, 0, 0])
        = some { type := note, channel := 15, control := 4464 }
    ∧ rtpmidi_channel (channel_spec false [1, 6] [0x63, 0x63] [1]) = none
    ∧ rtpmidi_channel (channel_spec false [7] [0x70, 0x72, 0x6F, 0x67, 0x72, 0x61, 0x6D] [])
        = some { type := program, channel := 7, control := 0 } :=
  ⟨channel_spec_range true [1, 5] [0x6E, 0x6F, 0x74, 0x65] [7, 0, 0, 0, 0] note true
      (by decide) (by decide) (by decide) (by decide) (by decide) (by decide),
   channel_spec_range false [1, 6] [0x63, 0x63] [1] cc true
      (by decide) (by decide) (by decide) (by decide) (by decide) (by decide),
   channel_spec_range false [7] [0x70, 0x72, 0x6F, 0x67, 0x72, 0x61, 0x6D] [] program false
      (by decide) (by decide) (by decide) (by decide) (by decide) (by decide)⟩

theorem poke_bytes_append (bs : List Nat) :
    ∀ (w tail : List Nat), poke_bytes (w ++ tail) w.length bs = w ++ (bs ++ tail.drop bs.length) := by
  induction bs with
  | nil => intro w tail; simp [poke_bytes]
  | cons b bs ih =>
    intro w tail
    have e : poke (w ++ tail) w.length b = (w ++ [b]) ++ tail.tail := by
      rw [poke_append_zero, poke_zero]; simp
    have e2 : w.length + 1 = (w ++ [b]).length := by simp
    show poke_bytes (poke (w ++ tail) w.length b) (w.length + 1) bs = _
    rw [e, e2, ih]
    simp [List.drop_succ_cons, List.tail_drop]

theorem drop_append_replicate (x : List Nat) (m k : Nat) (h : x.length ≤ k) :
    (x ++ List.replicate m 0).drop k = List.replicate (m + x.length - k) 0 := by
  rw [List.drop_append_eq_append_drop, List.drop_eq_nil_of_le h, List.nil_append,
    List.drop_replicate]
  congr 1
  omega

theorem poke_bytes_frame_at (B : Nat) (w bs : List Nat) (pos : Nat) (hpos : pos = w.length) :
    poke_bytes (frame_at B w) pos bs = frame_at B (w ++ bs) := by
  subst hpos
  unfold frame_at
  rw [poke_bytes_append, List.drop_replicate, List.append_assoc, List.length_append]
  congr 3
  omega

theorem poke_frame_at (B : Nat) (w : List Nat) (b pos : Nat) (hpos : pos = w.length) :
    poke (frame_at B w) pos b = frame_at B (w ++ [b]) :=
  poke_bytes_frame_at B w [b] pos hpos

theorem c_string_append (w text t : List Nat) (h : 0 ∉ text) :
    c_string (w ++ (text ++ 0 :: t)) w.length = text := by
  unfold c_string
  rw [List.drop_left]
  induction text with
  | nil => simp
  | cons x xs ih =>
    have hx : x ≠ 0 := fun e => h (by simp [e])
    have hxs : 0 ∉ xs := fun e => h (List.mem_cons_of_mem _ e)
    have h2 : (x != 0) = true := by simpa using hx
    rw [List.cons_append, List.takeWhile_cons, h2, if_pos rfl, ih hxs]

theorem strtok_r_source_length :
    ∀ (fuel : Nat) (s : List Nat), (strtok_r_source fuel s).length = s.length := by
  intro fuel
  induction fuel with
  | zero => intro s; rfl
  | succ n ih =>
    intro s
    unfold strtok_r_source
    cases h1 : s.dropWhile (fun c => c == 0x2E) with
    | nil => rfl
    | cons c r =>
      simp only []
      cases h2 : (c :: r).dropWhile (fun c => c != 0x2E) with
      | nil => rfl
      | cons d save =>
        simp only []
        have a1 := congrArg List.length (List.takeWhile_append_dropWhile (fun c => c == 0x2E) s)
        have a2 := congrArg List.length
          (List.takeWhile_append_dropWhile (fun c => c != 0x2E) (c :: r))
        rw [h1] at a1
        rw [h2] at a2
        simp only [List.length_append, List.length_cons] at a1 a2 ⊢
        rw [ih save]
        omega

theorem dns_encode_name_length (s : List Nat) :
    (dns_encode_name s).name.length = (dns_encode_name s).length := by
  rw [dns_encode_name_eq]
  simp [dns_wire_length]

theorem dns_rr_bytes_length (t c l n : Nat) : (dns_rr_bytes t c l n).length = 10 := rfl

theorem snprintf_frame_at (B : Nat) (w text : List Nat) (pos size : Nat)
    (hpos : pos = w.length) (hsize : size = size_sub B pos)
    (hB : w.length + text.length + 1 ≤ B) :
    snprintf (frame_at B w) pos size text
      = w ++ (text ++ 0 :: List.replicate (B - w.length - text.length - 1) 0) := by
  have hs : size = B - w.length := by
    rw [hsize, hpos]; unfold size_sub; rw [if_pos (by omega)]
  subst hpos
  unfold snprintf frame_at
  rw [if_neg (by omega), List.take_of_length_le (by omega), poke_bytes_append]
  rw [List.drop_replicate, List.append_assoc]
  simp only [List.length_append, List.length_singleton, List.singleton_append]
  have : B - w.length - (text.length + 1) + 1 = B - w.length - text.length := by omega
  congr 3

/-- The bytes a frame holds behind `w` after `dns_encode_name` has run over the text that
`snprintf` stored there: something as long as the text, a NUL and zeros. -/
theorem dns_encode_name_at_frame (w text : List Nat) (m : Nat) (h0 : 0 ∉ text) :
    ∃ text', text'.length = text.length
      ∧ dns_encode_name_at (w ++ (text ++ 0 :: List.replicate m 0)) w.length
        = (dns_encode_name text, w ++ (text' ++ 0 :: List.replicate m 0)) := by
  refine ⟨strtok_r_source (text.length + 1) text, strtok_r_source_length _ _, ?_⟩
  unfold dns_encode_name_at
  simp only [c_string_append w text _ h0]
  rw [poke_bytes_append, strtok_r_source_length]
  simp

/-- A record with a name: `snprintf` stores the text at the end of the written part of the
frame and `dns_push_rr` replaces it with the encoded name and the record header. -/
theorem dns_push_rr_named (B : Nat) (w text : List Nat) (pos size : Nat) (t c l n : Nat)
    (hpos : pos = w.length) (hsize : size = size_sub B pos) (h0 : 0 ∉ text)
    (hL : text.length + 1 ≤ (dns_encode_name text).length + 10)
    (hB : w.length + (dns_encode_name text).length + 10 ≤ B) :
    dns_push_rr (snprintf (frame_at B w) pos size text) pos size (some pos) t c l n
      = some (frame_at B (w ++ ((dns_encode_name text).name
                ++ dns_rr_bytes (t % 65536) (c % 65536) (l % 2 ^ 32) (n % 65536))),
          (dns_encode_name text).length + 10, w.length + (dns_encode_name text).length) := by
  rw [snprintf_frame_at B w text pos size hpos hsize (by omega)]
  have hs : size = B - w.length := by
    rw [hsize, hpos]; unfold size_sub; rw [if_pos (by omega)]
  subst hpos
  obtain ⟨text', hl, he⟩ :=
    dns_encode_name_at_frame w text (B - w.length - text.length - 1) h0
  have hn := dns_encode_name_length text
  unfold dns_push_rr
  simp only [he, Option.isSome_some, if_true, sizeof_dns_rr]
  rw [if_neg (by omega), ← hn, List.take_length, poke_bytes_append]
  have e : w.length + (dns_encode_name text).name.length
      = (w ++ (dns_encode_name text).name).length := by simp
  rw [← List.append_assoc w, e, poke_bytes_append, List.drop_drop, dns_rr_bytes_length]
  have e2 : text' ++ 0 :: List.replicate (B - w.length - text.length - 1) 0
      = (text' ++ [0]) ++ List.replicate (B - w.length - text.length - 1) 0 := by simp
  rw [e2, drop_append_replicate _ _ _ (by simp; omega)]
  unfold frame_at
  simp only [List.append_assoc, List.length_append, dns_rr_bytes_length, List.length_singleton]
  congr 5
  congr 1
  omega

/-- A record without a name. -/
theorem dns_push_rr_null (B : Nat) (w : List Nat) (pos size : Nat) (t c l n : Nat)
    (hpos : pos = w.length) (hsize : size = size_sub B pos) (hB : w.length + 10 ≤ B) :
    dns_push_rr (frame_at B w) pos size none t c l n
      = some (frame_at B (w ++ dns_rr_bytes (t % 65536) (c % 65536) (l % 2 ^ 32) (n % 65536)),
          10, w.length) := by
  have hs : size = B - w.length := by
    rw [hsize, hpos]; unfold size_sub; rw [if_pos (by omega)]
  subst hpos
  unfold dns_push_rr
  simp only [Option.isSome_none, Bool.false_eq_true, if_false, sizeof_dns_rr, Nat.add_zero,
    Nat.zero_add]
  rw [if_neg (by omega), poke_bytes_frame_at B w _ _ rfl]

/-- A record whose name pointer is the end of the written part of the frame: the name
found there is empty, and its encoding, one zero byte, is stored before the header. -/
theorem dns_push_rr_empty (B : Nat) (w : List Nat) (pos size : Nat) (t c l n : Nat)
    (hpos : pos = w.length) (hsize : size = size_sub B pos) (hB : w.length + 11 ≤ B) :
    dns_push_rr (frame_at B w) pos size (some pos) t c l n
      = some (frame_at B (w ++ (0 :: dns_rr_bytes (t % 65536) (c % 65536) (l % 2 ^ 32)
                (n % 65536))), 11, w.length + 1) := by
  have hs : size = B - w.length := by
    rw [hsize, hpos]; unfold size_sub; rw [if_pos (by omega)]
  subst hpos
  have hc : c_string (frame_at B w) w.length = [] := by
    unfold c_string frame_at
    rw [List.drop_left]
    cases h : B - w.length with
    | zero => rfl
    | succ k => rfl
  have he : dns_encode_name_at (frame_at B w) w.length
      = ({ name := [0], length := 1 }, frame_at B w) := by
    unfold dns_encode_name_at
    simp only [hc]
    rfl
  unfold dns_push_rr
  simp only [he, Option.isSome_some, if_true, sizeof_dns_rr]
  rw [if_neg (by omega)]
  have e1 : List.take 1 [0] = [0] := rfl
  rw [e1, poke_bytes_frame_at B w _ _ rfl, poke_bytes_frame_at B (w ++ [0]) _ _ (by simp)]
  simp

/-- The target name of the SRV record: `snprintf` stores the text, `dns_encode_name` encodes
it in place and `memcpy` stores the encoding over it. -/
theorem dns_encode_name_at_target (B : Nat) (w text : List Nat) (pos size : Nat)
    (hpos : pos = w.length) (hsize : size = size_sub B pos) (h0 : 0 ∉ text)
    (hL : text.length + 1 ≤ (dns_encode_name text).length)
    (hB : w.length + (dns_encode_name text).length ≤ B) :
    (dns_encode_name_at (snprintf (frame_at B w) pos size text) pos).1 = dns_encode_name text
    ∧ poke_bytes (dns_encode_name_at (snprintf (frame_at B w) pos size text) pos).2 pos
        ((dns_encode_name text).name.take (dns_encode_name text).length)
      = frame_at B (w ++ (dns_encode_name text).name) := by
  rw [snprintf_frame_at B w text pos size hpos hsize (by omega)]
  subst hpos
  obtain ⟨text', hl, he⟩ :=
    dns_encode_name_at_frame w text (B - w.length - text.length - 1) h0
  have hn := dns_encode_name_length text
  rw [he]
  refine ⟨rfl, ?_⟩
  simp only []
  rw [← hn, List.take_length, poke_bytes_append]
  have e2 : text' ++ 0 :: List.replicate (B - w.length - text.length - 1) 0
      = (text' ++ [0]) ++ List.replicate (B - w.length - text.length - 1) 0 := by simp
  rw [e2, drop_append_replicate _ _ _ (by simp; omega)]
  unfold frame_at
  simp only [List.append_assoc, List.length_append, List.length_singleton]
  congr 3
  omega

theorem rtpmidi_addr_fields (a : rtpmidi_addr) :
    a.rtype % 65536 = a.rtype ∧ a.bytes % 65536 = a.bytes ∧ a.bytes ≤ 16 := by
  unfold rtpmidi_addr.rtype rtpmidi_addr.bytes
  split_ifs <;> decide

theorem announce_address_record_length (host_offset : Nat) (gap : List Nat)
    (a : rtpmidi_addr) (h : a.addr.length = 16) :
    (announce_address_record host_offset gap a).length = 12 + gap.length + a.bytes := by
  have := (rtpmidi_addr_fields a).2.2
  unfold announce_address_record
  simp [dns_rr_bytes_length, List.length_take]
  omega

theorem rtpmidi_mdns_announce_loop_frame (B host_offset : Nat) :
    ∀ (rest : List rtpmidi_addr) (w : List Nat) (pos : Nat), pos = w.length →
      (∀ a ∈ rest, a.addr.length = 16) →
      w.length + (rest.flatMap (announce_address_record host_offset [0])).length ≤ B →
      rtpmidi_mdns_announce_loop B host_offset rest (frame_at B w) pos
        = some (frame_at B (w ++ rest.flatMap (announce_address_record host_offset [0])),
            (w ++ rest.flatMap (announce_address_record host_offset [0])).length) := by
  intro rest
  induction rest with
  | nil => intro w pos hpos _ _; subst hpos; simp [rtpmidi_mdns_announce_loop]
  | cons a rest ih =>
    intro w pos hpos ha hB
    subst hpos
    have hl := announce_address_record_length host_offset [0] a (ha a (List.mem_cons_self _ _))
    obtain ⟨f1, f2, f3⟩ := rtpmidi_addr_fields a
    rw [List.flatMap_cons, List.length_append, hl] at hB
    simp only [List.length_singleton] at hB
    have hal : (a.addr.take a.bytes).length = a.bytes := by
      rw [List.length_take, ha a (List.mem_cons_self _ _)]; omega
    have hr := dns_rr_bytes_length (a.rtype % 65536) (1 % 65536) (120 % 2 ^ 32)
      (a.bytes % 65536)
    unfold rtpmidi_mdns_announce_loop
    simp only []
    rw [poke_frame_at B w _ _ rfl, poke_frame_at B (w ++ [_]) _ _ (by simp),
      dns_push_rr_empty B _ _ _ _ _ _ _ (by simp) (by simp) (by simp; omega)]
    simp only []
    rw [poke_bytes_frame_at B _ _ _ (by simp [dns_rr_bytes_length])]
    rw [ih _ _ (by simp only [List.length_append, List.length_cons, List.length_nil, hr, hal])
      (fun x hx => ha x (List.mem_cons_of_mem _ hx))
      (by simp only [List.length_append, List.length_cons, List.length_nil, hr, hal]; omega)]
    simp [announce_address_record, f1, f2]

theorem dns_labels_first (s rest : List Nat) (h1 : s ≠ []) (h2 : 0x2E ∉ s) :
    dns_labels (s ++ 0x2E :: rest) = s :: dns_labels rest := by
  obtain ⟨c, r, rfl⟩ := List.exists_cons_of_ne_nil h1
  have hc : c ≠ 0x2E := fun e => h2 (by simp [e])
  obtain ⟨a, b⟩ := takeWhile_dot (c :: r) rest h2
  rw [List.cons_append, dns_labels_cons c _ hc, ← List.cons_append, a, b]
  rfl

theorem announce_srv_name (s : List Nat) (h1 : s ≠ []) (h2 : 0x2E ∉ s) :
    dns_encode_name (s ++ 0x2E :: RTPMIDI_MDNS_DOMAIN)
      = { name := (s.length % 256) :: (s ++ [11, 0x5F, 0x61, 0x70, 0x70, 0x6C, 0x65, 0x2D, 0x6D,
              0x69, 0x64, 0x69, 4, 0x5F, 0x75, 0x64, 0x70, 5, 0x6C, 0x6F, 0x63, 0x61, 0x6C, 0]),
          length := s.length + 25 } := by
  have hd : dns_labels RTPMIDI_MDNS_DOMAIN
      = [[0x5F, 0x61, 0x70, 0x70, 0x6C, 0x65, 0x2D, 0x6D, 0x69, 0x64, 0x69],
         [0x5F, 0x75, 0x64, 0x70], [0x6C, 0x6F, 0x63, 0x61, 0x6C]] := by decide
  rw [dns_encode_name_eq, dns_labels_first s _ h1 h2, hd]
  simp [dns_wire]

theorem announce_dnssd_name :
    dns_encode_name RTPMIDI_DNSSD_DOMAIN
      = { name := [9, 0x5F, 0x73, 0x65, 0x72, 0x76, 0x69, 0x63, 0x65, 0x73,
                   7, 0x5F, 0x64, 0x6E, 0x73, 0x2D, 0x73, 0x64,
                   4, 0x5F, 0x75, 0x64, 0x70, 5, 0x6C, 0x6F, 0x63, 0x61, 0x6C, 0],
          length := 30 } := by
  decide

theorem dns_rr_patch (B : Nat) (x y : List Nat) (t c l n n' pos : Nat)
    (hpos : pos = x.length + 8) :
    poke_bytes (frame_at B (x ++ (dns_rr_bytes t c l n ++ y))) pos (htobe16 n')
      = frame_at B (x ++ (dns_rr_bytes t c l n' ++ y)) := by
  have e : ∀ k, x ++ (dns_rr_bytes t c l k ++ y)
      = (x ++ (htobe16 t ++ htobe16 c ++ htobe32 l)) ++ (htobe16 k ++ y) := by
    intro k; simp [dns_rr_bytes]
  have hl : (x ++ (htobe16 t ++ htobe16 c ++ htobe32 l)).length = pos := by
    rw [hpos]; simp [htobe16, htobe32]
  unfold frame_at
  rw [e n, e n', List.append_assoc, ← hl, poke_bytes_append]
  simp [htobe16]

theorem frame_at_take (B : Nat) (w : List Nat) : (frame_at B w).take w.length = w := by
  unfold frame_at
  rw [List.take_left]

theorem announce_records_length_ge (ho : Nat) (gap : List Nat) (rest : List rtpmidi_addr) :
    rest.length ≤ (rest.flatMap (announce_address_record ho gap)).length := by
  induction rest with
  | nil => simp
  | cons x xs ih =>
    rw [List.flatMap_cons, List.length_append, List.length_cons]
    have : 2 ≤ (announce_address_record ho gap x).length := by
      unfold announce_address_record
      simp
    omega

theorem rtpmidi_mdns_announce_frame (B : Nat) (s h : List Nat) (P : Nat) (a : rtpmidi_addr)
    (rest : List rtpmidi_addr)
    (hs1 : s ≠ []) (hs2 : s.length ≤ 63) (hs3 : 0x2E ∉ s) (hs4 : 0 ∉ s)
    (hh0 : 0 ∉ h) (hh : (h ++ dot_local).length < (dns_encode_name (h ++ dot_local)).length)
    (hP : P < 65536) (ha : ∀ x ∈ a :: rest, x.addr.length = 16)
    (hB : (announce_packet s h P (a :: rest) [0]).length ≤ B)
    (h16 : (announce_packet s h P (a :: rest) [0]).length < 65536) :
    rtpmidi_mdns_announce B s h (a :: rest) P
      = some (0, some (announce_packet s h P (a :: rest) [0])) := by
  have hn1 := announce_srv_name s hs1 hs3
  have hn3 := announce_dnssd_name
  have hl2 := dns_encode_name_length (h ++ dot_local)
  have t1 : (0 : Nat) ∉ s ++ 0x2E :: RTPMIDI_MDNS_DOMAIN := by
    intro hm
    rcases List.mem_append.mp hm with hm | hm
    · exact hs4 hm
    · revert hm; decide
  have t2 : (0 : Nat) ∉ h ++ dot_local := by
    intro hm
    rcases List.mem_append.mp hm with hm | hm
    · exact hh0 hm
    · revert hm; decide
  have t3 : (0 : Nat) ∉ RTPMIDI_DNSSD_DOMAIN := by decide
  have hal : (a.addr.take a.bytes).length = a.bytes := by
    have := (rtpmidi_addr_fields a).2.2
    rw [List.length_take, ha a (List.mem_cons_self _ _)]; omega
  obtain ⟨f1, f2, f3⟩ := rtpmidi_addr_fields a
  have hlen : (announce_packet s h P (a :: rest) [0]).length
      = 12 + (announce_answers s h P).length + ((dns_encode_name (h ++ dot_local)).length + 10 + a.bytes)
        + (rest.flatMap (announce_address_record (12 + (announce_answers s h P).length) [0])).length := by
    unfold announce_packet announce_additional
    simp only [List.length_append, hl2, dns_rr_bytes_length, hal, htobe16, List.length_cons,
      List.length_nil]
    omega
  have hans : (announce_answers s h P).length
      = s.length + 25 + 10 + 6 + (dns_encode_name (h ++ dot_local)).length + 2 + 10 + 1 + 30 + 10 + 2
        + 2 + 10 + 2 := by
    unfold announce_answers announce_srv announce_txt announce_ptr_dnssd announce_ptr_service
    simp only [List.length_append, hl2, dns_rr_bytes_length, hn1, hn3, htobe16, List.length_cons,
      List.length_nil]
  rw [hlen, hans] at hB h16
  generalize hF : (rest.flatMap (announce_address_record (12 + (s.length + 25 + 10 + 6
    + (dns_encode_name (h ++ dot_local)).length + 2 + 10 + 1 + 30 + 10 + 2 + 2 + 10 + 2))
    [0])).length = F at hB h16
  have hk : (a :: rest).length % 65536 = (a :: rest).length := by
    apply Nat.mod_eq_of_lt
    have : rest.length ≤ F := by
      rw [← hF]
      exact announce_records_length_ge _ _ rest
    simp only [List.length_cons]
    omega
  have e0 : poke_bytes (List.replicate B 0) 0
      ([0, 0, 132, 0, 0, 0] ++ htobe16 4 ++ [0, 0] ++ htobe16 ((a :: rest).length % 65536))
      = frame_at B ([0, 0, 0x84, 0, 0, 0, 0, 4, 0, 0] ++ htobe16 (a :: rest).length) := by
    have := poke_bytes_frame_at B []
      ([0, 0, 0x84, 0, 0, 0, 0, 4, 0, 0] ++ htobe16 (a :: rest).length) 0 rfl
    rw [hk]
    simpa [frame_at, htobe16] using this
  generalize hw0 : [0, 0, 0x84, 0, 0, 0, 0, 4, 0, 0] ++ htobe16 (a :: rest).length = w0 at e0
  have l0 : w0.length = 12 := by rw [← hw0]; rfl
  unfold rtpmidi_mdns_announce
  simp only []
  rw [e0, dns_push_rr_named B w0 _ _ _ 33 1 120 0 (by rw [l0]; rfl) rfl t1
    (by rw [hn1]; simp [RTPMIDI_MDNS_DOMAIN]) (by rw [hn1, l0]; simp only []; omega)]
  simp only []
  rw [hn1]
  simp only []
  generalize hw1 : w0 ++ ((s.length % 256 :: (s ++ [11, 95, 97, 112, 112, 108, 101, 45, 109, 105,
    100, 105, 4, 95, 117, 100, 112, 5, 108, 111, 99, 97, 108, 0]))) = w1
  have l1 : w1.length = s.length + 37 := by
    rw [← hw1]; simp only [List.length_append, List.length_cons, List.length_nil, l0]; omega
  rw [← List.append_assoc w0, hw1]
  rw [poke_bytes_frame_at B _ _ _ (by
    simp only [List.length_append, l1, dns_rr_bytes_length, sizeof_dns_header]; omega)]
  obtain ⟨g1, g2⟩ := dns_encode_name_at_target B
    (w1 ++ dns_rr_bytes (33 % 65536) (1 % 65536) (120 % 2 ^ 32) (0 % 65536)
      ++ ([0, 0, 0, 0] ++ htobe16 (P % 65536))) (h ++ dot_local)
    (sizeof_dns_header + (s.length + 25 + 10) + sizeof_dns_rr_srv)
    (size_sub B (sizeof_dns_header + (s.length + 25 + 10) + sizeof_dns_rr_srv))
    (by simp only [List.length_append, l1, dns_rr_bytes_length, sizeof_dns_header,
          sizeof_dns_rr_srv, htobe16, List.length_cons, List.length_nil]; omega)
    rfl t2 (by omega)
    (by simp only [List.length_append, l1, dns_rr_bytes_length, sizeof_dns_header,
          sizeof_dns_rr_srv, htobe16, List.length_cons, List.length_nil]; omega)
  simp only [g1]
  rw [g2]
  have hp : ∀ X, peek (frame_at B (w1 ++ X)) sizeof_dns_header = s.length % 256 := by
    intro X
    unfold frame_at
    rw [← hw1]
    simp only [List.append_assoc, List.cons_append]
    rw [show sizeof_dns_header = w0.length + 0 from by rw [l0]; rfl, peek_append]
    rfl
  simp only [List.append_assoc]
  rw [dns_rr_patch B w1 _ _ _ _ _ _ _ (by rw [l1, l0]; omega)]
  rw [poke_bytes_frame_at B _ _ _ (by simp only [List.length_append, List.length_cons, List.length_nil, l1, l0, hl2, dns_rr_bytes_length, sizeof_dns_header, sizeof_dns_rr_srv, htobe16, hn3]; omega)]
  rw [dns_push_rr_null B _ _ _ _ _ _ _ (by simp only [List.length_append, List.length_cons, List.length_nil, l1, l0, hl2, dns_rr_bytes_length, sizeof_dns_header, sizeof_dns_rr_srv, htobe16, hn3]; omega) rfl (by simp only [List.length_append, List.length_cons, List.length_nil, l1, l0, hl2, dns_rr_bytes_length, sizeof_dns_header, sizeof_dns_rr_srv, htobe16, hn3]; omega)]
  simp only []
  rw [poke_frame_at B _ _ _ (by simp only [List.length_append, List.length_cons, List.length_nil, l1, l0, hl2, dns_rr_bytes_length, sizeof_dns_header, sizeof_dns_rr_srv, htobe16, hn3]; omega)]
  rw [dns_push_rr_named B _ _ _ _ _ _ _ _ (by simp only [List.length_append, List.length_cons, List.length_nil, l1, l0, hl2, dns_rr_bytes_length, sizeof_dns_header, sizeof_dns_rr_srv, htobe16, hn3]; omega) rfl t3 (by rw [hn3]; decide) (by simp only [List.length_append, List.length_cons, List.length_nil, l1, l0, hl2, dns_rr_bytes_length, sizeof_dns_header, sizeof_dns_rr_srv, htobe16, hn3]; omega)]
  simp only []
  rw [poke_frame_at B _ _ _ (by simp only [List.length_append, List.length_cons, List.length_nil, l1, l0, hl2, dns_rr_bytes_length, sizeof_dns_header, sizeof_dns_rr_srv, htobe16, hn3]; omega)]
  simp only [List.append_assoc]
  rw [hp]
  rw [poke_frame_at B _ _ _ (by simp only [List.length_append, List.length_cons, List.length_nil, l1, l0, hl2, dns_rr_bytes_length, sizeof_dns_header, sizeof_dns_rr_srv, htobe16, hn3]; omega)]
  rw [poke_frame_at B _ _ _ (by simp only [List.length_append, List.length_cons, List.length_nil, l1, l0, hl2, dns_rr_bytes_length, sizeof_dns_header, sizeof_dns_rr_srv, htobe16, hn3]; omega)]
  simp only [List.append_assoc]
  rw [hp]
  rw [poke_frame_at B _ _ _ (by simp only [List.length_append, List.length_cons, List.length_nil, l1, l0, hl2, dns_rr_bytes_length, sizeof_dns_header, sizeof_dns_rr_srv, htobe16, hn3]; omega)]
  rw [dns_push_rr_null B _ _ _ _ _ _ _ (by simp only [List.length_append, List.length_cons, List.length_nil, l1, l0, hl2, dns_rr_bytes_length, sizeof_dns_header, sizeof_dns_rr_srv, htobe16, hn3]; omega) rfl (by simp only [List.length_append, List.length_cons, List.length_nil, l1, l0, hl2, dns_rr_bytes_length, sizeof_dns_header, sizeof_dns_rr_srv, htobe16, hn3]; omega)]
  simp only []
  rw [poke_bytes_frame_at B _ _ _ (by simp only [List.length_append, List.length_cons, List.length_nil, l1, l0, hl2, dns_rr_bytes_length, sizeof_dns_header, sizeof_dns_rr_srv, htobe16, hn3]; omega)]
  rw [dns_push_rr_named B _ _ _ _ _ _ _ _ (by simp only [List.length_append, List.length_cons, List.length_nil, l1, l0, hl2, dns_rr_bytes_length, sizeof_dns_header, sizeof_dns_rr_srv, htobe16, hn3]; omega) rfl t2 (by omega) (by simp only [List.length_append, List.length_cons, List.length_nil, l1, l0, hl2, dns_rr_bytes_length, sizeof_dns_header, sizeof_dns_rr_srv, htobe16, hn3]; omega)]
  simp only []
  rw [poke_bytes_frame_at B _ _ _ (by simp only [List.length_append, List.length_cons, List.length_nil, l1, l0, hl2, dns_rr_bytes_length, sizeof_dns_header, sizeof_dns_rr_srv, htobe16, hn3]; omega)]
  have hho : sizeof_dns_header + (s.length + 25 + 10) + sizeof_dns_rr_srv
      + (dns_encode_name (h ++ dot_local)).length + 2 + 10 + 1
      + ((dns_encode_name RTPMIDI_DNSSD_DOMAIN).length + 10) + 2 + 2 + 10 + 2
      = 12 + (s.length + 25 + 10 + 6 + (dns_encode_name (h ++ dot_local)).length + 2 + 10 + 1
        + 30 + 10 + 2 + 2 + 10 + 2) := by
    simp only [sizeof_dns_header, sizeof_dns_rr_srv, hn3]; omega
  rw [hho]
  rw [rtpmidi_mdns_announce_loop_frame B _ rest _ _ (by simp only [List.length_append, List.length_cons, List.length_nil, l1, l0, hl2, dns_rr_bytes_length, sizeof_dns_header, sizeof_dns_rr_srv, htobe16, hn3, hal]; omega)
    (fun x hx => ha x (List.mem_cons_of_mem _ hx)) (by rw [hF]; exact (by simp only [List.length_append, List.length_cons, List.length_nil, l1, l0, hl2, dns_rr_bytes_length, sizeof_dns_header, sizeof_dns_rr_srv, htobe16, hn3, hal]; omega))]
  simp only []
  rw [frame_at_take]
  have m1 : (sizeof_dns_rr_srv + (dns_encode_name (h ++ dot_local)).length) % 65536
      = 6 + (dns_encode_name (h ++ dot_local)).length := by
    rw [Nat.mod_eq_of_lt (by simp only [sizeof_dns_rr_srv]; omega)]; rfl
  have m2 : (sizeof_dns_header + s.length % 256 + 1) % 256 = 13 + s.length := by
    simp only [sizeof_dns_header]; omega
  rw [m1, m2, Nat.mod_eq_of_lt hP, f1, f2, ← hw1, ← hw0]
  unfold announce_packet announce_additional
  simp only []
  rw [hans]
  unfold announce_answers announce_srv announce_txt announce_ptr_dnssd announce_ptr_service
  rw [hn1, hn3]
  have m3 : s.length % 256 = s.length := by omega
  simp [List.append_assoc, sizeof_dns_header, m3]

/-- A compression pointer to a run of labels that ends with a zero byte is decoded with
return code 0: the name is the text of the labels and the reported length is 2. -/
theorem dns_decode_pointer_labels (buffer : List Nat) (len pos tgt : Nat)
    (ls : List (List Nat))
    (hp1 : pos + 1 < len) (hc : peek buffer pos % 256 = 0xC0)
    (ht : peek buffer (pos + 1) % 256 = tgt) (ht0 : tgt ≠ 0)
    (hls : ∀ t ∈ ls, 1 ≤ t.length ∧ t.length ≤ 63)
    (hw : ∀ j, j < (dns_wire ls).length → peek buffer (tgt + j) = peek (dns_wire ls) j)
    (hq : tgt + (dns_wire ls).length < len)
    (h0 : peek buffer (tgt + (dns_wire ls).length) % 256 = 0)
    (fuel : Nat) (hf : ls.length + 2 ≤ fuel) :
    ∃ st, dns_decode_name fuel buffer len pos = some (0, st)
      ∧ st.out.name = dns_text ls ∧ st.out.length = 2 := by
  obtain ⟨k, rfl⟩ : ∃ k, fuel = ((k + 1) + ls.length) + 1 := ⟨fuel - (ls.length + 2), by omega⟩
  have hpc : DNS_POINTER 0xC0 = true := by decide
  have hlc : DNS_LABEL_LENGTH 0xC0 = 0 := by decide
  have hp0 : DNS_POINTER 0 = false := by decide
  have hl0 : DNS_LABEL_LENGTH 0 = 0 := by decide
  have htl : tgt < 256 := by rw [← ht]; exact Nat.mod_lt _ (by norm_num)
  have hptr : ((0 <<< 8) ||| tgt) % 65536 = tgt := by
    rw [Nat.zero_shiftLeft, Nat.zero_or, Nat.mod_eq_of_lt (by omega)]
  have c1 : pos + 0 < len := by omega
  have c2 : ¬ pos + 0 + 1 ≥ len := by omega
  have c3 : ¬ tgt ≥ len := by omega
  unfold dns_decode_name
  rw [dns_decode_loop]
  simp only [Nat.add_zero, c1, hc, hpc, hlc, ht, hptr, c2, c3, if_true, if_false]
  obtain ⟨rd, -, hrun⟩ := dns_decode_loop_labels buffer len ls (k + 1)
    { start := tgt, offset := 0, ptr_target := tgt, out := { name := [], length := 0 + 2 },
      reads := [] ++ [pos] ++ [pos + 1] } hls
    (fun j hj => by simpa using hw j hj) (by simpa using hq) (fun h => absurd h ht0)
  simp only [Nat.add_zero] at c1 c2
  simp only [c1, c2, if_true, if_false] at hrun ⊢
  rw [hrun]
  simp only [dns_decode_loop, Nat.zero_add, hq, h0, hp0, hl0, if_true, Bool.false_eq_true,
    if_false, if_neg ht0]
  exact ⟨_, rfl, by simp, rfl⟩

/-- The data of the PTR record of the service list, a pointer into the owner of the SRV
record, is resolved by `dns_decode_name` to the text `_apple-midi._udp.local.`. -/
theorem announce_ptr_dnssd_target (s h : List Nat) (P : Nat) (address : List rtpmidi_addr)
    (gap : List Nat) (hs1 : s ≠ []) (hs2 : s.length ≤ 63) (hs3 : 0x2E ∉ s)
    (fuel : Nat) (hf : 5 ≤ fuel) :
    ∃ st, dns_decode_name fuel (announce_packet s h P address gap)
          (announce_packet s h P address gap).length
          (12 + (announce_srv s h P).length + announce_txt.length + 40) = some (0, st)
      ∧ st.out.name = RTPMIDI_MDNS_DOMAIN := by
  have hn1 := announce_srv_name s hs1 hs3
  have hn3 := announce_dnssd_name
  generalize hT : announce_additional h (12 + (announce_answers s h P).length) gap address = T
  generalize hS : dns_rr_bytes 33 1 120 (6 + (dns_encode_name (h ++ dot_local)).length)
    ++ [0, 0, 0, 0] ++ htobe16 P ++ (dns_encode_name (h ++ dot_local)).name = S
  have hsrv : announce_srv s h P
      = ((s.length % 256) :: s) ++ ([11, 0x5F, 0x61, 0x70, 0x70, 0x6C, 0x65, 0x2D, 0x6D,
            0x69, 0x64, 0x69, 4, 0x5F, 0x75, 0x64, 0x70, 5, 0x6C, 0x6F, 0x63, 0x61, 0x6C] ++ (0 :: S)) := by
    unfold announce_srv
    rw [hn1, ← hS]
    simp [List.append_assoc]
  have hls : (announce_srv s h P).length = s.length + 25 + S.length := by
    rw [hsrv]; simp only [List.length_append, List.length_cons, List.length_nil]; omega
  have hh : ([0, 0, 0x84, 0, 0, 0, 0, 4, 0, 0] ++ htobe16 address.length).length = 12 := rfl
  generalize hH : [0, 0, 0x84, 0, 0, 0, 0, 4, 0, 0] ++ htobe16 address.length = H at hh
  have D1 : announce_packet s h P address gap
      = (H ++ ((s.length % 256) :: s)) ++ ([11, 0x5F, 0x61, 0x70, 0x70, 0x6C, 0x65, 0x2D, 0x6D,
            0x69, 0x64, 0x69, 4, 0x5F, 0x75, 0x64, 0x70, 5, 0x6C, 0x6F, 0x63, 0x61, 0x6C]
          ++ (0 :: (S ++ (announce_txt ++ (announce_ptr_dnssd s
              ++ (announce_ptr_service s ++ T)))))) := by
    unfold announce_packet
    rw [hT, hH]
    unfold announce_answers
    rw [hsrv]
    simp [List.append_assoc]
  have D2 : announce_packet s h P address gap
      = (H ++ announce_srv s h P ++ announce_txt
            ++ ((dns_encode_name RTPMIDI_DNSSD_DOMAIN).name ++ dns_rr_bytes 12 1 4500 2))
          ++ (0xC0 :: (13 + s.length) :: (announce_ptr_service s ++ T)) := by
    unfold announce_packet
    rw [hT, hH]
    unfold announce_answers announce_ptr_dnssd
    simp [List.append_assoc]
  have l1 : (H ++ ((s.length % 256) :: s)).length = 13 + s.length := by
    simp only [List.length_append, List.length_cons, hh]; omega
  have l2 : (H ++ announce_srv s h P ++ announce_txt
      ++ ((dns_encode_name RTPMIDI_DNSSD_DOMAIN).name ++ dns_rr_bytes 12 1 4500 2)).length
      = 12 + (announce_srv s h P).length + announce_txt.length + 40 := by
    simp only [List.length_append, hh, hn3, dns_rr_bytes_length, List.length_cons,
      List.length_nil]
  have hlen : 12 + (announce_srv s h P).length + announce_txt.length + 40 + 1
      < (announce_packet s h P address gap).length := by
    rw [D2, List.length_append, l2]
    unfold announce_ptr_service
    simp only [List.length_append, List.length_cons, List.length_nil, dns_rr_bytes_length]
    omega
  have hd : dns_text [[0x5F, 0x61, 0x70, 0x70, 0x6C, 0x65, 0x2D, 0x6D, 0x69, 0x64, 0x69],
      [0x5F, 0x75, 0x64, 0x70], [0x6C, 0x6F, 0x63, 0x61, 0x6C]] = RTPMIDI_MDNS_DOMAIN := by
    decide
  have hwire : dns_wire [[0x5F, 0x61, 0x70, 0x70, 0x6C, 0x65, 0x2D, 0x6D, 0x69, 0x64, 0x69],
      [0x5F, 0x75, 0x64, 0x70], [0x6C, 0x6F, 0x63, 0x61, 0x6C]]
      = [11, 0x5F, 0x61, 0x70, 0x70, 0x6C, 0x65, 0x2D, 0x6D,
            0x69, 0x64, 0x69, 4, 0x5F, 0x75, 0x64, 0x70, 5, 0x6C, 0x6F, 0x63, 0x61, 0x6C] := by
    decide
  obtain ⟨st, h1, h2, -⟩ := dns_decode_pointer_labels (announce_packet s h P address gap)
    (announce_packet s h P address gap).length
    (12 + (announce_srv s h P).length + announce_txt.length + 40) (13 + s.length)
    [[0x5F, 0x61, 0x70, 0x70, 0x6C, 0x65, 0x2D, 0x6D, 0x69, 0x64, 0x69],
      [0x5F, 0x75, 0x64, 0x70], [0x6C, 0x6F, 0x63, 0x61, 0x6C]]
    hlen
    (by
      have := peek_append (H ++ announce_srv s h P ++ announce_txt
        ++ ((dns_encode_name RTPMIDI_DNSSD_DOMAIN).name ++ dns_rr_bytes 12 1 4500 2))
        (0xC0 :: (13 + s.length) :: (announce_ptr_service s ++ T)) 0
      rw [← D2, l2, Nat.add_zero] at this
      rw [this]; rfl)
    (by
      have := peek_append (H ++ announce_srv s h P ++ announce_txt
        ++ ((dns_encode_name RTPMIDI_DNSSD_DOMAIN).name ++ dns_rr_bytes 12 1 4500 2))
        (0xC0 :: (13 + s.length) :: (announce_ptr_service s ++ T)) 1
      rw [← D2, l2] at this
      rw [this]
      show (13 + s.length) % 256 = 13 + s.length
      omega)
    (by omega)
    (by decide)
    (by
      intro j hj
      rw [hwire] at hj ⊢
      have := peek_append (H ++ ((s.length % 256) :: s)) ([11, 0x5F, 0x61, 0x70, 0x70, 0x6C,
        0x65, 0x2D, 0x6D, 0x69, 0x64, 0x69, 4, 0x5F, 0x75, 0x64, 0x70, 5, 0x6C, 0x6F, 0x63, 0x61,
        0x6C] ++ (0 :: (S ++ (announce_txt ++ (announce_ptr_dnssd s
              ++ (announce_ptr_service s ++ T)))))) j
      rw [← D1, l1] at this
      rw [this]
      exact peek_append_left _ _ j hj)
    (by
      rw [hwire]
      have := congrArg List.length D1
      rw [List.length_append, l1] at this
      rw [this]
      simp only [List.length_append, List.length_cons, List.length_nil]
      omega)
    (by
      rw [hwire]
      have := peek_append (H ++ ((s.length % 256) :: s)) ([11, 0x5F, 0x61, 0x70, 0x70, 0x6C,
        0x65, 0x2D, 0x6D, 0x69, 0x64, 0x69, 4, 0x5F, 0x75, 0x64, 0x70, 5, 0x6C, 0x6F, 0x63, 0x61,
        0x6C] ++ (0 :: (S ++ (announce_txt ++ (announce_ptr_dnssd s
              ++ (announce_ptr_service s ++ T)))))) 23
      rw [← D1, l1] at this
      show peek _ (13 + s.length + 23) % 256 = 0
      rw [this]
      rfl)
    fuel (by simpa using hf)
  exact ⟨st, h1, by rw [h2, hd]⟩

theorem announce_records_gap (ho : Nat) (rest : List rtpmidi_addr) :
    (rest.flatMap (announce_address_record ho [0])).length
      = (rest.flatMap (announce_address_record ho [])).length + rest.length := by
  induction rest with
  | nil => rfl
  | cons x xs ih =>
    rw [List.flatMap_cons, List.flatMap_cons, List.length_append, List.length_append, ih,
      List.length_cons]
    have : (announce_address_record ho [0] x).length
        = (announce_address_record ho [] x).length + 1 := by
      unfold announce_address_record
      simp only [List.length_append, List.length_cons, List.length_nil]
      omega
    omega

theorem announce_packet_gap (s h : List Nat) (P : Nat) (a : rtpmidi_addr)
    (rest : List rtpmidi_addr) :
    announce_packet s h P (a :: rest) [0] = announce_packet s h P (a :: rest) [] ↔ rest = [] := by
  constructor
  · intro e
    have e2 := congrArg List.length e
    unfold announce_packet announce_additional at e2
    simp only [List.length_append, announce_records_gap] at e2
    exact List.length_eq_zero.mp (by omega)
  · intro e
    subst e
    rfl

/-- Claim C32 (mDNS announce packet), as the code behaves.  For an instance name `s` that is
a single label of 1..63 bytes, a host name `h` whose text `h.local` is shorter than its
encoding (no empty label), a control port below 65536 and `k ≥ 1` addresses, in a buffer
that holds the packet, `rtpmidi_mdns_announce` returns 0 and broadcasts the header
`00 00 84 00 00 00 00 04 00 00 kk kk`, the SRV, TXT and the two PTR records as claimed
(`dns_decode_name` resolves the data of the first PTR record to `_apple-midi._udp.local.`),
the first address record owned by the encoding of `h.local`, and for every further address
the pointer to that name, then one byte `00`, then the record header and the address.  The
byte `00` is the encoding of the empty name that `dns_push_rr` reads at `frame + offset`,
where a `NULL` name was meant; the packet is the claimed one exactly when `k = 1`. -/
theorem mdns_announce_packet (B : Nat) (s h : List Nat) (P : Nat) (a : rtpmidi_addr)
    (rest : List rtpmidi_addr) (fuel : Nat)
    (hs1 : s ≠ []) (hs2 : s.length ≤ 63) (hs3 : 0x2E ∉ s) (hs4 : 0 ∉ s)
    (hh0 : 0 ∉ h) (hh : (h ++ dot_local).length < (dns_encode_name (h ++ dot_local)).length)
    (hP : P < 65536) (ha : ∀ x ∈ a :: rest, x.addr.length = 16)
    (hB : (announce_packet s h P (a :: rest) [0]).length ≤ B)
    (h16 : (announce_packet s h P (a :: rest) [0]).length < 65536)
    (hf : 5 ≤ fuel) :
    rtpmidi_mdns_announce B s h (a :: rest) P
      = some (0, some (announce_packet s h P (a :: rest) [0]))
    ∧ (∃ st, dns_decode_name fuel (announce_packet s h P (a :: rest) [0])
          (announce_packet s h P (a :: rest) [0]).length
          (12 + (announce_srv s h P).length + announce_txt.length + 40) = some (0, st)
        ∧ st.out.name = RTPMIDI_MDNS_DOMAIN)
    ∧ (announce_packet s h P (a :: rest) [0] = announce_packet s h P (a :: rest) []
        ↔ rest = []) :=
  ⟨rtpmidi_mdns_announce_frame B s h P a rest hs1 hs2 hs3 hs4 hh0 hh hP ha hB h16,
   announce_ptr_dnssd_target s h P (a :: rest) [0] hs1 hs2 hs3 fuel hf,
   announce_packet_gap s h P a rest⟩

theorem mdns_announce_packet_witness :
    rtpmidi_mdns_announce 1500 [0x73] [0x68]
        [{ family := 2, addr := [192, 0, 2, 7, 0, 0, 0, 0, 0, 0, 0, 0, 0, 0, 0, 0] },
         { family := 2, addr := [10, 0, 0, 1, 0, 0, 0, 0, 0, 0, 0, 0, 0, 0, 0, 0] }] 5004
      = some (0, some
          [0, 0, 0x84, 0, 0, 0, 0, 4, 0, 0, 0, 2,
           1, 0x73, 11, 0x5F, 0x61, 0x70, 0x70, 0x6C, 0x65, 0x2D, 0x6D, 0x69, 0x64, 0x69,
           4, 0x5F, 0x75, 0x64, 0x70, 5, 0x6C, 0x6F, 0x63, 0x61, 0x6C, 0,
           0, 33, 0, 1, 0, 0, 0, 120, 0, 15, 0, 0, 0, 0, 0x13, 0x8C,
           1, 0x68, 5, 0x6C, 0x6F, 0x63, 0x61, 0x6C, 0,
           0xC0, 12, 0, 16, 0, 1, 0, 0, 0x11, 0x94, 0, 1, 0,
           9, 0x5F, 0x73, 0x65, 0x72, 0x76, 0x69, 0x63, 0x65, 0x73,
           7, 0x5F, 0x64, 0x6E, 0x73, 0x2D, 0x73, 0x64, 4, 0x5F, 0x75, 0x64, 0x70,
           5, 0x6C, 0x6F, 0x63, 0x61, 0x6C, 0,
           0, 12, 0, 1, 0, 0, 0x11, 0x94, 0, 2, 0xC0, 14,
           0xC0, 14, 0, 12, 0, 1, 0, 0, 0x11, 0x94, 0, 2, 0xC0, 12,
           1, 0x68, 5, 0x6C, 0x6F, 0x63, 0x61, 0x6C, 0,
           0, 1, 0, 1, 0, 0, 0, 120, 0, 4, 192, 0, 2, 7,
           0xC0, 132, 0, 0, 1, 0, 1, 0, 0, 0, 120, 0, 4, 10, 0, 0, 1])
    ∧ (∃ st, dns_decode_name 5 (announce_packet [0x73] [0x68] 5004
          [{ family := 2, addr := [192, 0, 2, 7, 0, 0, 0, 0, 0, 0, 0, 0, 0, 0, 0, 0] },
           { family := 2, addr := [10, 0, 0, 1, 0, 0, 0, 0, 0, 0, 0, 0, 0, 0, 0, 0] }] [0])
          (announce_packet [0x73] [0x68] 5004
          [{ family := 2, addr := [192, 0, 2, 7, 0, 0, 0, 0, 0, 0, 0, 0, 0, 0, 0, 0] },
           { family := 2, addr := [10, 0, 0, 1, 0, 0, 0, 0, 0, 0, 0, 0, 0, 0, 0, 0] }] [0]).length
          (12 + (announce_srv [0x73] [0x68] 5004).length + announce_txt.length + 40)
            = some (0, st)
        ∧ st.out.name = RTPMIDI_MDNS_DOMAIN)
    ∧ (announce_packet [0x73] [0x68] 5004
          [{ family := 2, addr := [192, 0, 2, 7, 0, 0, 0, 0, 0, 0, 0, 0, 0, 0, 0, 0] },
           { family := 2, addr := [10, 0, 0, 1, 0, 0, 0, 0, 0, 0, 0, 0, 0, 0, 0, 0] }] [0]
        = announce_packet [0x73] [0x68] 5004
          [{ family := 2, addr := [192, 0, 2, 7, 0, 0, 0, 0, 0, 0, 0, 0, 0, 0, 0, 0] },
           { family := 2, addr := [10, 0, 0, 1, 0, 0, 0, 0, 0, 0, 0, 0, 0, 0, 0, 0] }] []
        ↔ [({ family := 2, addr := [10, 0, 0, 1, 0, 0, 0, 0, 0, 0, 0, 0, 0, 0, 0, 0] }
              : rtpmidi_addr)] = []) := by
  set_option maxRecDepth 8000 in
  exact mdns_announce_packet 1500 [0x73] [0x68] 5004
    { family := 2, addr := [192, 0, 2, 7, 0, 0, 0, 0, 0, 0, 0, 0, 0, 0, 0, 0] }
    [{ family := 2, addr := [10, 0, 0, 1, 0, 0, 0, 0, 0, 0, 0, 0, 0, 0, 0, 0] }] 5
    (by decide) (by decide) (by decide) (by decide) (by decide) (by decide) (by decide)
    (by decide)
    (by set_option maxRecDepth 4000 in decide) (by set_option maxRecDepth 4000 in decide)
    (by decide)

theorem rtpmidi_service_peer_announce (now : Nat) (fresh name : List Nat)
    (data : rtpmidi_instance_data) (t u p : Nat) :
    rtpmidi_service_peer now fresh name { data with last_announce := t } u p
      = rtpmidi_service_peer now fresh name data u p := rfl

theorem service_tags_filter (g : Nat → List datagram) (u u' p : Nat) :
    ∀ n, ((List.range n).flatMap (fun q => (g q).map (fun d => (u', q, d)))).filter
        (fun x => decide (x.1 = u ∧ x.2.1 = p))
      = if u' = u ∧ p < n then (g p).map (fun d => (u, p, d)) else [] := by
  intro n
  induction n with
  | zero => simp
  | succ n ih =>
    rw [List.range_succ, List.flatMap_append, List.filter_append, ih]
    have e : ((List.flatMap [n] (fun q => (g q).map (fun d => (u', q, d)))).filter
        (fun x => decide (x.1 = u ∧ x.2.1 = p)))
        = if u' = u ∧ n = p then (g p).map (fun d => (u, p, d)) else [] := by
      by_cases h : u' = u ∧ n = p
      · obtain ⟨rfl, rfl⟩ := h
        simp
      · rw [if_neg h]
        simp only [List.flatMap_cons, List.flatMap_nil, List.append_nil]
        apply List.filter_eq_nil_iff.mpr
        intro x hx
        obtain ⟨d, -, rfl⟩ := List.mem_map.mp hx
        simpa using fun a b => h ⟨a, b⟩
    rw [e]
    by_cases h1 : u' = u
    · by_cases h2 : p < n
      · rw [if_pos ⟨h1, h2⟩, if_neg (by omega), if_pos ⟨h1, by omega⟩, List.append_nil]
      · by_cases h3 : n = p
        · rw [if_neg (by omega), if_pos ⟨h1, h3⟩, if_pos ⟨h1, by omega⟩, List.nil_append]
        · rw [if_neg (by omega), if_neg (by omega), if_neg (by omega), List.append_nil]
    · rw [if_neg (fun h => h1 h.1), if_neg (fun h => h1 h.1), if_neg (fun h => h1 h.1),
        List.append_nil]

theorem rtpmidi_service_loop_cons_sent (now : Nat) (mdns : Bool) (B : Nat)
    (mdns_name : List Nat) (address : List rtpmidi_addr) (fresh : Nat → Nat → List Nat)
    (u : Nat) (inst : mm_instance) (rest : List mm_instance) :
    (rtpmidi_service_loop now mdns B mdns_name address fresh u (inst :: rest)).sent
      = (if inst.impl.mode = .apple then
          (List.range inst.impl.peer.length).flatMap
            (fun p => (rtpmidi_service_peer now (fresh u p) inst.name inst.impl u p).map
              (fun d => (u, p, d)))
        else [])
        ++ (rtpmidi_service_loop now mdns B mdns_name address fresh (u + 1) rest).sent := by
  generalize hR : rtpmidi_service_loop now mdns B mdns_name address fresh (u + 1) rest = R
  unfold rtpmidi_service_loop
  simp only [hR]
  by_cases hm : inst.impl.mode = .apple
  · rw [if_pos hm, if_pos hm]
    generalize (if (mdns && (decide (inst.impl.last_announce = 0)
      || decide (size_sub now inst.impl.last_announce > RTPMIDI_ANNOUNCE_INTERVAL))) = true then
        match rtpmidi_mdns_announce B inst.name mdns_name address inst.impl.control_port with
        | some (0, some packet) => some packet
        | _ => none
      else none) = A
    cases A <;> rfl
  · rw [if_neg hm, if_neg hm]
    rfl

theorem rtpmidi_service_loop_tags (now : Nat) (mdns : Bool) (B : Nat) (mdns_name : List Nat)
    (address : List rtpmidi_addr) (fresh : Nat → Nat → List Nat) :
    ∀ (insts : List mm_instance) (u0 : Nat),
      ∀ x ∈ (rtpmidi_service_loop now mdns B mdns_name address fresh u0 insts).sent,
        u0 ≤ x.1 := by
  intro insts
  induction insts with
  | nil => intro u0 x hx; simp [rtpmidi_service_loop] at hx
  | cons inst rest ih =>
    intro u0 x hx
    rw [rtpmidi_service_loop_cons_sent] at hx
    rcases List.mem_append.mp hx with h | h
    · split_ifs at h with hm
      · obtain ⟨q, -, hq⟩ := List.mem_flatMap.mp h
        obtain ⟨d, -, rfl⟩ := List.mem_map.mp hq
        exact Nat.le_refl _
      · simp at h
    · exact Nat.le_of_succ_le (ih (u0 + 1) x h)

theorem rtpmidi_service_loop_sent (now : Nat) (mdns : Bool) (B : Nat) (mdns_name : List Nat)
    (address : List rtpmidi_addr) (fresh : Nat → Nat → List Nat) (inst : mm_instance)
    (p : Nat) (hm : inst.impl.mode = .apple) (hp : p < inst.impl.peer.length) :
    ∀ (insts : List mm_instance) (u0 k : Nat), insts[k]? = some inst →
      (rtpmidi_service_loop now mdns B mdns_name address fresh u0 insts).sent.filter
          (fun x => decide (x.1 = u0 + k ∧ x.2.1 = p))
        = (rtpmidi_service_peer now (fresh (u0 + k) p) inst.name inst.impl (u0 + k) p).map
            (fun d => (u0 + k, p, d)) := by
  intro insts
  induction insts with
  | nil => intro u0 k hk; simp at hk
  | cons i rest ih =>
    intro u0 k hk
    rw [rtpmidi_service_loop_cons_sent, List.filter_append]
    cases k with
    | zero =>
      simp only [List.getElem?_cons_zero, Option.some.injEq] at hk
      subst hk
      have hr : (rtpmidi_service_loop now mdns B mdns_name address fresh (u0 + 1) rest).sent.filter
          (fun x => decide (x.1 = u0 + 0 ∧ x.2.1 = p)) = [] := by
        apply List.filter_eq_nil_iff.mpr
        intro x hx
        have := rtpmidi_service_loop_tags now mdns B mdns_name address fresh rest (u0 + 1) x hx
        simp only [decide_eq_true_eq, not_and]
        intro h; omega
      rw [hr, List.append_nil, if_pos hm]
      have := service_tags_filter
        (fun q => rtpmidi_service_peer now (fresh u0 q) i.name i.impl u0 q) (u0 + 0) u0 p
        i.impl.peer.length
      rw [if_pos ⟨rfl, hp⟩] at this
      exact this
    | succ k =>
      simp only [List.getElem?_cons_succ] at hk
      have e : u0 + (k + 1) = (u0 + 1) + k := by omega
      have hi := ih (u0 + 1) k hk
      rw [e, hi]
      have h0 : (if i.impl.mode = .apple then
          (List.range i.impl.peer.length).flatMap
            (fun p => (rtpmidi_service_peer now (fresh u0 p) i.name i.impl u0 p).map
              (fun d => (u0, p, d)))
          else []).filter (fun x => decide (x.1 = u0 + 1 + k ∧ x.2.1 = p)) = [] := by
        split_ifs
        · have := service_tags_filter
            (fun q => rtpmidi_service_peer now (fresh u0 q) i.name i.impl u0 q) (u0 + 1 + k) u0 p
            i.impl.peer.length
          rw [if_neg (by omega)] at this
          exact this
        · rfl
      rw [h0, List.nil_append]

/-- Claim C36 (service-tick clock sync), as the code behaves.  For an apple-mode instance at
index `u` of the instance list and a peer index `p` of it whose entry is active and
connected, one service tick sends exactly one datagram for that pair: a sync frame with
`count = 0` and the ssrc of the instance, on the control socket.  Its destination is the
address of registry entry `u`, the index of the instance, with the port decremented by one,
and its address length is that of entry `u`: the code reads `data->peer[u]` where
`data->peer[p]` was meant.  The frame reaches peer `p` only when the two entries hold the
same address; an instance at index 0 with two connected peers sends both frames to the
first peer, and an instance whose index is not below its number of peers reads outside
the registry. -/
theorem service_sync_frame (now : Nat) (mdns : Bool) (B : Nat) (mdns_name : List Nat)
    (address : List rtpmidi_addr) (fresh : Nat → Nat → List Nat) (insts : List mm_instance)
    (u p : Nat) (inst : mm_instance)
    (hu : insts[u]? = some inst) (hm : inst.impl.mode = .apple)
    (hp : p < inst.impl.peer.length)
    (ha : (inst.impl.peer.getD p {}).active = true)
    (hc : (inst.impl.peer.getD p {}).connected = true) :
    (rtpmidi_service now mdns B mdns_name address fresh insts).sent.filter
        (fun x => decide (x.1 = u ∧ x.2.1 = p))
      = [(u, p,
          { control := true,
            dest := sockaddr_prev_port
              (memcpy (List.replicate 128 0) (inst.impl.peer.getD u {}).dest 128),
            dest_len := (inst.impl.peer.getD u {}).dest_len,
            payload := apple_sync_frame inst.impl.ssrc now })] := by
  have h := rtpmidi_service_loop_sent now mdns B mdns_name address fresh inst p hm hp insts 0 u hu
  rw [Nat.zero_add] at h
  unfold rtpmidi_service
  rw [h]
  unfold rtpmidi_service_peer
  simp only [ha, hc, Bool.and_self, if_true, List.map_cons, List.map_nil]

theorem service_sync_frame_witness :
    (rtpmidi_service 1000 false 1500 [] [] (fun _ _ => [1, 2, 3, 4])
        [{ name := [0x69],
           impl := { mode := .apple, ssrc := 0x01020304,
                     peer := [{ active := true, connected := true,
                                dest := [2, 0, 0x13, 0x8D, 10, 0, 0, 1, 0, 0, 0, 0, 0, 0, 0, 0],
                                dest_len := 16 },
                              { active := true, connected := true,
                                dest := [2, 0, 0x17, 0x75, 10, 0, 0, 2, 0, 0, 0, 0, 0, 0, 0, 0],
                                dest_len := 16 }] } }]).sent.filter
        (fun x => decide (x.1 = 0 ∧ x.2.1 = 1))
      = [(0, 1,
          { control := true,
            dest := [2, 0, 0x13, 0x8C, 10, 0, 0, 1, 0, 0, 0, 0, 0, 0, 0, 0],
            dest_len := 16,
            payload := [0xFF, 0xFF, 0x43, 0x4B, 1, 2, 3, 4, 0, 0, 0, 0,
                        0, 0, 0, 0, 0, 0, 0x27, 0x10,
                        0, 0, 0, 0, 0, 0, 0, 0, 0, 0, 0, 0, 0, 0, 0, 0] })] :=
  service_sync_frame 1000 false 1500 [] [] (fun _ _ => [1, 2, 3, 4])
    [{ name := [0x69],
       impl := { mode := .apple, ssrc := 0x01020304,
                 peer := [{ active := true, connected := true,
                            dest := [2, 0, 0x13, 0x8D, 10, 0, 0, 1, 0, 0, 0, 0, 0, 0, 0, 0],
                            dest_len := 16 },
                          { active := true, connected := true,
                            dest := [2, 0, 0x17, 0x75, 10, 0, 0, 2, 0, 0, 0, 0, 0, 0, 0, 0],
                            dest_len := 16 }] } }]
    0 1 _ rfl rfl (by decide) rfl rfl

end RtpMidi
